import Mathlib

/-!
# Grid pathfinding core of Gamejam2026

A shallow embedding of the grid graph (`ANavGrid`), the A* search
(`UPathfindingAStar::FindPath_Internal`, `RetraceNodes`, `SimplifyPath`,
`GetDistance`) and the properties claimed for them.

Conventions of the embedding.

* A node pointer `FNavNodeInternal*` is the position of the node in `Grid[x][y]`,
  which is also the `(GridX, GridY)` pair stored in the node.
* The per-node fields that never change during a search (`bWalkable`,
  `MovementPenalty`, `WorldPosition`) are functions of the grid; the fields a search
  writes (`GCost`, `HCost`, `ParentNode`) are kept in `NodeFields`.
* `int32` values are mathematical integers: the search is described for runs whose
  costs fit in `int32`, and `INT_MAX` occurs only as the reset value of `GCost`.
* `FVector` is taken over an arbitrary scalar type and the engine function
  `FVector2D::GetSafeNormal` is a parameter of every definition that calls it.
* The atomic flag `bShouldCancel` is read by the search at each loop entry; the value
  seen by the `k`-th read is `bShouldCancel k`.
-/

namespace Gamejam2026

/-! ## Vectors -/

/-- Engine type `FVector` over the scalar type `R`. -/
structure FVector (R : Type) where
  X : R
  Y : R
  Z : R
deriving DecidableEq

/-- Engine type `FVector2D` over the scalar type `R`. -/
structure FVector2D (R : Type) where
  X : R
  Y : R
deriving DecidableEq

/-! ## Nodes and the grid -/

/-- A pointer to a `FNavNodeInternal` of the grid: its position in `Grid[x][y]`. -/
structure NodePtr where
  GridX : Int
  GridY : Int
deriving DecidableEq

/-- The part of `ANavGrid` that the search reads. -/
structure ANavGrid (R : Type) where
  GridSizeX : Int
  GridSizeY : Int
  bWalkable : Int → Int → Bool
  MovementPenalty : Int → Int → Int
  WorldPosition : Int → Int → FVector R

variable {R : Type}

/-- The getter `Node->GetWalkable()`. -/
def ANavGrid.GetWalkable (G : ANavGrid R) (Node : NodePtr) : Bool :=
  G.bWalkable Node.GridX Node.GridY

/-- The getter `Node->GetMovementPenalty()`. -/
def ANavGrid.GetMovementPenalty (G : ANavGrid R) (Node : NodePtr) : Int :=
  G.MovementPenalty Node.GridX Node.GridY

/-- The field `Node->WorldPosition`. -/
def ANavGrid.GetWorldPosition (G : ANavGrid R) (Node : NodePtr) : FVector R :=
  G.WorldPosition Node.GridX Node.GridY

/-- The node lies inside the `Grid` array. -/
def ANavGrid.InBounds (G : ANavGrid R) (Node : NodePtr) : Prop :=
  0 ≤ Node.GridX ∧ Node.GridX < G.GridSizeX ∧ 0 ≤ Node.GridY ∧ Node.GridY < G.GridSizeY

instance (G : ANavGrid R) (Node : NodePtr) : Decidable (G.InBounds Node) := by
  unfold ANavGrid.InBounds
  infer_instance

/-- The member `GridSizeXMax` of `ANavGrid`. -/
def GridSizeXMax : Int := 100

/-- The member `GridSizeYMax` of `ANavGrid`. -/
def GridSizeYMax : Int := 100

/-- The grid sizes are as the constructor of `ANavGrid` and `ValidateGridParameters` (run before
every `CreateGrid`) leave them: clamped into `[1, GridSizeXMax]` and `[1, GridSizeYMax]`. -/
def ANavGrid.SizesValidated (G : ANavGrid R) : Prop :=
  1 ≤ G.GridSizeX ∧ G.GridSizeX ≤ GridSizeXMax ∧ 1 ≤ G.GridSizeY ∧ G.GridSizeY ≤ GridSizeYMax

instance (G : ANavGrid R) : Decidable G.SizesValidated := by
  unfold ANavGrid.SizesValidated
  infer_instance

/-- The list `AllNodes` returned by `ANavGrid::GetAllNodes`, as `GenerateNavGridNodes` fills it
(x-major). -/
def ANavGrid.GetAllNodes (G : ANavGrid R) : List NodePtr :=
  (List.range G.GridSizeX.toNat).flatMap fun (x : Nat) =>
    (List.range G.GridSizeY.toNat).map fun (y : Nat) => NodePtr.mk (Int.ofNat x) (Int.ofNat y)

/-- One pass of the body of the double loop of `ANavGrid::GetNeighbors`: the node added for
the offset `(DX, Dy)`, or `none` when the body hits a `continue`. -/
def ANavGrid.neighborAt (G : ANavGrid R) (Node : NodePtr) (DX Dy : Int) : Option NodePtr :=
  let X := Node.GridX
  let Y := Node.GridY
  if DX = 0 ∧ Dy = 0 then none
  else
    let Nx := X + DX
    let Ny := Y + Dy
    if Nx < 0 ∨ Nx ≥ G.GridSizeX ∨ Ny < 0 ∨ Ny ≥ G.GridSizeY then none
    else if DX ≠ 0 ∧ Dy ≠ 0 ∧ (G.bWalkable (X + DX) Y = false ∨ G.bWalkable X (Y + Dy) = false) then none
    else some ⟨Nx, Ny⟩

/-- The function `ANavGrid::GetNeighbors`: the double loop over `DX` and `Dy` from -1 to 1. -/
def ANavGrid.GetNeighbors (G : ANavGrid R) (Node : NodePtr) : List NodePtr :=
  ([-1, 0, 1] : List Int).flatMap fun DX =>
    ([-1, 0, 1] : List Int).filterMap fun Dy => G.neighborAt Node DX Dy

/-! ## A* search -/

/-- The C constant `INT_MAX` for `int32`. -/
def INT_MAX : Int := 2147483647

/-- The engine function `FMath::Abs` on `int32`. -/
def FMath_Abs (x : Int) : Int := if x < 0 then -x else x

/-- The function `UPathfindingAStar::GetDistance`. -/
def GetDistance (NodeA NodeB : NodePtr) : Int :=
  let DistanceX := FMath_Abs (NodeA.GridX - NodeB.GridX)
  let DistanceY := FMath_Abs (NodeA.GridY - NodeB.GridY)
  if DistanceX > DistanceY then 14 * DistanceY + 10 * (DistanceX - DistanceY)
  else 14 * DistanceX + 10 * (DistanceY - DistanceX)

/-- The fields of the nodes that a search writes. -/
structure NodeFields where
  GCost : NodePtr → Int
  HCost : NodePtr → Int
  ParentNode : NodePtr → Option NodePtr

/-- Write `v` into the slot of `Node`. -/
def setAt {α : Type} (f : NodePtr → α) (Node : NodePtr) (v : α) : NodePtr → α :=
  fun n => if n = Node then v else f n

/-- The setter `Node->SetGCost(Value)`. -/
def NodeFields.SetGCost (F : NodeFields) (Node : NodePtr) (Value : Int) : NodeFields :=
  { F with GCost := setAt F.GCost Node Value }

/-- The setter `Node->SetHCost(Value)`. -/
def NodeFields.SetHCost (F : NodeFields) (Node : NodePtr) (Value : Int) : NodeFields :=
  { F with HCost := setAt F.HCost Node Value }

/-- The setter `Node->SetParent(Parent)`. -/
def NodeFields.SetParent (F : NodeFields) (Node : NodePtr) (Parent : Option NodePtr) : NodeFields :=
  { F with ParentNode := setAt F.ParentNode Node Parent }

/-- The reset loop at the start of `FindPath_Internal`, over `AllNodes`. -/
def resetNodes (G : ANavGrid R) (F : NodeFields) : NodeFields :=
  G.GetAllNodes.foldl
    (fun F Node => ((F.SetGCost Node INT_MAX).SetHCost Node 0).SetParent Node none) F

/-- Node fields together with the locals `OpenList` and `ClosedSet` of `FindPath_Internal`. -/
structure SearchState extends NodeFields where
  OpenList : List NodePtr
  ClosedSet : List NodePtr

/-- The scan of `OpenList` for the entry of lowest F cost (ties: lower H cost). `i` is the index
of the head of the remaining list; the result is `(BestIndex, CurrentNode)`. -/
def selectBest (F : NodeFields) : Nat → NodePtr → Nat → List NodePtr → Nat × NodePtr
  | BestIndex, CurrentNode, _, [] => (BestIndex, CurrentNode)
  | BestIndex, CurrentNode, i, Candidate :: rest =>
    let CurrentF := F.GCost CurrentNode + F.HCost CurrentNode
    let CandidateF := F.GCost Candidate + F.HCost Candidate
    if CandidateF < CurrentF ∨ (CandidateF = CurrentF ∧ F.HCost Candidate < F.HCost CurrentNode) then
      selectBest F i Candidate (i + 1) rest
    else
      selectBest F BestIndex CurrentNode (i + 1) rest

/-- The body of the loop over `Grid->GetNeighbors(CurrentNode)`. -/
def processNeighbor (G : ANavGrid R) (TargetNode CurrentNode : NodePtr) (st : SearchState)
    (Neighbor : NodePtr) : SearchState :=
  if G.GetWalkable Neighbor = false ∨ Neighbor ∈ st.ClosedSet then st
  else
    let NewGCost := st.GCost CurrentNode + GetDistance CurrentNode Neighbor + G.GetMovementPenalty Neighbor
    let bNotInOpen : Bool := decide (Neighbor ∉ st.OpenList)
    if NewGCost < st.GCost Neighbor ∨ bNotInOpen = true then
      let F1 := ((st.toNodeFields.SetGCost Neighbor NewGCost).SetHCost Neighbor
        (GetDistance Neighbor TargetNode)).SetParent Neighbor (some CurrentNode)
      let F2 := if F1.ParentNode CurrentNode = some Neighbor then F1.SetParent Neighbor none else F1
      { toNodeFields := F2
        OpenList := if bNotInOpen = true then st.OpenList ++ [Neighbor] else st.OpenList
        ClosedSet := st.ClosedSet }
    else st

/-- What the main loop hands over when it exits. -/
structure LoopExit where
  State : SearchState
  bPathSuccess : Bool
  Polls : Nat

/-- The `while (OpenList.Num() > 0 && !bShouldCancel.load())` loop. `k` counts the reads of the flag
made so far. The first argument bounds the number of iterations; `none` is returned only when it is
used up. -/
def mainLoop (G : ANavGrid R) (bShouldCancel : Nat → Bool) (TargetNode : NodePtr) :
    Nat → Nat → SearchState → Option LoopExit
  | 0, _, _ => none
  | fuel + 1, k, st =>
    match st.OpenList with
    | [] => some ⟨st, false, k⟩
    | First :: Rest =>
      if bShouldCancel k = true then some ⟨st, false, k + 1⟩
      else
        let Best := selectBest st.toNodeFields 0 First 1 Rest
        let CurrentNode := Best.2
        let st1 : SearchState :=
          { st with OpenList := st.OpenList.eraseIdx Best.1, ClosedSet := CurrentNode :: st.ClosedSet }
        if CurrentNode = TargetNode then some ⟨st1, true, k + 1⟩
        else
          mainLoop G bShouldCancel TargetNode fuel (k + 1)
            ((G.GetNeighbors CurrentNode).foldl (processNeighbor G TargetNode CurrentNode) st1)

/-- The loop of `RetraceNodes`; the first argument bounds the iterations and is never used up when
it starts above 8001, because `Safety` ends the loop first. -/
def RetraceNodes.loop (ParentNode : NodePtr → Option NodePtr) (StartNode : NodePtr) :
    Nat → Option NodePtr → Nat → List NodePtr → List NodePtr
  | 0, _, _, Nodes => Nodes
  | fuel + 1, Current, Safety, Nodes =>
    match Current with
    | none => Nodes
    | some c =>
      if c = StartNode then Nodes
      else
        let Nodes1 := Nodes ++ [c]
        let Safety1 := Safety + 1
        if Safety1 > 8000 then Nodes1
        else RetraceNodes.loop ParentNode StartNode fuel (ParentNode c) Safety1 Nodes1

/-- The function `UPathfindingAStar::RetraceNodes`: the nodes collected from `EndNode` back along
the parent links, then `StartNode`, reversed. -/
def RetraceNodes (ParentNode : NodePtr → Option NodePtr) (StartNode EndNode : NodePtr) : List NodePtr :=
  ((RetraceNodes.loop ParentNode StartNode 8002 (some EndNode) 0 []) ++ [StartNode]).reverse

/-- The `for` loop of `SimplifyPath` from index `i` on: `Prev` is `Raw[i-1]`, the list is
`Raw[i..]`, and the result is the final `Waypoints`. -/
def SimplifyPath.loop [Sub R] [DecidableEq R] (GetSafeNormal : FVector2D R → FVector2D R) :
    FVector R → FVector2D R → List (FVector R) → List (FVector R) → List (FVector R)
  | _, _, Waypoints, [] => Waypoints
  | Prev, OldDirection, Waypoints, Cur :: rest =>
    let NewDir := GetSafeNormal ⟨Cur.X - Prev.X, Cur.Y - Prev.Y⟩
    let Waypoints1 := if NewDir ≠ OldDirection then Waypoints ++ [Cur] else Waypoints
    SimplifyPath.loop GetSafeNormal Cur NewDir Waypoints1 rest

/-- The function `UPathfindingAStar::SimplifyPath`. -/
def SimplifyPath [Sub R] [Zero R] [DecidableEq R] (GetSafeNormal : FVector2D R → FVector2D R)
    (Raw : List (FVector R)) : List (FVector R) :=
  match Raw with
  | [] => []
  | Raw0 :: rest => SimplifyPath.loop GetSafeNormal Raw0 ⟨0, 0⟩ [Raw0] rest

/-- What `FindPath_Internal` returns (`FinalWaypoints`, `bPathSuccess`), and what it leaves behind:
the node fields, its locals `OpenList` and `ClosedSet` (empty when never created), and the number of
reads of `bShouldCancel`. -/
structure FindPathResult (R : Type) where
  FinalWaypoints : List (FVector R)
  bPathSuccess : Bool
  Fields : NodeFields
  OpenList : List NodePtr
  ClosedSet : List NodePtr
  Polls : Nat

/-- The function `UPathfindingAStar::FindPath_Internal` with the grid present, from the resolved
`StartNode` and `TargetNode` on.
`F` holds the node fields as the previous search left them. The result is `none` only if the main loop
were to exceed one iteration per node of the grid. -/
def FindPath_Internal [Sub R] [Zero R] [DecidableEq R] (G : ANavGrid R)
    (GetSafeNormal : FVector2D R → FVector2D R) (F : NodeFields) (bShouldCancel : Nat → Bool)
    (StartNode TargetNode : NodePtr) : Option (FindPathResult R) :=
  let F0 := resetNodes G F
  if G.GetWalkable TargetNode = false then
    some ⟨[], false, F0, [], [], 0⟩
  else
    let F1 := (F0.SetGCost StartNode 0).SetHCost StartNode (GetDistance StartNode TargetNode)
    match mainLoop G bShouldCancel TargetNode (G.GetAllNodes.length + 1) 0 ⟨F1, [StartNode], []⟩ with
    | none => none
    | some ex =>
      if ex.bPathSuccess = true then
        let Nodes := RetraceNodes ex.State.ParentNode StartNode TargetNode
        let Raw := Nodes.map G.GetWorldPosition
        some ⟨SimplifyPath GetSafeNormal Raw, true, ex.State.toNodeFields, ex.State.OpenList,
          ex.State.ClosedSet, ex.Polls⟩
      else
        some ⟨[], false, ex.State.toNodeFields, ex.State.OpenList, ex.State.ClosedSet, ex.Polls⟩

/-- The body of the task launched by `StartFindPath`: the pair handed to the callback.
`bCancelAtLaunch` is the value of `bShouldCancel` read before the search starts. -/
def StartFindPath_task [Sub R] [Zero R] [DecidableEq R] (G : ANavGrid R)
    (GetSafeNormal : FVector2D R → FVector2D R) (F : NodeFields) (bCancelAtLaunch : Bool)
    (bShouldCancel : Nat → Bool) (StartNode TargetNode : NodePtr) : Option (List (FVector R) × Bool) :=
  if bCancelAtLaunch = true then some ([], false)
  else
    (FindPath_Internal G GetSafeNormal F bShouldCancel StartNode TargetNode).map
      fun r => (r.FinalWaypoints, r.bPathSuccess)

/-! ## Concrete data used by the scenarios -/

/-- Node fields of a freshly constructed grid (`GCost = INT_MAX`, `HCost = 0`, no parent). -/
def freshFields : NodeFields := ⟨fun _ => INT_MAX, fun _ => 0, fun _ => none⟩

/-- An exact stand-in for `GetSafeNormal` on integer vectors: the primitive vector of the same
direction (the zero vector for the zero vector). Two integer vectors have equal unit vectors exactly
when they have equal primitive vectors. -/
def exactNormal (v : FVector2D Int) : FVector2D Int :=
  let g : Int := (Int.gcd v.X v.Y : Nat)
  if g = 0 then ⟨0, 0⟩ else ⟨v.X / g, v.Y / g⟩

/-- A grid with every node walkable, zero penalties, and node `(x, y)` placed at `(x, y, 0)`. -/
def openGrid (SizeX SizeY : Int) : ANavGrid Int :=
  { GridSizeX := SizeX
    GridSizeY := SizeY
    bWalkable := fun _ _ => true
    MovementPenalty := fun _ _ => 0
    WorldPosition := fun x y => ⟨x, y, 0⟩ }

/-- A 3 x 3 grid whose centre node is unwalkable; zero penalties, node `(x, y)` at `(x, y, 0)`. -/
def pillarGrid : ANavGrid Int :=
  { GridSizeX := 3
    GridSizeY := 3
    bWalkable := fun x y => decide (¬ (x = 1 ∧ y = 1))
    MovementPenalty := fun _ _ => 0
    WorldPosition := fun x y => ⟨x, y, 0⟩ }

/-- The raw waypoints of scenario D: two steps along x, then two along y. -/
def scenarioD_Raw : List (FVector Int) :=
  [⟨0, 0, 0⟩, ⟨1, 0, 0⟩, ⟨2, 0, 0⟩, ⟨2, 1, 0⟩, ⟨2, 2, 0⟩]

/-- A staircase of unit steps: right, up, up, right, right, up, up. -/
def staircase_Raw : List (FVector Int) :=
  [⟨0, 0, 0⟩, ⟨1, 0, 0⟩, ⟨1, 1, 0⟩, ⟨1, 2, 0⟩, ⟨2, 2, 0⟩, ⟨3, 2, 0⟩, ⟨3, 3, 0⟩, ⟨3, 4, 0⟩]

/-! ## Paths in the node graph -/

/-- The moves of the search: `b` is a walkable member of `GetNeighbors a`. -/
def ANavGrid.Step (G : ANavGrid R) (a b : NodePtr) : Prop :=
  b ∈ G.GetNeighbors a ∧ G.GetWalkable b = true

instance (G : ANavGrid R) (a b : NodePtr) : Decidable (G.Step a b) := by
  unfold ANavGrid.Step
  infer_instance

/-- Cost of the move from `a` to `b`: `GetDistance(a, b) + b.MovementPenalty`. -/
def ANavGrid.stepCost (G : ANavGrid R) (a b : NodePtr) : Int :=
  GetDistance a b + G.GetMovementPenalty b

/-- A node sequence `s = n0, ..., nk = t` in which each node is a walkable member of the
neighbours of the one before it. -/
def ANavGrid.IsPath (G : ANavGrid R) (s t : NodePtr) (p : List NodePtr) : Prop :=
  p.head? = some s ∧ p.getLast? = some t ∧ List.Chain' G.Step p

/-- Sum of the step costs along the sequence that starts at `a` and continues with the list. -/
def ANavGrid.pathCostFrom (G : ANavGrid R) : NodePtr → List NodePtr → Int
  | _, [] => 0
  | a, b :: rest => G.stepCost a b + ANavGrid.pathCostFrom G b rest

/-- Sum of the step costs along a node sequence. -/
def ANavGrid.pathCost (G : ANavGrid R) : List NodePtr → Int
  | [] => 0
  | a :: rest => G.pathCostFrom a rest

/-- The node `n` is reached from `s` by moves of total cost `c`. -/
inductive ANavGrid.Walk (G : ANavGrid R) (s : NodePtr) : NodePtr → Int → Prop
  | nil : ANavGrid.Walk G s s 0
  | snoc {a b : NodePtr} {c : Int} :
      ANavGrid.Walk G s a c → G.Step a b → ANavGrid.Walk G s b (c + G.stepCost a b)

/-- The parent links lead from `n` back to `StartNode` through the list `l` (which begins with `n`
and ends with `StartNode`); every link is a move of the search and accounts for the `GCost`. -/
inductive ParentChain (G : ANavGrid R) (F : NodeFields) (StartNode : NodePtr) :
    NodePtr → List NodePtr → Prop
  | start : ParentChain G F StartNode StartNode [StartNode]
  | link {n p : NodePtr} {l : List NodePtr} :
      n ≠ StartNode → F.ParentNode n = some p → G.Step p n →
      F.GCost n = F.GCost p + G.stepCost p n →
      ParentChain G F StartNode p l → ParentChain G F StartNode n (n :: l)

/-- The edge from `x` to `y` has been relaxed: `y` is closed, or open with a cost no larger than
the one obtained through `x`. -/
def Relaxed (G : ANavGrid R) (st : SearchState) (x y : NodePtr) : Prop :=
  y ∈ st.ClosedSet ∨ (y ∈ st.OpenList ∧ st.GCost y ≤ st.GCost x + G.stepCost x y)

/-- No movement penalty of the grid is negative. -/
def ANavGrid.PenaltiesNonneg (G : ANavGrid R) : Prop :=
  ∀ n, G.InBounds n → 0 ≤ G.GetMovementPenalty n

/-- Invariant of the search. `E x y` tells for which edges out of closed nodes relaxation is
claimed: all of them between iterations, and all but those still to be visited while the
neighbours of the current node are processed. -/
structure SearchInv (G : ANavGrid R) (StartNode TargetNode : NodePtr)
    (E : NodePtr → NodePtr → Prop) (st : SearchState) : Prop where
  open_nodup : st.OpenList.Nodup
  closed_nodup : st.ClosedSet.Nodup
  disjoint : ∀ n ∈ st.OpenList, n ∉ st.ClosedSet
  inb_open : ∀ n ∈ st.OpenList, G.InBounds n
  inb_closed : ∀ n ∈ st.ClosedSet, G.InBounds n
  hcost : ∀ n ∈ st.OpenList, st.HCost n = GetDistance n TargetNode
  start_g : st.GCost StartNode = 0
  start_parent : st.ParentNode StartNode = none
  start_mem : StartNode ∈ st.ClosedSet ∨ (st.OpenList = [StartNode] ∧ st.ClosedSet = [])
  chain_closed : ∀ n ∈ st.ClosedSet,
    ∃ l, ParentChain G st.toNodeFields StartNode n l ∧ l.Sublist st.ClosedSet
  chain_open : ∀ n ∈ st.OpenList,
    ∃ l, ParentChain G st.toNodeFields StartNode n l ∧ l.tail.Sublist st.ClosedSet
  relaxed : ∀ x ∈ st.ClosedSet, ∀ y, E x y → G.Step x y → Relaxed G st x y
  optimal : G.PenaltiesNonneg → ∀ n ∈ st.ClosedSet, ∀ w, G.Walk StartNode n w → st.GCost n ≤ w

/-! ## The simplified path as the specification words it -/

/-- Normalized 2D direction of the segment that ends in `Raw[i]` (from `Raw[i-1]`); the zero vector
when there is no such segment. -/
def segmentDirection [Sub R] [Zero R] (GetSafeNormal : FVector2D R → FVector2D R)
    (Raw : List (FVector R)) : Nat → FVector2D R
  | 0 => ⟨0, 0⟩
  | j + 1 =>
    match Raw[j]?, Raw[j + 1]? with
    | some a, some b => GetSafeNormal ⟨b.X - a.X, b.Y - a.Y⟩
    | _, _ => ⟨0, 0⟩

/-- The output of the simplifier as described: nothing for an empty input; otherwise `Raw[0]`
followed, in order, by each `Raw[i]` with `i ≥ 1` whose segment direction differs from that of the
preceding segment (the zero vector for `i = 1`). -/
def SimplifyPath_spec [Sub R] [Zero R] [DecidableEq R] (GetSafeNormal : FVector2D R → FVector2D R)
    (Raw : List (FVector R)) : List (FVector R) :=
  match Raw with
  | [] => []
  | Raw0 :: _ =>
    Raw0 :: (List.range Raw.length).filterMap fun i =>
      if 1 ≤ i ∧ segmentDirection GetSafeNormal Raw i ≠ segmentDirection GetSafeNormal Raw (i - 1)
      then Raw[i]? else none

/-- The two nodes are next to each other in a row or in a column of the grid. -/
def OrthAdjacent (a b : NodePtr) : Prop :=
  (a.GridX = b.GridX ∧ (b.GridY = a.GridY + 1 ∨ b.GridY = a.GridY - 1)) ∨
  (a.GridY = b.GridY ∧ (b.GridX = a.GridX + 1 ∨ b.GridX = a.GridX - 1))


/-! ## Eight-connected paths and their base cost -/

/-- The two cells differ and lie within one step of each other in both coordinates. -/
def KingStep (a b : NodePtr) : Prop :=
  a ≠ b ∧ |b.GridX - a.GridX| ≤ 1 ∧ |b.GridY - a.GridY| ≤ 1

instance (a b : NodePtr) : Decidable (KingStep a b) := by
  unfold KingStep
  infer_instance

/-- Base cost of a step between 8-connected cells: 14 for a diagonal step, 10 for an orthogonal
one. -/
def kingStepCost (a b : NodePtr) : Int :=
  if a.GridX ≠ b.GridX ∧ a.GridY ≠ b.GridY then 14 else 10

/-- Sum of the base costs along the sequence that starts at `a` and continues with the list. -/
def kingPathCost : NodePtr → List NodePtr → Int
  | _, [] => 0
  | a, b :: rest => kingStepCost a b + kingPathCost b rest


/-! ## Building the grid and looking up a world point

Values of type `float` are taken as exact rational numbers. -/

/-- The fields of `FNavNodeInternal` that `ANavGrid` stores for each cell of `Grid` and that the
constructors set, with the private `HeapIndex`. -/
structure FNavNodeInternal where
  bWalkable : Bool
  WorldPosition : FVector ℚ
  FloorZ : ℚ
  GridX : Int
  GridY : Int
  MovementPenalty : Int
  HeapIndex : Int
deriving DecidableEq

/-- The default constructor of `FNavNodeInternal` (the member initialisers). -/
def FNavNodeInternal.zeroed : FNavNodeInternal :=
  { bWalkable := false, WorldPosition := ⟨0, 0, 0⟩, FloorZ := 0, GridX := 0, GridY := 0,
    MovementPenalty := 0, HeapIndex := 0 }

/-- The five-argument constructor of `FNavNodeInternal`. -/
def FNavNodeInternal.make (bIsWalkable : Bool) (WorldPos : FVector ℚ) (GridPosX GridPosY : Int)
    (Penalty : Int) : FNavNodeInternal :=
  { FNavNodeInternal.zeroed with
    bWalkable := bIsWalkable, WorldPosition := WorldPos, GridX := GridPosX, GridY := GridPosY,
    MovementPenalty := Penalty }

/-- What `PerformZTraceAndUpdateNode` reads of the engine type `FHitResult`: the surface type of
the physical material that was hit (if it is valid) and the impact point. -/
structure FHitResult where
  PhysMaterial : Option Nat
  ImpactPoint : FVector ℚ

/-- The member `SurfaceTypeUnwalkable` of `ANavGrid` (`SurfaceType1`). -/
def SurfaceTypeUnwalkable : Nat := 1

/-- The function `ANavGrid::PerformZTraceAndUpdateNode`; the line trace of the world is the
parameter `LineTrace`, called with the start and the end of the trace. -/
def PerformZTraceAndUpdateNode (LineTrace : FVector ℚ → FVector ℚ → Option FHitResult)
    (Node : FNavNodeInternal) : FNavNodeInternal :=
  let TraceZ : ℚ := 5000
  let TraceStart : FVector ℚ :=
    ⟨Node.WorldPosition.X + 0, Node.WorldPosition.Y + 0, Node.WorldPosition.Z + TraceZ⟩
  let TraceEnd : FVector ℚ :=
    ⟨Node.WorldPosition.X - 0, Node.WorldPosition.Y - 0, Node.WorldPosition.Z - TraceZ⟩
  match LineTrace TraceStart TraceEnd with
  | some Hit =>
    let Node1 : FNavNodeInternal :=
      match Hit.PhysMaterial with
      | some SurfaceType =>
        if SurfaceTypeUnwalkable = SurfaceType then { Node with bWalkable := false }
        else { Node with bWalkable := true }
      | none => { Node with bWalkable := false }
    let Node2 : FNavNodeInternal := { Node1 with FloorZ := Hit.ImpactPoint.Z }
    { Node2 with
      WorldPosition := ⟨Node2.WorldPosition.X, Node2.WorldPosition.Y, Node2.FloorZ + 1⟩ }
  | none => { Node with bWalkable := false }

/-- The engine function `TArray::SetNum`: cut the array to `n` entries or fill it up to `n`
entries with default-constructed ones (`d`). -/
def TArray_SetNum {α : Type} (d : α) (A : List α) (n : Nat) : List α :=
  A.take n ++ List.replicate (n - A.length) d

/-- The members of `ANavGrid` that hold the nodes: the array `Grid` and the pointer lists
`AllNodes` and `WalkableNodes` (a pointer into `Grid` is the pair of indices). -/
structure GridStore where
  Grid : List (List FNavNodeInternal)
  AllNodes : List NodePtr
  WalkableNodes : List NodePtr

/-- The entry `Grid[x][y]`, if both indices are inside the arrays. -/
def GridStore.at? (S : GridStore) (x y : Nat) : Option FNavNodeInternal :=
  match S.Grid[x]? with
  | some row => row[y]?
  | none => none

/-- The function `ANavGrid::ResetGrid`, on the members that hold the nodes. -/
def ResetGrid (GridSizeX : Int) (S : GridStore) : GridStore :=
  { Grid := TArray_SetNum [] S.Grid GridSizeX.toNat, AllNodes := [], WalkableNodes := [] }

/-- The node that the body of the inner loop of `GenerateNavGridNodes` leaves in `Grid[x][y]`.
`TransformPosition` is `GetActorTransform().TransformPosition`. -/
def GenerateNavGridNodes.node (NodeDiameter NodeRadius : ℚ)
    (TransformPosition : FVector ℚ → FVector ℚ)
    (LineTrace : FVector ℚ → FVector ℚ → Option FHitResult) (x y : Nat) : FNavNodeInternal :=
  let LocalCell : FVector ℚ :=
    ⟨(x : ℚ) * NodeDiameter + NodeRadius, (y : ℚ) * NodeDiameter + NodeRadius, 0⟩
  let WorldPoint := TransformPosition LocalCell
  PerformZTraceAndUpdateNode LineTrace
    (FNavNodeInternal.make true WorldPoint (Int.ofNat x) (Int.ofNat y) 0)

/-- The body of the inner loop of `GenerateNavGridNodes`. -/
def GenerateNavGridNodes.cell (NodeDiameter NodeRadius : ℚ)
    (TransformPosition : FVector ℚ → FVector ℚ)
    (LineTrace : FVector ℚ → FVector ℚ → Option FHitResult) (x : Nat) (S : GridStore) (y : Nat) :
    GridStore :=
  let Node := GenerateNavGridNodes.node NodeDiameter NodeRadius TransformPosition LineTrace x y
  { Grid := S.Grid.set x ((S.Grid.getD x []).set y Node),
    WalkableNodes :=
      if Node.bWalkable then S.WalkableNodes ++ [NodePtr.mk (Int.ofNat x) (Int.ofNat y)]
      else S.WalkableNodes,
    AllNodes := S.AllNodes ++ [NodePtr.mk (Int.ofNat x) (Int.ofNat y)] }

/-- The body of the outer loop of `GenerateNavGridNodes`. -/
def GenerateNavGridNodes.row (GridSizeY : Int) (NodeDiameter NodeRadius : ℚ)
    (TransformPosition : FVector ℚ → FVector ℚ)
    (LineTrace : FVector ℚ → FVector ℚ → Option FHitResult) (S : GridStore) (x : Nat) :
    GridStore :=
  let S1 : GridStore :=
    { S with
      Grid := S.Grid.set x (TArray_SetNum FNavNodeInternal.zeroed (S.Grid.getD x []) GridSizeY.toNat) }
  (List.range GridSizeY.toNat).foldl
    (GenerateNavGridNodes.cell NodeDiameter NodeRadius TransformPosition LineTrace x) S1

/-- The function `ANavGrid::GenerateNavGridNodes`. -/
def GenerateNavGridNodes (GridSizeX GridSizeY : Int) (NodeDiameter NodeRadius : ℚ)
    (TransformPosition : FVector ℚ → FVector ℚ)
    (LineTrace : FVector ℚ → FVector ℚ → Option FHitResult) (S : GridStore) : GridStore :=
  (List.range GridSizeX.toNat).foldl
    (GenerateNavGridNodes.row GridSizeY NodeDiameter NodeRadius TransformPosition LineTrace) S

/-- The engine function `FMath::Clamp` on `int32`. -/
def FMath_Clamp (X Min Max : Int) : Int := max (min X Max) Min

/-- The engine function `FMath::Clamp` on `float`. -/
def FMath_ClampF (X Min Max : ℚ) : ℚ := max (min X Max) Min

/-- The engine function `FMath::IsNearlyEqual` on `float` with its default tolerance
(`UE_SMALL_NUMBER`, 1e-8). -/
def FMath_IsNearlyEqual (A B : ℚ) : Bool := decide (|A - B| ≤ 1 / 100000000)

/-- The engine function `FMath::FloorToInt`. -/
def FMath_FloorToInt (F : ℚ) : Int := ⌊F⌋

/-- The function `InverseLerp` of NavGrid.cpp. -/
def InverseLerp (A B Value : ℚ) : ℚ :=
  if FMath_IsNearlyEqual A B = true then 0
  else FMath_ClampF ((Value - A) / (B - A)) 0 1

/-- The function `ANavGrid::GetNodeFromWorldPoint`: the indices `x`, `y` of the node `Grid[x][y]`
whose address it returns. -/
def GetNodeFromWorldPoint (GridWorldSize : FVector2D ℚ) (GridSizeX GridSizeY : Int)
    (WorldPosition : FVector ℚ) : NodePtr :=
  let PercentX := InverseLerp (-GridWorldSize.X * (1 / 2)) (GridWorldSize.X * (1 / 2)) WorldPosition.X
  let PercentY := InverseLerp (-GridWorldSize.Y * (1 / 2)) (GridWorldSize.Y * (1 / 2)) WorldPosition.Y
  let x := FMath_Clamp (FMath_FloorToInt (PercentX * (GridSizeX : ℚ))) 0 (GridSizeX - 1)
  let y := FMath_Clamp (FMath_FloorToInt (PercentY * (GridSizeY : ℚ))) 0 (GridSizeY - 1)
  ⟨x, y⟩

/-- An empty world: no line trace hits anything. -/
def noHit : FVector ℚ → FVector ℚ → Option FHitResult := fun _ _ => none

/-- A level floor of walkable material at height 0. -/
def flatFloor : FVector ℚ → FVector ℚ → Option FHitResult :=
  fun TraceStart _ => some ⟨some 0, ⟨TraceStart.X, TraceStart.Y, 0⟩⟩

/-- A `GridStore` before the grid is created for the first time. -/
def GridStore.initial : GridStore := ⟨[], [], []⟩


/-! ## Blurring the penalty map -/

/-- The values of a loop variable that runs from `lo` up to and including `hi`. -/
def intRange (lo hi : Int) : List Int :=
  (List.range (hi + 1 - lo).toNat).map fun (i : Nat) => lo + (i : Int)

/-- The engine function `FMath::RoundToInt` on `float`: `FloorToInt(F + 0.5f)`. -/
def FMath_RoundToInt (F : ℚ) : Int := ⌊F + 1 / 2⌋

/-- The three arrays that `BlurPenaltyMap` indexes. -/
inductive BlurArray where
  | Grid
  | PenaltiesHorizontalPass
  | PenaltiesVerticalPass
deriving DecidableEq

/-- Write `v` into the slot `[x][y]` of a two-dimensional array. -/
def setAt2 (f : Int → Int → Int) (x y : Int) (v : Int) : Int → Int → Int :=
  fun a b => if a = x ∧ b = y then v else f a b

/-- The data `BlurPenaltyMap` works on: the `MovementPenalty` of the nodes of `Grid`, the two
local pass buffers, the members `PenaltyMax` and `PenaltyMin`, and the list of the indexings
`Array[x][y]` performed so far (in the order of the statements). -/
structure BlurState where
  MovementPenalty : Int → Int → Int
  PenaltiesHorizontalPass : Int → Int → Int
  PenaltiesVerticalPass : Int → Int → Int
  PenaltyMax : Int
  PenaltyMin : Int
  Indexed : List (BlurArray × Int × Int)

/-- The body of the first inner loop of the horizontal pass (`x` from `-KernalExtents` to
`KernalExtents`). -/
def BlurPenaltyMap.seedH (KernalExtents y : Int) (S : BlurState) (x : Int) : BlurState :=
  let SampleX := FMath_Clamp x 0 KernalExtents
  { S with
    PenaltiesHorizontalPass :=
      setAt2 S.PenaltiesHorizontalPass 0 y
        (S.PenaltiesHorizontalPass 0 y + S.MovementPenalty SampleX y),
    Indexed := S.Indexed ++
      [(BlurArray.Grid, SampleX, y), (BlurArray.PenaltiesHorizontalPass, 0, y)] }

/-- The body of the second inner loop of the horizontal pass (`x` from 1 to `GridSizeX - 1`). -/
def BlurPenaltyMap.slideH (GridSizeX KernalExtents y : Int) (S : BlurState) (x : Int) :
    BlurState :=
  let RemoveIndex := FMath_Clamp (x - KernalExtents - 1) 0 GridSizeX
  let AddIndex := FMath_Clamp (x + KernalExtents) 0 (GridSizeX - 1)
  { S with
    PenaltiesHorizontalPass :=
      setAt2 S.PenaltiesHorizontalPass x y
        (S.PenaltiesHorizontalPass (x - 1) y - S.MovementPenalty RemoveIndex y +
          S.MovementPenalty AddIndex y),
    Indexed := S.Indexed ++
      [(BlurArray.PenaltiesHorizontalPass, x - 1, y), (BlurArray.Grid, RemoveIndex, y),
        (BlurArray.Grid, AddIndex, y), (BlurArray.PenaltiesHorizontalPass, x, y)] }

/-- The body of the outer loop of the horizontal pass (`y` from 0 to `GridSizeY - 1`). -/
def BlurPenaltyMap.rowH (GridSizeX KernalExtents : Int) (S : BlurState) (y : Int) : BlurState :=
  (intRange 1 (GridSizeX - 1)).foldl (BlurPenaltyMap.slideH GridSizeX KernalExtents y)
    ((intRange (-KernalExtents) KernalExtents).foldl (BlurPenaltyMap.seedH KernalExtents y) S)

/-- The body of the first inner loop of the vertical pass (`y` from `-KernalExtents` to
`KernalExtents`). -/
def BlurPenaltyMap.seedV (KernalExtents x : Int) (S : BlurState) (y : Int) : BlurState :=
  let SampleY := FMath_Clamp y 0 KernalExtents
  { S with
    PenaltiesVerticalPass :=
      setAt2 S.PenaltiesVerticalPass x 0
        (S.PenaltiesVerticalPass x 0 + S.PenaltiesHorizontalPass x SampleY),
    Indexed := S.Indexed ++
      [(BlurArray.PenaltiesHorizontalPass, x, SampleY), (BlurArray.PenaltiesVerticalPass, x, 0)] }

/-- The two statements that compute `BlurredPenalty` from `PenaltiesVerticalPass[x][y]` and store
it in `Grid[x][y]`. -/
def BlurPenaltyMap.store (KernelSize x y : Int) (S : BlurState) : BlurState :=
  let BlurredPenalty :=
    FMath_RoundToInt ((S.PenaltiesVerticalPass x y : ℚ) / ((KernelSize * KernelSize : Int) : ℚ))
  { S with
    MovementPenalty := setAt2 S.MovementPenalty x y BlurredPenalty,
    Indexed := S.Indexed ++ [(BlurArray.PenaltiesVerticalPass, x, y), (BlurArray.Grid, x, y)] }

/-- The body of the second inner loop of the vertical pass (`y` from 1 to `GridSizeY - 1`). -/
def BlurPenaltyMap.slideV (GridSizeY KernelSize KernalExtents x : Int) (S : BlurState) (y : Int) :
    BlurState :=
  let RemoveIndex := FMath_Clamp (y - KernalExtents - 1) 0 GridSizeY
  let AddIndex := FMath_Clamp (y + KernalExtents) 0 (GridSizeY - 1)
  let S1 : BlurState :=
    { S with
      PenaltiesVerticalPass :=
        setAt2 S.PenaltiesVerticalPass x y
          (S.PenaltiesVerticalPass x (y - 1) - S.PenaltiesHorizontalPass x RemoveIndex +
            S.PenaltiesHorizontalPass x AddIndex),
      Indexed := S.Indexed ++
        [(BlurArray.PenaltiesVerticalPass, x, y - 1),
          (BlurArray.PenaltiesHorizontalPass, x, RemoveIndex),
          (BlurArray.PenaltiesHorizontalPass, x, AddIndex),
          (BlurArray.PenaltiesVerticalPass, x, y)] }
  let S2 := BlurPenaltyMap.store KernelSize x y S1
  let BlurredPenalty := S2.MovementPenalty x y
  let S3 : BlurState :=
    if BlurredPenalty > S2.PenaltyMax then { S2 with PenaltyMax := BlurredPenalty } else S2
  if BlurredPenalty < S3.PenaltyMin then { S3 with PenaltyMin := BlurredPenalty } else S3

/-- The body of the outer loop of the vertical pass (`x` from 0 to `GridSizeX - 1`). -/
def BlurPenaltyMap.columnV (GridSizeY KernelSize KernalExtents : Int) (S : BlurState) (x : Int) :
    BlurState :=
  (intRange 1 (GridSizeY - 1)).foldl (BlurPenaltyMap.slideV GridSizeY KernelSize KernalExtents x)
    (BlurPenaltyMap.store KernelSize x 0
      ((intRange (-KernalExtents) KernalExtents).foldl (BlurPenaltyMap.seedV KernalExtents x) S))

/-- The function `ANavGrid::BlurPenaltyMap`. The loops that fill the two pass buffers with 0 are
the zero buffers of the start state. -/
def BlurPenaltyMap (G : ANavGrid R) (PenaltyMax PenaltyMin : Int) (BlurSize : Int) : BlurState :=
  let S0 : BlurState :=
    { MovementPenalty := G.MovementPenalty, PenaltiesHorizontalPass := fun _ _ => 0,
      PenaltiesVerticalPass := fun _ _ => 0, PenaltyMax := PenaltyMax, PenaltyMin := PenaltyMin,
      Indexed := [] }
  if G.GridSizeX = 0 ∨ G.GridSizeY = 0 then S0
  else
    let KernelSize := BlurSize * 2 + 1
    let KernalExtents := Int.tdiv (KernelSize - 1) 2
    let S1 := (intRange 0 (G.GridSizeY - 1)).foldl
      (BlurPenaltyMap.rowH G.GridSizeX KernalExtents) S0
    (intRange 0 (G.GridSizeX - 1)).foldl
      (BlurPenaltyMap.columnV G.GridSizeY KernelSize KernalExtents) S1

/-- The indexing `Array[x][y]` stays inside an array of `GridSizeX` by `GridSizeY` entries. -/
def IndexInBounds (GridSizeX GridSizeY : Int) (a : BlurArray × Int × Int) : Prop :=
  0 ≤ a.2.1 ∧ a.2.1 < GridSizeX ∧ 0 ≤ a.2.2 ∧ a.2.2 < GridSizeY

instance (GridSizeX GridSizeY : Int) (a : BlurArray × Int × Int) :
    Decidable (IndexInBounds GridSizeX GridSizeY a) := by
  unfold IndexInBounds
  infer_instance

/-- A grid of the given size with the given penalties, all cells walkable. -/
def penaltyGrid (SizeX SizeY : Int) (Penalty : Int → Int → Int) : ANavGrid Int :=
  { GridSizeX := SizeX, GridSizeY := SizeY, bWalkable := fun _ _ => true,
    MovementPenalty := Penalty, WorldPosition := fun x y => ⟨x, y, 0⟩ }

/-! ## The box blur as the specification words it -/

/-- The sum `S` of the penalties over the window of radius `k` around `(x, y)`, with the sample
positions clamped to the grid. -/
def boxSum_spec (GridSizeX GridSizeY k : Int) (Penalty : Int → Int → Int) (x y : Int) : Int :=
  ((intRange (-k) k).map fun j =>
    ((intRange (-k) k).map fun i =>
      Penalty (max 0 (min (x + i) (GridSizeX - 1))) (max 0 (min (y + j) (GridSizeY - 1)))).sum).sum

/-- The naive edge-clamped box blur: `S / (2k+1)^2` rounded to the nearest integer. -/
def boxBlur_spec (GridSizeX GridSizeY k : Int) (Penalty : Int → Int → Int) (x y : Int) : Int :=
  round ((boxSum_spec GridSizeX GridSizeY k Penalty x y : ℚ) / ((2 * (k : ℚ) + 1) ^ 2))


/-! ## The heap

`THeap<FNavNodeInternal>`: the items are node pointers, their costs are read from `NodeFields`, and
the `HeapIndex` field of every node is kept next to the members of the heap. A call that a `check`
stops returns `Except.error` with the state at that point. -/

/-- The method `FNavNodeInternal::CompareWith`: positive when `This` has the higher priority
(the lower F cost, or the same F cost and the lower H cost). -/
def CompareWith (F : NodeFields) (This OtherNode : NodePtr) : Int :=
  let Compare := (F.GCost This + F.HCost This) - (F.GCost OtherNode + F.HCost OtherNode)
  let Compare1 := if Compare = 0 then F.HCost This - F.HCost OtherNode else Compare
  (-Compare1)

/-- The members of `THeap` (`Items[i]` is `none` for a null pointer) and the field `HeapIndex`
of the nodes. -/
structure THeap where
  Items : Int → Option NodePtr
  CurrentItemCount : Int
  MaxHeapSize : Int
  HeapIndex : NodePtr → Int

/-- The store `Items[Index] = v`. -/
def setItem (Items : Int → Option NodePtr) (Index : Int) (v : Option NodePtr) :
    Int → Option NodePtr :=
  fun i => if i = Index then v else Items i

/-- The constructor `THeap(InMaxHeapSize)`: all slots zeroed. `HeapIndex` holds the heap indices
that the nodes have at that time. -/
def THeap.make (InMaxHeapSize : Int) (HeapIndex : NodePtr → Int) : THeap :=
  { Items := fun _ => none, CurrentItemCount := 0, MaxHeapSize := InMaxHeapSize,
    HeapIndex := HeapIndex }

/-- The method `THeap::Swap`. -/
def THeap.Swap (h : THeap) (ItemA ItemB : NodePtr) : THeap :=
  let IndexA := h.HeapIndex ItemA
  let IndexB := h.HeapIndex ItemB
  let Items1 := setItem h.Items IndexA (some ItemB)
  let Items2 := setItem Items1 IndexB (some ItemA)
  let HeapIndex1 := setAt h.HeapIndex ItemA IndexB
  let HeapIndex2 := setAt HeapIndex1 ItemB IndexA
  { h with Items := Items2, HeapIndex := HeapIndex2 }

/-- The choice of `HighestPriorityIndex` in `THeap::SortDown` when there is a left child: the
right child if it exists and the left one compares lower than it, else the left child. -/
def THeap.HighestPriorityIndex (F : NodeFields) (h : THeap) (ChildIndexLeft ChildIndexRight : Int) :
    Int :=
  if ChildIndexRight < h.CurrentItemCount then
    match h.Items ChildIndexLeft, h.Items ChildIndexRight with
    | some Left, some Right =>
      if CompareWith F Left Right < 0 then ChildIndexRight else ChildIndexLeft
    | _, _ => ChildIndexLeft
  else ChildIndexLeft

/-- The loop of `THeap::SortDown`. The first argument bounds the iterations; `SortDown` passes
`CurrentItemCount`, which is never used up because the index of `Item` grows in every iteration.
A null slot below `CurrentItemCount` ends the loop; the operations of the heap never leave one. -/
def THeap.SortDown.loop (F : NodeFields) (Item : NodePtr) : Nat → THeap → THeap
  | 0, h => h
  | fuel + 1, h =>
    let ChildIndexLeft := h.HeapIndex Item * 2 + 1
    let ChildIndexRight := ChildIndexLeft + 1
    if ChildIndexLeft < h.CurrentItemCount then
      let HighestPriorityIndex := h.HighestPriorityIndex F ChildIndexLeft ChildIndexRight
      match h.Items HighestPriorityIndex with
      | some Best =>
        if CompareWith F Item Best < 0 then THeap.SortDown.loop F Item fuel (h.Swap Item Best)
        else h
      | none => h
    else h

/-- The method `THeap::SortDown`. -/
def THeap.SortDown (F : NodeFields) (h : THeap) (Item : NodePtr) : THeap :=
  THeap.SortDown.loop F Item h.CurrentItemCount.toNat h

/-- The loop of `THeap::SortUp` with its locals `Index` and `ParentIndex`. The first argument
bounds the iterations; `SortUp` passes `Index + 1`, which is never used up because `Index` shrinks
in every iteration. A null parent slot ends the loop; the operations of the heap never leave
one. -/
def THeap.SortUp.loop (F : NodeFields) (Item : NodePtr) : Nat → THeap → Int → Int → THeap
  | 0, h, _, _ => h
  | fuel + 1, h, Index, ParentIndex =>
    if Index > 0 then
      match h.Items ParentIndex with
      | some Parent =>
        if CompareWith F Item Parent > 0 then
          let h1 := h.Swap Item Parent
          let Index1 := h1.HeapIndex Item
          THeap.SortUp.loop F Item fuel h1 Index1 (Int.tdiv (Index1 - 1) 2)
        else h
      | none => h
    else h

/-- The method `THeap::SortUp`. -/
def THeap.SortUp (F : NodeFields) (h : THeap) (Item : NodePtr) : THeap :=
  let Index := h.HeapIndex Item
  let ParentIndex := Int.tdiv (Index - 1) 2
  THeap.SortUp.loop F Item (Index.toNat + 1) h Index ParentIndex

/-- The method `THeap::Empty`: the loop over the used slots, then the reset of the count. -/
def THeap.Empty (h : THeap) : THeap :=
  let h1 := (intRange 0 (h.CurrentItemCount - 1)).foldl
    (fun (h : THeap) (i : Int) =>
      match h.Items i with
      | some Item => { h with HeapIndex := setAt h.HeapIndex Item (-1) }
      | none => h) h
  { h1 with CurrentItemCount := 0 }

/-- The method `THeap::Add` for a non-null `Item`. -/
def THeap.Add (F : NodeFields) (h : THeap) (Item : NodePtr) : Except THeap THeap :=
  if ¬ (h.CurrentItemCount < h.MaxHeapSize) then Except.error h
  else if ¬ (h.HeapIndex Item = -1) then Except.error h
  else
    let Index := h.CurrentItemCount
    let h1 : THeap :=
      { h with Items := setItem h.Items Index (some Item),
               HeapIndex := setAt h.HeapIndex Item Index }
    let h2 : THeap := { h1 with CurrentItemCount := h1.CurrentItemCount + 1 }
    Except.ok (THeap.SortUp F h2 Item)

/-- The method `THeap::RemoveFirst`: the item returned and the heap left behind. An empty heap
stops at the first `check`; a null `Items[0]` in a non-empty heap (which the operations of the heap
never leave) stops at the dereference of `First`. -/
def THeap.RemoveFirst (F : NodeFields) (h : THeap) : Except THeap (NodePtr × THeap) :=
  if h.CurrentItemCount = 0 then Except.error h
  else
    match h.Items 0 with
    | none => Except.error h
    | some First =>
      let h1 : THeap := { h with CurrentItemCount := h.CurrentItemCount - 1 }
      let h2 : THeap := { h1 with Items := setItem h1.Items 0 (h1.Items h1.CurrentItemCount) }
      let h3 : THeap :=
        match h2.Items 0 with
        | some Item0 =>
          THeap.SortDown F { h2 with HeapIndex := setAt h2.HeapIndex Item0 0 } Item0
        | none => h2
      let h4 : THeap := { h3 with Items := setItem h3.Items h3.CurrentItemCount none }
      Except.ok (First, { h4 with HeapIndex := setAt h4.HeapIndex First (-1) })

/-- The method `THeap::UpdateItem` for a non-null `Item`. -/
def THeap.UpdateItem (F : NodeFields) (h : THeap) (Item : NodePtr) : Except THeap THeap :=
  if ¬ (h.HeapIndex Item ≥ 0) then Except.error h
  else if ¬ (h.HeapIndex Item < h.CurrentItemCount) then Except.error h
  else Except.ok (THeap.SortUp F h Item)

/-- The method `THeap::Contains`. -/
def THeap.Contains (h : THeap) (Item : NodePtr) : Bool :=
  let Index := h.HeapIndex Item
  decide (Index ≥ 0 ∧ Index < h.CurrentItemCount ∧ h.Items Index = some Item)

/-- Calling `RemoveFirst` until the heap is empty: the items in the order in which they are
returned. The first argument bounds the number of calls; `none` is returned when it is used up or
a call is stopped. -/
def THeap.drain (F : NodeFields) : Nat → THeap → Option (List NodePtr)
  | 0, h => if h.CurrentItemCount = 0 then some [] else none
  | fuel + 1, h =>
    if h.CurrentItemCount = 0 then some []
    else
      match THeap.RemoveFirst F h with
      | Except.ok (First, h1) => (THeap.drain F fuel h1).map fun rest => First :: rest
      | Except.error _ => none

/-- Calling `Add` for the items of a list in turn; stopped at the first call that is stopped. -/
def THeap.addAll (F : NodeFields) : THeap → List NodePtr → Except THeap THeap
  | h, [] => Except.ok h
  | h, Item :: rest =>
    match THeap.Add F h Item with
    | Except.ok h1 => THeap.addAll F h1 rest
    | Except.error e => Except.error e

/-- The pair `(fCost, hCost)` by which the heap orders the nodes. -/
def costKey (F : NodeFields) (n : NodePtr) : Int × Int := (F.GCost n + F.HCost n, F.HCost n)

/-- The lexicographic order on the pairs `(fCost, hCost)`. -/
def keyLe (a b : Int × Int) : Prop := a.1 < b.1 ∨ (a.1 = b.1 ∧ a.2 ≤ b.2)

instance (a b : Int × Int) : Decidable (keyLe a b) := by
  unfold keyLe
  infer_instance

/-- The item is contained in the heap (`THeap::Contains` returns true). -/
def THeap.Has (h : THeap) (Item : NodePtr) : Prop :=
  0 ≤ h.HeapIndex Item ∧ h.HeapIndex Item < h.CurrentItemCount ∧
    h.Items (h.HeapIndex Item) = some Item

/-- The slots below `CurrentItemCount` hold items, and each of them stores its own position. -/
def THeap.IndexInv (h : THeap) : Prop :=
  0 ≤ h.CurrentItemCount ∧ h.CurrentItemCount ≤ h.MaxHeapSize ∧
  ∀ i : Int, 0 ≤ i → i < h.CurrentItemCount → ∃ x, h.Items i = some x ∧ h.HeapIndex x = i

/-- The heap order between the slots `j` and its parent slot `(j - 1) / 2`, for every slot `j`
not excepted by `skip`. -/
def THeap.OrderedBut (F : NodeFields) (h : THeap) (skip : Int → Prop) : Prop :=
  ∀ j : Int, 1 ≤ j → j < h.CurrentItemCount → ¬ skip j →
    ∀ x p, h.Items j = some x → h.Items ((j - 1) / 2) = some p → keyLe (costKey F p) (costKey F x)

/-- The heap order between every slot and its parent slot. -/
def THeap.Ordered (F : NodeFields) (h : THeap) : Prop := h.OrderedBut F fun _ => False

/-- The root `Items[0]` has a priority at least as high as every contained item. -/
def THeap.RootIsBest (F : NodeFields) (h : THeap) : Prop :=
  ∀ r, h.Items 0 = some r → ∀ x, h.Has x → keyLe (costKey F r) (costKey F x)

/-- The items in the used slots of the heap, in the order of the slots. -/
def THeap.contained (h : THeap) : List NodePtr :=
  (intRange 0 (h.CurrentItemCount - 1)).filterMap h.Items

/-- The heap states reached from a new heap by `Add`, `RemoveFirst` and `UpdateItem` calls that
are not stopped, each with the node costs `F` current at that time. The costs of the nodes outside
the heap may change at any time; the costs of a contained node change only right before the
`UpdateItem` call for it, and then its pair `(fCost, hCost)` does not grow. -/
inductive THeap.Reach : NodeFields → THeap → Prop
  | make (F : NodeFields) (InMaxHeapSize : Int) (HeapIndex : NodePtr → Int) :
      0 ≤ InMaxHeapSize → THeap.Reach F (THeap.make InMaxHeapSize HeapIndex)
  | outside {F F1 : NodeFields} {h : THeap} :
      THeap.Reach F h → (∀ x, h.Has x → costKey F1 x = costKey F x) → THeap.Reach F1 h
  | add {F : NodeFields} {h h1 : THeap} (Item : NodePtr) :
      THeap.Reach F h → THeap.Add F h Item = Except.ok h1 → THeap.Reach F h1
  | removeFirst {F : NodeFields} {h h1 : THeap} (First : NodePtr) :
      THeap.Reach F h → THeap.RemoveFirst F h = Except.ok (First, h1) → THeap.Reach F h1
  | updateItem {F F1 : NodeFields} {h h1 : THeap} (Item : NodePtr) :
      THeap.Reach F h → h.Has Item →
      (∀ x, h.Has x → x ≠ Item → costKey F1 x = costKey F x) →
      keyLe (costKey F1 Item) (costKey F Item) →
      THeap.UpdateItem F1 h Item = Except.ok h1 → THeap.Reach F1 h1

/-- The heap states reached from a new heap by `Add`, `RemoveFirst`, `UpdateItem` (on a contained
item) and `Empty` calls that are not stopped, with arbitrary node costs at every call; the list
holds the items that were taken out by `RemoveFirst` or `Empty` and not added again since. -/
inductive THeap.Run : THeap → List NodePtr → Prop
  | make (InMaxHeapSize : Int) (HeapIndex : NodePtr → Int) :
      0 ≤ InMaxHeapSize → THeap.Run (THeap.make InMaxHeapSize HeapIndex) []
  | add {h h1 : THeap} {out : List NodePtr} (F : NodeFields) (Item : NodePtr) :
      THeap.Run h out → THeap.Add F h Item = Except.ok h1 →
      THeap.Run h1 (out.filter fun x => decide (x ≠ Item))
  | removeFirst {h h1 : THeap} {out : List NodePtr} (F : NodeFields) (First : NodePtr) :
      THeap.Run h out → THeap.RemoveFirst F h = Except.ok (First, h1) →
      THeap.Run h1 (First :: out)
  | updateItem {h h1 : THeap} {out : List NodePtr} (F : NodeFields) (Item : NodePtr) :
      THeap.Run h out → h.Has Item → THeap.UpdateItem F h Item = Except.ok h1 →
      THeap.Run h1 out
  | empty {h : THeap} {out : List NodePtr} :
      THeap.Run h out → THeap.Run h.Empty (h.contained ++ out)

/-- Node costs given by a table of G costs (H cost 0 throughout); nodes outside the table keep the
G cost of a fresh node. -/
def costsOf (g : List (NodePtr × Int)) : NodeFields :=
  ⟨fun n => (g.lookup n).getD INT_MAX, fun _ => 0, fun _ => none⟩

instance (h : THeap) (Item : NodePtr) : Decidable (h.Has Item) := by
  unfold THeap.Has
  infer_instance

/-- The state that a call leaves behind, whether it was stopped or not. -/
def stateOf : Except THeap THeap → THeap
  | Except.ok h => h
  | Except.error h => h

/-- The heap of capacity 4 that holds the nodes `(0, 0)` and `(1, 0)`, added in this order with the
costs `F` to a new heap (all heap indices -1 before). -/
def heapOfTwo (F : NodeFields) : THeap :=
  stateOf (THeap.Add F (stateOf (THeap.Add F (THeap.make 4 fun _ => -1) ⟨0, 0⟩)) ⟨1, 0⟩)



/-! ## The path script of a runner -/

/-- The struct `FNavLine`. -/
structure FNavLine where
  Gradient : ℚ
  YIntercept : ℚ
  GradientPerpendicular : ℚ
  bApproachSide : Bool
  PointOnLine_1 : FVector2D ℚ
  PointOnLine_2 : FVector2D ℚ

/-- The default constructor of `FNavLine`. -/
def FNavLine.zeroed : FNavLine :=
  { Gradient := 0, YIntercept := 0, GradientPerpendicular := 0, bApproachSide := false,
    PointOnLine_1 := ⟨0, 0⟩, PointOnLine_2 := ⟨0, 0⟩ }

/-- The constant `FNavLine::VerticalLineGradient` (1e5). -/
def VerticalLineGradient : ℚ := 100000

/-- The engine function `FMath::IsNearlyZero` on `float` with its default tolerance
(`UE_SMALL_NUMBER`, 1e-8). -/
def FMath_IsNearlyZero (Value : ℚ) : Bool := decide (|Value| ≤ 1 / 100000000)

/-- The method `FNavLine::GetSide`. -/
def FNavLine.GetSide (Line : FNavLine) (Point : FVector2D ℚ) : Bool :=
  decide ((Point.X - Line.PointOnLine_1.X) * (Line.PointOnLine_2.Y - Line.PointOnLine_1.Y) >
    (Point.Y - Line.PointOnLine_1.Y) * (Line.PointOnLine_2.X - Line.PointOnLine_1.X))

/-- The two-argument constructor of `FNavLine`. -/
def FNavLine.make (PointOnLine PointPerpendicularToLine : FVector2D ℚ) : FNavLine :=
  let DX := PointOnLine.X - PointPerpendicularToLine.X
  let Dy := PointOnLine.Y - PointPerpendicularToLine.Y
  let GradientPerpendicular := if FMath_IsNearlyZero DX = true then VerticalLineGradient else Dy / DX
  let Gradient :=
    if FMath_IsNearlyZero GradientPerpendicular = true then VerticalLineGradient
    else -1 / GradientPerpendicular
  let Line : FNavLine :=
    { FNavLine.zeroed with
      GradientPerpendicular := GradientPerpendicular, Gradient := Gradient,
      YIntercept := PointOnLine.Y - Gradient * PointOnLine.X,
      PointOnLine_1 := PointOnLine,
      PointOnLine_2 := ⟨PointOnLine.X + 1, PointOnLine.Y + Gradient⟩ }
  { Line with bApproachSide := Line.GetSide PointPerpendicularToLine }

/-- The struct `FPathScript`. -/
structure FPathScript where
  LookPoints : List (FVector ℚ)
  TurnBoundaries : List FNavLine
  FinishLineIndex : Int
  SlowDownIndex : Int

/-- The default constructor of `FPathScript` (the member initialisers). -/
def FPathScript.zeroed : FPathScript :=
  { LookPoints := [], TurnBoundaries := [], FinishLineIndex := 0, SlowDownIndex := 0 }

/-- The body of the first loop of the constructor of `FPathScript`, on the locals `Prev2D` and
`TurnBoundaries`. `GetSafeNormal` is the engine function `FVector2D::GetSafeNormal`. -/
def FPathScript.boundary (GetSafeNormal : FVector2D ℚ → FVector2D ℚ) (LookPoints : List (FVector ℚ))
    (FinishLineIndex : Int) (TurnDistance : ℚ) (st : FVector2D ℚ × List FNavLine) (i : Nat) :
    FVector2D ℚ × List FNavLine :=
  let Prev2D := st.1
  let LookPoint := LookPoints.getD i ⟨0, 0, 0⟩
  let Current2D : FVector2D ℚ := ⟨LookPoint.X, LookPoint.Y⟩
  let DirectionToCurrentPoint := GetSafeNormal ⟨Current2D.X - Prev2D.X, Current2D.Y - Prev2D.Y⟩
  let TurnPoint : FVector2D ℚ :=
    if (i : Int) = FinishLineIndex then Current2D
    else ⟨Current2D.X - DirectionToCurrentPoint.X * TurnDistance,
      Current2D.Y - DirectionToCurrentPoint.Y * TurnDistance⟩
  let BoundaryStart := TurnPoint
  let BoundaryEnd : FVector2D ℚ :=
    ⟨Prev2D.X - DirectionToCurrentPoint.X * TurnDistance,
      Prev2D.Y - DirectionToCurrentPoint.Y * TurnDistance⟩
  (TurnPoint, st.2.set i (FNavLine.make BoundaryStart BoundaryEnd))

/-- The second loop of the constructor of `FPathScript`, entered with the loop variable `i`, the
local `DistanceFromEndPoint` and the member `SlowDownIndex`; the result is the final
`SlowDownIndex`. `Distance` is the engine function `FVector::Distance`. -/
def FPathScript.slowDown (Distance : FVector ℚ → FVector ℚ → ℚ) (LookPoints : List (FVector ℚ))
    (StoppingDistance : ℚ) : Nat → ℚ → Int → Int
  | 0, _, SlowDownIndex => SlowDownIndex
  | i + 1, DistanceFromEndPoint, SlowDownIndex =>
    let DistanceFromEndPoint1 := DistanceFromEndPoint +
      Distance (LookPoints.getD (i + 1) ⟨0, 0, 0⟩) (LookPoints.getD i ⟨0, 0, 0⟩)
    if DistanceFromEndPoint1 > StoppingDistance then ((i + 1 : Nat) : Int)
    else FPathScript.slowDown Distance LookPoints StoppingDistance i DistanceFromEndPoint1
      SlowDownIndex

/-- The four-argument constructor of `FPathScript`. -/
def FPathScript.make (GetSafeNormal : FVector2D ℚ → FVector2D ℚ)
    (Distance : FVector ℚ → FVector ℚ → ℚ) (Waypoints : List (FVector ℚ)) (StartPos : FVector ℚ)
    (TurnDistance StoppingDistance : ℚ) : FPathScript :=
  let P0 : FPathScript := { FPathScript.zeroed with LookPoints := Waypoints }
  let Count : Nat := P0.LookPoints.length
  if Count = 0 then P0
  else
    let TurnBoundaries0 := TArray_SetNum FNavLine.zeroed P0.TurnBoundaries Count
    let FinishLineIndex : Int := (Count : Int) - 1
    let Prev2D : FVector2D ℚ := ⟨StartPos.X, StartPos.Y⟩
    let Loop1 := (List.range Count).foldl
      (FPathScript.boundary GetSafeNormal P0.LookPoints FinishLineIndex TurnDistance)
      (Prev2D, TurnBoundaries0)
    let SlowDownIndex := FPathScript.slowDown Distance P0.LookPoints StoppingDistance (Count - 1) 0
      FinishLineIndex
    { LookPoints := P0.LookPoints, TurnBoundaries := Loop1.2, FinishLineIndex := FinishLineIndex,
      SlowDownIndex := SlowDownIndex }

/-- A stand-in for `FVector::Distance` with rational values: the sum of the coordinate
differences in absolute value. -/
def taxiDistance (A B : FVector ℚ) : ℚ := |A.X - B.X| + |A.Y - B.Y| + |A.Z - B.Z|

/-! ## The pool of runner agents -/

/-- What the pool code reads and writes of a `UPathRequestManager`: the runner that owns it (by
number), the agent it belongs to (by index in `RunnerAgents`) and the flag of a running request. -/
structure RequestManagerLink where
  OwnerRunner : Option Nat
  OwningAgent : Option Nat
  bIsRequestActive : Bool
deriving DecidableEq

/-- The struct `FPathRunnerAgent`; `RequestManager` is `none` for a null pointer. The pathfinder
object of the agent is created together with the request manager and is not kept apart. -/
structure FPathRunnerAgent where
  RequestManager : Option RequestManagerLink
  bInUse : Bool
deriving DecidableEq

/-- The default-constructed `FPathRunnerAgent`. -/
def FPathRunnerAgent.zeroed : FPathRunnerAgent := { RequestManager := none, bInUse := false }

/-- The search loop shared by `AcquireRunnerAgent` and `RegisterRunner`: the index of the first
agent with `bInUse` false, counted from `i` for the head of the list. -/
def firstUnused : List FPathRunnerAgent → Nat → Option Nat
  | [], _ => none
  | Agent :: rest, i => if Agent.bInUse = false then some i else firstUnused rest (i + 1)

/-- The method `UNavigationSubsystem::AcquireRunnerAgent`: the index of the agent whose address
it returns, `none` for `nullptr`. It writes nothing. -/
def AcquireRunnerAgent (RunnerAgents : List FPathRunnerAgent) : Option Nat :=
  firstUnused RunnerAgents 0

/-- The state of one `UPathRequestManager` with a valid owner and its pathfinder: the members
`bIsRequestActive` and `CurrentCallback` (a callback is the number of the request it was passed
with), the flag `bShouldCancel` of the pathfinder, the number of searches started whose completion
has not reached `OnPathFound` yet, and the callbacks executed so far, oldest first. -/
structure RequestState where
  bIsRequestActive : Bool
  CurrentCallback : Option Nat
  bShouldCancel : Bool
  InFlight : Nat
  Executed : List Nat

/-- A new request manager. -/
def RequestState.initial : RequestState :=
  { bIsRequestActive := false, CurrentCallback := none, bShouldCancel := false, InFlight := 0,
    Executed := [] }

/-- The method `UPathfindingAStar::StartFindPath` with a grid assigned, as far as the request
manager sees it: the flag is cleared and a task is launched that hands its result to
`OnPathFound` later, whether it was cancelled or not. -/
def StartFindPath (S : RequestState) : RequestState :=
  { S with bShouldCancel := false, InFlight := S.InFlight + 1 }

/-- The method `UPathRequestManager::RequestPath` with a pathfinder and a valid owner. -/
def RequestPath (S : RequestState) (Callback : Nat) : RequestState :=
  let S1 : RequestState :=
    if S.bIsRequestActive = true then { S with bShouldCancel := true, bIsRequestActive := false }
    else S
  let S2 : RequestState := { S1 with CurrentCallback := some Callback, bIsRequestActive := true }
  StartFindPath S2

/-- The method `UPathRequestManager::OnPathFound` with a valid owner. -/
def OnPathFound (S : RequestState) : RequestState :=
  let S1 : RequestState := { S with bIsRequestActive := false }
  match S1.CurrentCallback with
  | some Callback => { S1 with Executed := S1.Executed ++ [Callback] }
  | none => S1

/-- The completion of one of the searches in flight reaches `OnPathFound`; `none` when no search
is in flight. -/
def deliverCompletion (S : RequestState) : Option RequestState :=
  if S.InFlight = 0 then none else some (OnPathFound { S with InFlight := S.InFlight - 1 })

/-! ## Parent links and the heads of the main loop -/

/-- The node reached from `EndNode` by following the parent links `Steps` times (`none` once a
null parent has been passed). -/
def parentSteps (ParentNode : NodePtr → Option NodePtr) (EndNode : NodePtr) : Nat → Option NodePtr
  | 0 => some EndNode
  | Steps + 1 => (parentSteps ParentNode EndNode Steps).bind ParentNode

/-- `LoopHead G bShouldCancel TargetNode st0 k st`: the main loop started in the state `st0` is at
its head with the state `st` after `k` complete iterations (each found the flag clear and a node
other than the target). -/
inductive LoopHead (G : ANavGrid R) (bShouldCancel : Nat → Bool) (TargetNode : NodePtr)
    (st0 : SearchState) : Nat → SearchState → Prop
  | start : LoopHead G bShouldCancel TargetNode st0 0 st0
  | next {k : Nat} {st : SearchState} {First : NodePtr} {Rest : List NodePtr} :
      LoopHead G bShouldCancel TargetNode st0 k st →
      st.OpenList = First :: Rest → bShouldCancel k = false →
      (selectBest st.toNodeFields 0 First 1 Rest).2 ≠ TargetNode →
      LoopHead G bShouldCancel TargetNode st0 (k + 1)
        ((G.GetNeighbors (selectBest st.toNodeFields 0 First 1 Rest).2).foldl
          (processNeighbor G TargetNode (selectBest st.toNodeFields 0 First 1 Rest).2)
          { st with
            OpenList := st.OpenList.eraseIdx (selectBest st.toNodeFields 0 First 1 Rest).1,
            ClosedSet := (selectBest st.toNodeFields 0 First 1 Rest).2 :: st.ClosedSet })

/-- Every non-null parent link of a node of the grid points to a node of the closed set. -/
def ParentsClosed (G : ANavGrid R) (st : SearchState) : Prop :=
  ∀ n p, G.InBounds n → st.ParentNode n = some p → p ∈ st.ClosedSet

/-- The node fields `F` and `F1` hold the same values in every node of the grid. -/
def FieldsAgree (G : ANavGrid R) (F F1 : NodeFields) : Prop :=
  ∀ n, G.InBounds n →
    F.GCost n = F1.GCost n ∧ F.HCost n = F1.HCost n ∧ F.ParentNode n = F1.ParentNode n

/-- Two states of the search with the same open list and closed set and the same fields in every
node of the grid. -/
def StateAgree (G : ANavGrid R) (st st1 : SearchState) : Prop :=
  FieldsAgree G st.toNodeFields st1.toNodeFields ∧ st.OpenList = st1.OpenList ∧
    st.ClosedSet = st1.ClosedSet
/-! ## Basic facts -/

theorem GetDistance_lower (a b : NodePtr) :
    10 * (a.GridX - b.GridX) + 4 * (a.GridY - b.GridY) ≤ GetDistance a b ∧
    10 * (a.GridX - b.GridX) - 4 * (a.GridY - b.GridY) ≤ GetDistance a b ∧
    -10 * (a.GridX - b.GridX) + 4 * (a.GridY - b.GridY) ≤ GetDistance a b ∧
    -10 * (a.GridX - b.GridX) - 4 * (a.GridY - b.GridY) ≤ GetDistance a b ∧
    4 * (a.GridX - b.GridX) + 10 * (a.GridY - b.GridY) ≤ GetDistance a b ∧
    4 * (a.GridX - b.GridX) - 10 * (a.GridY - b.GridY) ≤ GetDistance a b ∧
    -4 * (a.GridX - b.GridX) + 10 * (a.GridY - b.GridY) ≤ GetDistance a b ∧
    -4 * (a.GridX - b.GridX) - 10 * (a.GridY - b.GridY) ≤ GetDistance a b := by
  unfold GetDistance FMath_Abs
  simp only []
  split_ifs <;> omega

theorem GetDistance_attained (a b : NodePtr) :
    GetDistance a b = 10 * (a.GridX - b.GridX) + 4 * (a.GridY - b.GridY) ∨
    GetDistance a b = 10 * (a.GridX - b.GridX) - 4 * (a.GridY - b.GridY) ∨
    GetDistance a b = -10 * (a.GridX - b.GridX) + 4 * (a.GridY - b.GridY) ∨
    GetDistance a b = -10 * (a.GridX - b.GridX) - 4 * (a.GridY - b.GridY) ∨
    GetDistance a b = 4 * (a.GridX - b.GridX) + 10 * (a.GridY - b.GridY) ∨
    GetDistance a b = 4 * (a.GridX - b.GridX) - 10 * (a.GridY - b.GridY) ∨
    GetDistance a b = -4 * (a.GridX - b.GridX) + 10 * (a.GridY - b.GridY) ∨
    GetDistance a b = -4 * (a.GridX - b.GridX) - 10 * (a.GridY - b.GridY) := by
  unfold GetDistance FMath_Abs
  simp only []
  split_ifs <;> omega

theorem GetDistance_triangle (a b c : NodePtr) :
    GetDistance a c ≤ GetDistance a b + GetDistance b c := by
  have h1 := GetDistance_lower a b
  have h2 := GetDistance_lower b c
  have h3 := GetDistance_attained a c
  omega

theorem GetDistance_nonneg (a b : NodePtr) : 0 ≤ GetDistance a b := by
  have h1 := GetDistance_lower a b
  omega

theorem mem_GetNeighbors_inBounds (G : ANavGrid R) (a b : NodePtr) (h : b ∈ G.GetNeighbors a) :
    G.InBounds b := by
  unfold ANavGrid.GetNeighbors at h
  simp only [List.mem_flatMap, List.mem_filterMap] at h
  obtain ⟨DX, -, Dy, -, h⟩ := h
  unfold ANavGrid.neighborAt at h
  simp only [] at h
  split_ifs at h with h1 h2 h3
  simp only [Option.some.injEq] at h
  subst h
  unfold ANavGrid.InBounds
  simp only []
  omega

theorem mem_GetAllNodes (G : ANavGrid R) (n : NodePtr) : n ∈ G.GetAllNodes ↔ G.InBounds n := by
  unfold ANavGrid.GetAllNodes ANavGrid.InBounds
  simp only [List.mem_flatMap, List.mem_map, List.mem_range]
  constructor
  · rintro ⟨x, hx, y, hy, rfl⟩
    have hx1 := Int.lt_toNat.mp hx
    have hy1 := Int.lt_toNat.mp hy
    simp only [Int.ofNat_eq_coe]
    omega
  · rintro ⟨h1, h2, h3, h4⟩
    refine ⟨n.GridX.toNat, Int.lt_toNat.mpr (by omega), n.GridY.toNat, Int.lt_toNat.mpr (by omega), ?_⟩
    cases n with
    | mk nx ny =>
      simp only [NodePtr.mk.injEq, Int.ofNat_eq_coe] at *
      omega

theorem setAt_same {α : Type} (f : NodePtr → α) (n : NodePtr) (v : α) : setAt f n v n = v := by
  simp [setAt]

theorem setAt_other {α : Type} (f : NodePtr → α) (n m : NodePtr) (v : α) (h : m ≠ n) :
    setAt f n v m = f m := by
  simp [setAt, h]

theorem ParentChain.head_eq {G : ANavGrid R} {F : NodeFields} {s n : NodePtr} {l : List NodePtr}
    (h : ParentChain G F s n l) : ∃ l1, l = n :: l1 := by
  cases h with
  | start => exact ⟨[], rfl⟩
  | link _ _ _ _ _ => exact ⟨_, rfl⟩

theorem ParentChain.congr {G : ANavGrid R} {F F1 : NodeFields} {s n : NodePtr} {l : List NodePtr}
    (h : ParentChain G F s n l) (hg : ∀ m ∈ l, F1.GCost m = F.GCost m)
    (hp : ∀ m ∈ l, F1.ParentNode m = F.ParentNode m) : ParentChain G F1 s n l := by
  induction h with
  | start => exact ParentChain.start
  | @link n p l hne hpar hstep hcost hch ih =>
    obtain ⟨l1, rfl⟩ := hch.head_eq
    refine ParentChain.link hne ?_ hstep ?_ (ih ?_ ?_)
    · rw [hp n (by simp)]; exact hpar
    · rw [hg n (by simp), hg p (by simp)]; exact hcost
    · intro m hm; exact hg m (List.mem_cons_of_mem _ hm)
    · intro m hm; exact hp m (List.mem_cons_of_mem _ hm)

theorem processNeighbor_closed (G : ANavGrid R) (T c : NodePtr) (st : SearchState) (nb : NodePtr) :
    (processNeighbor G T c st nb).ClosedSet = st.ClosedSet := by
  unfold processNeighbor
  simp only []
  split_ifs <;> rfl

theorem processNeighbor_skip (G : ANavGrid R) (T c : NodePtr) (st : SearchState) (nb : NodePtr)
    (h : G.GetWalkable nb = false ∨ nb ∈ st.ClosedSet) : processNeighbor G T c st nb = st := by
  unfold processNeighbor
  simp only [if_pos h]

theorem processNeighbor_keep (G : ANavGrid R) (T c : NodePtr) (st : SearchState) (nb : NodePtr)
    (h1 : ¬ st.GCost c + GetDistance c nb + G.GetMovementPenalty nb < st.GCost nb)
    (h2 : nb ∈ st.OpenList) : processNeighbor G T c st nb = st := by
  unfold processNeighbor
  simp [h1, h2]

theorem processNeighbor_update (G : ANavGrid R) (T c : NodePtr) (st : SearchState) (nb : NodePtr)
    (hw : G.GetWalkable nb = true) (hc : nb ∉ st.ClosedSet)
    (hupd : st.GCost c + GetDistance c nb + G.GetMovementPenalty nb < st.GCost nb ∨ nb ∉ st.OpenList)
    (hpar : st.ParentNode c ≠ some nb) (hne : c ≠ nb) :
    processNeighbor G T c st nb =
      { GCost := setAt st.GCost nb (st.GCost c + GetDistance c nb + G.GetMovementPenalty nb)
        HCost := setAt st.HCost nb (GetDistance nb T)
        ParentNode := setAt st.ParentNode nb (some c)
        OpenList := if nb ∈ st.OpenList then st.OpenList else st.OpenList ++ [nb]
        ClosedSet := st.ClosedSet } := by
  unfold processNeighbor
  have h0 : ¬ (G.GetWalkable nb = false ∨ nb ∈ st.ClosedSet) := by simp [hw, hc]
  have h3 : (((st.toNodeFields.SetGCost nb (st.GCost c + GetDistance c nb + G.GetMovementPenalty nb)).SetHCost nb
      (GetDistance nb T)).SetParent nb (some c)).ParentNode c ≠ some nb := by
    simp only [NodeFields.SetParent, NodeFields.SetHCost, NodeFields.SetGCost]
    rw [setAt_other _ _ _ _ hne]
    exact hpar
  have h4 : (st.GCost c + GetDistance c nb + G.GetMovementPenalty nb < st.GCost nb ∨
      decide (nb ∉ st.OpenList) = true) := by
    rcases hupd with h | h
    · exact Or.inl h
    · exact Or.inr (by simpa using h)
  simp only [if_neg h0, if_pos h4, if_neg h3]
  by_cases ho : nb ∈ st.OpenList
  · simp [ho, NodeFields.SetParent, NodeFields.SetHCost, NodeFields.SetGCost]
  · simp [ho, NodeFields.SetParent, NodeFields.SetHCost, NodeFields.SetGCost]

theorem SearchInv.mono {G : ANavGrid R} {s t : NodePtr} {E E1 : NodePtr → NodePtr → Prop}
    {st : SearchState} (h : SearchInv G s t E st) (hE : ∀ x y, E1 x y → G.Step x y → E x y) :
    SearchInv G s t E1 st :=
  { h with relaxed := fun x hx y hxy hstep => h.relaxed x hx y (hE x y hxy hstep) hstep }

theorem SearchInv.start_closed {G : ANavGrid R} {s t c : NodePtr} {E : NodePtr → NodePtr → Prop}
    {st : SearchState} (h : SearchInv G s t E st) (hc : c ∈ st.ClosedSet) : s ∈ st.ClosedSet := by
  rcases h.start_mem with h1 | ⟨_, h2⟩
  · exact h1
  · rw [h2] at hc; exact absurd hc (List.not_mem_nil _)

theorem SearchInv.parent_closed {G : ANavGrid R} {s t c p : NodePtr} {E : NodePtr → NodePtr → Prop}
    {st : SearchState} (h : SearchInv G s t E st) (hc : c ∈ st.ClosedSet)
    (hp : st.ParentNode c = some p) : p ∈ st.ClosedSet := by
  obtain ⟨l, hl, hsub⟩ := h.chain_closed c hc
  cases hl with
  | start => rw [h.start_parent] at hp; exact absurd hp (by simp)
  | @link _ p1 l1 hne hpar hstep hcost hch =>
    rw [hpar] at hp
    have hp1 : p1 = p := by simpa using hp
    subst hp1
    obtain ⟨l2, rfl⟩ := hch.head_eq
    exact hsub.subset (by simp)

theorem processNeighbor_inv {G : ANavGrid R} {s t c nb : NodePtr} {E : NodePtr → NodePtr → Prop}
    {st : SearchState} (h : SearchInv G s t E st) (hc : c ∈ st.ClosedSet)
    (hnb : nb ∈ G.GetNeighbors c) :
    SearchInv G s t (fun x y => E x y ∨ (x = c ∧ y = nb)) (processNeighbor G t c st nb) := by
  by_cases hskip : G.GetWalkable nb = false ∨ nb ∈ st.ClosedSet
  · rw [processNeighbor_skip G t c st nb hskip]
    refine { h with relaxed := ?_ }
    intro x hx y hxy hstep
    rcases hxy with hxy | ⟨rfl, rfl⟩
    · exact h.relaxed x hx y hxy hstep
    · rcases hskip with hw | hcl
      · rw [hstep.2] at hw; exact absurd hw (by simp)
      · exact Or.inl hcl
  · have hw : G.GetWalkable nb = true := by
      cases hwb : G.GetWalkable nb with
      | true => rfl
      | false => exact absurd (Or.inl hwb) hskip
    have hncl : nb ∉ st.ClosedSet := fun hmem => hskip (Or.inr hmem)
    by_cases hupd : st.GCost c + GetDistance c nb + G.GetMovementPenalty nb < st.GCost nb ∨
        nb ∉ st.OpenList
    · have hsc : s ∈ st.ClosedSet := h.start_closed hc
      have hnes : nb ≠ s := fun e => hncl (e ▸ hsc)
      have hnec : c ≠ nb := fun e => hncl (e ▸ hc)
      have hpar : st.ParentNode c ≠ some nb := fun e => hncl (h.parent_closed hc e)
      rw [processNeighbor_update G t c st nb hw hncl hupd hpar hnec]
      have hne_of_closed : ∀ m ∈ st.ClosedSet, m ≠ nb := fun m hm e => hncl (e ▸ hm)
      have hmem_open : ∀ n, n ∈ (if nb ∈ st.OpenList then st.OpenList else st.OpenList ++ [nb]) ↔
          (n ∈ st.OpenList ∨ n = nb) := by
        intro n
        by_cases ho : nb ∈ st.OpenList
        · simp only [if_pos ho]
          constructor
          · exact Or.inl
          · rintro (h1 | rfl)
            · exact h1
            · exact ho
        · simp [if_neg ho]
      refine
        { open_nodup := ?_, closed_nodup := h.closed_nodup, disjoint := ?_, inb_open := ?_,
          inb_closed := h.inb_closed, hcost := ?_, start_g := ?_, start_parent := ?_,
          start_mem := Or.inl hsc, chain_closed := ?_, chain_open := ?_, relaxed := ?_,
          optimal := ?_ }
      · by_cases ho : nb ∈ st.OpenList
        · simp only [if_pos ho]; exact h.open_nodup
        · simp only [if_neg ho]
          exact List.Nodup.append h.open_nodup (List.nodup_singleton nb)
            (by intro a ha hb; simp at hb; exact ho (hb ▸ ha))
      · intro n hn
        rcases (hmem_open n).mp hn with h1 | rfl
        · exact h.disjoint n h1
        · exact hncl
      · intro n hn
        rcases (hmem_open n).mp hn with h1 | rfl
        · exact h.inb_open n h1
        · exact mem_GetNeighbors_inBounds G c _ hnb
      · intro n hn
        show setAt st.HCost nb (GetDistance nb t) n = GetDistance n t
        by_cases e : n = nb
        · subst e; rw [setAt_same]
        · rw [setAt_other _ _ _ _ e]
          rcases (hmem_open n).mp hn with h1 | h1
          · exact h.hcost n h1
          · exact absurd h1 e
      · show setAt st.GCost nb _ s = 0
        rw [setAt_other _ _ _ _ (Ne.symm hnes)]; exact h.start_g
      · show setAt st.ParentNode nb _ s = none
        rw [setAt_other _ _ _ _ (Ne.symm hnes)]; exact h.start_parent
      · intro n hn
        obtain ⟨l, hl, hsub⟩ := h.chain_closed n hn
        refine ⟨l, hl.congr ?_ ?_, hsub⟩
        · intro m hm
          exact setAt_other _ _ _ _ (hne_of_closed m (hsub.subset hm))
        · intro m hm
          exact setAt_other _ _ _ _ (hne_of_closed m (hsub.subset hm))
      · intro n hn
        by_cases e : n = nb
        · subst e
          obtain ⟨l, hl, hsub⟩ := h.chain_closed c hc
          have hl1 : ParentChain G
              { GCost := setAt st.GCost n (st.GCost c + GetDistance c n + G.GetMovementPenalty n)
                HCost := setAt st.HCost n (GetDistance n t)
                ParentNode := setAt st.ParentNode n (some c) } s c l := by
            refine hl.congr ?_ ?_
            · intro m hm
              exact setAt_other _ _ _ _ (hne_of_closed m (hsub.subset hm))
            · intro m hm
              exact setAt_other _ _ _ _ (hne_of_closed m (hsub.subset hm))
          refine ⟨n :: l, ParentChain.link hnes ?_ ⟨hnb, hw⟩ ?_ hl1, hsub⟩
          · show setAt st.ParentNode n (some c) n = some c
            rw [setAt_same]
          · show setAt st.GCost n _ n = setAt st.GCost n _ c + G.stepCost c n
            rw [setAt_same, setAt_other _ _ _ _ hnec]
            unfold ANavGrid.stepCost
            omega
        · have hno : n ∈ st.OpenList := by
            rcases (hmem_open n).mp hn with h1 | h1
            · exact h1
            · exact absurd h1 e
          obtain ⟨l, hl, hsub⟩ := h.chain_open n hno
          obtain ⟨l1, rfl⟩ := hl.head_eq
          have hmne : ∀ m ∈ n :: l1, m ≠ nb := by
            intro m hm
            rcases List.mem_cons.mp hm with rfl | hm1
            · exact e
            · exact hne_of_closed m (hsub.subset hm1)
          refine ⟨n :: l1, hl.congr ?_ ?_, hsub⟩
          · intro m hm
            exact setAt_other _ _ _ _ (hmne m hm)
          · intro m hm
            exact setAt_other _ _ _ _ (hmne m hm)
      · intro x hx y hxy hstep
        have hxne : x ≠ nb := hne_of_closed x hx
        rcases hxy with hxy | ⟨rfl, rfl⟩
        · rcases h.relaxed x hx y hxy hstep with h1 | ⟨h1, h2⟩
          · exact Or.inl h1
          · refine Or.inr ⟨(hmem_open y).mpr (Or.inl h1), ?_⟩
            show setAt st.GCost nb _ y ≤ setAt st.GCost nb _ x + G.stepCost x y
            rw [setAt_other _ _ _ _ hxne]
            by_cases e : y = nb
            · subst e
              rw [setAt_same]
              rcases hupd with h3 | h3
              · omega
              · exact absurd h1 h3
            · rw [setAt_other _ _ _ _ e]; exact h2
        · refine Or.inr ⟨(hmem_open y).mpr (Or.inr rfl), ?_⟩
          show setAt st.GCost y _ y ≤ setAt st.GCost y _ x + G.stepCost x y
          rw [setAt_same, setAt_other _ _ _ _ hxne]
          unfold ANavGrid.stepCost
          omega
      · intro hpen n hn w hwalk
        show setAt st.GCost nb _ n ≤ w
        rw [setAt_other _ _ _ _ (hne_of_closed n hn)]
        exact h.optimal hpen n hn w hwalk
    · have h1 : ¬ st.GCost c + GetDistance c nb + G.GetMovementPenalty nb < st.GCost nb :=
        fun e => hupd (Or.inl e)
      have h2 : nb ∈ st.OpenList := by
        by_contra e
        exact hupd (Or.inr e)
      rw [processNeighbor_keep G t c st nb h1 h2]
      refine { h with relaxed := ?_ }
      intro x hx y hxy hstep
      rcases hxy with hxy | ⟨rfl, rfl⟩
      · exact h.relaxed x hx y hxy hstep
      · refine Or.inr ⟨h2, ?_⟩
        unfold ANavGrid.stepCost
        omega

theorem foldl_processNeighbor_closed (G : ANavGrid R) (t c : NodePtr) (L : List NodePtr)
    (st : SearchState) :
    (L.foldl (processNeighbor G t c) st).ClosedSet = st.ClosedSet := by
  induction L generalizing st with
  | nil => rfl
  | cons nb L ih => rw [List.foldl_cons, ih, processNeighbor_closed]

theorem foldl_processNeighbor_inv {G : ANavGrid R} {s t c : NodePtr} (L : List NodePtr) :
    ∀ {E : NodePtr → NodePtr → Prop} {st : SearchState}, SearchInv G s t E st →
      c ∈ st.ClosedSet → (∀ nb ∈ L, nb ∈ G.GetNeighbors c) →
      SearchInv G s t (fun x y => E x y ∨ (x = c ∧ y ∈ L)) (L.foldl (processNeighbor G t c) st) := by
  induction L with
  | nil =>
    intro E st h _ _
    exact h.mono (fun x y hxy _ => by
      rcases hxy with h1 | ⟨_, h2⟩
      · exact h1
      · exact absurd h2 (List.not_mem_nil _))
  | cons nb L ih =>
    intro E st h hc hL
    rw [List.foldl_cons]
    have h1 := processNeighbor_inv h hc (hL nb (List.mem_cons_self _ _))
    have hc1 : c ∈ (processNeighbor G t c st nb).ClosedSet := by
      rw [processNeighbor_closed]; exact hc
    have h2 := ih h1 hc1 (fun m hm => hL m (List.mem_cons_of_mem _ hm))
    exact h2.mono (fun x y hxy _ => by
      rcases hxy with h3 | ⟨h3, h4⟩
      · exact Or.inl (Or.inl h3)
      · rcases List.mem_cons.mp h4 with h5 | h5
        · exact Or.inl (Or.inr ⟨h3, h5⟩)
        · exact Or.inr ⟨h3, h5⟩)

/-- The scan returns an entry of the list, at the index it reports, with the least F cost. -/
theorem selectBest_spec (F : NodeFields) (rest : List NodePtr) :
    ∀ (bi : Nat) (cur : NodePtr) (i : Nat),
      ((selectBest F bi cur i rest).1 = bi ∧ (selectBest F bi cur i rest).2 = cur ∨
        ∃ m, ∃ hm : m < rest.length, (selectBest F bi cur i rest).1 = i + m ∧
          (selectBest F bi cur i rest).2 = rest.get ⟨m, hm⟩) ∧
      F.GCost (selectBest F bi cur i rest).2 + F.HCost (selectBest F bi cur i rest).2 ≤
        F.GCost cur + F.HCost cur ∧
      ∀ z ∈ rest, F.GCost (selectBest F bi cur i rest).2 + F.HCost (selectBest F bi cur i rest).2 ≤
        F.GCost z + F.HCost z := by
  induction rest with
  | nil =>
    intro bi cur i
    simp [selectBest]
  | cons cand rest ih =>
    intro bi cur i
    unfold selectBest
    simp only []
    split_ifs with hcmp
    · obtain ⟨h1, h2, h3⟩ := ih i cand (i + 1)
      refine ⟨Or.inr ?_, ?_, ?_⟩
      · rcases h1 with ⟨h4, h5⟩ | ⟨m, hm, h4, h5⟩
        · exact ⟨0, by simp, by simpa using h4, by simpa using h5⟩
        · refine ⟨m + 1, by simpa using hm, by rw [h4]; omega, ?_⟩
          rw [h5]; rfl
      · rcases hcmp with h6 | ⟨h6, _⟩ <;> omega
      · intro z hz
        rcases List.mem_cons.mp hz with rfl | hz1
        · exact h2
        · exact h3 z hz1
    · obtain ⟨h1, h2, h3⟩ := ih bi cur (i + 1)
      refine ⟨?_, h2, ?_⟩
      · rcases h1 with ⟨h4, h5⟩ | ⟨m, hm, h4, h5⟩
        · exact Or.inl ⟨h4, h5⟩
        · refine Or.inr ⟨m + 1, by simpa using hm, by rw [h4]; omega, ?_⟩
          rw [h5]; rfl
      · intro z hz
        rcases List.mem_cons.mp hz with rfl | hz1
        · have : ¬ (F.GCost z + F.HCost z < F.GCost cur + F.HCost cur) := fun e => hcmp (Or.inl e)
          omega
        · exact h3 z hz1

/-- The scan over the whole open list: the chosen node sits at the chosen index and has the least
F cost of the list. -/
theorem selectBest_open (F : NodeFields) (first : NodePtr) (rest : List NodePtr) :
    (∃ hm : (selectBest F 0 first 1 rest).1 < (first :: rest).length,
      (first :: rest).get ⟨(selectBest F 0 first 1 rest).1, hm⟩ = (selectBest F 0 first 1 rest).2) ∧
    ∀ z ∈ first :: rest,
      F.GCost (selectBest F 0 first 1 rest).2 + F.HCost (selectBest F 0 first 1 rest).2 ≤
        F.GCost z + F.HCost z := by
  obtain ⟨h1, h2, h3⟩ := selectBest_spec F rest 0 first 1
  refine ⟨?_, ?_⟩
  · rcases h1 with ⟨h4, h5⟩ | ⟨m, hm, h4, h5⟩
    · rw [h4, h5]; exact ⟨by simp, rfl⟩
    · rw [h4, h5]
      have e : 1 + m = m + 1 := by omega
      rw [e]
      exact ⟨by simpa using hm, rfl⟩
  · intro z hz
    rcases List.mem_cons.mp hz with rfl | hz1
    · exact h2
    · exact h3 z hz1

theorem heuristic_consistent (G : ANavGrid R) (hpen : G.PenaltiesNonneg) (a b t : NodePtr)
    (hstep : G.Step a b) : GetDistance a t ≤ G.stepCost a b + GetDistance b t := by
  have h1 := GetDistance_triangle a b t
  have h2 := hpen b (mem_GetNeighbors_inBounds G a b hstep.1)
  unfold ANavGrid.stepCost
  omega

/-- Every walk from the start either ends in a closed node whose cost it does not beat, or passes
an open node whose F cost bounds it from below. -/
theorem SearchInv.frontier {G : ANavGrid R} {s t : NodePtr} {st : SearchState}
    (h : SearchInv G s t (fun _ _ => True) st) (hpen : G.PenaltiesNonneg) {y : NodePtr} {w : Int}
    (hw : G.Walk s y w) :
    (y ∈ st.ClosedSet ∧ st.GCost y ≤ w) ∨
      ∃ z ∈ st.OpenList, st.GCost z + GetDistance z t ≤ w + GetDistance y t := by
  induction hw with
  | nil =>
    rcases h.start_mem with h1 | ⟨h1, _⟩
    · exact Or.inl ⟨h1, by rw [h.start_g]⟩
    · refine Or.inr ⟨s, by rw [h1]; simp, ?_⟩
      rw [h.start_g]
  | @snoc a b c hw1 hstep ih =>
    have hcons := heuristic_consistent G hpen a b t hstep
    rcases ih with ⟨h1, h2⟩ | ⟨z, hz, h2⟩
    · rcases h.relaxed a h1 b trivial hstep with h3 | ⟨h3, h4⟩
      · exact Or.inl ⟨h3, h.optimal hpen b h3 _ (ANavGrid.Walk.snoc hw1 hstep)⟩
      · exact Or.inr ⟨b, h3, by omega⟩
    · exact Or.inr ⟨z, hz, by omega⟩

theorem SearchInv.closed_length_le {G : ANavGrid R} {s t : NodePtr} {E : NodePtr → NodePtr → Prop}
    {st : SearchState} (h : SearchInv G s t E st) : st.ClosedSet.length ≤ G.GetAllNodes.length :=
  (List.subperm_of_subset h.closed_nodup
    (fun n hn => (mem_GetAllNodes G n).mpr (h.inb_closed n hn))).length_le

/-- Moving the selected node from the open list to the closed set keeps the invariant, with the
edges out of the selected node still to be relaxed. -/
theorem close_inv {G : ANavGrid R} {s t : NodePtr} {st : SearchState} {first : NodePtr}
    {rest : List NodePtr} (h : SearchInv G s t (fun _ _ => True) st)
    (ho : st.OpenList = first :: rest) :
    (selectBest st.toNodeFields 0 first 1 rest).2 ∈ st.OpenList ∧
    SearchInv G s t (fun x _ => x ≠ (selectBest st.toNodeFields 0 first 1 rest).2)
      { st with
        OpenList := st.OpenList.eraseIdx (selectBest st.toNodeFields 0 first 1 rest).1
        ClosedSet := (selectBest st.toNodeFields 0 first 1 rest).2 :: st.ClosedSet } := by
  obtain ⟨⟨hm, hget⟩, hmin⟩ := selectBest_open st.toNodeFields first rest
  generalize (selectBest st.toNodeFields 0 first 1 rest).1 = i at hm hget ⊢
  generalize (selectBest st.toNodeFields 0 first 1 rest).2 = c at hget hmin ⊢
  have hnd : (first :: rest).Nodup := ho ▸ h.open_nodup
  have hco : c ∈ st.OpenList := by
    rw [ho, ← hget]; exact List.get_mem _ _ _
  have herase : st.OpenList.eraseIdx i = (first :: rest).erase c := by
    rw [ho, ← hget]; exact (hnd.erase_get ⟨i, hm⟩).symm
  have hmem : ∀ n, n ∈ st.OpenList.eraseIdx i ↔ n ≠ c ∧ n ∈ st.OpenList := by
    intro n
    rw [herase, ho]
    exact hnd.mem_erase_iff
  have hcc : c ∉ st.ClosedSet := h.disjoint c hco
  refine ⟨hco, ?_⟩
  refine
    { open_nodup := ?_, closed_nodup := ?_, disjoint := ?_, inb_open := ?_, inb_closed := ?_,
      hcost := ?_, start_g := h.start_g, start_parent := h.start_parent, start_mem := ?_,
      chain_closed := ?_, chain_open := ?_, relaxed := ?_, optimal := ?_ }
  · exact h.open_nodup.sublist (List.eraseIdx_sublist _ _)
  · exact List.nodup_cons.mpr ⟨hcc, h.closed_nodup⟩
  · intro n hn
    obtain ⟨hne, hno⟩ := (hmem n).mp hn
    intro hcl
    rcases List.mem_cons.mp hcl with e | e
    · exact hne e
    · exact h.disjoint n hno e
  · intro n hn
    exact h.inb_open n ((hmem n).mp hn).2
  · intro n hn
    rcases List.mem_cons.mp hn with rfl | e
    · exact h.inb_open _ hco
    · exact h.inb_closed n e
  · intro n hn
    exact h.hcost n ((hmem n).mp hn).2
  · rcases h.start_mem with h1 | ⟨h1, _⟩
    · exact Or.inl (List.mem_cons_of_mem _ h1)
    · left
      rw [h1] at hco
      have : c = s := by simpa using hco
      rw [this]
      exact List.mem_cons_self _ _
  · intro n hn
    rcases List.mem_cons.mp hn with rfl | e
    · obtain ⟨l, hl, hsub⟩ := h.chain_open _ hco
      obtain ⟨l1, rfl⟩ := hl.head_eq
      exact ⟨_, hl, List.Sublist.cons₂ _ hsub⟩
    · obtain ⟨l, hl, hsub⟩ := h.chain_closed n e
      exact ⟨l, hl, List.Sublist.cons _ hsub⟩
  · intro n hn
    obtain ⟨l, hl, hsub⟩ := h.chain_open n ((hmem n).mp hn).2
    exact ⟨l, hl, List.Sublist.cons _ hsub⟩
  · intro x hx y hxy hstep
    rcases List.mem_cons.mp hx with e | e
    · exact absurd e hxy
    · rcases h.relaxed x e y trivial hstep with h1 | ⟨h1, h2⟩
      · exact Or.inl (List.mem_cons_of_mem _ h1)
      · by_cases hyc : y = c
        · exact Or.inl (hyc ▸ List.mem_cons_self _ _)
        · exact Or.inr ⟨(hmem y).mpr ⟨hyc, h1⟩, h2⟩
  · intro hpen n hn w hwalk
    rcases List.mem_cons.mp hn with rfl | e
    · rcases h.frontier hpen hwalk with ⟨h1, _⟩ | ⟨z, hz, h2⟩
      · exact absurd h1 hcc
      · have h3 := hmin z (ho ▸ hz)
        have h4 := h.hcost z hz
        have h5 := h.hcost _ hco
        show st.GCost n ≤ w
        omega
    · exact h.optimal hpen n e w hwalk

/-- Exit analysis of the main loop. From a state that satisfies the invariant, with enough
iterations left, the loop returns; and what it returns satisfies `P` as soon as `P` holds at each
of the three exits: open list empty, flag read as set, target dequeued. -/
theorem mainLoop_spec (G : ANavGrid R) (s t : NodePtr) (cancel : Nat → Bool) (P : LoopExit → Prop)
    (hEmpty : ∀ k st, SearchInv G s t (fun _ _ => True) st → t ∉ st.ClosedSet →
      (∀ j, j < k → cancel j = false) → st.ClosedSet.length = k → st.OpenList = [] →
      P ⟨st, false, k⟩)
    (hCancel : ∀ k st, SearchInv G s t (fun _ _ => True) st → t ∉ st.ClosedSet →
      (∀ j, j < k → cancel j = false) → st.ClosedSet.length = k → st.OpenList ≠ [] →
      cancel k = true → P ⟨st, false, k + 1⟩)
    (hGoal : ∀ k st, SearchInv G s t (fun x _ => x ≠ t) st → t ∈ st.ClosedSet →
      (∀ j, j < k + 1 → cancel j = false) → st.ClosedSet.length = k + 1 → P ⟨st, true, k + 1⟩) :
    ∀ (fuel k : Nat) (st : SearchState), SearchInv G s t (fun _ _ => True) st →
      t ∉ st.ClosedSet → (∀ j, j < k → cancel j = false) → st.ClosedSet.length = k →
      G.GetAllNodes.length < fuel + st.ClosedSet.length →
      ∃ ex, mainLoop G cancel t fuel k st = some ex ∧ P ex := by
  intro fuel
  induction fuel with
  | zero =>
    intro k st h _ _ _ hfuel
    have := h.closed_length_le
    omega
  | succ fuel ih =>
    intro k st h ht hk hlen hfuel
    unfold mainLoop
    cases ho : st.OpenList with
    | nil => exact ⟨_, rfl, hEmpty k st h ht hk hlen ho⟩
    | cons first rest =>
      simp only []
      by_cases hcan : cancel k = true
      · rw [if_pos hcan]
        exact ⟨_, rfl, hCancel k st h ht hk hlen (by rw [ho]; simp) hcan⟩
      · rw [if_neg hcan]
        obtain ⟨hco, hinv1⟩ := close_inv h ho
        have hk1 : ∀ j, j < k + 1 → cancel j = false := by
          intro j hj
          rcases Nat.lt_succ_iff_lt_or_eq.mp hj with h1 | h1
          · exact hk j h1
          · rw [h1]; simpa using hcan
        rw [← ho]
        by_cases hgoal : (selectBest st.toNodeFields 0 first 1 rest).2 = t
        · rw [if_pos hgoal]
          refine ⟨_, rfl, hGoal k _ (hinv1.mono (fun x y hxy _ => hgoal ▸ hxy)) ?_ hk1 ?_⟩
          · rw [hgoal]; exact List.mem_cons_self _ _
          · simp [hlen]
        · rw [if_neg hgoal]
          have hinv2 := foldl_processNeighbor_inv
            (G.GetNeighbors (selectBest st.toNodeFields 0 first 1 rest).2) hinv1
            (List.mem_cons_self _ _) (fun nb hnb => hnb)
          have hinv3 : SearchInv G s t (fun _ _ => True) _ := hinv2.mono (fun x y _ hstep => by
            by_cases e : x = (selectBest st.toNodeFields 0 first 1 rest).2
            · exact Or.inr ⟨e, e ▸ hstep.1⟩
            · exact Or.inl e)
          have hcl := foldl_processNeighbor_closed G t (selectBest st.toNodeFields 0 first 1 rest).2
            (G.GetNeighbors (selectBest st.toNodeFields 0 first 1 rest).2)
            { st with
              OpenList := st.OpenList.eraseIdx (selectBest st.toNodeFields 0 first 1 rest).1
              ClosedSet := (selectBest st.toNodeFields 0 first 1 rest).2 :: st.ClosedSet }
          refine ih (k + 1) _ hinv3 ?_ hk1 ?_ ?_
          · rw [hcl]
            intro hmem
            rcases List.mem_cons.mp hmem with e | e
            · exact hgoal e.symm
            · exact ht e
          · rw [hcl]; simp [hlen]
          · rw [hcl]
            simp only [List.length_cons]
            omega

theorem resetNodes_foldl (L : List NodePtr) (F : NodeFields) (n : NodePtr) :
    ((L.foldl (fun F Node => ((F.SetGCost Node INT_MAX).SetHCost Node 0).SetParent Node none) F).GCost n =
        if n ∈ L then INT_MAX else F.GCost n) ∧
    ((L.foldl (fun F Node => ((F.SetGCost Node INT_MAX).SetHCost Node 0).SetParent Node none) F).HCost n =
        if n ∈ L then 0 else F.HCost n) ∧
    ((L.foldl (fun F Node => ((F.SetGCost Node INT_MAX).SetHCost Node 0).SetParent Node none) F).ParentNode n =
        if n ∈ L then none else F.ParentNode n) := by
  induction L generalizing F with
  | nil => simp
  | cons a L ih =>
    rw [List.foldl_cons]
    obtain ⟨h1, h2, h3⟩ := ih (((F.SetGCost a INT_MAX).SetHCost a 0).SetParent a none)
    rw [h1, h2, h3]
    by_cases hL : n ∈ L
    · simp [hL]
    · by_cases e : n = a
      · subst e
        simp [hL, NodeFields.SetGCost, NodeFields.SetHCost, NodeFields.SetParent, setAt_same]
      · simp [hL, e, NodeFields.SetGCost, NodeFields.SetHCost, NodeFields.SetParent,
          setAt_other _ _ _ _ e]

theorem resetNodes_inBounds (G : ANavGrid R) (F : NodeFields) (n : NodePtr) (h : G.InBounds n) :
    (resetNodes G F).GCost n = INT_MAX ∧ (resetNodes G F).HCost n = 0 ∧
      (resetNodes G F).ParentNode n = none := by
  have hm := (mem_GetAllNodes G n).mpr h
  obtain ⟨h1, h2, h3⟩ := resetNodes_foldl G.GetAllNodes F n
  unfold resetNodes
  rw [h1, h2, h3]
  simp [hm]

theorem searchStart_inv (G : ANavGrid R) (F : NodeFields) (s t : NodePtr) (hs : G.InBounds s) :
    SearchInv G s t (fun _ _ => True)
      ⟨((resetNodes G F).SetGCost s 0).SetHCost s (GetDistance s t), [s], []⟩ := by
  refine
    { open_nodup := List.nodup_singleton s, closed_nodup := List.nodup_nil, disjoint := ?_,
      inb_open := ?_, inb_closed := ?_, hcost := ?_, start_g := ?_, start_parent := ?_,
      start_mem := Or.inr ⟨rfl, rfl⟩, chain_closed := ?_, chain_open := ?_, relaxed := ?_,
      optimal := ?_ }
  · intro n _ hn; exact absurd hn (List.not_mem_nil _)
  · intro n hn
    have : n = s := by simpa using hn
    rw [this]; exact hs
  · intro n hn; exact absurd hn (List.not_mem_nil _)
  · intro n hn
    have : n = s := by simpa using hn
    rw [this]
    simp [NodeFields.SetGCost, NodeFields.SetHCost, setAt_same]
  · simp [NodeFields.SetGCost, NodeFields.SetHCost, setAt_same]
  · simp only [NodeFields.SetGCost, NodeFields.SetHCost]
    exact (resetNodes_inBounds G F s hs).2.2
  · intro n hn; exact absurd hn (List.not_mem_nil _)
  · intro n hn
    have : n = s := by simpa using hn
    rw [this]
    exact ⟨[s], ParentChain.start, by simp⟩
  · intro x hx; exact absurd hx (List.not_mem_nil _)
  · intro _ n hn; exact absurd hn (List.not_mem_nil _)

theorem FindPath_Internal_unwalkable [Sub R] [Zero R] [DecidableEq R] (G : ANavGrid R)
    (N : FVector2D R → FVector2D R) (F : NodeFields) (cancel : Nat → Bool) (s t : NodePtr)
    (hw : G.GetWalkable t = false) :
    FindPath_Internal G N F cancel s t = some ⟨[], false, resetNodes G F, [], [], 0⟩ := by
  unfold FindPath_Internal
  simp [hw]

theorem FindPath_Internal_exit [Sub R] [Zero R] [DecidableEq R] (G : ANavGrid R)
    (N : FVector2D R → FVector2D R) (F : NodeFields) (cancel : Nat → Bool) (s t : NodePtr)
    (hw : G.GetWalkable t = true) (ex : LoopExit)
    (hex : mainLoop G cancel t (G.GetAllNodes.length + 1) 0
      ⟨((resetNodes G F).SetGCost s 0).SetHCost s (GetDistance s t), [s], []⟩ = some ex) :
    FindPath_Internal G N F cancel s t =
      some (if ex.bPathSuccess = true then
        ⟨SimplifyPath N ((RetraceNodes ex.State.ParentNode s t).map G.GetWorldPosition), true,
          ex.State.toNodeFields, ex.State.OpenList, ex.State.ClosedSet, ex.Polls⟩
      else ⟨[], false, ex.State.toNodeFields, ex.State.OpenList, ex.State.ClosedSet, ex.Polls⟩) := by
  unfold FindPath_Internal
  simp only [hw, hex]
  split_ifs <;> simp_all

/-- The search from an in-bounds start node to a walkable target returns, and its result is built
from a loop exit that satisfies `P` whenever `P` holds at each of the three exits of the loop. -/
theorem FindPath_Internal_spec [Sub R] [Zero R] [DecidableEq R] (G : ANavGrid R)
    (N : FVector2D R → FVector2D R) (F : NodeFields) (cancel : Nat → Bool) (s t : NodePtr)
    (hs : G.InBounds s) (hw : G.GetWalkable t = true) (P : LoopExit → Prop)
    (hEmpty : ∀ k st, SearchInv G s t (fun _ _ => True) st → t ∉ st.ClosedSet →
      (∀ j, j < k → cancel j = false) → st.ClosedSet.length = k → st.OpenList = [] →
      P ⟨st, false, k⟩)
    (hCancel : ∀ k st, SearchInv G s t (fun _ _ => True) st → t ∉ st.ClosedSet →
      (∀ j, j < k → cancel j = false) → st.ClosedSet.length = k → st.OpenList ≠ [] →
      cancel k = true → P ⟨st, false, k + 1⟩)
    (hGoal : ∀ k st, SearchInv G s t (fun x _ => x ≠ t) st → t ∈ st.ClosedSet →
      (∀ j, j < k + 1 → cancel j = false) → st.ClosedSet.length = k + 1 → P ⟨st, true, k + 1⟩) :
    ∃ ex, P ex ∧ FindPath_Internal G N F cancel s t =
      some (if ex.bPathSuccess = true then
        ⟨SimplifyPath N ((RetraceNodes ex.State.ParentNode s t).map G.GetWorldPosition), true,
          ex.State.toNodeFields, ex.State.OpenList, ex.State.ClosedSet, ex.Polls⟩
      else ⟨[], false, ex.State.toNodeFields, ex.State.OpenList, ex.State.ClosedSet, ex.Polls⟩) := by
  obtain ⟨ex, hex, hP⟩ := mainLoop_spec G s t cancel P hEmpty hCancel hGoal
    (G.GetAllNodes.length + 1) 0 _ (searchStart_inv G F s t hs) (by simp) (by simp) rfl
    (by simp)
  exact ⟨ex, hP, FindPath_Internal_exit G N F cancel s t hw ex hex⟩

/-! ## Paths, walks and parent chains -/

theorem pathCostFrom_append (G : ANavGrid R) (q : List NodePtr) (b : NodePtr) :
    ∀ (a0 a : NodePtr), (a0 :: q).getLast? = some a →
      G.pathCostFrom a0 (q ++ [b]) = G.pathCostFrom a0 q + G.stepCost a b := by
  induction q with
  | nil =>
    intro a0 a h
    have : a0 = a := by simpa using h
    subst this
    simp [ANavGrid.pathCostFrom]
  | cons c q ih =>
    intro a0 a h
    have h1 : (c :: q).getLast? = some a := by
      rw [List.getLast?_cons_cons] at h; exact h
    have e : G.pathCostFrom a0 (c :: q ++ [b]) = G.stepCost a0 c + G.pathCostFrom c (q ++ [b]) := rfl
    have e1 : G.pathCostFrom a0 (c :: q) = G.stepCost a0 c + G.pathCostFrom c q := rfl
    rw [e, e1, ih c a h1]
    omega

theorem pathCost_append (G : ANavGrid R) (p : List NodePtr) (a b : NodePtr)
    (h : p.getLast? = some a) : G.pathCost (p ++ [b]) = G.pathCost p + G.stepCost a b := by
  cases p with
  | nil => simp at h
  | cons a0 q =>
    simp only [List.cons_append, ANavGrid.pathCost]
    exact pathCostFrom_append G q b a0 a h

theorem IsPath_append (G : ANavGrid R) (s a b : NodePtr) (p : List NodePtr)
    (h : G.IsPath s a p) (hstep : G.Step a b) : G.IsPath s b (p ++ [b]) := by
  obtain ⟨h1, h2, h3⟩ := h
  refine ⟨?_, by simp, ?_⟩
  · cases p with
    | nil => simp at h1
    | cons x q => simpa using h1
  · refine List.Chain'.append h3 (List.chain'_singleton b) ?_
    intro x hx y hy
    rw [h2] at hx
    have e1 : x = a := by simpa using hx.symm
    have e2 : y = b := by simpa using hy.symm
    rw [e1, e2]; exact hstep

/-- A parent chain, read backwards, is a path from the start whose cost is the difference of the
G costs at its ends. -/
theorem ParentChain.isPath {G : ANavGrid R} {F : NodeFields} {s n : NodePtr} {l : List NodePtr}
    (h : ParentChain G F s n l) :
    G.IsPath s n l.reverse ∧ G.pathCost l.reverse = F.GCost n - F.GCost s := by
  induction h with
  | start =>
    refine ⟨⟨by simp, by simp, by simp⟩, ?_⟩
    simp [ANavGrid.pathCost, ANavGrid.pathCostFrom]
  | @link n p l hne hpar hstep hcost hch ih =>
    obtain ⟨ih1, ih2⟩ := ih
    rw [List.reverse_cons]
    refine ⟨IsPath_append G s p n _ ih1 hstep, ?_⟩
    rw [pathCost_append G _ p n ih1.2.1, ih2, hcost]
    omega

theorem ParentChain.getLast {G : ANavGrid R} {F : NodeFields} {s n : NodePtr} {l : List NodePtr}
    (h : ParentChain G F s n l) : l.getLast? = some s := by
  have := h.isPath.1.1
  rw [List.head?_reverse] at this
  exact this

theorem Walk.cons_left {G : ANavGrid R} {s a t : NodePtr} {c : Int} (hstep : G.Step s a)
    (h : G.Walk a t c) : G.Walk s t (G.stepCost s a + c) := by
  induction h with
  | nil =>
    have := ANavGrid.Walk.snoc (@ANavGrid.Walk.nil R G s) hstep
    simpa using this
  | @snoc x y c1 _ hxy ih =>
    have := ANavGrid.Walk.snoc ih hxy
    rw [add_assoc] at this
    exact this

theorem Walk_of_chain (G : ANavGrid R) (q : List NodePtr) :
    ∀ (s t : NodePtr), (s :: q).getLast? = some t → List.Chain' G.Step (s :: q) →
      G.Walk s t (G.pathCostFrom s q) := by
  induction q with
  | nil =>
    intro s t h _
    have : s = t := by simpa using h
    subst this
    exact ANavGrid.Walk.nil
  | cons a q ih =>
    intro s t h hc
    rw [List.getLast?_cons_cons] at h
    rw [List.chain'_cons] at hc
    exact Walk.cons_left hc.1 (ih a t h hc.2)

/-- Every path is a walk of the same cost. -/
theorem IsPath.walk {G : ANavGrid R} {s t : NodePtr} {p : List NodePtr} (h : G.IsPath s t p) :
    G.Walk s t (G.pathCost p) := by
  obtain ⟨h1, h2, h3⟩ := h
  cases p with
  | nil => simp at h1
  | cons a q =>
    have : a = s := by simpa using h1
    subst this
    exact Walk_of_chain G q a t h2 h3

/-- Every walk is the cost of some path. -/
theorem Walk.exists_path {G : ANavGrid R} {s t : NodePtr} {c : Int} (h : G.Walk s t c) :
    ∃ p, G.IsPath s t p ∧ G.pathCost p = c := by
  induction h with
  | nil => exact ⟨[s], ⟨by simp, by simp, by simp⟩, by simp [ANavGrid.pathCost, ANavGrid.pathCostFrom]⟩
  | @snoc a b c1 _ hstep ih =>
    obtain ⟨p, hp, hc⟩ := ih
    exact ⟨p ++ [b], IsPath_append G s a b p hp hstep, by rw [pathCost_append G p a b hp.2.1, hc]⟩

/-! ## Retracing -/

theorem RetraceNodes_loop_chain {G : ANavGrid R} {F : NodeFields} {s n : NodePtr}
    {l : List NodePtr} (h : ParentChain G F s n l) :
    ∀ (fuel Safety : Nat) (Nodes : List NodePtr), l.length ≤ fuel → Safety + l.length ≤ 8002 →
      RetraceNodes.loop F.ParentNode s fuel (some n) Safety Nodes = Nodes ++ l.dropLast := by
  induction h with
  | start =>
    intro fuel Safety Nodes hf _
    cases fuel with
    | zero => simp at hf
    | succ fuel => simp [RetraceNodes.loop]
  | @link n p l hne hpar hstep hcost hch ih =>
    intro fuel Safety Nodes hf hS
    cases fuel with
    | zero => simp at hf
    | succ fuel =>
      obtain ⟨l1, rfl⟩ := hch.head_eq
      unfold RetraceNodes.loop
      simp only [if_neg hne, hpar]
      by_cases hcut : Safety + 1 > 8000
      · rw [if_pos hcut]
        have hl1 : l1 = [] := by
          simp only [List.length_cons] at hS
          apply List.eq_nil_of_length_eq_zero
          omega
        subst hl1
        simp
      · rw [if_neg hcut]
        rw [ih fuel (Safety + 1) (Nodes ++ [n]) (by simp at hf ⊢; omega)
          (by simp at hS ⊢; omega)]
        simp [List.dropLast]

/-- When the parent chain has at most 8002 nodes, `RetraceNodes` returns it in start-to-goal
order. -/
theorem RetraceNodes_chain {G : ANavGrid R} {F : NodeFields} {s n : NodePtr} {l : List NodePtr}
    (h : ParentChain G F s n l) (hlen : l.length ≤ 8002) :
    RetraceNodes F.ParentNode s n = l.reverse := by
  unfold RetraceNodes
  rw [RetraceNodes_loop_chain h 8002 0 [] hlen (by omega)]
  have h1 := h.getLast
  have h2 : l.dropLast ++ [s] = l := by
    have hne : l ≠ [] := by
      intro e; rw [e] at h1; simp at h1
    have := List.dropLast_append_getLast hne
    rw [List.getLast?_eq_getLast _ hne] at h1
    have e : l.getLast hne = s := by simpa using h1
    rw [e] at this
    exact this
  simp only [List.nil_append]
  rw [h2]

theorem RetraceNodes_loop_length (P : NodePtr → Option NodePtr) (s : NodePtr) :
    ∀ (fuel : Nat) (cur : Option NodePtr) (Safety : Nat) (Nodes : List NodePtr), Safety ≤ 8000 →
      (RetraceNodes.loop P s fuel cur Safety Nodes).length + Safety ≤ Nodes.length + 8001 := by
  intro fuel
  induction fuel with
  | zero =>
    intro cur Safety Nodes hS
    simp [RetraceNodes.loop]
    omega
  | succ fuel ih =>
    intro cur Safety Nodes hS
    unfold RetraceNodes.loop
    cases cur with
    | none => simp; omega
    | some c =>
      simp only []
      split_ifs with h1 h2
      · omega
      · simp; omega
      · have := ih (P c) (Safety + 1) (Nodes ++ [c]) (by omega)
        simp at this
        omega

/-- The list returned by `RetraceNodes` never has more than 8002 nodes. -/
theorem RetraceNodes_length_le (P : NodePtr → Option NodePtr) (s t : NodePtr) :
    (RetraceNodes P s t).length ≤ 8002 := by
  unfold RetraceNodes
  have := RetraceNodes_loop_length P s 8002 (some t) 0 [] (by omega)
  simp at this ⊢
  omega

/-! ## What a search leaves behind -/

/-- With the open list empty, every node that a walk from the start reaches is closed. -/
theorem SearchInv.closed_of_walk {G : ANavGrid R} {s t : NodePtr} {st : SearchState}
    (h : SearchInv G s t (fun _ _ => True) st) (ho : st.OpenList = []) {y : NodePtr} {w : Int}
    (hw : G.Walk s y w) : y ∈ st.ClosedSet := by
  induction hw with
  | nil =>
    rcases h.start_mem with h1 | ⟨h1, _⟩
    · exact h1
    · rw [ho] at h1; simp at h1
  | @snoc a b c _ hstep ih =>
    rcases h.relaxed a ih b trivial hstep with h1 | ⟨h1, _⟩
    · exact h1
    · rw [ho] at h1; simp at h1

/-- The facts about the result of a search on which the individual properties rest. -/
theorem FindPath_Internal_facts [Sub R] [Zero R] [DecidableEq R] (G : ANavGrid R)
    (N : FVector2D R → FVector2D R) (F : NodeFields) (cancel : Nat → Bool) (s t : NodePtr)
    (hs : G.InBounds s) :
    ∃ r, FindPath_Internal G N F cancel s t = some r ∧
      (r.bPathSuccess = true → G.GetWalkable t = true ∧ r.Fields.GCost s = 0 ∧
        (∃ l, ParentChain G r.Fields s t l ∧ l.length ≤ r.ClosedSet.length ∧
          r.Fields.ParentNode s = none ∧
          (G.PenaltiesNonneg → ∀ m ∈ l, ∀ w, G.Walk s m w → r.Fields.GCost m ≤ w)) ∧
        (G.PenaltiesNonneg → ∀ w, G.Walk s t w → r.Fields.GCost t ≤ w)) ∧
      (r.FinalWaypoints = if r.bPathSuccess = true then
          SimplifyPath N ((RetraceNodes r.Fields.ParentNode s t).map G.GetWorldPosition) else []) ∧
      r.ClosedSet.length ≤ G.GetAllNodes.length ∧
      (∀ k, cancel k = true → k < r.Polls → r.bPathSuccess = false ∧ r.Polls = k + 1) ∧
      ((∀ k, cancel k = false) → r.bPathSuccess = false →
        ¬ (G.GetWalkable t = true ∧ ∃ p, G.IsPath s t p)) := by
  cases hw : G.GetWalkable t with
  | false =>
    refine ⟨_, FindPath_Internal_unwalkable G N F cancel s t hw, ?_, ?_, ?_, ?_, ?_⟩
    · intro h; simp at h
    · simp
    · simp
    · intro k _ hk; simp at hk
    · intro _ _ h; simp at h
  | true =>
    obtain ⟨ex, hP, hr⟩ := FindPath_Internal_spec G N F cancel s t hs hw
      (fun ex =>
        (ex.bPathSuccess = true → ex.State.GCost s = 0 ∧
          (∃ l, ParentChain G ex.State.toNodeFields s t l ∧ l.length ≤ ex.State.ClosedSet.length ∧
            ex.State.ParentNode s = none ∧
            (G.PenaltiesNonneg → ∀ m ∈ l, ∀ w, G.Walk s m w → ex.State.GCost m ≤ w)) ∧
          (G.PenaltiesNonneg → ∀ w, G.Walk s t w → ex.State.GCost t ≤ w)) ∧
        ex.State.ClosedSet.length ≤ G.GetAllNodes.length ∧
        (∀ k, cancel k = true → k < ex.Polls → ex.bPathSuccess = false ∧ ex.Polls = k + 1) ∧
        ((∀ k, cancel k = false) → ex.bPathSuccess = false → ¬ ∃ p, G.IsPath s t p))
      (by
        intro k st hinv ht hk hlen ho
        refine ⟨by intro h; simp at h, hinv.closed_length_le, ?_, ?_⟩
        · intro j hj hjk
          have := hk j hjk
          rw [this] at hj; simp at hj
        · rintro _ _ ⟨p, hp⟩
          exact ht (hinv.closed_of_walk ho (IsPath.walk hp)))
      (by
        intro k st hinv ht hk hlen ho hcan
        refine ⟨by intro h; simp at h, hinv.closed_length_le, ?_, ?_⟩
        · intro j hj hjk
          refine ⟨rfl, ?_⟩
          rcases Nat.lt_succ_iff_lt_or_eq.mp hjk with h1 | h1
          · have := hk j h1
            rw [this] at hj; simp at hj
          · show k + 1 = j + 1
            rw [h1]
        · intro hall
          rw [hall k] at hcan; simp at hcan)
      (by
        intro k st hinv ht hk hlen
        refine ⟨fun _ => ⟨hinv.start_g, ?_, ?_⟩, hinv.closed_length_le, ?_, ?_⟩
        · obtain ⟨l, hl, hsub⟩ := hinv.chain_closed t ht
          exact ⟨l, hl, hsub.length_le, hinv.start_parent,
            fun hpen m hm w hwalk => hinv.optimal hpen m (hsub.subset hm) w hwalk⟩
        · intro hpen w hwalk
          exact hinv.optimal hpen t ht w hwalk
        · intro j hj hjk
          have := hk j hjk
          rw [this] at hj; simp at hj
        · intro _ h; simp at h)
    obtain ⟨h1, h2, h3, h4⟩ := hP
    refine ⟨_, hr, ?_⟩
    cases hb : ex.bPathSuccess with
    | true =>
      simp only [if_true]
      obtain ⟨h5, h6, h7⟩ := h1 hb
      refine ⟨fun _ => ⟨trivial, h5, h6, h7⟩, trivial, h2, ?_, ?_⟩
      · intro k hk hkp
        have := h3 k hk hkp
        rw [hb] at this; simp at this
      · intro _ h; simp at h
    | false =>
      simp only [Bool.false_eq_true, if_false]
      refine ⟨by intro h; simp at h, trivial, h2, ?_, ?_⟩
      · intro k hk hkp
        exact ⟨trivial, (h3 k hk hkp).2⟩
      · rintro hall _ ⟨_, hp⟩
        exact h4 hall hb hp

/-! ## Path simplification -/

theorem getElem?_mid {α : Type} (pre : List α) (a b : α) (rest : List α) :
    (pre ++ a :: b :: rest)[pre.length]? = some a ∧
      (pre ++ a :: b :: rest)[pre.length + 1]? = some b := by
  constructor
  · rw [List.getElem?_append_right (le_refl _)]
    simp
  · rw [List.getElem?_append_right (by omega)]
    simp

theorem SimplifyPath_loop_spec [Sub R] [Zero R] [DecidableEq R] (N : FVector2D R → FVector2D R)
    (rest : List (FVector R)) :
    ∀ (pre : List (FVector R)) (Prev : FVector R) (W : List (FVector R)),
      SimplifyPath.loop N Prev (segmentDirection N (pre ++ Prev :: rest) pre.length) W rest =
        W ++ (List.range' (pre.length + 1) rest.length).filterMap fun i =>
          if 1 ≤ i ∧ segmentDirection N (pre ++ Prev :: rest) i ≠
              segmentDirection N (pre ++ Prev :: rest) (i - 1)
          then (pre ++ Prev :: rest)[i]? else none := by
  induction rest with
  | nil =>
    intro pre Prev W
    simp [SimplifyPath.loop]
  | cons Cur rest ih =>
    intro pre Prev W
    have hraw : pre ++ Prev :: Cur :: rest = (pre ++ [Prev]) ++ Cur :: rest := by simp
    obtain ⟨hg0, hg1⟩ := getElem?_mid pre Prev Cur rest
    have hseg : segmentDirection N (pre ++ Prev :: Cur :: rest) (pre.length + 1) =
        N ⟨Cur.X - Prev.X, Cur.Y - Prev.Y⟩ := by
      show (match (pre ++ Prev :: Cur :: rest)[pre.length]?,
        (pre ++ Prev :: Cur :: rest)[pre.length + 1]? with
        | some a, some b => N ⟨b.X - a.X, b.Y - a.Y⟩
        | _, _ => ⟨0, 0⟩) = _
      rw [hg0, hg1]
    unfold SimplifyPath.loop
    simp only []
    have hih := ih (pre ++ [Prev]) Cur
      (if N ⟨Cur.X - Prev.X, Cur.Y - Prev.Y⟩ ≠
          segmentDirection N (pre ++ Prev :: Cur :: rest) pre.length then W ++ [Cur] else W)
    rw [← hraw] at hih
    have hlen : (pre ++ [Prev]).length = pre.length + 1 := by simp
    rw [hlen, hseg] at hih
    rw [hih]
    rw [List.length_cons, List.range'_succ, List.filterMap_cons]
    simp only [Nat.add_sub_cancel, hseg, hg1]
    by_cases hc : N ⟨Cur.X - Prev.X, Cur.Y - Prev.Y⟩ =
        segmentDirection N (pre ++ Prev :: Cur :: rest) pre.length
    · simp [hc]
    · simp [hc]

theorem SimplifyPath_eq_spec [Sub R] [Zero R] [DecidableEq R] (N : FVector2D R → FVector2D R)
    (Raw : List (FVector R)) : SimplifyPath N Raw = SimplifyPath_spec N Raw := by
  cases Raw with
  | nil => rfl
  | cons Raw0 rest =>
    have h := SimplifyPath_loop_spec N rest [] Raw0 [Raw0]
    simp only [List.nil_append, List.length_nil, Nat.zero_add] at h
    have h0 : segmentDirection N (Raw0 :: rest) 0 = ⟨0, 0⟩ := rfl
    rw [h0] at h
    unfold SimplifyPath SimplifyPath_spec
    simp only []
    rw [h, List.length_cons, List.range_eq_range', List.range'_succ, List.filterMap_cons]
    simp

/-! ## Facts used by the scenarios -/

theorem mem_GetNeighbors_iff (G : ANavGrid R) (a b : NodePtr) :
    b ∈ G.GetNeighbors a ↔
      ∃ DX ∈ ([-1, 0, 1] : List Int), ∃ Dy ∈ ([-1, 0, 1] : List Int),
        G.neighborAt a DX Dy = some b := by
  unfold ANavGrid.GetNeighbors
  simp only [List.mem_flatMap, List.mem_filterMap]

theorem Step_gridY_le (G : ANavGrid R) (a b : NodePtr) (h : G.Step a b) :
    b.GridY ≤ a.GridY + 1 := by
  obtain ⟨DX, -, Dy, hDy, hn⟩ := (mem_GetNeighbors_iff G a b).mp h.1
  unfold ANavGrid.neighborAt at hn
  simp only [] at hn
  split_ifs at hn
  simp only [Option.some.injEq] at hn
  subst hn
  simp only [List.mem_cons, List.mem_singleton, List.not_mem_nil, or_false] at hDy
  show a.GridY + Dy ≤ a.GridY + 1
  omega

theorem chain_gridY_le (G : ANavGrid R) (q : List NodePtr) :
    ∀ (a t : NodePtr), (a :: q).getLast? = some t → List.Chain' G.Step (a :: q) →
      t.GridY ≤ a.GridY + q.length := by
  induction q with
  | nil =>
    intro a t h _
    have : a = t := by simpa using h
    subst this
    simp
  | cons b q ih =>
    intro a t h hc
    rw [List.getLast?_cons_cons] at h
    rw [List.chain'_cons] at hc
    have h1 := ih b t h hc.2
    have h2 := Step_gridY_le G a b hc.1
    simp only [List.length_cons]
    push_cast
    omega

/-- A path needs at least one node per unit of `GridY` it climbs, plus one. -/
theorem IsPath.length_ge {G : ANavGrid R} {s t : NodePtr} {p : List NodePtr}
    (h : G.IsPath s t p) : t.GridY - s.GridY + 1 ≤ p.length := by
  obtain ⟨h1, h2, h3⟩ := h
  cases p with
  | nil => simp at h1
  | cons a q =>
    have : a = s := by simpa using h1
    subst this
    have := chain_gridY_le G q a t h2 h3
    simp only [List.length_cons]
    push_cast
    omega

/-- The octile distance never overestimates the cost of a walk on a grid without negative
penalties. -/
theorem GetDistance_le_walk {G : ANavGrid R} (hpen : G.PenaltiesNonneg) {s y : NodePtr} {w : Int}
    (h : G.Walk s y w) : GetDistance s y ≤ w := by
  induction h with
  | nil =>
    have := GetDistance_attained s s
    omega
  | @snoc a b c _ hstep ih =>
    have h1 := GetDistance_triangle s a b
    have h2 := hpen b (mem_GetNeighbors_inBounds G a b hstep.1)
    unfold ANavGrid.stepCost
    omega

theorem openGrid_walkable (X Y : Int) (n : NodePtr) : (openGrid X Y).GetWalkable n = true := rfl

theorem openGrid_penalties (X Y : Int) : (openGrid X Y).PenaltiesNonneg := fun _ _ => le_refl 0

theorem openGrid_step_up (X Y : Int) (n : NodePtr) (h0 : 0 ≤ n.GridX) (h1 : n.GridX < X)
    (h2 : 0 ≤ n.GridY + 1) (h3 : n.GridY + 1 < Y) :
    (openGrid X Y).Step n ⟨n.GridX, n.GridY + 1⟩ := by
  refine ⟨(mem_GetNeighbors_iff _ _ _).mpr ⟨0, by simp, 1, by simp, ?_⟩, rfl⟩
  have e2 : ¬ (n.GridX < 0 ∨ X ≤ n.GridX ∨ n.GridY + 1 < 0 ∨ Y ≤ n.GridY + 1) := by omega
  simp [ANavGrid.neighborAt, openGrid, e2]

/-- In a one-column open grid every node of the column is reached from its bottom node. -/
theorem corridor_walk (Y : Int) (k : Nat) (hk : (k : Int) < Y) :
    ∃ w, (openGrid 1 Y).Walk ⟨0, 0⟩ ⟨0, (k : Int)⟩ w := by
  induction k with
  | zero => exact ⟨0, ANavGrid.Walk.nil⟩
  | succ k ih =>
    obtain ⟨w, hw⟩ := ih (by push_cast at hk; omega)
    have hstep := openGrid_step_up 1 Y ⟨0, (k : Int)⟩ (by simp) (by simp)
      (by simp only []; omega) (by simp only []; push_cast at hk; omega)
    have hw1 := ANavGrid.Walk.snoc hw hstep
    have e : ((k + 1 : Nat) : Int) = (k : Int) + 1 := by push_cast; rfl
    rw [e]
    exact ⟨_, hw1⟩

/-! ## Length of the chain found on grids without negative penalties -/

theorem GetDistance_neighbor_ge (G : ANavGrid R) (a b : NodePtr) (h : b ∈ G.GetNeighbors a) :
    10 ≤ GetDistance a b := by
  obtain ⟨DX, hDX, Dy, hDy, hn⟩ := (mem_GetNeighbors_iff G a b).mp h
  unfold ANavGrid.neighborAt at hn
  simp only [] at hn
  split_ifs at hn with h1
  simp only [Option.some.injEq] at hn
  subst hn
  simp only [List.mem_cons, List.mem_singleton, List.not_mem_nil, or_false] at hDX hDy
  have hl := GetDistance_lower a ⟨a.GridX + DX, a.GridY + Dy⟩
  simp only [] at hl
  omega

/-- Along a parent chain on a grid without negative penalties the G cost drops by at least 10 from
each node to every later node of the chain. -/
theorem ParentChain.pairwise {G : ANavGrid R} {F : NodeFields} {s n : NodePtr} {l : List NodePtr}
    (h : ParentChain G F s n l) (hpen : G.PenaltiesNonneg) :
    l.Pairwise (fun a b => F.GCost b + 10 ≤ F.GCost a) := by
  induction h with
  | start => simp
  | @link n p l hne hpar hstep hcost hch ih =>
    obtain ⟨l1, rfl⟩ := hch.head_eq
    have h1 := GetDistance_neighbor_ge G p n hstep.1
    have h2 := hpen n (mem_GetNeighbors_inBounds G p n hstep.1)
    have h3 : F.GCost p + 10 ≤ F.GCost n := by
      rw [hcost]; unfold ANavGrid.stepCost; omega
    refine List.pairwise_cons.mpr ⟨?_, ih⟩
    intro b hb
    rcases List.mem_cons.mp hb with rfl | hb1
    · exact h3
    · have := (List.pairwise_cons.mp ih).1 b hb1
      omega

/-- Every node of a parent chain is reached from the start by a walk that costs the difference of
the G costs. -/
theorem ParentChain.walk_of_mem {G : ANavGrid R} {F : NodeFields} {s n : NodePtr}
    {l : List NodePtr} (h : ParentChain G F s n l) :
    ∀ u ∈ l, G.Walk s u (F.GCost u - F.GCost s) := by
  induction h with
  | start =>
    intro u hu
    have : u = s := by simpa using hu
    subst this
    rw [sub_self]
    exact ANavGrid.Walk.nil
  | @link n p l hne hpar hstep hcost hch ih =>
    intro u hu
    rcases List.mem_cons.mp hu with rfl | hu1
    · obtain ⟨l1, rfl⟩ := hch.head_eq
      have hw := ANavGrid.Walk.snoc (ih p (List.mem_cons_self _ _)) hstep
      have e : F.GCost p - F.GCost s + G.stepCost p u = F.GCost u - F.GCost s := by
        rw [hcost]; omega
      rw [e] at hw
      exact hw
    · exact ih u hu1

/-- The parent of a node of the chain costs at least 10 less than the node. -/
theorem ParentChain.parent_cost {G : ANavGrid R} {F : NodeFields} {s n : NodePtr}
    {l : List NodePtr} (h : ParentChain G F s n l) (hpen : G.PenaltiesNonneg)
    (hs : F.ParentNode s = none) :
    ∀ x ∈ l, ∀ y, F.ParentNode x = some y → F.GCost y + 10 ≤ F.GCost x := by
  induction h with
  | start =>
    intro x hx y hy
    have : x = s := by simpa using hx
    subst this
    rw [hs] at hy; simp at hy
  | @link n p l hne hpar hstep hcost hch ih =>
    intro x hx y hy
    rcases List.mem_cons.mp hx with rfl | hx1
    · rw [hpar] at hy
      have e : p = y := by simpa using hy
      subst e
      have h1 := GetDistance_neighbor_ge G p x hstep.1
      have h2 := hpen x (mem_GetNeighbors_inBounds G p x hstep.1)
      rw [hcost]; unfold ANavGrid.stepCost; omega
    · exact ih x hx1 y hy

theorem ParentChain.inBounds {G : ANavGrid R} {F : NodeFields} {s n : NodePtr}
    {l : List NodePtr} (h : ParentChain G F s n l) (hs : G.InBounds s) :
    ∀ x ∈ l, G.InBounds x := by
  induction h with
  | start =>
    intro x hx
    have : x = s := by simpa using hx
    subst this
    exact hs
  | @link n p l hne hpar hstep hcost hch ih =>
    intro x hx
    rcases List.mem_cons.mp hx with rfl | hx1
    · exact mem_GetNeighbors_inBounds G p x hstep.1
    · exact ih x hx1

theorem OrthAdjacent.symm {a b : NodePtr} (h : OrthAdjacent a b) : OrthAdjacent b a := by
  unfold OrthAdjacent at h ⊢
  omega

theorem OrthAdjacent.ne {a b : NodePtr} (h : OrthAdjacent a b) : a ≠ b := by
  rintro rfl
  unfold OrthAdjacent at h
  omega

theorem GetDistance_orth {a b : NodePtr} (h : OrthAdjacent a b) : GetDistance a b = 10 := by
  unfold OrthAdjacent at h
  have h1 := GetDistance_lower a b
  have h2 := GetDistance_attained a b
  omega

theorem mem_GetNeighbors_of_orth (G : ANavGrid R) {a b : NodePtr} (h : OrthAdjacent a b)
    (hb : G.InBounds b) : b ∈ G.GetNeighbors a := by
  unfold OrthAdjacent at h
  unfold ANavGrid.InBounds at hb
  cases b with
  | mk bx bY =>
    simp only [] at h hb
    rw [mem_GetNeighbors_iff]
    rcases h with ⟨h1, h2 | h2⟩ | ⟨h1, h2 | h2⟩
    · refine ⟨0, by simp, 1, by simp, ?_⟩
      have e2 : ¬ (a.GridX < 0 ∨ G.GridSizeX ≤ a.GridX ∨ a.GridY + 1 < 0 ∨
          G.GridSizeY ≤ a.GridY + 1) := by omega
      simp [ANavGrid.neighborAt, e2]
      omega
    · refine ⟨0, by simp, -1, by simp, ?_⟩
      have e2 : ¬ (a.GridX < 0 ∨ G.GridSizeX ≤ a.GridX ∨ a.GridY + -1 < 0 ∨
          G.GridSizeY ≤ a.GridY + -1) := by omega
      simp [ANavGrid.neighborAt, e2]
      omega
    · refine ⟨1, by simp, 0, by simp, ?_⟩
      have e2 : ¬ (a.GridX + 1 < 0 ∨ G.GridSizeX ≤ a.GridX + 1 ∨ a.GridY < 0 ∨
          G.GridSizeY ≤ a.GridY) := by omega
      simp [ANavGrid.neighborAt, e2]
      omega
    · refine ⟨-1, by simp, 0, by simp, ?_⟩
      have e2 : ¬ (a.GridX + -1 < 0 ∨ G.GridSizeX ≤ a.GridX + -1 ∨ a.GridY < 0 ∨
          G.GridSizeY ≤ a.GridY) := by omega
      simp [ANavGrid.neighborAt, e2]
      omega

/-- On a grid without negative penalties, two nodes of a cheapest parent chain that are next to
each other in a row or column are parent and child. -/
theorem ParentChain.orth_linked {G : ANavGrid R} {F : NodeFields} {s n : NodePtr}
    {l : List NodePtr} (h : ParentChain G F s n l) (hpen : G.PenaltiesNonneg)
    (hg0 : F.GCost s = 0) :
    (∀ m ∈ l, ∀ w, G.Walk s m w → F.GCost m ≤ w) →
    ∀ u ∈ l, ∀ v ∈ l, OrthAdjacent u v →
      F.ParentNode v = some u ∨ F.ParentNode u = some v := by
  induction h with
  | start =>
    intro _ u hu v hv huv
    have e1 : u = s := by simpa using hu
    have e2 : v = s := by simpa using hv
    exact absurd (e1.trans e2.symm) huv.ne
  | @link n p l hne hpar hstep hcost hch ih =>
    intro hopt u hu v hv huv
    have hopt1 : ∀ m ∈ l, ∀ w, G.Walk s m w → F.GCost m ≤ w :=
      fun m hm => hopt m (List.mem_cons_of_mem _ hm)
    have hpw := (hch.pairwise hpen)
    obtain ⟨l1, rfl⟩ := hch.head_eq
    -- a node of the rest of the chain next to `n` is the parent of `n`
    have key : ∀ x ∈ p :: l1, OrthAdjacent x n → x = p := by
      intro x hx hxn
      have hwx := hch.walk_of_mem x hx
      have hstepx : G.Step x n :=
        ⟨mem_GetNeighbors_of_orth G hxn (mem_GetNeighbors_inBounds G p n hstep.1), hstep.2⟩
      have h1 := hopt n (List.mem_cons_self _ _) _ (ANavGrid.Walk.snoc hwx hstepx)
      have h2 := GetDistance_orth hxn
      have h3 := GetDistance_neighbor_ge G p n hstep.1
      rcases List.mem_cons.mp hx with e | hx1
      · exact e
      · have h4 := (List.pairwise_cons.mp hpw).1 x hx1
        unfold ANavGrid.stepCost at h1 hcost
        omega
    rcases List.mem_cons.mp hu with rfl | hu1
    · rcases List.mem_cons.mp hv with rfl | hv1
      · exact absurd rfl huv.ne
      · have := key v hv1 huv.symm
        subst this
        exact Or.inr hpar
    · rcases List.mem_cons.mp hv with rfl | hv1
      · have := key u hu1 huv
        subst this
        exact Or.inl hpar
      · exact ih hopt1 u hu1 v hv1 huv

/-- On a grid without negative penalties, a cheapest parent chain never contains all four nodes
of a 2 x 2 block. -/
theorem ParentChain.no_block {G : ANavGrid R} {F : NodeFields} {s n : NodePtr}
    {l : List NodePtr} (h : ParentChain G F s n l) (hpen : G.PenaltiesNonneg)
    (hg0 : F.GCost s = 0) (hs : F.ParentNode s = none)
    (hopt : ∀ m ∈ l, ∀ w, G.Walk s m w → F.GCost m ≤ w) (x y : Int) :
    ¬ ((⟨x, y⟩ : NodePtr) ∈ l ∧ (⟨x + 1, y⟩ : NodePtr) ∈ l ∧ (⟨x, y + 1⟩ : NodePtr) ∈ l ∧
      (⟨x + 1, y + 1⟩ : NodePtr) ∈ l) := by
  rintro ⟨ha, hb, hc, hd⟩
  have hlink := h.orth_linked hpen hg0 hopt
  have hcost := h.parent_cost hpen hs
  have hab := hlink ⟨x, y⟩ ha ⟨x + 1, y⟩ hb (by unfold OrthAdjacent; simp)
  have hbd := hlink ⟨x + 1, y⟩ hb ⟨x + 1, y + 1⟩ hd (by unfold OrthAdjacent; simp)
  have hdc := hlink ⟨x + 1, y + 1⟩ hd ⟨x, y + 1⟩ hc (by unfold OrthAdjacent; simp)
  have hca := hlink ⟨x, y + 1⟩ hc ⟨x, y⟩ ha (by unfold OrthAdjacent; simp)
  have ca := hcost ⟨x, y⟩ ha
  have cb := hcost ⟨x + 1, y⟩ hb
  have cc := hcost ⟨x, y + 1⟩ hc
  have cd := hcost ⟨x + 1, y + 1⟩ hd
  rcases hab with h1 | h1 <;> rcases hbd with h2 | h2 <;> rcases hdc with h3 | h3 <;>
    rcases hca with h4 | h4
  all_goals first
    | (rw [h1] at h2; simp at h2)
    | (rw [h1] at h4; simp at h4)
    | (rw [h2] at h3; simp at h3)
    | (rw [h3] at h4; simp at h4)
    | (have i1 := cb _ h1; have i2 := cd _ h2; have i3 := cc _ h3; have i4 := ca _ h4; omega)
    | (have i1 := ca _ h1; have i2 := cb _ h2; have i3 := cd _ h3; have i4 := cc _ h4; omega)

/-- A duplicate-free list of nodes of a grid of at most 100 x 100 nodes that contains no complete
2 x 2 block has at most 7500 nodes. -/
theorem length_le_of_no_block (G : ANavGrid R) (l : List NodePtr) (hnd : l.Nodup)
    (hin : ∀ n ∈ l, G.InBounds n) (hX : G.GridSizeX ≤ 100) (hY : G.GridSizeY ≤ 100)
    (hblock : ∀ x y : Int, ¬ ((⟨x, y⟩ : NodePtr) ∈ l ∧ (⟨x + 1, y⟩ : NodePtr) ∈ l ∧
      (⟨x, y + 1⟩ : NodePtr) ∈ l ∧ (⟨x + 1, y + 1⟩ : NodePtr) ∈ l)) :
    l.length ≤ 7500 := by
  classical
  have hcard : l.toFinset.card = l.length := List.toFinset_card_of_nodup hnd
  have himg : (l.toFinset.image (fun n : NodePtr => (n.GridX / 2, n.GridY / 2))).card ≤ 2500 := by
    have hsub : l.toFinset.image (fun n : NodePtr => (n.GridX / 2, n.GridY / 2)) ⊆
        (Finset.Icc (0 : Int) 49) ×ˢ (Finset.Icc (0 : Int) 49) := by
      intro b hb
      obtain ⟨n, hn, rfl⟩ := Finset.mem_image.mp hb
      have := hin n (List.mem_toFinset.mp hn)
      unfold ANavGrid.InBounds at this
      simp only [Finset.mem_product, Finset.mem_Icc]
      omega
    have := Finset.card_le_card hsub
    simpa using this
  have hfib : ∀ b ∈ l.toFinset.image (fun n : NodePtr => (n.GridX / 2, n.GridY / 2)),
      (l.toFinset.filter (fun n : NodePtr => (n.GridX / 2, n.GridY / 2) = b)).card ≤ 3 := by
    intro b _
    obtain ⟨bx, bY⟩ := b
    have hmem : ∀ n ∈ l.toFinset.filter (fun n : NodePtr => (n.GridX / 2, n.GridY / 2) = (bx, bY)),
        n ∈ l ∧ (n = ⟨2 * bx, 2 * bY⟩ ∨ n = ⟨2 * bx + 1, 2 * bY⟩ ∨ n = ⟨2 * bx, 2 * bY + 1⟩ ∨
          n = ⟨2 * bx + 1, 2 * bY + 1⟩) := by
      intro n hn
      obtain ⟨h1, h2⟩ := Finset.mem_filter.mp hn
      refine ⟨List.mem_toFinset.mp h1, ?_⟩
      cases n with
      | mk nx ny =>
        simp only [Prod.mk.injEq] at h2
        simp only [NodePtr.mk.injEq]
        omega
    have hb := hblock (2 * bx) (2 * bY)
    by_cases h1 : (⟨2 * bx, 2 * bY⟩ : NodePtr) ∈ l
    · by_cases h2 : (⟨2 * bx + 1, 2 * bY⟩ : NodePtr) ∈ l
      · by_cases h3 : (⟨2 * bx, 2 * bY + 1⟩ : NodePtr) ∈ l
        · have h4 : (⟨2 * bx + 1, 2 * bY + 1⟩ : NodePtr) ∉ l := fun h4 => hb ⟨h1, h2, h3, h4⟩
          refine le_trans (Finset.card_le_card (t := {⟨2 * bx, 2 * bY⟩, ⟨2 * bx + 1, 2 * bY⟩,
            ⟨2 * bx, 2 * bY + 1⟩}) ?_) Finset.card_le_three
          intro n hn
          obtain ⟨hnl, e | e | e | e⟩ := hmem n hn
          · simp [e]
          · simp [e]
          · simp [e]
          · exact absurd (e ▸ hnl) h4
        · refine le_trans (Finset.card_le_card (t := {⟨2 * bx, 2 * bY⟩, ⟨2 * bx + 1, 2 * bY⟩,
            ⟨2 * bx + 1, 2 * bY + 1⟩}) ?_) Finset.card_le_three
          intro n hn
          obtain ⟨hnl, e | e | e | e⟩ := hmem n hn
          · simp [e]
          · simp [e]
          · exact absurd (e ▸ hnl) h3
          · simp [e]
      · refine le_trans (Finset.card_le_card (t := {⟨2 * bx, 2 * bY⟩, ⟨2 * bx, 2 * bY + 1⟩,
          ⟨2 * bx + 1, 2 * bY + 1⟩}) ?_) Finset.card_le_three
        intro n hn
        obtain ⟨hnl, e | e | e | e⟩ := hmem n hn
        · simp [e]
        · exact absurd (e ▸ hnl) h2
        · simp [e]
        · simp [e]
    · refine le_trans (Finset.card_le_card (t := {⟨2 * bx + 1, 2 * bY⟩, ⟨2 * bx, 2 * bY + 1⟩,
        ⟨2 * bx + 1, 2 * bY + 1⟩}) ?_) Finset.card_le_three
      intro n hn
      obtain ⟨hnl, e | e | e | e⟩ := hmem n hn
      · exact absurd (e ▸ hnl) h1
      · simp [e]
      · simp [e]
      · simp [e]
  have hmul := Finset.card_le_mul_card_image l.toFinset 3 hfib
  rw [hcard] at hmul
  omega

/-- The waypoints are the only part of the result that depends on `GetSafeNormal`. -/
theorem FindPath_Internal_waypoints [Sub R] [Zero R] [DecidableEq R] (G : ANavGrid R)
    (N N1 : FVector2D R → FVector2D R) (F : NodeFields) (cancel : Nat → Bool) (s t : NodePtr) :
    FindPath_Internal G N F cancel s t =
      (FindPath_Internal G N1 F cancel s t).map fun r =>
        { r with
          FinalWaypoints :=
            if r.bPathSuccess = true then
              SimplifyPath N ((RetraceNodes r.Fields.ParentNode s t).map G.GetWorldPosition)
            else [] } := by
  unfold FindPath_Internal
  simp only []
  split_ifs with hw
  · rfl
  · cases mainLoop G cancel t (G.GetAllNodes.length + 1) 0
      ⟨((resetNodes G F).SetGCost s 0).SetHCost s (GetDistance s t), [s], []⟩ with
    | none => rfl
    | some ex =>
      simp only [Option.map_some']
      split_ifs <;> simp_all

/-! ## The properties of the search -/

/-- C1: on a grid without negative movement penalties, from any node of the grid, the search with
the cancel flag never set returns, and if it reports success then the final `GCost` of the target is
the least total cost (sum of `GetDistance` plus the penalty of the node entered, over the steps) of
a node sequence from the start to the target in which each node is a walkable member of the
neighbours of the one before: it is the cost of such a sequence, and no such sequence is cheaper. -/
theorem FindPath_Internal_cheapest [Sub R] [Zero R] [DecidableEq R] (G : ANavGrid R)
    (GetSafeNormal : FVector2D R → FVector2D R) (F : NodeFields) (StartNode TargetNode : NodePtr)
    (hstart : G.InBounds StartNode) (hpen : G.PenaltiesNonneg) :
    ∃ r, FindPath_Internal G GetSafeNormal F (fun _ => false) StartNode TargetNode = some r ∧
      (r.bPathSuccess = true →
        (∃ p, G.IsPath StartNode TargetNode p ∧ G.pathCost p = r.Fields.GCost TargetNode) ∧
        ∀ p, G.IsPath StartNode TargetNode p → r.Fields.GCost TargetNode ≤ G.pathCost p) := by
  obtain ⟨r, hr, hA, _, _, _, _⟩ :=
    FindPath_Internal_facts G GetSafeNormal F (fun _ => false) StartNode TargetNode hstart
  refine ⟨r, hr, fun hsucc => ?_⟩
  obtain ⟨_, hg0, ⟨l, hl, _⟩, hopt⟩ := hA hsucc
  obtain ⟨hp, hc⟩ := hl.isPath
  refine ⟨⟨l.reverse, hp, by rw [hc, hg0]; omega⟩, fun p hp1 => ?_⟩
  exact hopt hpen _ (IsPath.walk hp1)

theorem FindPath_Internal_cheapest_witness :
    pillarGrid.InBounds ⟨0, 0⟩ ∧ pillarGrid.PenaltiesNonneg ∧
    ∃ r, FindPath_Internal pillarGrid exactNormal freshFields (fun _ => false) ⟨0, 0⟩ ⟨2, 2⟩ = some r ∧
      (r.bPathSuccess = true →
        (∃ p, pillarGrid.IsPath ⟨0, 0⟩ ⟨2, 2⟩ p ∧ pillarGrid.pathCost p = r.Fields.GCost ⟨2, 2⟩) ∧
        ∀ p, pillarGrid.IsPath ⟨0, 0⟩ ⟨2, 2⟩ p → r.Fields.GCost ⟨2, 2⟩ ≤ pillarGrid.pathCost p) :=
  ⟨by decide, fun _ _ => le_refl 0,
    FindPath_Internal_cheapest pillarGrid exactNormal freshFields ⟨0, 0⟩ ⟨2, 2⟩ (by decide)
      (fun _ _ => le_refl 0)⟩

/-- C2: from any node of the grid, the search with the cancel flag never set returns, and it
reports success exactly when the target node is walkable and some node sequence leads from the
start to the target with every step going to a walkable member of the neighbours of the previous
node (the start node itself need not be walkable); otherwise it reports failure. -/
theorem FindPath_Internal_success_iff [Sub R] [Zero R] [DecidableEq R] (G : ANavGrid R)
    (GetSafeNormal : FVector2D R → FVector2D R) (F : NodeFields) (StartNode TargetNode : NodePtr)
    (hstart : G.InBounds StartNode) :
    ∃ r, FindPath_Internal G GetSafeNormal F (fun _ => false) StartNode TargetNode = some r ∧
      (r.bPathSuccess = true ↔
        (G.GetWalkable TargetNode = true ∧ ∃ p, G.IsPath StartNode TargetNode p)) := by
  obtain ⟨r, hr, hA, _, _, _, hE⟩ :=
    FindPath_Internal_facts G GetSafeNormal F (fun _ => false) StartNode TargetNode hstart
  refine ⟨r, hr, fun hsucc => ?_, fun hreach => ?_⟩
  · obtain ⟨hw, _, ⟨l, hl, _⟩, _⟩ := hA hsucc
    exact ⟨hw, l.reverse, hl.isPath.1⟩
  · cases hb : r.bPathSuccess with
    | true => rfl
    | false => exact absurd hreach (hE (fun _ => rfl) hb)

theorem FindPath_Internal_success_iff_witness :
    pillarGrid.InBounds ⟨0, 0⟩ ∧
    ∃ r, FindPath_Internal pillarGrid exactNormal freshFields (fun _ => false) ⟨0, 0⟩ ⟨1, 1⟩ = some r ∧
      (r.bPathSuccess = true ↔
        (pillarGrid.GetWalkable ⟨1, 1⟩ = true ∧ ∃ p, pillarGrid.IsPath ⟨0, 0⟩ ⟨1, 1⟩ p)) :=
  ⟨by decide,
    FindPath_Internal_success_iff pillarGrid exactNormal freshFields ⟨0, 0⟩ ⟨1, 1⟩ (by decide)⟩

/-- C3, evaluated: on the open grid of three nodes in a row the search from `(0,0)` to `(2,0)`
succeeds, and the world position of the target node, `(2,0,0)`, is not among the waypoints it
returns, whatever `GetSafeNormal` computes; with exact normals the waypoints are those of `(0,0)`
and `(1,0)`. -/
theorem FindPath_Internal_drops_target :
    (openGrid 3 1).GetWorldPosition ⟨2, 0⟩ = ⟨2, 0, 0⟩ ∧
    (∀ GetSafeNormal : FVector2D Int → FVector2D Int,
      (FindPath_Internal (openGrid 3 1) GetSafeNormal freshFields (fun _ => false)
          ⟨0, 0⟩ ⟨2, 0⟩).map
        (fun r => (r.bPathSuccess, decide ((⟨2, 0, 0⟩ : FVector Int) ∈ r.FinalWaypoints))) =
      some (true, false)) ∧
    (FindPath_Internal (openGrid 3 1) exactNormal freshFields (fun _ => false) ⟨0, 0⟩ ⟨2, 0⟩).map
        (fun r => (r.bPathSuccess, r.FinalWaypoints)) =
      some (true, [⟨0, 0, 0⟩, ⟨1, 0, 0⟩]) := by
  refine ⟨rfl, fun GetSafeNormal => ?_, by decide⟩
  have h : (FindPath_Internal (openGrid 3 1) exactNormal freshFields (fun _ => false)
      ⟨0, 0⟩ ⟨2, 0⟩).map (fun r => (r.bPathSuccess, RetraceNodes r.Fields.ParentNode ⟨0, 0⟩ ⟨2, 0⟩)) =
      some (true, [⟨0, 0⟩, ⟨1, 0⟩, ⟨2, 0⟩]) := by decide
  rw [FindPath_Internal_waypoints (openGrid 3 1) GetSafeNormal exactNormal]
  cases hr : FindPath_Internal (openGrid 3 1) exactNormal freshFields (fun _ => false)
      ⟨0, 0⟩ ⟨2, 0⟩ with
  | none => rw [hr] at h; simp at h
  | some r =>
    rw [hr] at h
    simp only [Option.map_some', Option.some.injEq, Prod.mk.injEq] at h
    obtain ⟨h1, h2⟩ := h
    simp only [Option.map_some', h1, h2, if_true, Option.some.injEq, Prod.mk.injEq, true_and]
    simp only [List.map, ANavGrid.GetWorldPosition, openGrid, SimplifyPath, SimplifyPath.loop,
      Int.reduceSub, ne_eq, not_true_eq_false, if_false]
    split_ifs <;> decide

/-- The backtrace along the parent chain: a search from a node of the grid returns and never closes
more nodes than the grid has; if it reports success, the parent links lead from the target back to
the start through a
chain of at most as many nodes as were closed (and of at most 7500 nodes when the grid has at most
100 x 100 nodes and no negative penalty), and whenever that chain has at most 8002 nodes the list
produced by `RetraceNodes` is that chain in start-to-goal order: it begins with the start node,
ends with the target node, and each of its nodes is a walkable member of the neighbours of the one
before it. -/
theorem RetraceNodes_adjacent_bounded [Sub R] [Zero R] [DecidableEq R] (G : ANavGrid R)
    (GetSafeNormal : FVector2D R → FVector2D R) (F : NodeFields) (bShouldCancel : Nat → Bool)
    (StartNode TargetNode : NodePtr) (hstart : G.InBounds StartNode) :
    ∃ r, FindPath_Internal G GetSafeNormal F bShouldCancel StartNode TargetNode = some r ∧
      r.ClosedSet.length ≤ G.GetAllNodes.length ∧
      (r.bPathSuccess = true →
        ∃ l, ParentChain G r.Fields StartNode TargetNode l ∧ l.length ≤ r.ClosedSet.length ∧
          (G.PenaltiesNonneg → G.GridSizeX ≤ 100 → G.GridSizeY ≤ 100 → l.length ≤ 7500) ∧
          (l.length ≤ 8002 →
            RetraceNodes r.Fields.ParentNode StartNode TargetNode = l.reverse ∧
            G.IsPath StartNode TargetNode
              (RetraceNodes r.Fields.ParentNode StartNode TargetNode))) := by
  obtain ⟨r, hr, hA, _, hC, _, _⟩ :=
    FindPath_Internal_facts G GetSafeNormal F bShouldCancel StartNode TargetNode hstart
  refine ⟨r, hr, hC, fun hsucc => ?_⟩
  obtain ⟨_, hg0, ⟨l, hl, hll, hpar, hopt⟩, _⟩ := hA hsucc
  refine ⟨l, hl, hll, fun hpen hX hY => ?_, fun hlen => ?_⟩
  · have hnd : l.Nodup := (hl.pairwise hpen).imp (fun {a b} hab e => by rw [e] at hab; omega)
    exact length_le_of_no_block G l hnd (hl.inBounds hstart) hX hY
      (hl.no_block hpen hg0 hpar (hopt hpen))
  · rw [RetraceNodes_chain hl hlen]
    exact ⟨rfl, hl.isPath.1⟩

theorem RetraceNodes_adjacent_bounded_witness :
    pillarGrid.InBounds ⟨0, 0⟩ ∧
    ∃ r, FindPath_Internal pillarGrid exactNormal freshFields (fun _ => false) ⟨0, 0⟩ ⟨2, 2⟩ = some r ∧
      r.ClosedSet.length ≤ pillarGrid.GetAllNodes.length ∧
      (r.bPathSuccess = true →
        ∃ l, ParentChain pillarGrid r.Fields ⟨0, 0⟩ ⟨2, 2⟩ l ∧ l.length ≤ r.ClosedSet.length ∧
          (pillarGrid.PenaltiesNonneg → pillarGrid.GridSizeX ≤ 100 → pillarGrid.GridSizeY ≤ 100 →
            l.length ≤ 7500) ∧
          (l.length ≤ 8002 →
            RetraceNodes r.Fields.ParentNode ⟨0, 0⟩ ⟨2, 2⟩ = l.reverse ∧
            pillarGrid.IsPath ⟨0, 0⟩ ⟨2, 2⟩ (RetraceNodes r.Fields.ParentNode ⟨0, 0⟩ ⟨2, 2⟩))) :=
  ⟨by decide,
    RetraceNodes_adjacent_bounded pillarGrid exactNormal freshFields (fun _ => false) ⟨0, 0⟩ ⟨2, 2⟩
      (by decide)⟩

/-- The bound on the grid sizes matters: in an open grid of one column and 8003 rows, which
`ValidateGridParameters` never lets through, the search from the bottom node to the top node
succeeds, and the list that `RetraceNodes` returns is not a sequence of adjacent nodes from the
start to the target (the cut-off after 8001 iterations drops the node next to the start). -/
theorem RetraceNodes_cutoff_breaks_adjacency :
    ∃ r, FindPath_Internal (openGrid 1 8003) exactNormal freshFields (fun _ => false)
        ⟨0, 0⟩ ⟨0, 8002⟩ = some r ∧
      r.bPathSuccess = true ∧
      ¬ (openGrid 1 8003).IsPath ⟨0, 0⟩ ⟨0, 8002⟩
        (RetraceNodes r.Fields.ParentNode ⟨0, 0⟩ ⟨0, 8002⟩) := by
  obtain ⟨r, hr, _, _, _, _, hE⟩ :=
    FindPath_Internal_facts (openGrid 1 8003) exactNormal freshFields (fun _ => false)
      ⟨0, 0⟩ ⟨0, 8002⟩ (by decide)
  refine ⟨r, hr, ?_, ?_⟩
  · cases hb : r.bPathSuccess with
    | true => rfl
    | false =>
      obtain ⟨w, hw⟩ := corridor_walk 8003 8002 (by norm_num)
      obtain ⟨p, hp, _⟩ := Walk.exists_path hw
      exact absurd ⟨rfl, p, hp⟩ (hE (fun _ => rfl) hb)
  · intro hp
    have h1 := IsPath.length_ge hp
    have h2 := RetraceNodes_length_le r.Fields.ParentNode ⟨0, 0⟩ ⟨0, 8002⟩
    simp only [] at h1
    omega

/-- The sizes that `FMath::Clamp` leaves in the constructor of `ANavGrid` and in
`ValidateGridParameters` are validated sizes. -/
theorem SizesValidated_of_clamp (G : ANavGrid R) (X Y : Int)
    (hX : G.GridSizeX = FMath_Clamp X 1 GridSizeXMax)
    (hY : G.GridSizeY = FMath_Clamp Y 1 GridSizeYMax) : G.SizesValidated := by
  unfold ANavGrid.SizesValidated
  rw [hX, hY]
  unfold FMath_Clamp GridSizeXMax GridSizeYMax
  omega

/-- Claim C4: on a grid as `ANavGrid` builds it (sizes clamped into `[1, 100]`, no negative
movement penalty: penalties are written by `BlurPenaltyMap` only, from the zeros the nodes are
constructed with), a search from a node of the grid returns, and whenever it reports success the
list produced by `RetraceNodes` begins with the start node, ends with the target node, and each
node in it is a walkable member of `GetNeighbors` of the node before it; it is the parent chain
from the target back to the start, reversed. -/
theorem RetraceNodes_adjacent [Sub R] [Zero R] [DecidableEq R] (G : ANavGrid R)
    (GetSafeNormal : FVector2D R → FVector2D R) (F : NodeFields) (bShouldCancel : Nat → Bool)
    (StartNode TargetNode : NodePtr) (hstart : G.InBounds StartNode)
    (hsizes : G.SizesValidated) (hpen : G.PenaltiesNonneg) :
    ∃ r, FindPath_Internal G GetSafeNormal F bShouldCancel StartNode TargetNode = some r ∧
      (r.bPathSuccess = true →
        (RetraceNodes r.Fields.ParentNode StartNode TargetNode).head? = some StartNode ∧
        (RetraceNodes r.Fields.ParentNode StartNode TargetNode).getLast? = some TargetNode ∧
        List.Chain' (fun p q => q ∈ G.GetNeighbors p ∧ G.GetWalkable q = true)
          (RetraceNodes r.Fields.ParentNode StartNode TargetNode) ∧
        ∃ l, ParentChain G r.Fields StartNode TargetNode l ∧
          RetraceNodes r.Fields.ParentNode StartNode TargetNode = l.reverse) := by
  obtain ⟨r, hr, _, h⟩ := RetraceNodes_adjacent_bounded G GetSafeNormal F bShouldCancel
    StartNode TargetNode hstart
  refine ⟨r, hr, fun hs => ?_⟩
  obtain ⟨l, hl, _, h7500, hret⟩ := h hs
  have hlen := h7500 hpen hsizes.2.1 hsizes.2.2.2
  obtain ⟨he, hp⟩ := hret (by omega)
  exact ⟨hp.1, hp.2.1, hp.2.2, l, hl, he⟩

theorem RetraceNodes_adjacent_witness :
    pillarGrid.InBounds ⟨0, 0⟩ ∧ pillarGrid.SizesValidated ∧
    ∃ r, FindPath_Internal pillarGrid exactNormal freshFields (fun _ => false) ⟨0, 0⟩ ⟨2, 2⟩ =
        some r ∧
      (r.bPathSuccess = true →
        (RetraceNodes r.Fields.ParentNode ⟨0, 0⟩ ⟨2, 2⟩).head? = some ⟨0, 0⟩ ∧
        (RetraceNodes r.Fields.ParentNode ⟨0, 0⟩ ⟨2, 2⟩).getLast? = some ⟨2, 2⟩ ∧
        List.Chain' (fun p q => q ∈ pillarGrid.GetNeighbors p ∧ pillarGrid.GetWalkable q = true)
          (RetraceNodes r.Fields.ParentNode ⟨0, 0⟩ ⟨2, 2⟩) ∧
        ∃ l, ParentChain pillarGrid r.Fields ⟨0, 0⟩ ⟨2, 2⟩ l ∧
          RetraceNodes r.Fields.ParentNode ⟨0, 0⟩ ⟨2, 2⟩ = l.reverse) :=
  ⟨by decide, by decide,
    RetraceNodes_adjacent pillarGrid exactNormal freshFields (fun _ => false) ⟨0, 0⟩ ⟨2, 2⟩
      (by decide) (by decide) (fun _ _ => le_refl 0)⟩

/-- C5, evaluated: the raw waypoints `(0,0),(1,0),(2,0),(2,1),(2,2)` simplify to
`(0,0),(1,0),(2,1)`, not to `(0,0),(2,0),(2,2)`: the point after each turn is kept instead of the
corner, and the last point is dropped. Whatever `GetSafeNormal` computes, neither the corner
`(2,0)` nor the last point `(2,2)` is in the result. -/
theorem SimplifyPath_scenarioD :
    SimplifyPath exactNormal scenarioD_Raw = [⟨0, 0, 0⟩, ⟨1, 0, 0⟩, ⟨2, 1, 0⟩] ∧
    SimplifyPath exactNormal scenarioD_Raw ≠ [⟨0, 0, 0⟩, ⟨2, 0, 0⟩, ⟨2, 2, 0⟩] ∧
    ∀ GetSafeNormal : FVector2D Int → FVector2D Int,
      (⟨2, 0, 0⟩ : FVector Int) ∉ SimplifyPath GetSafeNormal scenarioD_Raw ∧
      (⟨2, 2, 0⟩ : FVector Int) ∉ SimplifyPath GetSafeNormal scenarioD_Raw := by
  refine ⟨by decide, by decide, fun GetSafeNormal => ?_⟩
  simp only [scenarioD_Raw, SimplifyPath, SimplifyPath.loop, Int.reduceSub, ne_eq,
    not_true_eq_false, if_false]
  split_ifs <;> decide

/-- C6: for every waypoint list (and whatever `GetSafeNormal` computes) `SimplifyPath` returns
exactly the list described: nothing for the empty list; otherwise `Raw[0]` followed, in order, by
each `Raw[i]`, `i ≥ 1`, whose normalized direction from `Raw[i-1]` differs from the normalized
direction of the preceding segment, taken as the zero vector for `i = 1`. -/
theorem SimplifyPath_refines_spec [Sub R] [Zero R] [DecidableEq R]
    (GetSafeNormal : FVector2D R → FVector2D R) (Raw : List (FVector R)) :
    SimplifyPath GetSafeNormal Raw = SimplifyPath_spec GetSafeNormal Raw :=
  SimplifyPath_eq_spec GetSafeNormal Raw

/-- C7, evaluated: simplifying the staircase `(0,0),(1,0),(1,1),(1,2),(2,2),(3,2),(3,3),(3,4)` gives
`(0,0),(1,0),(1,1),(2,2),(3,3)`, and simplifying that again drops `(3,3)`: the simplifier is not
idempotent. This happens for every `GetSafeNormal` that tells the directions `(1,0)`, `(0,1)`,
`(1,1)` and the zero vector apart as the engine does. -/
theorem SimplifyPath_not_idempotent :
    SimplifyPath exactNormal (SimplifyPath exactNormal staircase_Raw) ≠
      SimplifyPath exactNormal staircase_Raw ∧
    SimplifyPath exactNormal staircase_Raw =
      [⟨0, 0, 0⟩, ⟨1, 0, 0⟩, ⟨1, 1, 0⟩, ⟨2, 2, 0⟩, ⟨3, 3, 0⟩] ∧
    SimplifyPath exactNormal [⟨0, 0, 0⟩, ⟨1, 0, 0⟩, ⟨1, 1, 0⟩, ⟨2, 2, 0⟩, ⟨3, 3, 0⟩] =
      [⟨0, 0, 0⟩, ⟨1, 0, 0⟩, ⟨1, 1, 0⟩, ⟨2, 2, 0⟩] ∧
    ∀ N : FVector2D Int → FVector2D Int,
      N ⟨1, 0⟩ ≠ ⟨0, 0⟩ → N ⟨0, 1⟩ ≠ N ⟨1, 0⟩ → N ⟨1, 1⟩ ≠ N ⟨0, 1⟩ →
        SimplifyPath N (SimplifyPath N staircase_Raw) ≠ SimplifyPath N staircase_Raw := by
  refine ⟨by decide, by decide, by decide, fun N h1 h2 h3 => ?_⟩
  have h4 : N ⟨1, 0⟩ ≠ N ⟨0, 1⟩ := fun e => h2 e.symm
  have e1 : SimplifyPath N staircase_Raw =
      [⟨0, 0, 0⟩, ⟨1, 0, 0⟩, ⟨1, 1, 0⟩, ⟨2, 2, 0⟩, ⟨3, 3, 0⟩] := by
    simp [staircase_Raw, SimplifyPath, SimplifyPath.loop, h1, h2, h4]
  have e2 : SimplifyPath N [⟨0, 0, 0⟩, ⟨1, 0, 0⟩, ⟨1, 1, 0⟩, ⟨2, 2, 0⟩, ⟨3, 3, 0⟩] =
      [⟨0, 0, 0⟩, ⟨1, 0, 0⟩, ⟨1, 1, 0⟩, ⟨2, 2, 0⟩] := by
    simp [SimplifyPath, SimplifyPath.loop, h1, h2, h3]
  rw [e1, e2]
  decide

/-- C8: when the target node is unwalkable the search returns the empty waypoint list with
`success = false`, and it does so before anything else happens: the open list and the closed set
are still empty, the cancel flag has not been read, and the node fields are exactly as the reset
loop left them (the start node's `GCost` has not been set to 0). -/
theorem FindPath_Internal_fails_at_once [Sub R] [Zero R] [DecidableEq R] (G : ANavGrid R)
    (GetSafeNormal : FVector2D R → FVector2D R) (F : NodeFields) (bShouldCancel : Nat → Bool)
    (StartNode TargetNode : NodePtr) (hw : G.GetWalkable TargetNode = false) :
    ∃ r, FindPath_Internal G GetSafeNormal F bShouldCancel StartNode TargetNode = some r ∧
      r.FinalWaypoints = [] ∧ r.bPathSuccess = false ∧ r.OpenList = [] ∧ r.ClosedSet = [] ∧
      r.Polls = 0 ∧ r.Fields = resetNodes G F :=
  ⟨_, FindPath_Internal_unwalkable G GetSafeNormal F bShouldCancel StartNode TargetNode hw,
    rfl, rfl, rfl, rfl, rfl, rfl⟩

theorem FindPath_Internal_fails_at_once_witness :
    pillarGrid.GetWalkable ⟨1, 1⟩ = false ∧
    ∃ r, FindPath_Internal pillarGrid exactNormal freshFields (fun _ => false) ⟨0, 0⟩ ⟨1, 1⟩ = some r ∧
      r.FinalWaypoints = [] ∧ r.bPathSuccess = false ∧ r.OpenList = [] ∧ r.ClosedSet = [] ∧
      r.Polls = 0 ∧ r.Fields = resetNodes pillarGrid freshFields :=
  ⟨by decide,
    FindPath_Internal_fails_at_once pillarGrid exactNormal freshFields (fun _ => false)
      ⟨0, 0⟩ ⟨1, 1⟩ (by decide)⟩

/-- C9: no partial result is returned. The launched task hands `([], false)` to the callback when
it finds the cancel flag set before starting. A search from a node of the grid returns under every
behaviour of the flag; whenever it reports failure its waypoint list is empty; and if a read of the
flag made by the main loop finds it set, the search stops at that read with `([], false)`. -/
theorem FindPath_Internal_no_partial_result [Sub R] [Zero R] [DecidableEq R] (G : ANavGrid R)
    (GetSafeNormal : FVector2D R → FVector2D R) (F : NodeFields) (bShouldCancel : Nat → Bool)
    (StartNode TargetNode : NodePtr) (hstart : G.InBounds StartNode) :
    StartFindPath_task G GetSafeNormal F true bShouldCancel StartNode TargetNode =
        some ([], false) ∧
    ∃ r, FindPath_Internal G GetSafeNormal F bShouldCancel StartNode TargetNode = some r ∧
      (r.bPathSuccess = false → r.FinalWaypoints = []) ∧
      ∀ k, bShouldCancel k = true → k < r.Polls →
        r.bPathSuccess = false ∧ r.FinalWaypoints = [] ∧ r.Polls = k + 1 := by
  refine ⟨rfl, ?_⟩
  obtain ⟨r, hr, _, hB, _, hD, _⟩ :=
    FindPath_Internal_facts G GetSafeNormal F bShouldCancel StartNode TargetNode hstart
  have hfail : r.bPathSuccess = false → r.FinalWaypoints = [] := by
    intro hb
    rw [hB, hb]
    simp
  refine ⟨r, hr, hfail, fun k hk hkp => ?_⟩
  obtain ⟨h1, h2⟩ := hD k hk hkp
  exact ⟨h1, hfail h1, h2⟩

theorem FindPath_Internal_no_partial_result_witness :
    (openGrid 5 5).InBounds ⟨0, 0⟩ ∧
    (StartFindPath_task (openGrid 5 5) exactNormal freshFields true (fun k => decide (k = 2))
        ⟨0, 0⟩ ⟨4, 4⟩ = some ([], false) ∧
    ∃ r, FindPath_Internal (openGrid 5 5) exactNormal freshFields (fun k => decide (k = 2))
        ⟨0, 0⟩ ⟨4, 4⟩ = some r ∧
      (r.bPathSuccess = false → r.FinalWaypoints = []) ∧
      ∀ k, (fun k => decide (k = 2)) k = true → k < r.Polls →
        r.bPathSuccess = false ∧ r.FinalWaypoints = [] ∧ r.Polls = k + 1) :=
  ⟨by decide,
    FindPath_Internal_no_partial_result (openGrid 5 5) exactNormal freshFields
      (fun k => decide (k = 2)) ⟨0, 0⟩ ⟨4, 4⟩ (by decide)⟩

/-- Scenario C, evaluated: on the open 5 x 5 grid, with the flag found set at the third read, the
search from `(0,0)` to `(4,4)` stops there and returns `([], false)`. -/
theorem FindPath_Internal_cancelled_midway :
    (FindPath_Internal (openGrid 5 5) exactNormal freshFields (fun k => decide (k = 2))
        ⟨0, 0⟩ ⟨4, 4⟩).map (fun r => (r.FinalWaypoints, r.bPathSuccess, r.Polls)) =
      some ([], false, 3) := by
  decide

/-- C10: on the 5 x 5 grid with every node walkable and every penalty 0, the search from `(0,0)` to
`(4,4)` with the cancel flag never set reports success, and the final `GCost` of the target is 56
(four diagonal steps of cost 14); this holds whatever the node fields held before and whatever
`GetSafeNormal` computes. -/
theorem FindPath_Internal_scenarioA (GetSafeNormal : FVector2D Int → FVector2D Int)
    (F : NodeFields) :
    ∃ r, FindPath_Internal (openGrid 5 5) GetSafeNormal F (fun _ => false) ⟨0, 0⟩ ⟨4, 4⟩ = some r ∧
      r.bPathSuccess = true ∧ r.Fields.GCost ⟨4, 4⟩ = 56 := by
  obtain ⟨r, hr, hA, _, _, _, hE⟩ :=
    FindPath_Internal_facts (openGrid 5 5) GetSafeNormal F (fun _ => false) ⟨0, 0⟩ ⟨4, 4⟩
      (by decide)
  have hp0 : (openGrid 5 5).IsPath ⟨0, 0⟩ ⟨4, 4⟩ [⟨0, 0⟩, ⟨1, 1⟩, ⟨2, 2⟩, ⟨3, 3⟩, ⟨4, 4⟩] := by
    refine ⟨rfl, rfl, ?_⟩
    simp only [List.chain'_cons, List.chain'_singleton, and_true]
    decide
  have hc0 : (openGrid 5 5).pathCost [⟨0, 0⟩, ⟨1, 1⟩, ⟨2, 2⟩, ⟨3, 3⟩, ⟨4, 4⟩] = 56 := by
    decide
  have hsucc : r.bPathSuccess = true := by
    cases hb : r.bPathSuccess with
    | true => rfl
    | false => exact absurd ⟨rfl, _, hp0⟩ (hE (fun _ => rfl) hb)
  refine ⟨r, hr, hsucc, ?_⟩
  obtain ⟨_, hg0, ⟨l, hl, _⟩, hopt⟩ := hA hsucc
  have hle := hopt (openGrid_penalties 5 5) _ (IsPath.walk hp0)
  rw [hc0] at hle
  obtain ⟨hp, hc⟩ := hl.isPath
  have hge := GetDistance_le_walk (openGrid_penalties 5 5) (IsPath.walk hp)
  rw [hc, hg0] at hge
  have hd : GetDistance ⟨0, 0⟩ ⟨4, 4⟩ = 56 := by decide
  omega

/-! ## The heuristic and the neighbourhood -/

theorem GetDistance_self (a : NodePtr) : GetDistance a a = 0 := by
  unfold GetDistance FMath_Abs
  simp

theorem GetDistance_comm (a b : NodePtr) : GetDistance a b = GetDistance b a := by
  have h1 := GetDistance_lower a b
  have h2 := GetDistance_lower b a
  have h3 := GetDistance_attained a b
  have h4 := GetDistance_attained b a
  omega

theorem GetDistance_kingStep {a b : NodePtr} (h : KingStep a b) :
    GetDistance a b = kingStepCost a b := by
  obtain ⟨hne, hx, hy⟩ := h
  rw [abs_le] at hx hy
  have hne1 : a.GridX ≠ b.GridX ∨ a.GridY ≠ b.GridY := by
    by_contra hcon
    push_neg at hcon
    apply hne
    cases a
    cases b
    simp only [NodePtr.mk.injEq]
    exact hcon
  unfold GetDistance FMath_Abs kingStepCost
  simp only []
  split_ifs <;> omega

theorem GetDistance_le_kingPathCost (p : List NodePtr) :
    ∀ a : NodePtr, List.Chain KingStep a p →
      GetDistance a ((a :: p).getLast (List.cons_ne_nil a p)) ≤ kingPathCost a p := by
  induction p with
  | nil =>
    intro a _
    simp only [List.getLast_singleton, kingPathCost]
    exact le_of_eq (GetDistance_self a)
  | cons b rest ih =>
    intro a hc
    rw [List.chain_cons] at hc
    have h1 := ih b hc.2
    have h2 := GetDistance_kingStep hc.1
    have h3 := GetDistance_triangle a b ((b :: rest).getLast (List.cons_ne_nil b rest))
    rw [List.getLast_cons (List.cons_ne_nil b rest)]
    simp only [kingPathCost]
    omega

theorem kingStep_of_mem_GetNeighbors (G : ANavGrid R) (a b : NodePtr) (h : b ∈ G.GetNeighbors a) :
    KingStep a b := by
  obtain ⟨DX, hDX, Dy, hDy, hn⟩ := (mem_GetNeighbors_iff G a b).mp h
  unfold ANavGrid.neighborAt at hn
  simp only [] at hn
  split_ifs at hn with h1
  simp only [Option.some.injEq] at hn
  subst hn
  simp only [List.mem_cons, List.mem_singleton, List.not_mem_nil, or_false] at hDX hDy
  refine ⟨?_, ?_, ?_⟩
  · intro hab
    have hx := congrArg NodePtr.GridX hab
    have hy := congrArg NodePtr.GridY hab
    simp only [] at hx hy
    omega
  · rw [abs_le]
    simp only []
    omega
  · rw [abs_le]
    simp only []
    omega

/-- Claim C11: `GetDistance` vanishes on equal nodes, is symmetric and satisfies the triangle
inequality; hence for every member `b` of `GetNeighbors a` and every target `t` the estimate at `a`
is at most the estimate at `b` plus `GetDistance a b` (which is the base cost 10 or 14 of that
step), and the estimate from `a` to the last node of any 8-connected sequence is at most the sum of
the base costs 10 (orthogonal) and 14 (diagonal) of its steps. -/
theorem GetDistance_consistent_admissible (G : ANavGrid R) (a b c : NodePtr) (p : List NodePtr) :
    GetDistance a a = 0 ∧
    GetDistance a b = GetDistance b a ∧
    GetDistance a c ≤ GetDistance a b + GetDistance b c ∧
    (b ∈ G.GetNeighbors a →
      GetDistance a b = kingStepCost a b ∧
      ∀ t : NodePtr, GetDistance a t ≤ GetDistance a b + GetDistance b t) ∧
    (List.Chain KingStep a p →
      GetDistance a ((a :: p).getLast (List.cons_ne_nil a p)) ≤ kingPathCost a p) :=
  ⟨GetDistance_self a, GetDistance_comm a b, GetDistance_triangle a b c,
    fun h => ⟨GetDistance_kingStep (kingStep_of_mem_GetNeighbors G a b h),
      fun t => GetDistance_triangle a b t⟩,
    fun hp => GetDistance_le_kingPathCost p a hp⟩

/-- The claim C11 read on the 3 by 3 open grid, from the corner `(0, 0)` through its neighbour
`(1, 1)` and along the sequence `(0, 0), (1, 1), (2, 1)`. -/
theorem GetDistance_consistent_admissible_witness :
    (⟨1, 1⟩ : NodePtr) ∈ (openGrid 3 3).GetNeighbors ⟨0, 0⟩ ∧
    List.Chain KingStep (⟨0, 0⟩ : NodePtr) [⟨1, 1⟩, ⟨2, 1⟩] ∧
    GetDistance ⟨0, 0⟩ ⟨2, 1⟩ ≤ GetDistance ⟨0, 0⟩ ⟨1, 1⟩ + GetDistance ⟨1, 1⟩ ⟨2, 1⟩ ∧
    GetDistance ⟨0, 0⟩ ⟨2, 1⟩ ≤ kingPathCost ⟨0, 0⟩ [⟨1, 1⟩, ⟨2, 1⟩] :=
  have hn : (⟨1, 1⟩ : NodePtr) ∈ (openGrid 3 3).GetNeighbors ⟨0, 0⟩ := by decide
  have hc : List.Chain KingStep (⟨0, 0⟩ : NodePtr) [⟨1, 1⟩, ⟨2, 1⟩] := by
    simp only [List.chain_cons, List.Chain.nil, and_true]
    decide
  have h := GetDistance_consistent_admissible (openGrid 3 3) ⟨0, 0⟩ ⟨1, 1⟩ ⟨2, 1⟩
    [⟨1, 1⟩, ⟨2, 1⟩]
  ⟨hn, hc, (h.2.2.2.1 hn).2 ⟨2, 1⟩, h.2.2.2.2 hc⟩

theorem neighborAt_eq_some (G : ANavGrid R) (n m : NodePtr) (DX Dy : Int) :
    G.neighborAt n DX Dy = some m ↔
      m = ⟨n.GridX + DX, n.GridY + Dy⟩ ∧ ¬ (DX = 0 ∧ Dy = 0) ∧ G.InBounds m ∧
      (DX ≠ 0 ∧ Dy ≠ 0 →
        G.bWalkable (n.GridX + DX) n.GridY = true ∧ G.bWalkable n.GridX (n.GridY + Dy) = true) := by
  unfold ANavGrid.neighborAt ANavGrid.InBounds
  simp only []
  split_ifs with h1 h2 h3
  · simp only [false_iff, not_and]
    intro _ h
    exact absurd h1.2 (h h1.1)
  · simp only [false_iff, not_and]
    intro hm _ hb
    subst hm
    simp only [] at hb
    omega
  · simp only [false_iff, not_and]
    intro _ _ _ hw
    obtain ⟨h4, h5, h6⟩ := h3
    have hw1 := hw ⟨h4, h5⟩
    rcases h6 with h6 | h6
    · rw [h6] at hw1
      exact absurd hw1.1 (by decide)
    · rw [h6] at hw1
      exact absurd hw1.2 (by decide)
  · simp only [Option.some.injEq]
    constructor
    · intro hm
      subst hm
      refine ⟨rfl, h1, ?_, ?_⟩
      · simp only []
        omega
      · intro hd
        simp only [not_and, not_or, Bool.not_eq_false] at h3
        exact h3 hd.1 hd.2
    · intro hm
      exact hm.1.symm

/-- The nine offsets in the order in which the double loop of `GetNeighbors` visits them. -/
theorem GetNeighbors_eq_filterMap (G : ANavGrid R) (n : NodePtr) :
    G.GetNeighbors n =
      ([(-1, -1), (-1, 0), (-1, 1), (0, -1), (0, 0), (0, 1), (1, -1), (1, 0), (1, 1)] :
        List (Int × Int)).filterMap fun d => G.neighborAt n d.1 d.2 := by
  unfold ANavGrid.GetNeighbors
  simp only [List.flatMap_cons, List.flatMap_nil, List.append_nil, List.filterMap_cons,
    List.filterMap_nil]
  cases G.neighborAt n (-1) (-1) <;> cases G.neighborAt n (-1) 0 <;>
    cases G.neighborAt n (-1) 1 <;> cases G.neighborAt n 0 (-1) <;>
    cases G.neighborAt n 0 0 <;> cases G.neighborAt n 0 1 <;> rfl

theorem neighborAt_zero (G : ANavGrid R) (n : NodePtr) : G.neighborAt n 0 0 = none := by
  unfold ANavGrid.neighborAt
  simp

theorem GetNeighbors_nodup (G : ANavGrid R) (n : NodePtr) : (G.GetNeighbors n).Nodup := by
  rw [GetNeighbors_eq_filterMap]
  apply List.Nodup.filterMap
  · intro d1 d2 m h1 h2
    rw [Option.mem_def, neighborAt_eq_some] at h1 h2
    have hx := congrArg NodePtr.GridX (h1.1.symm.trans h2.1)
    have hy := congrArg NodePtr.GridY (h1.1.symm.trans h2.1)
    simp only [] at hx hy
    apply Prod.ext
    · omega
    · omega
  · decide

theorem GetNeighbors_length_le (G : ANavGrid R) (n : NodePtr) : (G.GetNeighbors n).length ≤ 8 := by
  rw [GetNeighbors_eq_filterMap]
  simp only [List.filterMap_cons, List.filterMap_nil, neighborAt_zero]
  have h4 := @List.length_filterMap_le (Int × Int) NodePtr (fun d => G.neighborAt n d.1 d.2)
    [(-1, -1), (-1, 0), (-1, 1), (0, -1)]
  have h5 := @List.length_filterMap_le (Int × Int) NodePtr (fun d => G.neighborAt n d.1 d.2)
    [(0, 1), (1, -1), (1, 0), (1, 1)]
  have happ : ([(-1, -1), (-1, 0), (-1, 1), (0, -1), (0, 1), (1, -1), (1, 0), (1, 1)] :
      List (Int × Int)).filterMap (fun d => G.neighborAt n d.1 d.2) =
      ([(-1, -1), (-1, 0), (-1, 1), (0, -1)] : List (Int × Int)).filterMap
        (fun d => G.neighborAt n d.1 d.2) ++
      ([(0, 1), (1, -1), (1, 0), (1, 1)] : List (Int × Int)).filterMap
        (fun d => G.neighborAt n d.1 d.2) := by
    rw [← List.filterMap_append]
    rfl
  simp only [List.filterMap_cons, List.filterMap_nil] at happ h4 h5
  rw [happ, List.length_append]
  simp only [List.length_cons, List.length_nil] at h4 h5
  omega

/-- Claim C12: a cell `m` is in `GetNeighbors n` exactly when it is inside the grid, differs from
`n`, lies within one step of `n` in both coordinates and, if it is diagonal to `n`, the two cells
`(m.x, n.y)` and `(n.x, m.y)` are walkable; the list has no duplicates and at most 8 entries. -/
theorem GetNeighbors_characterised (G : ANavGrid R) (n m : NodePtr) :
    (m ∈ G.GetNeighbors n ↔
      G.InBounds m ∧ m ≠ n ∧ |m.GridX - n.GridX| ≤ 1 ∧ |m.GridY - n.GridY| ≤ 1 ∧
      (m.GridX ≠ n.GridX ∧ m.GridY ≠ n.GridY →
        G.bWalkable m.GridX n.GridY = true ∧ G.bWalkable n.GridX m.GridY = true)) ∧
    (G.GetNeighbors n).Nodup ∧ (G.GetNeighbors n).length ≤ 8 := by
  refine ⟨?_, GetNeighbors_nodup G n, GetNeighbors_length_le G n⟩
  rw [mem_GetNeighbors_iff]
  constructor
  · rintro ⟨DX, hDX, Dy, hDy, h⟩
    rw [neighborAt_eq_some] at h
    obtain ⟨hm, h0, hb, hw⟩ := h
    simp only [List.mem_cons, List.mem_singleton, List.not_mem_nil, or_false] at hDX hDy
    subst hm
    refine ⟨hb, ?_, ?_, ?_, ?_⟩
    · intro hmn
      have hx := congrArg NodePtr.GridX hmn
      have hy := congrArg NodePtr.GridY hmn
      simp only [] at hx hy
      omega
    · rw [abs_le]
      simp only []
      omega
    · rw [abs_le]
      simp only []
      omega
    · intro hd
      simp only [] at hd ⊢
      exact hw ⟨by omega, by omega⟩
  · rintro ⟨hb, hne, hx, hy, hw⟩
    rw [abs_le] at hx hy
    refine ⟨m.GridX - n.GridX, ?_, m.GridY - n.GridY, ?_, ?_⟩
    · simp only [List.mem_cons, List.mem_singleton, List.not_mem_nil, or_false]
      omega
    · simp only [List.mem_cons, List.mem_singleton, List.not_mem_nil, or_false]
      omega
    · rw [neighborAt_eq_some]
      have e1 : n.GridX + (m.GridX - n.GridX) = m.GridX := by omega
      have e2 : n.GridY + (m.GridY - n.GridY) = m.GridY := by omega
      rw [e1, e2]
      refine ⟨rfl, ?_, hb, ?_⟩
      · intro h0
        apply hne
        cases m
        cases n
        simp only [NodePtr.mk.injEq] at h0 ⊢
        omega
      · intro hd
        exact hw ⟨by omega, by omega⟩

/-! ## Building the grid -/

theorem TArray_SetNum_length {α : Type} (d : α) (A : List α) (n : Nat) :
    (TArray_SetNum d A n).length = n := by
  unfold TArray_SetNum
  simp only [List.length_append, List.length_take, List.length_replicate]
  omega

theorem GenerateNavGridNodes_cells (D Rad : ℚ) (T : FVector ℚ → FVector ℚ)
    (L : FVector ℚ → FVector ℚ → Option FHitResult) (x Y : Nat) :
    ∀ (m : Nat) (S : GridStore), m ≤ Y → x < S.Grid.length →
      (∃ row, S.Grid[x]? = some row ∧ row.length = Y) →
      let S1 := (List.range m).foldl (GenerateNavGridNodes.cell D Rad T L x) S
      S1.Grid.length = S.Grid.length ∧
      (∀ x1 : Nat, x1 ≠ x → S1.Grid[x1]? = S.Grid[x1]?) ∧
      (∃ row, S1.Grid[x]? = some row ∧ row.length = Y ∧
        ∀ y : Nat, y < m → row[y]? = some (GenerateNavGridNodes.node D Rad T L x y)) ∧
      S1.AllNodes =
        S.AllNodes ++ (List.range m).map fun (y : Nat) => NodePtr.mk (Int.ofNat x) (Int.ofNat y) := by
  intro m
  induction m with
  | zero =>
    intro S _ _ hrow
    obtain ⟨row, h1, h2⟩ := hrow
    simp only [List.range_zero, List.foldl_nil, List.map_nil, List.append_nil]
    exact ⟨trivial, fun _ _ => trivial, ⟨row, h1, h2, fun y hy => absurd hy (Nat.not_lt_zero y)⟩,
      trivial⟩
  | succ m ih =>
    intro S hm hx hrow
    obtain ⟨h1, h2, ⟨row, h3, h4, h5⟩, h6⟩ := ih S (by omega) hx hrow
    simp only [List.range_succ, List.foldl_append, List.foldl_cons, List.foldl_nil, List.map_append,
      List.map_cons, List.map_nil]
    generalize (List.range m).foldl (GenerateNavGridNodes.cell D Rad T L x) S = S1 at h1 h2 h3 h5 h6
    unfold GenerateNavGridNodes.cell
    simp only [List.length_set]
    refine ⟨h1, ?_, ?_, ?_⟩
    · intro x1 hx1
      rw [List.getElem?_set_ne (Ne.symm hx1)]
      exact h2 x1 hx1
    · have hget : S1.Grid.getD x [] = row := by
        rw [List.getD_eq_getElem?_getD, h3]
        rfl
      rw [hget]
      refine ⟨row.set m (GenerateNavGridNodes.node D Rad T L x m), ?_, ?_, ?_⟩
      · rw [List.getElem?_set_self (by omega)]
      · rw [List.length_set]
        exact h4
      · intro y hy
        by_cases hym : y = m
        · subst hym
          rw [List.getElem?_set_self (by omega)]
        · rw [List.getElem?_set_ne (Ne.symm hym)]
          exact h5 y (by omega)
    · rw [h6, List.append_assoc]

theorem GenerateNavGridNodes_rows (Y : Int) (D Rad : ℚ) (T : FVector ℚ → FVector ℚ)
    (L : FVector ℚ → FVector ℚ → Option FHitResult) :
    ∀ (k : Nat) (S : GridStore), k ≤ S.Grid.length →
      let S1 := (List.range k).foldl (GenerateNavGridNodes.row Y D Rad T L) S
      S1.Grid.length = S.Grid.length ∧
      (∀ x : Nat, x < k → ∃ row, S1.Grid[x]? = some row ∧ row.length = Y.toNat ∧
        ∀ y : Nat, y < Y.toNat → row[y]? = some (GenerateNavGridNodes.node D Rad T L x y)) ∧
      S1.AllNodes =
        S.AllNodes ++ (List.range k).flatMap fun (x : Nat) =>
          (List.range Y.toNat).map fun (y : Nat) => NodePtr.mk (Int.ofNat x) (Int.ofNat y) := by
  intro k
  induction k with
  | zero =>
    intro S _
    simp only [List.range_zero, List.foldl_nil, List.flatMap_nil, List.append_nil, true_and,
      and_true]
    exact fun x hx => absurd hx (Nat.not_lt_zero x)
  | succ k ih =>
    intro S hk
    obtain ⟨h1, h2, h3⟩ := ih S (by omega)
    simp only [List.range_succ, List.foldl_append, List.foldl_cons, List.foldl_nil,
      List.flatMap_append, List.flatMap_cons, List.flatMap_nil, List.append_nil]
    generalize (List.range k).foldl (GenerateNavGridNodes.row Y D Rad T L) S = S1 at h1 h2 h3
    unfold GenerateNavGridNodes.row
    simp only []
    have hc := GenerateNavGridNodes_cells D Rad T L k Y.toNat Y.toNat
      { S1 with
        Grid := S1.Grid.set k
          (TArray_SetNum FNavNodeInternal.zeroed (S1.Grid.getD k []) Y.toNat) }
      (le_refl _) (by simp only [List.length_set]; omega)
      ⟨_, List.getElem?_set_self (by omega), TArray_SetNum_length _ _ _⟩
    simp only [List.length_set] at hc
    obtain ⟨c1, c2, c3, c4⟩ := hc
    refine ⟨c1.trans h1, ?_, ?_⟩
    · intro x hx
      by_cases hxk : x = k
      · subst hxk
        exact c3
      · rw [c2 x hxk, List.getElem?_set_ne (Ne.symm hxk)]
        exact h2 x (by omega)
    · rw [c4, h3, List.append_assoc]

theorem GetAllNodes_length (G : ANavGrid R) :
    G.GetAllNodes.length = G.GridSizeX.toNat * G.GridSizeY.toNat := by
  unfold ANavGrid.GetAllNodes
  generalize G.GridSizeX.toNat = X
  induction X with
  | zero => simp
  | succ X ih =>
    rw [List.range_succ, List.flatMap_append, List.length_append, ih]
    simp only [List.flatMap_cons, List.flatMap_nil, List.append_nil, List.length_map,
      List.length_range]
    ring

theorem GetAllNodes_nodup (G : ANavGrid R) : G.GetAllNodes.Nodup := by
  unfold ANavGrid.GetAllNodes
  rw [List.nodup_flatMap]
  constructor
  · intro x _
    apply List.Nodup.map
    · intro y1 y2 h
      simp only [NodePtr.mk.injEq, Int.ofNat_eq_coe, Nat.cast_inj, true_and] at h
      exact h
    · exact List.nodup_range _
  · apply List.Pairwise.imp _ (List.nodup_range _)
    intro x1 x2 hne
    simp only [Function.onFun]
    rw [List.disjoint_left]
    intro p h1 h2
    simp only [List.mem_map] at h1 h2
    obtain ⟨y1, -, rfl⟩ := h1
    obtain ⟨y2, -, h⟩ := h2
    simp only [NodePtr.mk.injEq, Int.ofNat_eq_coe, Nat.cast_inj] at h
    exact hne h.1.symm

theorem PerformZTraceAndUpdateNode_keeps (L : FVector ℚ → FVector ℚ → Option FHitResult)
    (Node : FNavNodeInternal) :
    (PerformZTraceAndUpdateNode L Node).GridX = Node.GridX ∧
    (PerformZTraceAndUpdateNode L Node).GridY = Node.GridY ∧
    (PerformZTraceAndUpdateNode L Node).WorldPosition.X = Node.WorldPosition.X ∧
    (PerformZTraceAndUpdateNode L Node).WorldPosition.Y = Node.WorldPosition.Y ∧
    (PerformZTraceAndUpdateNode L Node).MovementPenalty = Node.MovementPenalty := by
  unfold PerformZTraceAndUpdateNode
  simp only []
  cases L _ _ with
  | none => exact ⟨rfl, rfl, rfl, rfl, rfl⟩
  | some Hit =>
    simp only []
    cases Hit.PhysMaterial with
    | none => exact ⟨rfl, rfl, rfl, rfl, rfl⟩
    | some SurfaceType =>
      simp only []
      split_ifs <;> exact ⟨rfl, rfl, rfl, rfl, rfl⟩

theorem GenerateNavGridNodes_node_fields (D Rad : ℚ) (T : FVector ℚ → FVector ℚ)
    (L : FVector ℚ → FVector ℚ → Option FHitResult) (x y : Nat) :
    (GenerateNavGridNodes.node D Rad T L x y).GridX = (x : Int) ∧
    (GenerateNavGridNodes.node D Rad T L x y).GridY = (y : Int) ∧
    (GenerateNavGridNodes.node D Rad T L x y).WorldPosition.X =
      (T ⟨(x : ℚ) * D + Rad, (y : ℚ) * D + Rad, 0⟩).X ∧
    (GenerateNavGridNodes.node D Rad T L x y).WorldPosition.Y =
      (T ⟨(x : ℚ) * D + Rad, (y : ℚ) * D + Rad, 0⟩).Y := by
  unfold GenerateNavGridNodes.node
  simp only []
  obtain ⟨h1, h2, h3, h4, -⟩ := PerformZTraceAndUpdateNode_keeps L
    (FNavNodeInternal.make true (T ⟨(x : ℚ) * D + Rad, (y : ℚ) * D + Rad, 0⟩) (Int.ofNat x)
      (Int.ofNat y) 0)
  exact ⟨h1, h2, h3, h4⟩

/-- The state after `ResetGrid` and `GenerateNavGridNodes`: every cell of `Grid` holds the node
generated for it, and `AllNodes` lists the cells x-major. -/
theorem GenerateNavGridNodes_spec (G : ANavGrid R) (D Rad : ℚ) (T : FVector ℚ → FVector ℚ)
    (L : FVector ℚ → FVector ℚ → Option FHitResult) (S0 : GridStore) :
    (∀ x y : Nat, x < G.GridSizeX.toNat → y < G.GridSizeY.toNat →
      (GenerateNavGridNodes G.GridSizeX G.GridSizeY D Rad T L (ResetGrid G.GridSizeX S0)).at? x y =
        some (GenerateNavGridNodes.node D Rad T L x y)) ∧
    (GenerateNavGridNodes G.GridSizeX G.GridSizeY D Rad T L (ResetGrid G.GridSizeX S0)).AllNodes =
      G.GetAllNodes := by
  have h := GenerateNavGridNodes_rows G.GridSizeY D Rad T L G.GridSizeX.toNat
    (ResetGrid G.GridSizeX S0)
    (by unfold ResetGrid; simp only [TArray_SetNum_length]; exact le_refl _)
  simp only [] at h
  obtain ⟨-, h2, h3⟩ := h
  constructor
  · intro x y hx hy
    obtain ⟨row, r1, -, r3⟩ := h2 x hx
    unfold GridStore.at? GenerateNavGridNodes
    rw [r1]
    exact r3 y hy
  · unfold GenerateNavGridNodes
    rw [h3]
    unfold ResetGrid ANavGrid.GetAllNodes
    simp only [List.nil_append]

/-- Claim C17: after `ResetGrid` followed by `GenerateNavGridNodes` on a grid of `GridSizeX` by
`GridSizeY`, `AllNodes` has exactly `GridSizeX * GridSizeY` entries; each of them points at a cell
`Grid[x][y]` with `0 <= x < GridSizeX` and `0 <= y < GridSizeY` whose node stores `GridX = x` and
`GridY = y`; and no two entries point at nodes with the same stored `(GridX, GridY)` pair. -/
theorem GenerateNavGridNodes_indexing (GridSizeX GridSizeY : Int) (hX : 0 ≤ GridSizeX)
    (hY : 0 ≤ GridSizeY) (NodeDiameter NodeRadius : ℚ) (TransformPosition : FVector ℚ → FVector ℚ)
    (LineTrace : FVector ℚ → FVector ℚ → Option FHitResult) (S0 : GridStore) :
    ((GenerateNavGridNodes GridSizeX GridSizeY NodeDiameter NodeRadius TransformPosition LineTrace
      (ResetGrid GridSizeX S0)).AllNodes.length : Int) = GridSizeX * GridSizeY ∧
    (∀ p ∈ (GenerateNavGridNodes GridSizeX GridSizeY NodeDiameter NodeRadius TransformPosition
        LineTrace (ResetGrid GridSizeX S0)).AllNodes,
      0 ≤ p.GridX ∧ p.GridX < GridSizeX ∧ 0 ≤ p.GridY ∧ p.GridY < GridSizeY ∧
      ∃ n, (GenerateNavGridNodes GridSizeX GridSizeY NodeDiameter NodeRadius TransformPosition
          LineTrace (ResetGrid GridSizeX S0)).at? p.GridX.toNat p.GridY.toNat = some n ∧
        n.GridX = p.GridX ∧ n.GridY = p.GridY) ∧
    List.Pairwise
      (fun p q : NodePtr => ∀ n m : FNavNodeInternal,
        (GenerateNavGridNodes GridSizeX GridSizeY NodeDiameter NodeRadius TransformPosition
          LineTrace (ResetGrid GridSizeX S0)).at? p.GridX.toNat p.GridY.toNat = some n →
        (GenerateNavGridNodes GridSizeX GridSizeY NodeDiameter NodeRadius TransformPosition
          LineTrace (ResetGrid GridSizeX S0)).at? q.GridX.toNat q.GridY.toNat = some m →
        (n.GridX, n.GridY) ≠ (m.GridX, m.GridY))
      (GenerateNavGridNodes GridSizeX GridSizeY NodeDiameter NodeRadius TransformPosition
        LineTrace (ResetGrid GridSizeX S0)).AllNodes := by
  let G : ANavGrid Unit :=
    ⟨GridSizeX, GridSizeY, fun _ _ => true, fun _ _ => 0, fun _ _ => ⟨(), (), ()⟩⟩
  obtain ⟨hat, hall⟩ :=
    GenerateNavGridNodes_spec G NodeDiameter NodeRadius TransformPosition LineTrace S0
  have hcell : ∀ p ∈ G.GetAllNodes,
      0 ≤ p.GridX ∧ p.GridX < GridSizeX ∧ 0 ≤ p.GridY ∧ p.GridY < GridSizeY ∧
      (GenerateNavGridNodes GridSizeX GridSizeY NodeDiameter NodeRadius TransformPosition
          LineTrace (ResetGrid GridSizeX S0)).at? p.GridX.toNat p.GridY.toNat =
        some (GenerateNavGridNodes.node NodeDiameter NodeRadius TransformPosition LineTrace
          p.GridX.toNat p.GridY.toNat) := by
    intro p hp
    obtain ⟨b1, b2, b3, b4⟩ := (mem_GetAllNodes G p).mp hp
    exact ⟨b1, b2, b3, b4,
      hat p.GridX.toNat p.GridY.toNat
        (Int.lt_toNat.mpr (by rw [Int.toNat_of_nonneg b1]; exact b2))
        (Int.lt_toNat.mpr (by rw [Int.toNat_of_nonneg b3]; exact b4))⟩
  rw [hall]
  refine ⟨?_, ?_, ?_⟩
  · rw [GetAllNodes_length]
    show ((GridSizeX.toNat * GridSizeY.toNat : Nat) : Int) = GridSizeX * GridSizeY
    rw [Nat.cast_mul, Int.toNat_of_nonneg hX, Int.toNat_of_nonneg hY]
  · intro p hp
    obtain ⟨b1, b2, b3, b4, b5⟩ := hcell p hp
    obtain ⟨f1, f2, -, -⟩ := GenerateNavGridNodes_node_fields NodeDiameter NodeRadius
      TransformPosition LineTrace p.GridX.toNat p.GridY.toNat
    refine ⟨b1, b2, b3, b4, _, b5, ?_, ?_⟩
    · rw [f1, Int.toNat_of_nonneg b1]
    · rw [f2, Int.toNat_of_nonneg b3]
  · have hnd := GetAllNodes_nodup G
    rw [List.Nodup] at hnd
    refine List.Pairwise.imp_of_mem ?_ hnd
    intro p q hp hq hpq n m hn hm heq
    obtain ⟨b1, -, b3, -, b5⟩ := hcell p hp
    obtain ⟨c1, -, c3, -, c5⟩ := hcell q hq
    rw [b5] at hn
    rw [c5] at hm
    obtain ⟨f1, f2, -, -⟩ := GenerateNavGridNodes_node_fields NodeDiameter NodeRadius
      TransformPosition LineTrace p.GridX.toNat p.GridY.toNat
    obtain ⟨g1, g2, -, -⟩ := GenerateNavGridNodes_node_fields NodeDiameter NodeRadius
      TransformPosition LineTrace q.GridX.toNat q.GridY.toNat
    simp only [Option.some.injEq] at hn hm
    subst hn
    subst hm
    rw [f1, f2, g1, g2, Int.toNat_of_nonneg b1, Int.toNat_of_nonneg b3, Int.toNat_of_nonneg c1,
      Int.toNat_of_nonneg c3] at heq
    apply hpq
    cases p
    cases q
    simp only [Prod.mk.injEq] at heq
    simp only [NodePtr.mk.injEq]
    exact heq

/-- The claim C17 read on a 2 by 3 grid over a level floor, created for the first time. -/
theorem GenerateNavGridNodes_indexing_witness :
    (0 : Int) ≤ 2 ∧ (0 : Int) ≤ 3 ∧
    ((GenerateNavGridNodes 2 3 200 100 id flatFloor
      (ResetGrid 2 GridStore.initial)).AllNodes.length : Int) = 2 * 3 :=
  ⟨by decide, by decide,
    (GenerateNavGridNodes_indexing 2 3 (by decide) (by decide) 200 100 id flatFloor
      GridStore.initial).1⟩

/-! ## Looking up a world point -/

theorem FMath_Clamp_bounds (X Min Max : Int) (h : Min ≤ Max) :
    Min ≤ FMath_Clamp X Min Max ∧ FMath_Clamp X Min Max ≤ Max := by
  unfold FMath_Clamp
  omega

/-- On the default grid (10 by 10 nodes of radius 100, `GridWorldSize` 2000 by 2000, the actor at
the identity transform) the node `Grid[0][0]` stores the indices `(0, 0)` and lies at
`(100, 100)`, and `GetNodeFromWorldPoint` resolves that position to `Grid[5][5]` (claim C13 asks
for `Grid[0][0]`). -/
theorem GetNodeFromWorldPoint_misses_node :
    ∃ n : FNavNodeInternal,
      (GenerateNavGridNodes 10 10 200 100 id noHit (ResetGrid 10 GridStore.initial)).at? 0 0 =
        some n ∧
      n.GridX = 0 ∧ n.GridY = 0 ∧ n.WorldPosition.X = 100 ∧ n.WorldPosition.Y = 100 ∧
      GetNodeFromWorldPoint ⟨2000, 2000⟩ 10 10 n.WorldPosition = ⟨5, 5⟩ := by
  let G : ANavGrid Unit := ⟨10, 10, fun _ _ => true, fun _ _ => 0, fun _ _ => ⟨(), (), ()⟩⟩
  obtain ⟨hat, -⟩ := GenerateNavGridNodes_spec G 200 100 id noHit GridStore.initial
  obtain ⟨f1, f2, f3, f4⟩ := GenerateNavGridNodes_node_fields 200 100 id noHit 0 0
  refine ⟨_, hat 0 0 (by decide) (by decide), f1, f2, ?_, ?_, ?_⟩
  · rw [f3]
    norm_num
  · rw [f4]
    norm_num
  · have hx : (GenerateNavGridNodes.node 200 100 id noHit 0 0).WorldPosition.X = 100 := by
      rw [f3]
      norm_num
    have hy : (GenerateNavGridNodes.node 200 100 id noHit 0 0).WorldPosition.Y = 100 := by
      rw [f4]
      norm_num
    have hfloor : ⌊((11 : ℚ) / 2)⌋ = 5 := by
      rw [Int.floor_eq_iff]
      constructor <;> norm_num
    have hne : ¬ (|(-2000 : ℚ) * (1 / 2) - 2000 * (1 / 2)| ≤ 1 / 100000000) := by
      norm_num [abs_le]
    have hper : FMath_ClampF ((100 - (-2000 : ℚ) * (1 / 2)) / (2000 * (1 / 2) - -2000 * (1 / 2))) 0 1
        * ((10 : Int) : ℚ) = 11 / 2 := by
      unfold FMath_ClampF
      norm_num
    unfold GetNodeFromWorldPoint InverseLerp FMath_IsNearlyEqual FMath_FloorToInt
    simp only [hx, hy, decide_eq_true_eq, hne, if_false, hper, hfloor]
    rfl

/-- Claim C14: for every world position and every grid with `GridSizeX >= 1` and
`GridSizeY >= 1`, whatever its `GridWorldSize`, the indices that `GetNodeFromWorldPoint` computes
satisfy `0 <= x < GridSizeX` and `0 <= y < GridSizeY`. -/
theorem GetNodeFromWorldPoint_inBounds (GridWorldSize : FVector2D ℚ) (GridSizeX GridSizeY : Int)
    (hX : 1 ≤ GridSizeX) (hY : 1 ≤ GridSizeY) (WorldPosition : FVector ℚ) :
    0 ≤ (GetNodeFromWorldPoint GridWorldSize GridSizeX GridSizeY WorldPosition).GridX ∧
    (GetNodeFromWorldPoint GridWorldSize GridSizeX GridSizeY WorldPosition).GridX < GridSizeX ∧
    0 ≤ (GetNodeFromWorldPoint GridWorldSize GridSizeX GridSizeY WorldPosition).GridY ∧
    (GetNodeFromWorldPoint GridWorldSize GridSizeX GridSizeY WorldPosition).GridY < GridSizeY := by
  unfold GetNodeFromWorldPoint
  simp only []
  have h1 := FMath_Clamp_bounds
    (FMath_FloorToInt (InverseLerp (-GridWorldSize.X * (1 / 2)) (GridWorldSize.X * (1 / 2))
      WorldPosition.X * (GridSizeX : ℚ))) 0 (GridSizeX - 1) (by omega)
  have h2 := FMath_Clamp_bounds
    (FMath_FloorToInt (InverseLerp (-GridWorldSize.Y * (1 / 2)) (GridWorldSize.Y * (1 / 2))
      WorldPosition.Y * (GridSizeY : ℚ))) 0 (GridSizeY - 1) (by omega)
  omega

/-- The claim C14 read on a 1 by 3 grid with a zero `GridWorldSize` and a position far outside. -/
theorem GetNodeFromWorldPoint_inBounds_witness :
    (1 : Int) ≤ 1 ∧ (1 : Int) ≤ 3 ∧
    0 ≤ (GetNodeFromWorldPoint ⟨0, 0⟩ 1 3 ⟨-70000, 90000, 5⟩).GridX ∧
    (GetNodeFromWorldPoint ⟨0, 0⟩ 1 3 ⟨-70000, 90000, 5⟩).GridX < 1 ∧
    0 ≤ (GetNodeFromWorldPoint ⟨0, 0⟩ 1 3 ⟨-70000, 90000, 5⟩).GridY ∧
    (GetNodeFromWorldPoint ⟨0, 0⟩ 1 3 ⟨-70000, 90000, 5⟩).GridY < 3 :=
  ⟨by decide, by decide,
    GetNodeFromWorldPoint_inBounds ⟨0, 0⟩ 1 3 (by decide) (by decide) ⟨-70000, 90000, 5⟩⟩

/-! ## Blurring the penalty map -/

theorem mem_intRange (lo hi x : Int) : x ∈ intRange lo hi ↔ lo ≤ x ∧ x ≤ hi := by
  unfold intRange
  simp only [List.mem_map, List.mem_range]
  constructor
  · rintro ⟨i, hi1, rfl⟩
    have := Int.lt_toNat.mp hi1
    omega
  · rintro ⟨h1, h2⟩
    refine ⟨(x - lo).toNat, Int.lt_toNat.mpr ?_, ?_⟩
    · rw [Int.toNat_of_nonneg (by omega)]
      omega
    · rw [Int.toNat_of_nonneg (by omega)]
      omega

theorem intRange_nodup (lo hi : Int) : (intRange lo hi).Nodup := by
  unfold intRange
  apply List.Nodup.map
  · intro i j h
    simp only [] at h
    omega
  · exact List.nodup_range _

theorem intRange_snoc (lo hi : Int) (h : lo ≤ hi + 1) :
    intRange lo (hi + 1) = intRange lo hi ++ [hi + 1] := by
  unfold intRange
  have e : (hi + 1 + 1 - lo).toNat = (hi + 1 - lo).toNat + 1 := by omega
  rw [e, List.range_succ, List.map_append, List.map_cons, List.map_nil]
  congr 2
  rw [Int.toNat_of_nonneg (by omega)]
  omega

theorem intRange_of_lt (lo hi : Int) (h : hi < lo) : intRange lo hi = [] := by
  unfold intRange
  have e : (hi + 1 - lo).toNat = 0 := by omega
  rw [e]
  rfl

theorem sum_range_shift (f : Nat → Int) (m : Nat) :
    ((List.range m).map fun i => f (i + 1)).sum = ((List.range m).map f).sum - f 0 + f m := by
  induction m with
  | zero => simp
  | succ m ih =>
    rw [List.range_succ, List.map_append, List.map_append, List.sum_append, List.sum_append, ih]
    simp only [List.map_cons, List.map_nil, List.sum_cons, List.sum_nil]
    omega

/-- Moving a window of radius `K` one step to the right drops its leftmost sample and takes in
one new sample on the right. -/
theorem window_shift (g : Int → Int) (K : Int) (hK : 0 ≤ K) (x : Int) :
    ((intRange (-K) K).map fun i => g (x + i)).sum =
      ((intRange (-K) K).map fun i => g (x - 1 + i)).sum - g (x - 1 - K) + g (x + K) := by
  unfold intRange
  simp only [List.map_map]
  have h := sum_range_shift (fun i => g (x - 1 - K + (i : Int))) (K + 1 - -K).toNat
  simp only [] at h
  have e1 : ((fun i => g (x + i)) ∘ fun (i : Nat) => -K + (i : Int)) =
      fun (i : Nat) => g (x - 1 - K + ((i + 1 : Nat) : Int)) := by
    funext i
    simp only [Function.comp]
    congr 1
    omega
  have e2 : ((fun i => g (x - 1 + i)) ∘ fun (i : Nat) => -K + (i : Int)) =
      fun (i : Nat) => g (x - 1 - K + (i : Int)) := by
    funext i
    simp only [Function.comp]
    congr 1
    omega
  rw [e1, e2, h]
  have e3 : x - 1 - K + (((K + 1 - -K).toNat : Nat) : Int) = x + K := by
    rw [Int.toNat_of_nonneg (by omega)]
    omega
  have e4 : x - 1 - K + ((0 : Nat) : Int) = x - 1 - K := by simp
  rw [e3, e4]

theorem setAt2_same (f : Int → Int → Int) (x y v : Int) : setAt2 f x y v x y = v := by
  unfold setAt2
  simp

theorem setAt2_apply (f : Int → Int → Int) (x y v a b : Int) :
    setAt2 f x y v a b = if a = x ∧ b = y then v else f a b := rfl

theorem FMath_Clamp_eq (X Min Max : Int) (h : Min ≤ Max) :
    FMath_Clamp X Min Max = max Min (min X Max) := by
  unfold FMath_Clamp
  omega

theorem seedH_foldl (K y : Int) (L : List Int) :
    ∀ S : BlurState,
      (L.foldl (BlurPenaltyMap.seedH K y) S).MovementPenalty = S.MovementPenalty ∧
      (L.foldl (BlurPenaltyMap.seedH K y) S).PenaltiesVerticalPass = S.PenaltiesVerticalPass ∧
      (L.foldl (BlurPenaltyMap.seedH K y) S).PenaltiesHorizontalPass =
        setAt2 S.PenaltiesHorizontalPass 0 y
          (S.PenaltiesHorizontalPass 0 y +
            (L.map fun x => S.MovementPenalty (FMath_Clamp x 0 K) y).sum) := by
  induction L with
  | nil =>
    intro S
    refine ⟨rfl, rfl, ?_⟩
    funext a b
    simp only [List.foldl_nil, List.map_nil, List.sum_nil, add_zero, setAt2_apply]
    split_ifs with h
    · rw [h.1, h.2]
    · rfl
  | cons x rest ih =>
    intro S
    obtain ⟨h1, h2, h3⟩ := ih (BlurPenaltyMap.seedH K y S x)
    rw [List.foldl_cons, h1, h2, h3]
    refine ⟨rfl, rfl, ?_⟩
    funext a b
    simp only [BlurPenaltyMap.seedH, setAt2_apply, List.map_cons, List.sum_cons, and_self, if_true]
    split_ifs
    · omega
    · rfl

theorem slideH_foldl (NX K y : Int) (t : Int → Int) (n : Nat) :
    ∀ S : BlurState, S.PenaltiesHorizontalPass 0 y = t 0 →
      (∀ x : Int, 1 ≤ x → x ≤ n →
        t x = t (x - 1) - S.MovementPenalty (FMath_Clamp (x - K - 1) 0 NX) y +
          S.MovementPenalty (FMath_Clamp (x + K) 0 (NX - 1)) y) →
      ((intRange 1 n).foldl (BlurPenaltyMap.slideH NX K y) S).MovementPenalty =
          S.MovementPenalty ∧
      ((intRange 1 n).foldl (BlurPenaltyMap.slideH NX K y) S).PenaltiesVerticalPass =
          S.PenaltiesVerticalPass ∧
      ∀ a b : Int, ((intRange 1 n).foldl (BlurPenaltyMap.slideH NX K y) S).PenaltiesHorizontalPass
          a b = if b = y ∧ 1 ≤ a ∧ a ≤ n then t a else S.PenaltiesHorizontalPass a b := by
  induction n with
  | zero =>
    intro S _ _
    rw [intRange_of_lt 1 ((0 : Nat) : Int) (by simp)]
    refine ⟨rfl, rfl, ?_⟩
    intro a b
    simp only [List.foldl_nil]
    split_ifs with h
    · exfalso
      have := h.2.2
      simp only [Nat.cast_zero] at this
      omega
    · rfl
  | succ n ih =>
    intro S h0 hrec
    obtain ⟨h1, h2, h3⟩ := ih S h0 (fun x hx1 hx2 => hrec x hx1 (by push_cast; omega))
    have e : ((n + 1 : Nat) : Int) = (n : Int) + 1 := by push_cast; rfl
    rw [e, intRange_snoc 1 n (by omega), List.foldl_append, List.foldl_cons, List.foldl_nil]
    generalize (intRange 1 n).foldl (BlurPenaltyMap.slideH NX K y) S = S1 at h1 h2 h3
    refine ⟨h1, h2, ?_⟩
    intro a b
    simp only [BlurPenaltyMap.slideH, setAt2_apply]
    have hprev : S1.PenaltiesHorizontalPass ((n : Int) + 1 - 1) y = t ((n : Int) + 1 - 1) := by
      rw [h3]
      by_cases hn : (1 : Int) ≤ (n : Int) + 1 - 1
      · rw [if_pos ⟨rfl, hn, by omega⟩]
      · rw [if_neg (fun h => hn h.2.1)]
        have e0 : (n : Int) + 1 - 1 = 0 := by omega
        rw [e0]
        exact h0
    by_cases hab : a = (n : Int) + 1 ∧ b = y
    · rw [if_pos hab, if_pos ⟨hab.2, by omega, by omega⟩, hab.1, hprev, h1]
      exact (hrec ((n : Int) + 1) (by omega) (by push_cast; omega)).symm
    · rw [if_neg hab, h3]
      by_cases hc : b = y ∧ 1 ≤ a ∧ a ≤ (n : Int)
      · rw [if_pos hc, if_pos ⟨hc.1, hc.2.1, by omega⟩]
      · rw [if_neg hc, if_neg]
        intro hd
        apply hc
        refine ⟨hd.1, hd.2.1, ?_⟩
        by_contra hlt
        apply hab
        exact ⟨by omega, hd.1⟩

/-- One row of the horizontal pass leaves in `PenaltiesHorizontalPass[a][y]` the sum over the
window of radius `K` around `a`, clamped to the grid. -/
theorem rowH_spec (NX K y : Int) (hK : 0 ≤ K) (hKX : K < NX) (S : BlurState)
    (h0 : S.PenaltiesHorizontalPass 0 y = 0) :
    (BlurPenaltyMap.rowH NX K S y).MovementPenalty = S.MovementPenalty ∧
    (BlurPenaltyMap.rowH NX K S y).PenaltiesVerticalPass = S.PenaltiesVerticalPass ∧
    ∀ a b : Int, (BlurPenaltyMap.rowH NX K S y).PenaltiesHorizontalPass a b =
      if b = y ∧ 0 ≤ a ∧ a < NX then
        ((intRange (-K) K).map fun i => S.MovementPenalty (max 0 (min (a + i) (NX - 1))) y).sum
      else S.PenaltiesHorizontalPass a b := by
  unfold BlurPenaltyMap.rowH
  obtain ⟨s1, s2, s3⟩ := seedH_foldl K y (intRange (-K) K) S
  generalize (intRange (-K) K).foldl (BlurPenaltyMap.seedH K y) S = S1 at s1 s2 s3
  have hseed : S1.PenaltiesHorizontalPass 0 y =
      ((intRange (-K) K).map fun i => S.MovementPenalty (max 0 (min (0 + i) (NX - 1))) y).sum := by
    rw [s3, setAt2_same, h0, zero_add]
    congr 1
    apply List.map_congr_left
    intro i hi
    rw [mem_intRange] at hi
    rw [FMath_Clamp_eq i 0 K hK]
    congr 1
    omega
  have hNX : NX - 1 = ((NX - 1).toNat : Int) := (Int.toNat_of_nonneg (by omega)).symm
  have hfold := slideH_foldl NX K y
    (fun a => ((intRange (-K) K).map fun i =>
      S.MovementPenalty (max 0 (min (a + i) (NX - 1))) y).sum) (NX - 1).toNat S1 hseed
    (by
      intro x hx1 hx2
      simp only []
      rw [window_shift (fun u => S.MovementPenalty (max 0 (min u (NX - 1))) y) K hK x, s1]
      have e1 : FMath_Clamp (x - K - 1) 0 NX = max 0 (min (x - 1 - K) (NX - 1)) := by
        unfold FMath_Clamp
        omega
      have e2 : FMath_Clamp (x + K) 0 (NX - 1) = max 0 (min (x + K) (NX - 1)) := by
        unfold FMath_Clamp
        omega
      rw [e1, e2])
  rw [← hNX] at hfold
  obtain ⟨f1, f2, f3⟩ := hfold
  refine ⟨f1.trans s1, f2.trans s2, ?_⟩
  intro a b
  rw [f3]
  by_cases hc : b = y ∧ 1 ≤ a ∧ a ≤ NX - 1
  · rw [if_pos hc, if_pos ⟨hc.1, by omega, by omega⟩]
  · rw [if_neg hc]
    by_cases hd : b = y ∧ 0 ≤ a ∧ a < NX
    · have ha : a = 0 := by
        by_contra hne
        exact hc ⟨hd.1, by omega, by omega⟩
      rw [if_pos hd, hd.1, ha]
      exact hseed
    · rw [if_neg hd, s3, setAt2_apply, if_neg]
      intro he
      apply hd
      exact ⟨he.2, by omega, by omega⟩

theorem rowH_foldl (NX K : Int) (hK : 0 ≤ K) (hKX : K < NX) (L : List Int) :
    ∀ S : BlurState, L.Nodup → (∀ y ∈ L, S.PenaltiesHorizontalPass 0 y = 0) →
      (L.foldl (BlurPenaltyMap.rowH NX K) S).MovementPenalty = S.MovementPenalty ∧
      (L.foldl (BlurPenaltyMap.rowH NX K) S).PenaltiesVerticalPass = S.PenaltiesVerticalPass ∧
      ∀ a b : Int, (L.foldl (BlurPenaltyMap.rowH NX K) S).PenaltiesHorizontalPass a b =
        if b ∈ L ∧ 0 ≤ a ∧ a < NX then
          ((intRange (-K) K).map fun i => S.MovementPenalty (max 0 (min (a + i) (NX - 1))) b).sum
        else S.PenaltiesHorizontalPass a b := by
  induction L with
  | nil =>
    intro S _ _
    refine ⟨rfl, rfl, ?_⟩
    intro a b
    simp only [List.foldl_nil, List.not_mem_nil, false_and, if_false]
  | cons y rest ih =>
    intro S hnd h0
    rw [List.nodup_cons] at hnd
    obtain ⟨r1, r2, r3⟩ := rowH_spec NX K y hK hKX S (h0 y (List.mem_cons_self y rest))
    have h0rest : ∀ y1 ∈ rest, (BlurPenaltyMap.rowH NX K S y).PenaltiesHorizontalPass 0 y1 = 0 := by
      intro y1 hy1
      rw [r3, if_neg]
      · exact h0 y1 (List.mem_cons_of_mem y hy1)
      · intro hc
        apply hnd.1
        rw [← hc.1]
        exact hy1
    obtain ⟨i1, i2, i3⟩ := ih (BlurPenaltyMap.rowH NX K S y) hnd.2 h0rest
    rw [List.foldl_cons]
    refine ⟨i1.trans r1, i2.trans r2, ?_⟩
    intro a b
    rw [i3, r1, r3]
    by_cases hb : b ∈ rest ∧ 0 ≤ a ∧ a < NX
    · rw [if_pos hb, if_pos ⟨List.mem_cons_of_mem y hb.1, hb.2⟩]
    · rw [if_neg hb]
      by_cases hy : b = y ∧ 0 ≤ a ∧ a < NX
      · rw [if_pos hy, if_pos ⟨by rw [hy.1]; exact List.mem_cons_self y rest, hy.2⟩, hy.1]
      · rw [if_neg hy, if_neg]
        intro hc
        rcases List.mem_cons.mp hc.1 with h | h
        · exact hy ⟨h, hc.2⟩
        · exact hb ⟨h, hc.2⟩

theorem seedV_foldl (K x : Int) (L : List Int) :
    ∀ S : BlurState,
      (L.foldl (BlurPenaltyMap.seedV K x) S).MovementPenalty = S.MovementPenalty ∧
      (L.foldl (BlurPenaltyMap.seedV K x) S).PenaltiesHorizontalPass = S.PenaltiesHorizontalPass ∧
      (L.foldl (BlurPenaltyMap.seedV K x) S).PenaltiesVerticalPass =
        setAt2 S.PenaltiesVerticalPass x 0
          (S.PenaltiesVerticalPass x 0 +
            (L.map fun y => S.PenaltiesHorizontalPass x (FMath_Clamp y 0 K)).sum) := by
  induction L with
  | nil =>
    intro S
    refine ⟨rfl, rfl, ?_⟩
    funext a b
    simp only [List.foldl_nil, List.map_nil, List.sum_nil, add_zero, setAt2_apply]
    split_ifs with h
    · rw [h.1, h.2]
    · rfl
  | cons y rest ih =>
    intro S
    obtain ⟨h1, h2, h3⟩ := ih (BlurPenaltyMap.seedV K x S y)
    rw [List.foldl_cons, h1, h2, h3]
    refine ⟨rfl, rfl, ?_⟩
    funext a b
    simp only [BlurPenaltyMap.seedV, setAt2_apply, List.map_cons, List.sum_cons, and_self, if_true]
    split_ifs
    · omega
    · rfl

theorem store_fields (KS x y : Int) (S : BlurState) :
    (BlurPenaltyMap.store KS x y S).PenaltiesHorizontalPass = S.PenaltiesHorizontalPass ∧
    (BlurPenaltyMap.store KS x y S).PenaltiesVerticalPass = S.PenaltiesVerticalPass ∧
    (BlurPenaltyMap.store KS x y S).MovementPenalty =
      setAt2 S.MovementPenalty x y
        (FMath_RoundToInt ((S.PenaltiesVerticalPass x y : ℚ) / ((KS * KS : Int) : ℚ))) :=
  ⟨rfl, rfl, rfl⟩

theorem slideV_fields (NY KS K x y : Int) (S : BlurState) :
    (BlurPenaltyMap.slideV NY KS K x S y).PenaltiesHorizontalPass = S.PenaltiesHorizontalPass ∧
    (BlurPenaltyMap.slideV NY KS K x S y).PenaltiesVerticalPass =
      setAt2 S.PenaltiesVerticalPass x y
        (S.PenaltiesVerticalPass x (y - 1) -
          S.PenaltiesHorizontalPass x (FMath_Clamp (y - K - 1) 0 NY) +
          S.PenaltiesHorizontalPass x (FMath_Clamp (y + K) 0 (NY - 1))) ∧
    (BlurPenaltyMap.slideV NY KS K x S y).MovementPenalty =
      setAt2 S.MovementPenalty x y
        (FMath_RoundToInt
          (((S.PenaltiesVerticalPass x (y - 1) -
            S.PenaltiesHorizontalPass x (FMath_Clamp (y - K - 1) 0 NY) +
            S.PenaltiesHorizontalPass x (FMath_Clamp (y + K) 0 (NY - 1)) : Int) : ℚ) /
          ((KS * KS : Int) : ℚ))) := by
  unfold BlurPenaltyMap.slideV
  simp only []
  split_ifs <;>
    exact ⟨rfl, rfl, by simp only [BlurPenaltyMap.store, setAt2_same]⟩

theorem slideV_foldl (NY KS K x : Int) (t : Int → Int) (n : Nat) :
    ∀ S : BlurState, S.PenaltiesVerticalPass x 0 = t 0 →
      (∀ y : Int, 1 ≤ y → y ≤ n →
        t y = t (y - 1) - S.PenaltiesHorizontalPass x (FMath_Clamp (y - K - 1) 0 NY) +
          S.PenaltiesHorizontalPass x (FMath_Clamp (y + K) 0 (NY - 1))) →
      ((intRange 1 n).foldl (BlurPenaltyMap.slideV NY KS K x) S).PenaltiesHorizontalPass =
          S.PenaltiesHorizontalPass ∧
      (∀ a b : Int, ((intRange 1 n).foldl (BlurPenaltyMap.slideV NY KS K x) S).PenaltiesVerticalPass
          a b = if a = x ∧ 1 ≤ b ∧ b ≤ n then t b else S.PenaltiesVerticalPass a b) ∧
      ∀ a b : Int, ((intRange 1 n).foldl (BlurPenaltyMap.slideV NY KS K x) S).MovementPenalty
          a b = if a = x ∧ 1 ≤ b ∧ b ≤ n then
            FMath_RoundToInt ((t b : ℚ) / ((KS * KS : Int) : ℚ))
          else S.MovementPenalty a b := by
  induction n with
  | zero =>
    intro S _ _
    rw [intRange_of_lt 1 ((0 : Nat) : Int) (by simp)]
    have hno : ∀ a b : Int, ¬ (a = x ∧ 1 ≤ b ∧ b ≤ ((0 : Nat) : Int)) := by
      intro a b h
      have := h.2.2
      simp only [Nat.cast_zero] at this
      omega
    refine ⟨rfl, ?_, ?_⟩
    · intro a b
      rw [if_neg (hno a b)]
      rfl
    · intro a b
      rw [if_neg (hno a b)]
      rfl
  | succ n ih =>
    intro S h0 hrec
    obtain ⟨h1, h2, h3⟩ := ih S h0 (fun y hy1 hy2 => hrec y hy1 (by push_cast; omega))
    have e : ((n + 1 : Nat) : Int) = (n : Int) + 1 := by push_cast; rfl
    rw [e, intRange_snoc 1 n (by omega), List.foldl_append, List.foldl_cons, List.foldl_nil]
    generalize (intRange 1 n).foldl (BlurPenaltyMap.slideV NY KS K x) S = S1 at h1 h2 h3
    obtain ⟨f1, f2, f3⟩ := slideV_fields NY KS K x ((n : Int) + 1) S1
    have hprev : S1.PenaltiesVerticalPass x ((n : Int) + 1 - 1) = t ((n : Int) + 1 - 1) := by
      rw [h2]
      by_cases hn : (1 : Int) ≤ (n : Int) + 1 - 1
      · rw [if_pos ⟨rfl, hn, by omega⟩]
      · rw [if_neg (fun h => hn h.2.1)]
        have e0 : (n : Int) + 1 - 1 = 0 := by omega
        rw [e0]
        exact h0
    have hnew : S1.PenaltiesVerticalPass x ((n : Int) + 1 - 1) -
        S1.PenaltiesHorizontalPass x (FMath_Clamp ((n : Int) + 1 - K - 1) 0 NY) +
        S1.PenaltiesHorizontalPass x (FMath_Clamp ((n : Int) + 1 + K) 0 (NY - 1)) =
        t ((n : Int) + 1) := by
      rw [hprev, h1]
      exact (hrec ((n : Int) + 1) (by omega) (by push_cast; omega)).symm
    rw [hnew] at f2 f3
    have hcase : ∀ a b : Int, ¬ (a = x ∧ b = (n : Int) + 1) →
        ((a = x ∧ 1 ≤ b ∧ b ≤ (n : Int) + 1) ↔ (a = x ∧ 1 ≤ b ∧ b ≤ (n : Int))) := by
      intro a b hab
      constructor
      · intro hd
        refine ⟨hd.1, hd.2.1, ?_⟩
        by_contra hlt
        exact hab ⟨hd.1, by omega⟩
      · intro hd
        exact ⟨hd.1, hd.2.1, by omega⟩
    refine ⟨f1.trans h1, ?_, ?_⟩
    · intro a b
      rw [f2, setAt2_apply]
      by_cases hab : a = x ∧ b = (n : Int) + 1
      · rw [if_pos hab, if_pos ⟨hab.1, by omega, by omega⟩, hab.2]
      · rw [if_neg hab, h2]
        simp only [hcase a b hab]
    · intro a b
      rw [f3, setAt2_apply]
      by_cases hab : a = x ∧ b = (n : Int) + 1
      · rw [if_pos hab, if_pos ⟨hab.1, by omega, by omega⟩, hab.2]
      · rw [if_neg hab, h3]
        simp only [hcase a b hab]

/-- One column of the vertical pass leaves in `PenaltiesVerticalPass[x][b]` the sum of the
horizontal sums over the window of radius `K` around `b`, clamped to the grid, and stores its
rounded quotient by `KS * KS` in `Grid[x][b]`. -/
theorem columnV_spec (NY KS K x : Int) (hK : 0 ≤ K) (hKY : K < NY) (S : BlurState)
    (h0 : S.PenaltiesVerticalPass x 0 = 0) :
    (BlurPenaltyMap.columnV NY KS K S x).PenaltiesHorizontalPass = S.PenaltiesHorizontalPass ∧
    (∀ a b : Int, (BlurPenaltyMap.columnV NY KS K S x).PenaltiesVerticalPass a b =
      if a = x ∧ 0 ≤ b ∧ b < NY then
        ((intRange (-K) K).map fun j =>
          S.PenaltiesHorizontalPass x (max 0 (min (b + j) (NY - 1)))).sum
      else S.PenaltiesVerticalPass a b) ∧
    ∀ a b : Int, (BlurPenaltyMap.columnV NY KS K S x).MovementPenalty a b =
      if a = x ∧ 0 ≤ b ∧ b < NY then
        FMath_RoundToInt
          ((((intRange (-K) K).map fun j =>
            S.PenaltiesHorizontalPass x (max 0 (min (b + j) (NY - 1)))).sum : Int) /
            ((KS * KS : Int) : ℚ))
      else S.MovementPenalty a b := by
  unfold BlurPenaltyMap.columnV
  obtain ⟨s1, s2, s3⟩ := seedV_foldl K x (intRange (-K) K) S
  generalize (intRange (-K) K).foldl (BlurPenaltyMap.seedV K x) S = S1 at s1 s2 s3
  have hseed : S1.PenaltiesVerticalPass x 0 =
      ((intRange (-K) K).map fun j =>
        S.PenaltiesHorizontalPass x (max 0 (min (0 + j) (NY - 1)))).sum := by
    rw [s3, setAt2_same, h0, zero_add]
    congr 1
    apply List.map_congr_left
    intro i hi
    rw [mem_intRange] at hi
    rw [FMath_Clamp_eq i 0 K hK]
    congr 1
    omega
  obtain ⟨t1, t2, t3⟩ := store_fields KS x 0 S1
  generalize BlurPenaltyMap.store KS x 0 S1 = S2 at t1 t2 t3
  have hNY : NY - 1 = ((NY - 1).toNat : Int) := (Int.toNat_of_nonneg (by omega)).symm
  have hfold := slideV_foldl NY KS K x
    (fun b => ((intRange (-K) K).map fun j =>
      S.PenaltiesHorizontalPass x (max 0 (min (b + j) (NY - 1)))).sum) (NY - 1).toNat S2
    (by rw [t2]; exact hseed)
    (by
      intro y hy1 hy2
      simp only []
      rw [window_shift (fun u => S.PenaltiesHorizontalPass x (max 0 (min u (NY - 1)))) K hK y,
        t1, s2]
      have e1 : FMath_Clamp (y - K - 1) 0 NY = max 0 (min (y - 1 - K) (NY - 1)) := by
        unfold FMath_Clamp
        omega
      have e2 : FMath_Clamp (y + K) 0 (NY - 1) = max 0 (min (y + K) (NY - 1)) := by
        unfold FMath_Clamp
        omega
      rw [e1, e2])
  rw [← hNY] at hfold
  obtain ⟨f1, f2, f3⟩ := hfold
  have hcase : ∀ a b : Int, ¬ (a = x ∧ 1 ≤ b ∧ b ≤ NY - 1) → (a = x ∧ 0 ≤ b ∧ b < NY) →
      a = x ∧ b = 0 := by
    intro a b hc hd
    refine ⟨hd.1, ?_⟩
    by_contra hne
    exact hc ⟨hd.1, by omega, by omega⟩
  refine ⟨(f1.trans t1).trans s2, ?_, ?_⟩
  · intro a b
    rw [f2]
    by_cases hc : a = x ∧ 1 ≤ b ∧ b ≤ NY - 1
    · rw [if_pos hc, if_pos ⟨hc.1, by omega, by omega⟩]
    · rw [if_neg hc, t2]
      by_cases hd : a = x ∧ 0 ≤ b ∧ b < NY
      · obtain ⟨ha, hb⟩ := hcase a b hc hd
        rw [if_pos hd, ha, hb]
        exact hseed
      · rw [if_neg hd, s3, setAt2_apply, if_neg]
        intro he
        exact hd ⟨he.1, by omega, by omega⟩
  · intro a b
    rw [f3]
    by_cases hc : a = x ∧ 1 ≤ b ∧ b ≤ NY - 1
    · rw [if_pos hc, if_pos ⟨hc.1, by omega, by omega⟩]
    · rw [if_neg hc, t3, setAt2_apply]
      by_cases hd : a = x ∧ 0 ≤ b ∧ b < NY
      · obtain ⟨ha, hb⟩ := hcase a b hc hd
        rw [if_pos hd, if_pos ⟨ha, hb⟩, hb, hseed]
      · rw [if_neg hd, if_neg, s1]
        intro he
        exact hd ⟨he.1, by omega, by omega⟩

theorem columnV_foldl (NY KS K : Int) (hK : 0 ≤ K) (hKY : K < NY) (L : List Int) :
    ∀ S : BlurState, L.Nodup → (∀ x ∈ L, S.PenaltiesVerticalPass x 0 = 0) →
      (L.foldl (BlurPenaltyMap.columnV NY KS K) S).PenaltiesHorizontalPass =
        S.PenaltiesHorizontalPass ∧
      (∀ a b : Int, a ∉ L → (L.foldl (BlurPenaltyMap.columnV NY KS K) S).PenaltiesVerticalPass a b =
        S.PenaltiesVerticalPass a b) ∧
      ∀ a b : Int, (L.foldl (BlurPenaltyMap.columnV NY KS K) S).MovementPenalty a b =
        if a ∈ L ∧ 0 ≤ b ∧ b < NY then
          FMath_RoundToInt
            ((((intRange (-K) K).map fun j =>
              S.PenaltiesHorizontalPass a (max 0 (min (b + j) (NY - 1)))).sum : Int) /
              ((KS * KS : Int) : ℚ))
        else S.MovementPenalty a b := by
  induction L with
  | nil =>
    intro S _ _
    refine ⟨rfl, fun _ _ _ => rfl, ?_⟩
    intro a b
    simp only [List.foldl_nil, List.not_mem_nil, false_and, if_false]
  | cons x rest ih =>
    intro S hnd h0
    rw [List.nodup_cons] at hnd
    obtain ⟨r1, r2, r3⟩ := columnV_spec NY KS K x hK hKY S (h0 x (List.mem_cons_self x rest))
    have h0rest : ∀ x1 ∈ rest, (BlurPenaltyMap.columnV NY KS K S x).PenaltiesVerticalPass x1 0 = 0 := by
      intro x1 hx1
      rw [r2, if_neg]
      · exact h0 x1 (List.mem_cons_of_mem x hx1)
      · intro hc
        apply hnd.1
        rw [← hc.1]
        exact hx1
    obtain ⟨i1, i2, i3⟩ := ih (BlurPenaltyMap.columnV NY KS K S x) hnd.2 h0rest
    rw [List.foldl_cons]
    refine ⟨i1.trans r1, ?_, ?_⟩
    · intro a b ha
      rw [i2 a b (fun h => ha (List.mem_cons_of_mem x h)), r2, if_neg]
      intro hc
      apply ha
      rw [hc.1]
      exact List.mem_cons_self x rest
    · intro a b
      rw [i3, r1, r3]
      by_cases hb : a ∈ rest ∧ 0 ≤ b ∧ b < NY
      · rw [if_pos hb, if_pos ⟨List.mem_cons_of_mem x hb.1, hb.2⟩]
      · rw [if_neg hb]
        by_cases hy : a = x ∧ 0 ≤ b ∧ b < NY
        · rw [if_pos hy, if_pos ⟨by rw [hy.1]; exact List.mem_cons_self x rest, hy.2⟩, hy.1]
        · rw [if_neg hy, if_neg]
          intro hc
          rcases List.mem_cons.mp hc.1 with h | h
          · exact hy ⟨h, hc.2⟩
          · exact hb ⟨h, hc.2⟩

theorem BlurPenaltyMap_eq_boxSum (G : ANavGrid R) (PenaltyMax PenaltyMin k : Int)
    (hk : 0 ≤ k) (hkX : k < G.GridSizeX) (hkY : k < G.GridSizeY) (x y : Int)
    (hx : 0 ≤ x ∧ x < G.GridSizeX) (hy : 0 ≤ y ∧ y < G.GridSizeY) :
    (BlurPenaltyMap G PenaltyMax PenaltyMin k).MovementPenalty x y =
      FMath_RoundToInt
        ((boxSum_spec G.GridSizeX G.GridSizeY k G.MovementPenalty x y : ℚ) /
          (((k * 2 + 1) * (k * 2 + 1) : Int) : ℚ)) := by
  unfold BlurPenaltyMap
  have hsz : ¬ (G.GridSizeX = 0 ∨ G.GridSizeY = 0) := by omega
  have hKE : Int.tdiv (k * 2 + 1 - 1) 2 = k := by
    have e : k * 2 + 1 - 1 = 2 * k := by ring
    rw [e]
    exact Int.mul_tdiv_cancel_left k (by decide)
  simp only [hsz, if_false, hKE]
  obtain ⟨a1, a2, a3⟩ := rowH_foldl G.GridSizeX k hk hkX (intRange 0 (G.GridSizeY - 1))
    { MovementPenalty := G.MovementPenalty, PenaltiesHorizontalPass := fun _ _ => 0,
      PenaltiesVerticalPass := fun _ _ => 0, PenaltyMax := PenaltyMax, PenaltyMin := PenaltyMin,
      Indexed := [] }
    (intRange_nodup _ _) (fun _ _ => rfl)
  generalize (intRange 0 (G.GridSizeY - 1)).foldl (BlurPenaltyMap.rowH G.GridSizeX k)
    { MovementPenalty := G.MovementPenalty, PenaltiesHorizontalPass := fun _ _ => 0,
      PenaltiesVerticalPass := fun _ _ => 0, PenaltyMax := PenaltyMax, PenaltyMin := PenaltyMin,
      Indexed := [] } = S1 at a1 a2 a3
  simp only [] at a1 a2 a3
  obtain ⟨-, -, b3⟩ := columnV_foldl G.GridSizeY (k * 2 + 1) k hk hkY
    (intRange 0 (G.GridSizeX - 1)) S1 (intRange_nodup _ _)
    (fun x1 _ => by rw [a2])
  rw [b3, if_pos ⟨(mem_intRange _ _ _).mpr ⟨hx.1, by omega⟩, hy⟩]
  congr 3
  unfold boxSum_spec
  congr 1
  apply List.map_congr_left
  intro j _
  rw [a3, if_pos ⟨(mem_intRange _ _ _).mpr ⟨by omega, by omega⟩, hx⟩]

/-- Claim C16: for a kernel radius `k` with `0 <= k < GridSizeX` and `k < GridSizeY`, the penalty
that `BlurPenaltyMap` stores at every cell `(x, y)` of the grid is `S / (2k+1)^2` rounded to the
nearest integer (which lies strictly less than 1/2 away), where `S` is the sum of the original
penalties over the window of radius `k` around `(x, y)` clamped to the grid. -/
theorem BlurPenaltyMap_refines_boxBlur (G : ANavGrid R) (PenaltyMax PenaltyMin k : Int)
    (hk : 0 ≤ k) (hkX : k < G.GridSizeX) (hkY : k < G.GridSizeY) (x y : Int)
    (hx : 0 ≤ x ∧ x < G.GridSizeX) (hy : 0 ≤ y ∧ y < G.GridSizeY) :
    (BlurPenaltyMap G PenaltyMax PenaltyMin k).MovementPenalty x y =
      boxBlur_spec G.GridSizeX G.GridSizeY k G.MovementPenalty x y ∧
    |(boxSum_spec G.GridSizeX G.GridSizeY k G.MovementPenalty x y : ℚ) / ((2 * (k : ℚ) + 1) ^ 2) -
      ((BlurPenaltyMap G PenaltyMax PenaltyMin k).MovementPenalty x y : ℚ)| < 1 / 2 := by
  have hcast : (((k * 2 + 1) * (k * 2 + 1) : Int) : ℚ) = (2 * (k : ℚ) + 1) ^ 2 := by
    push_cast
    ring
  have h1 : (BlurPenaltyMap G PenaltyMax PenaltyMin k).MovementPenalty x y =
      boxBlur_spec G.GridSizeX G.GridSizeY k G.MovementPenalty x y := by
    rw [BlurPenaltyMap_eq_boxSum G PenaltyMax PenaltyMin k hk hkX hkY x y hx hy, hcast]
    unfold boxBlur_spec FMath_RoundToInt
    rw [round_eq]
  refine ⟨h1, ?_⟩
  rw [h1]
  unfold boxBlur_spec
  generalize boxSum_spec G.GridSizeX G.GridSizeY k G.MovementPenalty x y = s
  have hD : (0 : ℚ) < (2 * (k : ℚ) + 1) ^ 2 := by
    have : (0 : ℚ) ≤ (k : ℚ) := by exact_mod_cast hk
    positivity
  have hle := abs_sub_round ((s : ℚ) / ((2 * (k : ℚ) + 1) ^ 2))
  rcases lt_or_eq_of_le hle with hlt | heq
  · exact hlt
  · exfalso
    generalize round ((s : ℚ) / ((2 * (k : ℚ) + 1) ^ 2)) = r at heq
    have hparity : ∀ e : Int, 2 * s - 2 * (r * ((k * 2 + 1) * (k * 2 + 1))) ≠
        e * ((2 * (k * k + k)) * 2 + 1) ∨ (e ≠ 1 ∧ e ≠ -1) := by
      intro e
      by_cases he : e = 1
      · left
        rw [he]
        omega
      · by_cases he1 : e = -1
        · left
          rw [he1]
          omega
        · right
          exact ⟨he, he1⟩
    have hq : (s : ℚ) / ((2 * (k : ℚ) + 1) ^ 2) - (r : ℚ) = 1 / 2 ∨
        (s : ℚ) / ((2 * (k : ℚ) + 1) ^ 2) - (r : ℚ) = -(1 / 2) := by
      rcases abs_cases ((s : ℚ) / ((2 * (k : ℚ) + 1) ^ 2) - (r : ℚ)) with h | h
      · left
        rw [← h.1]
        exact heq
      · right
        have := h.1
        linarith
    rcases hq with h | h
    · have h2 : (2 * s - 2 * (r * ((k * 2 + 1) * (k * 2 + 1))) : ℚ) =
          ((1 : Int) : ℚ) * ((2 * (k * k + k)) * 2 + 1) := by
        field_simp at h
        push_cast
        linarith
      have h3 : 2 * s - 2 * (r * ((k * 2 + 1) * (k * 2 + 1))) =
          (1 : Int) * ((2 * (k * k + k)) * 2 + 1) := by exact_mod_cast h2
      rcases hparity 1 with h4 | h4
      · exact h4 h3
      · exact h4.1 rfl
    · have h2 : (2 * s - 2 * (r * ((k * 2 + 1) * (k * 2 + 1))) : ℚ) =
          ((-1 : Int) : ℚ) * ((2 * (k * k + k)) * 2 + 1) := by
        field_simp at h
        push_cast
        linarith
      have h3 : 2 * s - 2 * (r * ((k * 2 + 1) * (k * 2 + 1))) =
          (-1 : Int) * ((2 * (k * k + k)) * 2 + 1) := by exact_mod_cast h2
      rcases hparity (-1) with h4 | h4
      · exact h4 h3
      · exact h4.2 rfl

/-- On a 1 by 1 grid with the default kernel radius `BlurPenaltySize = 2` the first loop of the
horizontal pass indexes `Grid[2][0]`, and the first loop of the vertical pass indexes
`PenaltiesHorizontalPass[0][2]`; both lie outside the 1 by 1 arrays (claim C15 asks for every
index to be inside). -/
theorem BlurPenaltyMap_indexes_outside :
    (BlurArray.Grid, (2 : Int), (0 : Int)) ∈
      (BlurPenaltyMap (penaltyGrid 1 1 fun _ _ => 0) 0 0 2).Indexed ∧
    ¬ IndexInBounds 1 1 (BlurArray.Grid, (2 : Int), (0 : Int)) ∧
    (BlurArray.PenaltiesHorizontalPass, (0 : Int), (2 : Int)) ∈
      (BlurPenaltyMap (penaltyGrid 1 1 fun _ _ => 0) 0 0 2).Indexed ∧
    ¬ IndexInBounds 1 1 (BlurArray.PenaltiesHorizontalPass, (0 : Int), (2 : Int)) := by
  decide

/-- The claim C16 read at the centre of a 3 by 3 grid with the penalties `x + 3 * y` and the
kernel radius 1. -/
theorem BlurPenaltyMap_refines_boxBlur_witness :
    (0 : Int) ≤ 1 ∧ (1 : Int) < 3 ∧
    (BlurPenaltyMap (penaltyGrid 3 3 fun x y => x + 3 * y) 0 0 1).MovementPenalty 1 1 =
      boxBlur_spec 3 3 1 (fun x y => x + 3 * y) 1 1 :=
  ⟨by decide, by decide,
    (BlurPenaltyMap_refines_boxBlur (penaltyGrid 3 3 fun x y => x + 3 * y) 0 0 1 (by decide)
      (by decide) (by decide) 1 1 (by decide) (by decide)).1⟩

/-! ## The heap -/

theorem keyLe_refl (a : Int × Int) : keyLe a a := by
  unfold keyLe
  omega

theorem keyLe_trans {a b c : Int × Int} (h1 : keyLe a b) (h2 : keyLe b c) : keyLe a c := by
  unfold keyLe at *
  omega

theorem keyLe_total (a b : Int × Int) : keyLe a b ∨ keyLe b a := by
  unfold keyLe
  omega

theorem keyLe_antisymm {a b : Int × Int} (h1 : keyLe a b) (h2 : keyLe b a) : a = b := by
  unfold keyLe at *
  apply Prod.ext <;> omega

theorem CompareWith_pos (F : NodeFields) (a b : NodePtr) :
    0 < CompareWith F a b ↔ ¬ keyLe (costKey F b) (costKey F a) := by
  unfold CompareWith keyLe costKey
  simp only []
  split_ifs <;> omega

theorem CompareWith_neg (F : NodeFields) (a b : NodePtr) :
    CompareWith F a b < 0 ↔ ¬ keyLe (costKey F a) (costKey F b) := by
  unfold CompareWith keyLe costKey
  simp only []
  split_ifs <;> omega

theorem setItem_apply (A : Int → Option NodePtr) (i : Int) (v : Option NodePtr) (j : Int) :
    setItem A i v j = if j = i then v else A j := rfl

theorem setAt_apply {α : Type} (f : NodePtr → α) (n : NodePtr) (v : α) (m : NodePtr) :
    setAt f n v m = if m = n then v else f m := rfl

theorem THeap.Has.index_eq {h : THeap} (hI : h.IndexInv) {i : Int} {x : NodePtr}
    (h0 : 0 ≤ i) (h1 : i < h.CurrentItemCount) (hx : h.Items i = some x) : h.HeapIndex x = i := by
  obtain ⟨y, hy, hyi⟩ := hI.2.2 i h0 h1
  rw [hx] at hy
  simp only [Option.some.injEq] at hy
  rw [hy]
  exact hyi

theorem THeap.has_of_slot {h : THeap} (hI : h.IndexInv) {i : Int} {x : NodePtr}
    (h0 : 0 ≤ i) (h1 : i < h.CurrentItemCount) (hx : h.Items i = some x) : h.Has x := by
  have hi := THeap.Has.index_eq hI h0 h1 hx
  unfold THeap.Has
  rw [hi]
  exact ⟨h0, h1, hx⟩

/-- What `Swap` does to a heap whose two items store their positions `a` and `b`. -/
theorem THeap.Swap_spec {h : THeap} (hI : h.IndexInv) {A B : NodePtr} {a b : Int}
    (ha : 0 ≤ a ∧ a < h.CurrentItemCount) (hb : 0 ≤ b ∧ b < h.CurrentItemCount)
    (hA : h.Items a = some A) (hB : h.Items b = some B) (hab : a ≠ b) :
    (h.Swap A B).CurrentItemCount = h.CurrentItemCount ∧
    (h.Swap A B).MaxHeapSize = h.MaxHeapSize ∧
    (∀ i, (h.Swap A B).Items i =
      if i = b then some A else if i = a then some B else h.Items i) ∧
    (∀ x, (h.Swap A B).HeapIndex x =
      if x = B then a else if x = A then b else h.HeapIndex x) ∧
    (h.Swap A B).IndexInv ∧
    (∀ x, (h.Swap A B).Has x ↔ h.Has x) ∧
    A ≠ B := by
  have hiA := THeap.Has.index_eq hI ha.1 ha.2 hA
  have hiB := THeap.Has.index_eq hI hb.1 hb.2 hB
  have hne : A ≠ B := by
    intro he
    rw [he] at hiA
    exact hab (hiA.symm.trans hiB)
  have hItems : ∀ i, (h.Swap A B).Items i =
      if i = b then some A else if i = a then some B else h.Items i := by
    intro i
    simp only [THeap.Swap, setItem_apply, hiA, hiB]
  have hIdx : ∀ x, (h.Swap A B).HeapIndex x =
      if x = B then a else if x = A then b else h.HeapIndex x := by
    intro x
    simp only [THeap.Swap, setAt_apply, hiA, hiB]
  have hslot : ∀ i : Int, 0 ≤ i → i < h.CurrentItemCount →
      ∃ x, (h.Swap A B).Items i = some x ∧ (h.Swap A B).HeapIndex x = i := by
    intro i h0 h1
    rw [hItems]
    by_cases e1 : i = b
    · refine ⟨A, by rw [if_pos e1], ?_⟩
      rw [hIdx, if_neg hne, if_pos rfl, e1]
    · by_cases e2 : i = a
      · refine ⟨B, by rw [if_neg e1, if_pos e2], ?_⟩
        rw [hIdx, if_pos rfl, e2]
      · obtain ⟨x, hx, hxi⟩ := hI.2.2 i h0 h1
        refine ⟨x, by rw [if_neg e1, if_neg e2, hx], ?_⟩
        have hxB : x ≠ B := by
          intro he
          rw [he] at hxi
          exact e1 (hxi.symm.trans hiB)
        have hxA : x ≠ A := by
          intro he
          rw [he] at hxi
          exact e2 (hxi.symm.trans hiA)
        rw [hIdx, if_neg hxB, if_neg hxA, hxi]
  have hInv : (h.Swap A B).IndexInv := ⟨hI.1, hI.2.1, hslot⟩
  refine ⟨rfl, rfl, hItems, hIdx, hInv, ?_, hne⟩
  intro x
  unfold THeap.Has
  rw [hIdx, hItems]
  show (0 ≤ _ ∧ _ < h.CurrentItemCount ∧ _) ↔ _
  by_cases e1 : x = B
  · subst e1
    simp only [if_true, hiB]
    constructor
    · intro _
      exact ⟨hb.1, hb.2, hB⟩
    · intro _
      exact ⟨ha.1, ha.2, if_neg hab⟩
  · by_cases e2 : x = A
    · subst e2
      simp only [if_neg e1, if_true, hiA]
      constructor
      · intro _
        exact ⟨ha.1, ha.2, hA⟩
      · intro _
        exact ⟨hb.1, hb.2, trivial⟩
    · simp only [if_neg e1, if_neg e2]
      constructor
      · rintro ⟨h0, h1, h2⟩
        refine ⟨h0, h1, ?_⟩
        by_cases e3 : h.HeapIndex x = b
        · rw [if_pos e3] at h2
          simp only [Option.some.injEq] at h2
          exact absurd h2.symm e2
        · rw [if_neg e3] at h2
          by_cases e4 : h.HeapIndex x = a
          · rw [if_pos e4] at h2
            simp only [Option.some.injEq] at h2
            exact absurd h2.symm e1
          · rw [if_neg e4] at h2
            exact h2
      · rintro ⟨h0, h1, h2⟩
        refine ⟨h0, h1, ?_⟩
        have e3 : h.HeapIndex x ≠ b := by
          intro he
          rw [he, hB] at h2
          simp only [Option.some.injEq] at h2
          exact e1 h2.symm
        have e4 : h.HeapIndex x ≠ a := by
          intro he
          rw [he, hA] at h2
          simp only [Option.some.injEq] at h2
          exact e2 h2.symm
        rw [if_neg e3, if_neg e4]
        exact h2

theorem THeap.SortUp_loop_swap (F : NodeFields) (Item : NodePtr) (fuel : Nat) (h : THeap)
    (i pi : Int) (P : NodePtr) (hi : i > 0) (hP : h.Items pi = some P)
    (hc : CompareWith F Item P > 0) :
    THeap.SortUp.loop F Item (fuel + 1) h i pi =
      THeap.SortUp.loop F Item fuel (h.Swap Item P) ((h.Swap Item P).HeapIndex Item)
        (Int.tdiv ((h.Swap Item P).HeapIndex Item - 1) 2) := by
  rw [THeap.SortUp.loop]
  simp only [hi, if_true, hP, hc]

theorem THeap.SortUp_loop_stop (F : NodeFields) (Item : NodePtr) (fuel : Nat) (h : THeap)
    (i pi : Int) (hstop : ¬ i > 0 ∨ ∃ P, h.Items pi = some P ∧ ¬ CompareWith F Item P > 0) :
    THeap.SortUp.loop F Item (fuel + 1) h i pi = h := by
  rw [THeap.SortUp.loop]
  rcases hstop with h0 | ⟨P, hP, hc⟩
  · simp only [h0, if_false]
  · by_cases hi : i > 0
    · simp only [hi, if_true, hP, hc, if_false]
    · simp only [hi, if_false]

/-- The loop of `SortUp` from a heap that stores its positions: it ends by itself, keeps the
positions stored and the contained items, and restores the heap order if only the item that is
sorted up was out of order with its parent. -/
theorem THeap.SortUp_loop_spec (F : NodeFields) (Item : NodePtr) :
    ∀ (fuel : Nat) (h : THeap) (i : Int), h.IndexInv → 0 ≤ i → i < h.CurrentItemCount →
      h.Items i = some Item → i < fuel →
      (THeap.SortUp.loop F Item fuel h i (Int.tdiv (i - 1) 2)).IndexInv ∧
      (THeap.SortUp.loop F Item fuel h i (Int.tdiv (i - 1) 2)).CurrentItemCount =
        h.CurrentItemCount ∧
      (THeap.SortUp.loop F Item fuel h i (Int.tdiv (i - 1) 2)).MaxHeapSize = h.MaxHeapSize ∧
      (∀ x, (THeap.SortUp.loop F Item fuel h i (Int.tdiv (i - 1) 2)).Has x ↔ h.Has x) ∧
      (∀ x, ¬ h.Has x →
        (THeap.SortUp.loop F Item fuel h i (Int.tdiv (i - 1) 2)).HeapIndex x = h.HeapIndex x) ∧
      (∀ fuel2 : Nat, i < fuel2 →
        THeap.SortUp.loop F Item fuel2 h i (Int.tdiv (i - 1) 2) =
          THeap.SortUp.loop F Item fuel h i (Int.tdiv (i - 1) 2)) ∧
      (h.OrderedBut F (fun j => j = i) →
        (∀ c x p, c < h.CurrentItemCount → (c - 1) / 2 = i → 1 ≤ i → h.Items c = some x →
          h.Items ((i - 1) / 2) = some p → keyLe (costKey F p) (costKey F x)) →
        (THeap.SortUp.loop F Item fuel h i (Int.tdiv (i - 1) 2)).Ordered F) := by
  intro fuel
  induction fuel with
  | zero =>
    intro h i _ h0 _ _ hf
    simp only [Nat.cast_zero] at hf
    omega
  | succ fuel ih =>
    intro h i hI h0 h1 hItem hf
    by_cases hi : i > 0
    · have hpi : Int.tdiv (i - 1) 2 = (i - 1) / 2 := Int.tdiv_eq_ediv (by omega) (by decide)
      rw [hpi]
      have hp0 : 0 ≤ (i - 1) / 2 := by omega
      have hp1 : (i - 1) / 2 < i := by omega
      obtain ⟨P, hP, hPi⟩ := hI.2.2 ((i - 1) / 2) hp0 (by omega)
      by_cases hc : CompareWith F Item P > 0
      · obtain ⟨s1, s2, s3, s4, s5, s6, s7⟩ :=
          THeap.Swap_spec hI ⟨h0, h1⟩ ⟨hp0, by omega⟩ hItem hP (by omega)
        have hidx : (h.Swap Item P).HeapIndex Item = (i - 1) / 2 := by
          rw [s4, if_neg s7, if_pos rfl]
        have hstep := THeap.SortUp_loop_swap F Item fuel h i ((i - 1) / 2) P hi hP hc
        rw [hidx] at hstep
        have hItem1 : (h.Swap Item P).Items ((i - 1) / 2) = some Item := by
          rw [s3, if_pos rfl]
        have hfuel : ((i - 1) / 2 : Int) < (fuel : Int) := by push_cast at hf; omega
        obtain ⟨r1, r2, r3, r4, r5, r6, r7⟩ :=
          ih (h.Swap Item P) ((i - 1) / 2) s5 hp0 (by rw [s1]; omega) hItem1 hfuel
        rw [hstep]
        refine ⟨r1, r2.trans s1, r3.trans s2, fun x => (r4 x).trans (s6 x), ?_, ?_, ?_⟩
        · intro x hx
          rw [r5 x (fun hh => hx ((s6 x).mp hh)), s4]
          have hxP : x ≠ P := by
            intro he
            apply hx
            rw [he]
            exact THeap.has_of_slot hI hp0 (by omega) hP
          have hxI : x ≠ Item := by
            intro he
            apply hx
            rw [he]
            exact THeap.has_of_slot hI h0 h1 hItem
          rw [if_neg hxP, if_neg hxI]
        · intro fuel2 hf2
          cases fuel2 with
          | zero =>
            simp only [Nat.cast_zero] at hf2
            omega
          | succ f2 =>
            have hstep2 := THeap.SortUp_loop_swap F Item f2 h i ((i - 1) / 2) P hi hP hc
            rw [hidx] at hstep2
            rw [hstep2]
            exact r6 f2 (by push_cast at hf2; omega)
        · intro hord hgrand
          have hIP : keyLe (costKey F Item) (costKey F P) := by
            rcases keyLe_total (costKey F Item) (costKey F P) with hk | hk
            · exact hk
            · exact absurd hk ((CompareWith_pos F Item P).mp hc)
          have hPpar : 1 ≤ (i - 1) / 2 → ∀ p, h.Items (((i - 1) / 2 - 1) / 2) = some p →
              keyLe (costKey F p) (costKey F P) := by
            intro hge p hp
            exact hord ((i - 1) / 2) hge (by omega) (by omega) P p hP hp
          apply r7
          · intro j hj1 hj2 hjs x p hx hp
            rw [s1] at hj2
            rw [s3] at hx hp
            have hjs1 : j ≠ (i - 1) / 2 := hjs
            rw [if_neg hjs1] at hx
            by_cases hji : j = i
            · rw [if_pos hji] at hx
              rw [hji, if_pos rfl] at hp
              simp only [Option.some.injEq] at hx hp
              rw [← hx, ← hp]
              exact hIP
            · rw [if_neg hji] at hx
              by_cases hq : (j - 1) / 2 = (i - 1) / 2
              · rw [if_pos hq] at hp
                simp only [Option.some.injEq] at hp
                rw [← hp]
                have := hord j hj1 hj2 hji x P hx (by rw [hq]; exact hP)
                exact keyLe_trans hIP this
              · rw [if_neg hq] at hp
                by_cases hq2 : (j - 1) / 2 = i
                · rw [if_pos hq2] at hp
                  simp only [Option.some.injEq] at hp
                  rw [← hp]
                  exact hgrand j x P hj2 hq2 (by omega) hx hP
                · rw [if_neg hq2] at hp
                  exact hord j hj1 hj2 hji x p hx hp
          · intro c x p hc1 hc2 hge hx hp
            rw [s1] at hc1
            rw [s3] at hx hp
            have hg1 : ((i - 1) / 2 - 1) / 2 ≠ (i - 1) / 2 := by omega
            have hg2 : ((i - 1) / 2 - 1) / 2 ≠ i := by omega
            rw [if_neg hg1, if_neg hg2] at hp
            have hcp : c ≠ (i - 1) / 2 := by omega
            rw [if_neg hcp] at hx
            have hpP := hPpar hge p hp
            by_cases hci : c = i
            · rw [if_pos hci] at hx
              simp only [Option.some.injEq] at hx
              rw [← hx]
              exact hpP
            · rw [if_neg hci] at hx
              have := hord c (by omega) hc1 hci x P hx (by rw [hc2]; exact hP)
              exact keyLe_trans hpP this
      · have hstop := THeap.SortUp_loop_stop F Item fuel h i ((i - 1) / 2)
          (Or.inr ⟨P, hP, hc⟩)
        rw [hstop]
        refine ⟨hI, rfl, rfl, fun _ => Iff.rfl, fun _ _ => rfl, ?_, ?_⟩
        · intro fuel2 hf2
          cases fuel2 with
          | zero =>
            simp only [Nat.cast_zero] at hf2
            omega
          | succ f2 =>
            exact THeap.SortUp_loop_stop F Item f2 h i ((i - 1) / 2) (Or.inr ⟨P, hP, hc⟩)
        · intro hord _
          intro j hj1 hj2 _ x p hx hp
          by_cases hji : j = i
          · rw [hji, hItem] at hx
            rw [hji, hP] at hp
            simp only [Option.some.injEq] at hx hp
            rw [← hx, ← hp]
            by_contra hk
            exact hc ((CompareWith_pos F Item P).mpr hk)
          · exact hord j hj1 hj2 hji x p hx hp
    · have hstop := THeap.SortUp_loop_stop F Item fuel h i (Int.tdiv (i - 1) 2) (Or.inl hi)
      rw [hstop]
      refine ⟨hI, rfl, rfl, fun _ => Iff.rfl, fun _ _ => rfl, ?_, ?_⟩
      · intro fuel2 hf2
        cases fuel2 with
        | zero =>
          simp only [Nat.cast_zero] at hf2
          omega
        | succ f2 =>
          exact THeap.SortUp_loop_stop F Item f2 h i (Int.tdiv (i - 1) 2) (Or.inl hi)
      · intro hord _
        intro j hj1 hj2 _ x p hx hp
        exact hord j hj1 hj2 (by omega) x p hx hp

theorem THeap.HighestPriorityIndex_spec (F : NodeFields) {h : THeap} (hI : h.IndexInv) (L : Int)
    (hL0 : 0 ≤ L) (hL : L < h.CurrentItemCount) :
    ∃ Best, (h.HighestPriorityIndex F L (L + 1) = L ∨ h.HighestPriorityIndex F L (L + 1) = L + 1) ∧
      h.HighestPriorityIndex F L (L + 1) < h.CurrentItemCount ∧
      h.Items (h.HighestPriorityIndex F L (L + 1)) = some Best ∧
      ∀ o O, (o = L ∨ o = L + 1) → o < h.CurrentItemCount → h.Items o = some O →
        keyLe (costKey F Best) (costKey F O) := by
  obtain ⟨Left, hLeft, -⟩ := hI.2.2 L hL0 hL
  unfold THeap.HighestPriorityIndex
  by_cases hR : L + 1 < h.CurrentItemCount
  · obtain ⟨Right, hRight, -⟩ := hI.2.2 (L + 1) (by omega) hR
    simp only [hR, if_true, hLeft, hRight]
    by_cases hc : CompareWith F Left Right < 0
    · simp only [hc, if_true]
      refine ⟨Right, Or.inr trivial, hR, hRight, ?_⟩
      intro o O ho _ hO
      rcases ho with ho | ho
      · rw [ho, hLeft] at hO
        simp only [Option.some.injEq] at hO
        rw [← hO]
        rcases keyLe_total (costKey F Right) (costKey F Left) with hk | hk
        · exact hk
        · exact absurd hk ((CompareWith_neg F Left Right).mp hc)
      · rw [ho, hRight] at hO
        simp only [Option.some.injEq] at hO
        rw [← hO]
        exact keyLe_refl _
    · simp only [hc, if_false]
      refine ⟨Left, Or.inl trivial, hL, hLeft, ?_⟩
      intro o O ho _ hO
      rcases ho with ho | ho
      · rw [ho, hLeft] at hO
        simp only [Option.some.injEq] at hO
        rw [← hO]
        exact keyLe_refl _
      · rw [ho, hRight] at hO
        simp only [Option.some.injEq] at hO
        rw [← hO]
        by_contra hk
        exact hc ((CompareWith_neg F Left Right).mpr hk)
  · simp only [hR, if_false]
    refine ⟨Left, Or.inl trivial, hL, hLeft, ?_⟩
    intro o O ho ho1 hO
    rcases ho with ho | ho
    · rw [ho, hLeft] at hO
      simp only [Option.some.injEq] at hO
      rw [← hO]
      exact keyLe_refl _
    · rw [ho] at ho1
      exact absurd ho1 hR

theorem THeap.SortDown_loop_swap (F : NodeFields) (Item : NodePtr) (fuel : Nat) (h : THeap)
    (Best : NodePtr) (hL : h.HeapIndex Item * 2 + 1 < h.CurrentItemCount)
    (hB : h.Items (h.HighestPriorityIndex F (h.HeapIndex Item * 2 + 1)
      (h.HeapIndex Item * 2 + 1 + 1)) = some Best)
    (hc : CompareWith F Item Best < 0) :
    THeap.SortDown.loop F Item (fuel + 1) h = THeap.SortDown.loop F Item fuel (h.Swap Item Best) := by
  rw [THeap.SortDown.loop]
  simp only [hL, if_true, hB, hc]

theorem THeap.SortDown_loop_stop (F : NodeFields) (Item : NodePtr) (fuel : Nat) (h : THeap)
    (hstop : ¬ h.HeapIndex Item * 2 + 1 < h.CurrentItemCount ∨
      ∃ Best, h.Items (h.HighestPriorityIndex F (h.HeapIndex Item * 2 + 1)
        (h.HeapIndex Item * 2 + 1 + 1)) = some Best ∧ ¬ CompareWith F Item Best < 0) :
    THeap.SortDown.loop F Item (fuel + 1) h = h := by
  rw [THeap.SortDown.loop]
  rcases hstop with h0 | ⟨Best, hB, hc⟩
  · simp only [h0, if_false]
  · by_cases hL : h.HeapIndex Item * 2 + 1 < h.CurrentItemCount
    · simp only [hL, if_true, hB, hc, if_false]
    · simp only [hL, if_false]

/-- The loop of `SortDown` from a heap that stores its positions: it ends by itself, keeps the
positions stored and the contained items, and restores the heap order if only the item that is
sorted down was out of order with its children. -/
theorem THeap.SortDown_loop_spec (F : NodeFields) (Item : NodePtr) :
    ∀ (fuel : Nat) (h : THeap) (i : Int), h.IndexInv → 0 ≤ i → i < h.CurrentItemCount →
      h.Items i = some Item → h.CurrentItemCount - i ≤ fuel →
      (THeap.SortDown.loop F Item fuel h).IndexInv ∧
      (THeap.SortDown.loop F Item fuel h).CurrentItemCount = h.CurrentItemCount ∧
      (THeap.SortDown.loop F Item fuel h).MaxHeapSize = h.MaxHeapSize ∧
      (∀ x, (THeap.SortDown.loop F Item fuel h).Has x ↔ h.Has x) ∧
      (∀ x, ¬ h.Has x → (THeap.SortDown.loop F Item fuel h).HeapIndex x = h.HeapIndex x) ∧
      (∀ fuel2 : Nat, h.CurrentItemCount - i ≤ fuel2 →
        THeap.SortDown.loop F Item fuel2 h = THeap.SortDown.loop F Item fuel h) ∧
      (h.OrderedBut F (fun j => (j - 1) / 2 = i) →
        (∀ c x p, c < h.CurrentItemCount → (c - 1) / 2 = i → 1 ≤ c → 1 ≤ i → h.Items c = some x →
          h.Items ((i - 1) / 2) = some p → keyLe (costKey F p) (costKey F x)) →
        (THeap.SortDown.loop F Item fuel h).Ordered F) := by
  intro fuel
  induction fuel with
  | zero =>
    intro h i _ h0 h1 _ hf
    simp only [Nat.cast_zero] at hf
    omega
  | succ fuel ih =>
    intro h i hI h0 h1 hItem hf
    have hidx : h.HeapIndex Item = i := THeap.Has.index_eq hI h0 h1 hItem
    by_cases hL : i * 2 + 1 < h.CurrentItemCount
    · obtain ⟨Best, hb, hb1, hB, hbest⟩ :=
        THeap.HighestPriorityIndex_spec F hI (i * 2 + 1) (by omega) hL
      generalize hbdef : h.HighestPriorityIndex F (i * 2 + 1) (i * 2 + 1 + 1) = b at hb hb1 hB
      by_cases hc : CompareWith F Item Best < 0
      · have hstep : ∀ f : Nat, THeap.SortDown.loop F Item (f + 1) h =
            THeap.SortDown.loop F Item f (h.Swap Item Best) := by
          intro f
          apply THeap.SortDown_loop_swap F Item f h Best
          · rw [hidx]; exact hL
          · rw [hidx, hbdef]; exact hB
          · exact hc
        obtain ⟨s1, s2, s3, s4, s5, s6, s7⟩ :=
          THeap.Swap_spec hI ⟨h0, h1⟩ ⟨by omega, hb1⟩ hItem hB (by omega)
        have hItem1 : (h.Swap Item Best).Items b = some Item := by
          rw [s3, if_pos rfl]
        have hfuel : (h.Swap Item Best).CurrentItemCount - b ≤ (fuel : Int) := by
          rw [s1]
          push_cast at hf
          omega
        obtain ⟨r1, r2, r3, r4, r5, r6, r7⟩ :=
          ih (h.Swap Item Best) b s5 (by omega) (by rw [s1]; exact hb1) hItem1 hfuel
        rw [hstep]
        refine ⟨r1, r2.trans s1, r3.trans s2, fun x => (r4 x).trans (s6 x), ?_, ?_, ?_⟩
        · intro x hx
          rw [r5 x (fun hh => hx ((s6 x).mp hh)), s4]
          have hxB : x ≠ Best := by
            intro he
            apply hx
            rw [he]
            exact THeap.has_of_slot hI (by omega) hb1 hB
          have hxI : x ≠ Item := by
            intro he
            apply hx
            rw [he]
            exact THeap.has_of_slot hI h0 h1 hItem
          rw [if_neg hxB, if_neg hxI]
        · intro fuel2 hf2
          cases fuel2 with
          | zero =>
            simp only [Nat.cast_zero] at hf2
            omega
          | succ f2 =>
            rw [hstep f2]
            apply r6 f2
            rw [s1]
            push_cast at hf2
            omega
        · intro hord hgrand
          have hBI : keyLe (costKey F Best) (costKey F Item) := by
            rcases keyLe_total (costKey F Best) (costKey F Item) with hk | hk
            · exact hk
            · exact absurd hk ((CompareWith_neg F Item Best).mp hc)
          apply r7
          · intro j hj1 hj2 hjs x p hx hp
            rw [s1] at hj2
            rw [s3] at hx hp
            have hjs1 : (j - 1) / 2 ≠ b := hjs
            rw [if_neg hjs1] at hp
            by_cases hjb : j = b
            · rw [if_pos hjb] at hx
              have hq : (j - 1) / 2 = i := by omega
              rw [if_pos hq] at hp
              simp only [Option.some.injEq] at hx hp
              rw [← hx, ← hp]
              exact hBI
            · rw [if_neg hjb] at hx
              by_cases hji : j = i
              · rw [if_pos hji] at hx
                have hq : (j - 1) / 2 ≠ i := by omega
                rw [if_neg hq] at hp
                simp only [Option.some.injEq] at hx
                rw [← hx]
                rw [hji] at hp
                exact hgrand b Best p hb1 (by omega) (by omega) (by omega) hB hp
              · rw [if_neg hji] at hx
                by_cases hq : (j - 1) / 2 = i
                · rw [if_pos hq] at hp
                  simp only [Option.some.injEq] at hp
                  rw [← hp]
                  exact hbest j x (by omega) hj2 hx
                · rw [if_neg hq] at hp
                  exact hord j hj1 hj2 hq x p hx hp
          · intro c x p hc1 hc2 hc3 hge hx hp
            rw [s1] at hc1
            rw [s3] at hx hp
            have hq : (b - 1) / 2 = i := by omega
            have hq1 : (b - 1) / 2 ≠ b := by omega
            rw [if_neg hq1, if_pos hq] at hp
            have hcb : c ≠ b := by omega
            have hci : c ≠ i := by omega
            rw [if_neg hcb, if_neg hci] at hx
            simp only [Option.some.injEq] at hp
            rw [← hp]
            exact hord c hc3 hc1 (by omega) x Best hx (by rw [hc2]; exact hB)
      · have hstop : ∀ f : Nat, THeap.SortDown.loop F Item (f + 1) h = h := by
          intro f
          apply THeap.SortDown_loop_stop F Item f h
          right
          refine ⟨Best, ?_, hc⟩
          rw [hidx, hbdef]
          exact hB
        rw [hstop]
        refine ⟨hI, rfl, rfl, fun _ => Iff.rfl, fun _ _ => rfl, ?_, ?_⟩
        · intro fuel2 hf2
          cases fuel2 with
          | zero =>
            simp only [Nat.cast_zero] at hf2
            omega
          | succ f2 => exact hstop f2
        · intro hord _
          intro j hj1 hj2 _ x p hx hp
          by_cases hq : (j - 1) / 2 = i
          · rw [hq, hItem] at hp
            simp only [Option.some.injEq] at hp
            rw [← hp]
            have h1 : keyLe (costKey F Item) (costKey F Best) := by
              by_contra hk
              exact hc ((CompareWith_neg F Item Best).mpr hk)
            exact keyLe_trans h1 (hbest j x (by omega) hj2 hx)
          · exact hord j hj1 hj2 hq x p hx hp
    · have hstop : ∀ f : Nat, THeap.SortDown.loop F Item (f + 1) h = h := by
        intro f
        apply THeap.SortDown_loop_stop F Item f h
        left
        rw [hidx]
        exact hL
      rw [hstop]
      refine ⟨hI, rfl, rfl, fun _ => Iff.rfl, fun _ _ => rfl, ?_, ?_⟩
      · intro fuel2 hf2
        cases fuel2 with
        | zero =>
          simp only [Nat.cast_zero] at hf2
          omega
        | succ f2 => exact hstop f2
      · intro hord _
        intro j hj1 hj2 _ x p hx hp
        exact hord j hj1 hj2 (by omega) x p hx hp

theorem THeap.SortUp_spec (F : NodeFields) (h : THeap) (Item : NodePtr) (hI : h.IndexInv)
    (hHas : h.Has Item) :
    (THeap.SortUp F h Item).IndexInv ∧
    (THeap.SortUp F h Item).CurrentItemCount = h.CurrentItemCount ∧
    (THeap.SortUp F h Item).MaxHeapSize = h.MaxHeapSize ∧
    (∀ x, (THeap.SortUp F h Item).Has x ↔ h.Has x) ∧
    (∀ x, ¬ h.Has x → (THeap.SortUp F h Item).HeapIndex x = h.HeapIndex x) ∧
    (h.OrderedBut F (fun j => j = h.HeapIndex Item) →
      (∀ c x p, c < h.CurrentItemCount → (c - 1) / 2 = h.HeapIndex Item → 1 ≤ h.HeapIndex Item →
        h.Items c = some x → h.Items ((h.HeapIndex Item - 1) / 2) = some p →
        keyLe (costKey F p) (costKey F x)) →
      (THeap.SortUp F h Item).Ordered F) := by
  obtain ⟨h0, h1, h2⟩ := hHas
  have hf : h.HeapIndex Item < ((h.HeapIndex Item).toNat + 1 : Nat) := by
    push_cast
    rw [Int.toNat_of_nonneg h0]
    omega
  obtain ⟨r1, r2, r3, r4, r5, -, r7⟩ :=
    THeap.SortUp_loop_spec F Item ((h.HeapIndex Item).toNat + 1) h (h.HeapIndex Item) hI h0 h1 h2 hf
  exact ⟨r1, r2, r3, r4, r5, r7⟩

theorem THeap.Ordered_of_but {F : NodeFields} {h : THeap} (ho : h.Ordered F) (skip : Int → Prop) :
    h.OrderedBut F skip :=
  fun j hj1 hj2 _ x p hx hp => ho j hj1 hj2 (fun hf => hf) x p hx hp

/-- A call of `Add` that passes its checks on a heap that stores its positions. -/
theorem THeap.Add_spec (F : NodeFields) (h : THeap) (Item : NodePtr) (hI : h.IndexInv)
    (hcap : h.CurrentItemCount < h.MaxHeapSize) (hidx : h.HeapIndex Item = -1) :
    ∃ h1, THeap.Add F h Item = Except.ok h1 ∧ h1.IndexInv ∧
      h1.CurrentItemCount = h.CurrentItemCount + 1 ∧ h1.MaxHeapSize = h.MaxHeapSize ∧
      (∀ x, h1.Has x ↔ (h.Has x ∨ x = Item)) ∧
      (∀ x, ¬ h.Has x → x ≠ Item → h1.HeapIndex x = h.HeapIndex x) ∧
      (h.Ordered F → h1.Ordered F) := by
  have hnot : ¬ h.Has Item := by
    intro hh
    have := hh.1
    omega
  let h2 : THeap :=
    { Items := setItem h.Items h.CurrentItemCount (some Item), CurrentItemCount := h.CurrentItemCount + 1,
      MaxHeapSize := h.MaxHeapSize, HeapIndex := setAt h.HeapIndex Item h.CurrentItemCount }
  have hAdd : THeap.Add F h Item = Except.ok (THeap.SortUp F h2 Item) := by
    unfold THeap.Add
    simp only [hcap, not_true_eq_false, if_false, hidx]
  have hI2 : h2.IndexInv := by
    refine ⟨by show 0 ≤ h.CurrentItemCount + 1; have := hI.1; omega,
      by show h.CurrentItemCount + 1 ≤ h.MaxHeapSize; omega, ?_⟩
    intro i hi0 hi1
    have hi1' : i < h.CurrentItemCount + 1 := hi1
    show ∃ x, setItem h.Items h.CurrentItemCount (some Item) i = some x ∧
      setAt h.HeapIndex Item h.CurrentItemCount x = i
    by_cases hic : i = h.CurrentItemCount
    · refine ⟨Item, ?_, ?_⟩
      · rw [setItem_apply, if_pos hic]
      · rw [setAt_apply, if_pos rfl, hic]
    · obtain ⟨x, hx, hxi⟩ := hI.2.2 i hi0 (by omega)
      refine ⟨x, ?_, ?_⟩
      · rw [setItem_apply, if_neg hic, hx]
      · have hxI : x ≠ Item := by
          intro he
          rw [he, hidx] at hxi
          omega
        rw [setAt_apply, if_neg hxI, hxi]
  have hidx2 : h2.HeapIndex Item = h.CurrentItemCount := by
    show setAt h.HeapIndex Item h.CurrentItemCount Item = h.CurrentItemCount
    rw [setAt_apply, if_pos rfl]
  have hHas2 : ∀ x, h2.Has x ↔ (h.Has x ∨ x = Item) := by
    intro x
    unfold THeap.Has
    show (0 ≤ setAt h.HeapIndex Item h.CurrentItemCount x ∧
      setAt h.HeapIndex Item h.CurrentItemCount x < h.CurrentItemCount + 1 ∧
      setItem h.Items h.CurrentItemCount (some Item)
        (setAt h.HeapIndex Item h.CurrentItemCount x) = some x) ↔ _
    by_cases hx : x = Item
    · subst hx
      simp only [setAt_apply, if_true, setItem_apply, or_true, and_true, iff_true]
      have := hI.1
      omega
    · simp only [setAt_apply, hx, if_false, setItem_apply, or_false]
      constructor
      · rintro ⟨a1, a2, a3⟩
        by_cases hc : h.HeapIndex x = h.CurrentItemCount
        · rw [if_pos hc] at a3
          simp only [Option.some.injEq] at a3
          exact absurd a3.symm hx
        · rw [if_neg hc] at a3
          exact ⟨a1, by omega, a3⟩
      · rintro ⟨a1, a2, a3⟩
        have hc : h.HeapIndex x ≠ h.CurrentItemCount := by omega
        rw [if_neg hc]
        exact ⟨a1, by omega, a3⟩
  have hItemHas : h2.Has Item := (hHas2 Item).mpr (Or.inr rfl)
  obtain ⟨r1, r2, r3, r4, r5, r6⟩ := THeap.SortUp_spec F h2 Item hI2 hItemHas
  refine ⟨_, hAdd, r1, r2, r3, fun x => (r4 x).trans (hHas2 x), ?_, ?_⟩
  · intro x hx hxI
    rw [r5 x (fun hh => by rcases (hHas2 x).mp hh with h' | h'; exact hx h'; exact hxI h')]
    show setAt h.HeapIndex Item h.CurrentItemCount x = h.HeapIndex x
    rw [setAt_apply, if_neg hxI]
  · intro hord
    apply r6
    · intro j hj1 hj2 hjs x p hx hp
      rw [hidx2] at hjs
      have hj2' : j < h.CurrentItemCount + 1 := hj2
      have hx' : setItem h.Items h.CurrentItemCount (some Item) j = some x := hx
      have hp' : setItem h.Items h.CurrentItemCount (some Item) ((j - 1) / 2) = some p := hp
      rw [setItem_apply, if_neg hjs] at hx'
      rw [setItem_apply, if_neg (by omega)] at hp'
      exact hord j hj1 (by omega) (fun hf => hf) x p hx' hp'
    · intro c x p hc1 hc2 hge _ _
      exfalso
      rw [hidx2] at hc2 hge
      have hc1' : c < h.CurrentItemCount + 1 := hc1
      omega

/-- A call of `RemoveFirst` on a non-empty heap that stores its positions. -/
theorem THeap.RemoveFirst_spec (F : NodeFields) (h : THeap) (hI : h.IndexInv)
    (hne : h.CurrentItemCount ≠ 0) :
    ∃ First h1, THeap.RemoveFirst F h = Except.ok (First, h1) ∧ h.Items 0 = some First ∧
      h1.IndexInv ∧ h1.CurrentItemCount = h.CurrentItemCount - 1 ∧
      h1.MaxHeapSize = h.MaxHeapSize ∧
      (∀ x, h1.Has x ↔ (h.Has x ∧ x ≠ First)) ∧
      h1.HeapIndex First = -1 ∧
      (∀ x, ¬ h.Has x → h1.HeapIndex x = h.HeapIndex x) ∧
      (h.Ordered F → h1.Ordered F) := by
  have hc0 := hI.1
  obtain ⟨First, hFirst, hFi⟩ := hI.2.2 0 (le_refl 0) (by omega)
  obtain ⟨Last, hLast, hLi⟩ := hI.2.2 (h.CurrentItemCount - 1) (by omega) (by omega)
  let hB : THeap :=
    { Items := setItem h.Items 0 (some Last), CurrentItemCount := h.CurrentItemCount - 1,
      MaxHeapSize := h.MaxHeapSize, HeapIndex := setAt h.HeapIndex Last 0 }
  let h3 : THeap := THeap.SortDown F hB Last
  let fin : THeap :=
    { Items := setItem h3.Items h3.CurrentItemCount none, CurrentItemCount := h3.CurrentItemCount,
      MaxHeapSize := h3.MaxHeapSize, HeapIndex := setAt h3.HeapIndex First (-1) }
  have hRF : THeap.RemoveFirst F h = Except.ok (First, fin) := by
    unfold THeap.RemoveFirst
    simp only [hne, if_false, hFirst, setItem_apply, if_true, hLast]
  have hBItems : ∀ i, hB.Items i = if i = 0 then some Last else h.Items i := fun i => rfl
  have hBIdx : ∀ x, hB.HeapIndex x = if x = Last then 0 else h.HeapIndex x := fun x => rfl
  have hBcount : hB.CurrentItemCount = h.CurrentItemCount - 1 := rfl
  have hIB : hB.IndexInv := by
    refine ⟨by rw [hBcount]; omega, by show h.CurrentItemCount - 1 ≤ h.MaxHeapSize; have := hI.2.1; omega, ?_⟩
    intro i hi0 hi1
    rw [hBcount] at hi1
    rw [hBItems]
    by_cases hi : i = 0
    · refine ⟨Last, by rw [if_pos hi], ?_⟩
      rw [hBIdx, if_pos rfl, hi]
    · obtain ⟨x, hx, hxi⟩ := hI.2.2 i hi0 (by omega)
      refine ⟨x, by rw [if_neg hi, hx], ?_⟩
      have hxL : x ≠ Last := by
        intro he
        rw [he, hLi] at hxi
        omega
      rw [hBIdx, if_neg hxL, hxi]
  have hHasB : ∀ x, hB.Has x ↔ (h.Has x ∧ x ≠ First) := by
    intro x
    unfold THeap.Has
    rw [hBIdx, hBcount, hBItems]
    by_cases hxL : x = Last
    · subst hxL
      simp only [if_true, hLi]
      constructor
      · rintro ⟨-, a2, -⟩
        refine ⟨⟨by omega, by omega, hLast⟩, ?_⟩
        intro he
        rw [he, hFi] at hLi
        omega
      · rintro ⟨-, a2⟩
        have hn : (0 : Int) < h.CurrentItemCount - 1 := by
          by_contra hcon
          have h0 : h.CurrentItemCount - 1 = 0 := by omega
          rw [h0, hFirst] at hLast
          simp only [Option.some.injEq] at hLast
          exact a2 hLast.symm
        exact ⟨le_refl 0, hn, trivial⟩
    · simp only [if_neg hxL]
      constructor
      · rintro ⟨a1, a2, a3⟩
        by_cases hz : h.HeapIndex x = 0
        · rw [if_pos hz] at a3
          simp only [Option.some.injEq] at a3
          exact absurd a3.symm hxL
        · rw [if_neg hz] at a3
          refine ⟨⟨a1, by omega, a3⟩, ?_⟩
          intro he
          rw [he] at hz
          exact hz hFi
      · rintro ⟨⟨a1, a2, a3⟩, a4⟩
        have hz : h.HeapIndex x ≠ 0 := by
          intro he
          rw [he, hFirst] at a3
          simp only [Option.some.injEq] at a3
          exact a4 a3.symm
        have hl : h.HeapIndex x ≠ h.CurrentItemCount - 1 := by
          intro he
          rw [he, hLast] at a3
          simp only [Option.some.injEq] at a3
          exact hxL a3.symm
        rw [if_neg hz]
        exact ⟨a1, by omega, a3⟩
  have h3spec : h3.IndexInv ∧ h3.CurrentItemCount = hB.CurrentItemCount ∧
      h3.MaxHeapSize = hB.MaxHeapSize ∧ (∀ x, h3.Has x ↔ hB.Has x) ∧
      (∀ x, ¬ hB.Has x → h3.HeapIndex x = hB.HeapIndex x) ∧
      (hB.OrderedBut F (fun j => (j - 1) / 2 = 0) → h3.Ordered F) := by
    by_cases hn : h.CurrentItemCount - 1 = 0
    · have e : h3 = hB := by
        show THeap.SortDown.loop F Last (h.CurrentItemCount - 1).toNat hB = hB
        rw [hn]
        rfl
      rw [e]
      refine ⟨hIB, rfl, rfl, fun _ => Iff.rfl, fun _ _ => rfl, ?_⟩
      intro _ j hj1 hj2 _ x p _ _
      rw [hBcount] at hj2
      omega
    · have hpos : (0 : Int) < hB.CurrentItemCount := by rw [hBcount]; omega
      obtain ⟨r1, r2, r3, r4, r5, -, r7⟩ :=
        THeap.SortDown_loop_spec F Last hB.CurrentItemCount.toNat hB 0 hIB (le_refl 0) hpos
          (by rw [hBItems, if_pos rfl])
          (by rw [Int.toNat_of_nonneg (by omega)]; omega)
      refine ⟨r1, r2, r3, r4, r5, ?_⟩
      intro hord
      apply r7 hord
      intro c x p _ _ _ hge
      omega
  obtain ⟨t1, t2, t3, t4, t5, t6⟩ := h3spec
  have hFnot : ¬ h3.Has First := by
    intro hh
    exact ((hHasB First).mp ((t4 First).mp hh)).2 rfl
  have hfinItems : ∀ i, i < h3.CurrentItemCount → fin.Items i = h3.Items i := by
    intro i hi
    show setItem h3.Items h3.CurrentItemCount none i = h3.Items i
    rw [setItem_apply, if_neg (by omega)]
  have hfinIdx : ∀ x, fin.HeapIndex x = if x = First then -1 else h3.HeapIndex x := fun x => rfl
  have hfinI : fin.IndexInv := by
    refine ⟨t1.1, t1.2.1, ?_⟩
    intro i hi0 hi1
    obtain ⟨x, hx, hxi⟩ := t1.2.2 i hi0 hi1
    refine ⟨x, by rw [hfinItems i hi1, hx], ?_⟩
    have hxF : x ≠ First := by
      intro he
      apply hFnot
      rw [← he]
      exact THeap.has_of_slot t1 hi0 hi1 hx
    rw [hfinIdx, if_neg hxF, hxi]
  have hfinHas : ∀ x, fin.Has x ↔ (h3.Has x ∧ x ≠ First) := by
    intro x
    by_cases hxF : x = First
    · subst hxF
      constructor
      · intro hh
        have := hh.1
        rw [hfinIdx, if_pos rfl] at this
        omega
      · intro hh
        exact absurd rfl hh.2
    · unfold THeap.Has
      rw [hfinIdx, if_neg hxF]
      show (_ ∧ h3.HeapIndex x < h3.CurrentItemCount ∧ _) ↔ _
      constructor
      · rintro ⟨a1, a2, a3⟩
        rw [hfinItems _ a2] at a3
        exact ⟨⟨a1, a2, a3⟩, hxF⟩
      · rintro ⟨⟨a1, a2, a3⟩, -⟩
        refine ⟨a1, a2, ?_⟩
        rw [hfinItems _ a2]
        exact a3
  refine ⟨First, fin, hRF, hFirst, hfinI, t2.trans hBcount, t3, ?_, ?_, ?_, ?_⟩
  · intro x
    rw [hfinHas, t4, hHasB]
    constructor
    · intro hh
      exact hh.1
    · intro hh
      exact ⟨hh, hh.2⟩
  · rw [hfinIdx, if_pos rfl]
  · intro x hx
    have hxF : x ≠ First := by
      intro he
      apply hx
      rw [he]
      exact THeap.has_of_slot hI (le_refl 0) (by omega) hFirst
    have hxL : x ≠ Last := by
      intro he
      apply hx
      rw [he]
      exact THeap.has_of_slot hI (by omega) (by omega) hLast
    rw [hfinIdx, if_neg hxF, t5 x (fun hh => hx ((hHasB x).mp hh).1), hBIdx, if_neg hxL]
  · intro hord
    have h3ord := t6 (by
      intro j hj1 hj2 hjs x p hx hp
      rw [hBcount] at hj2
      rw [hBItems, if_neg (by omega)] at hx
      rw [hBItems, if_neg hjs] at hp
      exact hord j hj1 (by omega) (fun hf => hf) x p hx hp)
    intro j hj1 hj2 _ x p hx hp
    have hj2' : j < h3.CurrentItemCount := hj2
    rw [hfinItems j hj2'] at hx
    rw [hfinItems _ (by omega)] at hp
    exact h3ord j hj1 hj2' (fun hf => hf) x p hx hp

/-- A call of `UpdateItem` on a contained item whose costs were lowered (or left as they were)
while the costs of the other contained items stayed the same. -/
theorem THeap.UpdateItem_spec (F F1 : NodeFields) (h : THeap) (Item : NodePtr) (hI : h.IndexInv)
    (hHas : h.Has Item) :
    ∃ h1, THeap.UpdateItem F1 h Item = Except.ok h1 ∧ h1.IndexInv ∧
      h1.CurrentItemCount = h.CurrentItemCount ∧ h1.MaxHeapSize = h.MaxHeapSize ∧
      (∀ x, h1.Has x ↔ h.Has x) ∧
      (∀ x, ¬ h.Has x → h1.HeapIndex x = h.HeapIndex x) ∧
      (h.Ordered F → (∀ x, h.Has x → x ≠ Item → costKey F1 x = costKey F x) →
        keyLe (costKey F1 Item) (costKey F Item) → h1.Ordered F1) := by
  obtain ⟨h0, h1, h2⟩ := hHas
  have hUp : THeap.UpdateItem F1 h Item = Except.ok (THeap.SortUp F1 h Item) := by
    unfold THeap.UpdateItem
    simp only [ge_iff_le, h0, not_true_eq_false, if_false, h1]
  obtain ⟨r1, r2, r3, r4, r5, r6⟩ := THeap.SortUp_spec F1 h Item hI ⟨h0, h1, h2⟩
  refine ⟨_, hUp, r1, r2, r3, r4, r5, ?_⟩
  intro hord hsame hlow
  have hkey : ∀ j x, 0 ≤ j → j < h.CurrentItemCount → j ≠ h.HeapIndex Item →
      h.Items j = some x → costKey F1 x = costKey F x := by
    intro j x hj0 hj1 hj hx
    apply hsame x (THeap.has_of_slot hI hj0 hj1 hx)
    intro he
    apply hj
    rw [← he]
    exact (THeap.Has.index_eq hI hj0 hj1 hx).symm
  apply r6
  · intro j hj1 hj2 hjs x p hx hp
    rw [hkey j x (by omega) hj2 hjs hx]
    by_cases hq : (j - 1) / 2 = h.HeapIndex Item
    · rw [hq, h2] at hp
      simp only [Option.some.injEq] at hp
      rw [← hp]
      exact keyLe_trans hlow
        (hord j hj1 hj2 (fun hf => hf) x Item hx (by rw [hq]; exact h2))
    · rw [hkey _ p (by omega) (by omega) hq hp]
      exact hord j hj1 hj2 (fun hf => hf) x p hx hp
  · intro c x p hc1 hc2 hge hx hp
    rw [hkey c x (by omega) hc1 (by omega) hx, hkey _ p (by omega) (by omega) (by omega) hp]
    have a1 := hord c (by omega) hc1 (fun hf => hf) x Item hx (by rw [hc2]; exact h2)
    have a2 := hord (h.HeapIndex Item) hge h1 (fun hf => hf) Item p h2 hp
    exact keyLe_trans a2 a1

/-- In a heap that stores its positions and is in heap order, the root has a priority at least
as high as every contained item. -/
theorem THeap.rootIsBest {F : NodeFields} {h : THeap} (hI : h.IndexInv) (ho : h.Ordered F) :
    h.RootIsBest F := by
  intro r hr
  have hslot : ∀ (n : Nat) (i : Int), i.toNat ≤ n → 0 ≤ i → i < h.CurrentItemCount →
      ∀ x, h.Items i = some x → keyLe (costKey F r) (costKey F x) := by
    intro n
    induction n with
    | zero =>
      intro i hn hi0 _ x hx
      have hi : i = 0 := by omega
      rw [hi, hr] at hx
      simp only [Option.some.injEq] at hx
      rw [hx]
      exact keyLe_refl _
    | succ n ih =>
      intro i hn hi0 hi1 x hx
      by_cases hi : i = 0
      · rw [hi, hr] at hx
        simp only [Option.some.injEq] at hx
        rw [hx]
        exact keyLe_refl _
      · obtain ⟨p, hp, -⟩ := hI.2.2 ((i - 1) / 2) (by omega) (by omega)
        have h1 := ih ((i - 1) / 2) (by omega) (by omega) (by omega) p hp
        have h2 := ho i (by omega) hi1 (fun hf => hf) x p hx hp
        exact keyLe_trans h1 h2
  intro x hx
  exact hslot (h.HeapIndex x).toNat (h.HeapIndex x) (le_refl _) hx.1 hx.2.1 x hx.2.2

theorem THeap.make_spec (InMaxHeapSize : Int) (HeapIndex : NodePtr → Int) (hM : 0 ≤ InMaxHeapSize)
    (F : NodeFields) :
    (THeap.make InMaxHeapSize HeapIndex).IndexInv ∧ (THeap.make InMaxHeapSize HeapIndex).Ordered F ∧
    ∀ x, ¬ (THeap.make InMaxHeapSize HeapIndex).Has x := by
  refine ⟨⟨le_refl 0, hM, ?_⟩, ?_, ?_⟩
  · intro i hi0 hi1
    have : i < 0 := hi1
    omega
  · intro j hj1 hj2
    have : j < 0 := hj2
    omega
  · intro x hx
    have h1 := hx.1
    have h2 : (THeap.make InMaxHeapSize HeapIndex).HeapIndex x < 0 := hx.2.1
    omega

theorem THeap.Add_ok {F : NodeFields} {h h1 : THeap} {Item : NodePtr}
    (hadd : THeap.Add F h Item = Except.ok h1) :
    h.CurrentItemCount < h.MaxHeapSize ∧ h.HeapIndex Item = -1 := by
  unfold THeap.Add at hadd
  by_cases hc : h.CurrentItemCount < h.MaxHeapSize
  · by_cases hi : h.HeapIndex Item = -1
    · exact ⟨hc, hi⟩
    · simp only [hc, not_true_eq_false, if_false, hi, not_false_eq_true, if_true] at hadd
      cases hadd
  · simp only [hc, not_false_eq_true, if_true] at hadd
    cases hadd

theorem THeap.RemoveFirst_ok {F : NodeFields} {h h1 : THeap} {First : NodePtr}
    (hrem : THeap.RemoveFirst F h = Except.ok (First, h1)) : h.CurrentItemCount ≠ 0 := by
  intro hc
  unfold THeap.RemoveFirst at hrem
  simp only [hc, if_true] at hrem
  cases hrem

theorem THeap.Ordered_congr {F F1 : NodeFields} {h : THeap} (hI : h.IndexInv)
    (hsame : ∀ x, h.Has x → costKey F1 x = costKey F x) (ho : h.Ordered F) : h.Ordered F1 := by
  intro j hj1 hj2 _ x p hx hp
  rw [hsame x (THeap.has_of_slot hI (by omega) hj2 hx),
    hsame p (THeap.has_of_slot hI (by omega) (by omega) hp)]
  exact ho j hj1 hj2 (fun hf => hf) x p hx hp

theorem THeap.Reach.ordered_inv {F : NodeFields} {h : THeap} (hr : THeap.Reach F h) :
    h.IndexInv ∧ h.Ordered F := by
  induction hr with
  | make F M HI hM =>
    obtain ⟨a1, a2, -⟩ := THeap.make_spec M HI hM F
    exact ⟨a1, a2⟩
  | outside _ hsame ih => exact ⟨ih.1, THeap.Ordered_congr ih.1 hsame ih.2⟩
  | add Item _ hadd ih =>
    obtain ⟨c1, c2⟩ := THeap.Add_ok hadd
    obtain ⟨h2, e, s1, -, -, -, -, s6⟩ := THeap.Add_spec _ _ Item ih.1 c1 c2
    rw [hadd] at e
    cases e
    exact ⟨s1, s6 ih.2⟩
  | removeFirst First _ hrem ih =>
    obtain ⟨First2, h2, e, -, s1, -, -, -, -, -, s7⟩ :=
      THeap.RemoveFirst_spec _ _ ih.1 (THeap.RemoveFirst_ok hrem)
    rw [hrem] at e
    cases e
    exact ⟨s1, s7 ih.2⟩
  | updateItem Item _ hHas hsame hlow hup ih =>
    obtain ⟨h2, e, s1, -, -, -, -, s6⟩ := THeap.UpdateItem_spec _ _ _ Item ih.1 hHas
    rw [hup] at e
    cases e
    exact ⟨s1, s6 ih.2 hsame hlow⟩

/-- Claim C18, amended: after any sequence of `Add`, `RemoveFirst` and `UpdateItem` calls, where
`UpdateItem` is called on a contained item after an external change that lowers its costs or
leaves them as they are, the root `Items[0]` of a non-empty heap is an item, and no contained item
has a lower fCost, or an equal fCost and a lower hCost, than the root. -/
theorem THeap_root_after_decreases (F : NodeFields) (h : THeap) (hr : THeap.Reach F h)
    (hne : h.CurrentItemCount ≠ 0) :
    ∃ r, h.Items 0 = some r ∧ ∀ x, h.Contains x = true →
      ¬ (F.GCost x + F.HCost x < F.GCost r + F.HCost r ∨
        (F.GCost x + F.HCost x = F.GCost r + F.HCost r ∧ F.HCost x < F.HCost r)) := by
  obtain ⟨hI, ho⟩ := hr.ordered_inv
  obtain ⟨r, hr0, -⟩ := hI.2.2 0 (le_refl 0) (by have := hI.1; omega)
  refine ⟨r, hr0, ?_⟩
  intro x hx
  unfold THeap.Contains at hx
  simp only [ge_iff_le, decide_eq_true_eq] at hx
  have hk := THeap.rootIsBest hI ho r hr0 x hx
  unfold keyLe costKey at hk
  simp only [] at hk
  omega

theorem heapOfTwo_reach (F : NodeFields) : THeap.Reach F (heapOfTwo F) := by
  have r0 : THeap.Reach F (THeap.make 4 fun _ => -1) := THeap.Reach.make F 4 _ (by decide)
  have e1 : THeap.Add F (THeap.make 4 fun _ => -1) ⟨0, 0⟩ =
      Except.ok (stateOf (THeap.Add F (THeap.make 4 fun _ => -1) ⟨0, 0⟩)) := rfl
  have r1 := THeap.Reach.add ⟨0, 0⟩ r0 e1
  have e2 : THeap.Add F (stateOf (THeap.Add F (THeap.make 4 fun _ => -1) ⟨0, 0⟩)) ⟨1, 0⟩ =
      Except.ok (heapOfTwo F) := rfl
  exact THeap.Reach.add ⟨1, 0⟩ r1 e2

theorem costsOf_two_key (g1 g2 g3 : Int) (x : NodePtr) (hx : x ≠ ⟨1, 0⟩) :
    costKey (costsOf [(⟨0, 0⟩, g1), (⟨1, 0⟩, g2)]) x =
      costKey (costsOf [(⟨0, 0⟩, g1), (⟨1, 0⟩, g3)]) x := by
  have hb : (x == (⟨1, 0⟩ : NodePtr)) = false := by
    rw [beq_eq_false_iff_ne]
    exact hx
  unfold costKey costsOf
  simp only [List.lookup, hb]

/-- The claim C18 as amended, read on the heap that holds the nodes `(0, 0)` (G cost 5) and
`(1, 0)` (G cost 7, lowered to 1 before `UpdateItem` is called for it). -/
theorem THeap_root_after_decreases_witness :
    THeap.Reach (costsOf [(⟨0, 0⟩, 5), (⟨1, 0⟩, 1)])
      (stateOf (THeap.UpdateItem (costsOf [(⟨0, 0⟩, 5), (⟨1, 0⟩, 1)])
        (heapOfTwo (costsOf [(⟨0, 0⟩, 5), (⟨1, 0⟩, 7)])) ⟨1, 0⟩)) ∧
    (stateOf (THeap.UpdateItem (costsOf [(⟨0, 0⟩, 5), (⟨1, 0⟩, 1)])
        (heapOfTwo (costsOf [(⟨0, 0⟩, 5), (⟨1, 0⟩, 7)])) ⟨1, 0⟩)).CurrentItemCount ≠ 0 ∧
    ∃ r, (stateOf (THeap.UpdateItem (costsOf [(⟨0, 0⟩, 5), (⟨1, 0⟩, 1)])
        (heapOfTwo (costsOf [(⟨0, 0⟩, 5), (⟨1, 0⟩, 7)])) ⟨1, 0⟩)).Items 0 = some r :=
  have r2 := heapOfTwo_reach (costsOf [(⟨0, 0⟩, 5), (⟨1, 0⟩, 7)])
  have r3 : THeap.Reach (costsOf [(⟨0, 0⟩, 5), (⟨1, 0⟩, 1)])
      (stateOf (THeap.UpdateItem (costsOf [(⟨0, 0⟩, 5), (⟨1, 0⟩, 1)])
        (heapOfTwo (costsOf [(⟨0, 0⟩, 5), (⟨1, 0⟩, 7)])) ⟨1, 0⟩)) :=
    THeap.Reach.updateItem ⟨1, 0⟩ r2 (by decide)
      (fun x _ hx => costsOf_two_key 5 1 7 x hx) (by decide) rfl
  have hne : (stateOf (THeap.UpdateItem (costsOf [(⟨0, 0⟩, 5), (⟨1, 0⟩, 1)])
      (heapOfTwo (costsOf [(⟨0, 0⟩, 5), (⟨1, 0⟩, 7)])) ⟨1, 0⟩)).CurrentItemCount ≠ 0 := by
    decide
  ⟨r3, hne, (THeap_root_after_decreases _ _ r3 hne).imp fun _ hr => hr.1⟩

/-- A heap of two nodes whose root `(0, 0)` has its G cost raised from 1 to 5 before `UpdateItem`
is called for it: `UpdateItem` leaves it at the root, although the contained node `(1, 0)` has the
lower fCost 2 (claim C18 asks for the root to be best after a raise as well). -/
theorem UpdateItem_after_increase_keeps_root :
    ∃ h3, THeap.UpdateItem (costsOf [(⟨0, 0⟩, 5), (⟨1, 0⟩, 2)])
        (heapOfTwo (costsOf [(⟨0, 0⟩, 1), (⟨1, 0⟩, 2)])) ⟨0, 0⟩ = Except.ok h3 ∧
      (heapOfTwo (costsOf [(⟨0, 0⟩, 1), (⟨1, 0⟩, 2)])).Contains ⟨0, 0⟩ = true ∧
      h3.CurrentItemCount = 2 ∧ h3.Items 0 = some ⟨0, 0⟩ ∧ h3.Contains ⟨1, 0⟩ = true ∧
      (costsOf [(⟨0, 0⟩, 5), (⟨1, 0⟩, 2)]).GCost ⟨1, 0⟩ +
          (costsOf [(⟨0, 0⟩, 5), (⟨1, 0⟩, 2)]).HCost ⟨1, 0⟩ <
        (costsOf [(⟨0, 0⟩, 5), (⟨1, 0⟩, 2)]).GCost ⟨0, 0⟩ +
          (costsOf [(⟨0, 0⟩, 5), (⟨1, 0⟩, 2)]).HCost ⟨0, 0⟩ := by
  refine ⟨_, rfl, ?_, ?_, ?_, ?_, ?_⟩ <;> decide

theorem THeap.Empty_foldl (L : List Int) :
    ∀ h : THeap,
      (L.foldl (fun (h : THeap) (i : Int) =>
          match h.Items i with
          | some Item => { h with HeapIndex := setAt h.HeapIndex Item (-1) }
          | none => h) h).Items = h.Items ∧
      (L.foldl (fun (h : THeap) (i : Int) =>
          match h.Items i with
          | some Item => { h with HeapIndex := setAt h.HeapIndex Item (-1) }
          | none => h) h).MaxHeapSize = h.MaxHeapSize ∧
      ∀ x, (L.foldl (fun (h : THeap) (i : Int) =>
          match h.Items i with
          | some Item => { h with HeapIndex := setAt h.HeapIndex Item (-1) }
          | none => h) h).HeapIndex x =
        if ∃ i ∈ L, h.Items i = some x then -1 else h.HeapIndex x := by
  induction L with
  | nil =>
    intro h
    refine ⟨rfl, rfl, ?_⟩
    intro x
    simp only [List.foldl_nil, List.not_mem_nil, false_and, exists_false, if_false]
  | cons i rest ih =>
    intro h
    rw [List.foldl_cons]
    cases hi : h.Items i with
    | none =>
      simp only []
      obtain ⟨a1, a2, a3⟩ := ih h
      refine ⟨a1, a2, ?_⟩
      intro x
      rw [a3]
      have e : (∃ j ∈ i :: rest, h.Items j = some x) ↔ ∃ j ∈ rest, h.Items j = some x := by
        constructor
        · rintro ⟨j, hj, hx⟩
          rcases List.mem_cons.mp hj with hji | hji
          · rw [hji, hi] at hx
            cases hx
          · exact ⟨j, hji, hx⟩
        · rintro ⟨j, hj, hx⟩
          exact ⟨j, List.mem_cons_of_mem i hj, hx⟩
      simp only [e]
    | some Item =>
      simp only []
      obtain ⟨a1, a2, a3⟩ := ih { h with HeapIndex := setAt h.HeapIndex Item (-1) }
      refine ⟨a1, a2, ?_⟩
      intro x
      rw [a3]
      simp only [setAt_apply]
      by_cases hr : ∃ j ∈ rest, h.Items j = some x
      · have hr2 : ∃ j ∈ i :: rest, h.Items j = some x := by
          obtain ⟨j, hj, hx⟩ := hr
          exact ⟨j, List.mem_cons_of_mem i hj, hx⟩
        rw [if_pos hr, if_pos hr2]
      · rw [if_neg hr]
        by_cases hx : x = Item
        · have hr2 : ∃ j ∈ i :: rest, h.Items j = some x :=
            ⟨i, List.mem_cons_self i rest, by rw [hi, hx]⟩
          rw [if_pos hx, if_pos hr2]
        · have hr2 : ¬ ∃ j ∈ i :: rest, h.Items j = some x := by
            rintro ⟨j, hj, hjx⟩
            rcases List.mem_cons.mp hj with hji | hji
            · rw [hji, hi] at hjx
              simp only [Option.some.injEq] at hjx
              exact hx hjx.symm
            · exact hr ⟨j, hji, hjx⟩
          rw [if_neg hx, if_neg hr2]

theorem THeap.mem_contained (h : THeap) (x : NodePtr) :
    x ∈ h.contained ↔ ∃ i ∈ intRange 0 (h.CurrentItemCount - 1), h.Items i = some x := by
  unfold THeap.contained
  simp only [List.mem_filterMap]

theorem THeap.mem_contained_iff {h : THeap} (hI : h.IndexInv) (x : NodePtr) :
    x ∈ h.contained ↔ h.Has x := by
  rw [THeap.mem_contained]
  constructor
  · rintro ⟨i, hi, hx⟩
    rw [mem_intRange] at hi
    exact THeap.has_of_slot hI hi.1 (by omega) hx
  · intro hx
    exact ⟨h.HeapIndex x, (mem_intRange _ _ _).mpr ⟨hx.1, by have := hx.2.1; omega⟩, hx.2.2⟩

/-- A call of `Empty` on a heap that stores its positions. -/
theorem THeap.Empty_spec (h : THeap) (hI : h.IndexInv) :
    h.Empty.IndexInv ∧ h.Empty.CurrentItemCount = 0 ∧ h.Empty.MaxHeapSize = h.MaxHeapSize ∧
    (∀ x, h.Has x → h.Empty.HeapIndex x = -1) ∧
    (∀ x, ¬ h.Has x → h.Empty.HeapIndex x = h.HeapIndex x) := by
  obtain ⟨a1, a2, a3⟩ := THeap.Empty_foldl (intRange 0 (h.CurrentItemCount - 1)) h
  have hidx : ∀ x, h.Empty.HeapIndex x = if x ∈ h.contained then -1 else h.HeapIndex x := by
    intro x
    show (List.foldl _ h (intRange 0 (h.CurrentItemCount - 1))).HeapIndex x = _
    rw [a3 x]
    simp only [THeap.mem_contained]
  have hmax : h.Empty.MaxHeapSize = h.MaxHeapSize := a2
  refine ⟨⟨le_refl 0, ?_, ?_⟩, rfl, hmax, ?_, ?_⟩
  · show (0 : Int) ≤ h.Empty.MaxHeapSize
    rw [hmax]
    have := hI.1
    have := hI.2.1
    omega
  · intro i hi0 hi1
    have : i < 0 := hi1
    omega
  · intro x hx
    rw [hidx, if_pos ((THeap.mem_contained_iff hI x).mpr hx)]
  · intro x hx
    rw [hidx, if_neg (fun hm => hx ((THeap.mem_contained_iff hI x).mp hm))]

theorem THeap.Run.index_inv {h : THeap} {out : List NodePtr} (hr : THeap.Run h out) :
    h.IndexInv ∧ ∀ x ∈ out, h.HeapIndex x = -1 := by
  induction hr with
  | make M HI hM =>
    obtain ⟨a1, -, -⟩ := THeap.make_spec M HI hM ⟨fun _ => 0, fun _ => 0, fun _ => none⟩
    exact ⟨a1, fun x hx => absurd hx (List.not_mem_nil x)⟩
  | add F Item _ hadd ih =>
    obtain ⟨c1, c2⟩ := THeap.Add_ok hadd
    obtain ⟨h2, e, s1, -, -, -, s5, -⟩ := THeap.Add_spec F _ Item ih.1 c1 c2
    rw [hadd] at e
    cases e
    refine ⟨s1, ?_⟩
    intro x hx
    rw [List.mem_filter] at hx
    have hxI : x ≠ Item := by simpa using hx.2
    have hx1 := ih.2 x hx.1
    rw [s5 x (fun hh => by have := hh.1; omega) hxI]
    exact hx1
  | removeFirst F First _ hrem ih =>
    obtain ⟨First2, h2, e, -, s1, -, -, -, s5, s6, -⟩ :=
      THeap.RemoveFirst_spec F _ ih.1 (THeap.RemoveFirst_ok hrem)
    rw [hrem] at e
    cases e
    refine ⟨s1, ?_⟩
    intro x hx
    rcases List.mem_cons.mp hx with hxF | hxo
    · rw [hxF]
      exact s5
    · have hx1 := ih.2 x hxo
      rw [s6 x (fun hh => by have := hh.1; omega)]
      exact hx1
  | updateItem F Item _ hHas hup ih =>
    obtain ⟨h2, e, s1, -, -, -, s5, -⟩ := THeap.UpdateItem_spec F F _ Item ih.1 hHas
    rw [hup] at e
    cases e
    refine ⟨s1, ?_⟩
    intro x hx
    have hx1 := ih.2 x hx
    rw [s5 x (fun hh => by have := hh.1; omega)]
    exact hx1
  | empty _ ih =>
    obtain ⟨s1, -, -, s4, s5⟩ := THeap.Empty_spec _ ih.1
    refine ⟨s1, ?_⟩
    intro x hx
    rcases List.mem_append.mp hx with hxc | hxo
    · exact s4 x ((THeap.mem_contained_iff ih.1 x).mp hxc)
    · have hx1 := ih.2 x hxo
      rw [s5 x (fun hh => by have := hh.1; omega)]
      exact hx1

/-- Claim C19: after any sequence of `Add`, `RemoveFirst`, `UpdateItem` and `Empty` calls that are
not stopped, every used slot `i < CurrentItemCount` holds an item whose stored heap index is `i`,
and every item that `RemoveFirst` or `Empty` took out (and that was not added again) has the heap
index -1. -/
theorem THeap_heap_index_consistent (h : THeap) (out : List NodePtr) (hr : THeap.Run h out) :
    (∀ i : Int, 0 ≤ i → i < h.CurrentItemCount →
      ∃ x, h.Items i = some x ∧ h.HeapIndex x = i) ∧
    (∀ x ∈ out, h.HeapIndex x = -1 ∧ h.Contains x = false) := by
  obtain ⟨hI, ho⟩ := hr.index_inv
  refine ⟨hI.2.2, ?_⟩
  intro x hx
  have h1 := ho x hx
  refine ⟨h1, ?_⟩
  unfold THeap.Contains
  simp only [ge_iff_le, decide_eq_false_iff_not, not_and]
  intro h0
  omega

/-- The claim C19 read on the heap left by adding `(0, 0)` and `(1, 0)` and removing the first
item: `(0, 0)` (G cost 1) is out. -/
theorem THeap_heap_index_consistent_witness :
    ∃ h : THeap, THeap.Run h [⟨0, 0⟩] ∧ h.HeapIndex ⟨0, 0⟩ = -1 ∧ h.Contains ⟨0, 0⟩ = false ∧
      ∃ x, h.Items 0 = some x ∧ h.HeapIndex x = 0 :=
  have r0 : THeap.Run (THeap.make 4 fun _ => -1) [] := THeap.Run.make 4 _ (by decide)
  have r1 : THeap.Run (stateOf (THeap.Add (costsOf [(⟨0, 0⟩, 1), (⟨1, 0⟩, 2)])
      (THeap.make 4 fun _ => -1) ⟨0, 0⟩)) [] :=
    THeap.Run.add (costsOf [(⟨0, 0⟩, 1), (⟨1, 0⟩, 2)]) ⟨0, 0⟩ r0 rfl
  have r2 : THeap.Run (heapOfTwo (costsOf [(⟨0, 0⟩, 1), (⟨1, 0⟩, 2)])) [] :=
    THeap.Run.add (costsOf [(⟨0, 0⟩, 1), (⟨1, 0⟩, 2)]) ⟨1, 0⟩ r1 rfl
  have r3 := THeap.Run.removeFirst (costsOf [(⟨0, 0⟩, 1), (⟨1, 0⟩, 2)]) ⟨0, 0⟩ r2 rfl
  have hc := THeap_heap_index_consistent _ _ r3
  ⟨_, r3, (hc.2 ⟨0, 0⟩ (List.mem_cons_self _ _)).1, (hc.2 ⟨0, 0⟩ (List.mem_cons_self _ _)).2,
    hc.1 0 (by decide) (by decide)⟩

theorem THeap.addAll_spec (F : NodeFields) (xs : List NodePtr) :
    ∀ h : THeap, h.IndexInv → h.Ordered F → xs.Nodup → (∀ x ∈ xs, h.HeapIndex x = -1) →
      h.CurrentItemCount + xs.length ≤ h.MaxHeapSize →
      ∃ h1, THeap.addAll F h xs = Except.ok h1 ∧ h1.IndexInv ∧ h1.Ordered F ∧
        h1.CurrentItemCount = h.CurrentItemCount + xs.length ∧
        ∀ x, h1.Has x ↔ (h.Has x ∨ x ∈ xs) := by
  induction xs with
  | nil =>
    intro h hI ho _ _ _
    refine ⟨h, rfl, hI, ho, by simp, ?_⟩
    intro x
    simp only [List.not_mem_nil, or_false]
  | cons Item rest ih =>
    intro h hI ho hnd hidx hcap
    rw [List.nodup_cons] at hnd
    simp only [List.length_cons, Nat.cast_add, Nat.cast_one] at hcap
    obtain ⟨h2, e, s1, s2, s3, s4, s5, s6⟩ :=
      THeap.Add_spec F h Item hI (by omega) (hidx Item (List.mem_cons_self _ _))
    have hidx2 : ∀ x ∈ rest, h2.HeapIndex x = -1 := by
      intro x hx
      have hx1 := hidx x (List.mem_cons_of_mem _ hx)
      rw [s5 x (fun hh => by have := hh.1; omega) (fun he => hnd.1 (he ▸ hx))]
      exact hx1
    obtain ⟨h3, e3, t1, t2, t3, t4⟩ := ih h2 s1 (s6 ho) hnd.2 hidx2 (by rw [s2, s3]; omega)
    refine ⟨h3, ?_, t1, t2, ?_, ?_⟩
    · show (match THeap.Add F h Item with
        | Except.ok h1 => THeap.addAll F h1 rest
        | Except.error e => Except.error e) = Except.ok h3
      rw [e]
      exact e3
    · rw [t3, s2]
      simp only [List.length_cons, Nat.cast_add, Nat.cast_one]
      omega
    · intro x
      rw [t4, s4, List.mem_cons]
      tauto

theorem THeap.drain_spec (F : NodeFields) :
    ∀ (n : Nat) (h : THeap), h.IndexInv → h.Ordered F → h.CurrentItemCount = n →
      ∃ ys, THeap.drain F n h = some ys ∧ (∀ x, x ∈ ys ↔ h.Has x) ∧ ys.Nodup ∧
        ys.Pairwise (fun a b => keyLe (costKey F a) (costKey F b)) := by
  intro n
  induction n with
  | zero =>
    intro h _ _ hc
    simp only [Nat.cast_zero] at hc
    refine ⟨[], ?_, ?_, List.nodup_nil, List.Pairwise.nil⟩
    · show (if h.CurrentItemCount = 0 then some [] else none) = some []
      rw [if_pos hc]
    · intro x
      simp only [List.not_mem_nil, false_iff]
      intro hx
      have := hx.1
      have := hx.2.1
      omega
  | succ n ih =>
    intro h hI ho hc
    have hne : h.CurrentItemCount ≠ 0 := by
      rw [hc]
      push_cast
      omega
    obtain ⟨First, h1, e, hF, s1, s2, -, s4, -, -, s7⟩ := THeap.RemoveFirst_spec F h hI hne
    obtain ⟨ys, d1, d2, d3, d4⟩ := ih h1 s1 (s7 ho) (by rw [s2, hc]; push_cast; omega)
    have hHasF : h.Has First := THeap.has_of_slot hI (le_refl 0) (by have := hI.1; omega) hF
    refine ⟨First :: ys, ?_, ?_, ?_, ?_⟩
    · show (if h.CurrentItemCount = 0 then some []
        else match THeap.RemoveFirst F h with
          | Except.ok (First, h1) => (THeap.drain F n h1).map fun rest => First :: rest
          | Except.error _ => none) = some (First :: ys)
      rw [if_neg hne, e]
      simp only [d1, Option.map_some']
    · intro x
      rw [List.mem_cons, d2, s4]
      constructor
      · rintro (hx | hx)
        · rw [hx]
          exact hHasF
        · exact hx.1
      · intro hx
        by_cases hxF : x = First
        · exact Or.inl hxF
        · exact Or.inr ⟨hx, hxF⟩
    · rw [List.nodup_cons]
      refine ⟨?_, d3⟩
      intro hm
      exact ((s4 First).mp ((d2 First).mp hm)).2 rfl
    · rw [List.pairwise_cons]
      refine ⟨?_, d4⟩
      intro y hy
      exact THeap.rootIsBest hI ho First hF y ((s4 y).mp ((d2 y).mp hy)).1

/-- Claim C20: a new heap filled by `Add` with distinct items of heap index -1 (no more than its
capacity, costs not changed afterwards) holds exactly these items; the first `RemoveFirst` returns
one of them with the lowest `(fCost, hCost)` pair, and calling `RemoveFirst` until the heap is empty
yields exactly the items that were added, each one no higher in `(fCost, hCost)` than all that
follow it. -/
theorem THeap_drain_sorted (F : NodeFields) (InMaxHeapSize : Int) (HeapIndex : NodePtr → Int)
    (xs : List NodePtr) (hnd : xs.Nodup) (hidx : ∀ x ∈ xs, HeapIndex x = -1)
    (hcap : (xs.length : Int) ≤ InMaxHeapSize) :
    ∃ h ys, THeap.addAll F (THeap.make InMaxHeapSize HeapIndex) xs = Except.ok h ∧
      (∀ x, h.Contains x = true ↔ x ∈ xs) ∧
      (xs ≠ [] → ∃ First h1, THeap.RemoveFirst F h = Except.ok (First, h1) ∧ First ∈ xs ∧
        ∀ x ∈ xs, keyLe (costKey F First) (costKey F x)) ∧
      THeap.drain F xs.length h = some ys ∧ ys.Perm xs ∧
      ys.Pairwise (fun a b => keyLe (costKey F a) (costKey F b)) := by
  obtain ⟨m1, m2, m3⟩ := THeap.make_spec InMaxHeapSize HeapIndex (by omega) F
  obtain ⟨h, e, s1, s2, s3, s4⟩ := THeap.addAll_spec F xs (THeap.make InMaxHeapSize HeapIndex)
    m1 m2 hnd hidx (by show (0 : Int) + xs.length ≤ InMaxHeapSize; omega)
  have hHas : ∀ x, h.Has x ↔ x ∈ xs := by
    intro x
    rw [s4]
    constructor
    · rintro (hx | hx)
      · exact absurd hx (m3 x)
      · exact hx
    · intro hx
      exact Or.inr hx
  have hcount : h.CurrentItemCount = (xs.length : Nat) := by
    rw [s3]
    show (0 : Int) + _ = _
    omega
  obtain ⟨ys, d1, d2, d3, d4⟩ := THeap.drain_spec F xs.length h s1 s2 hcount
  refine ⟨h, ys, e, ?_, ?_, d1, ?_, d4⟩
  · intro x
    rw [← hHas]
    unfold THeap.Contains THeap.Has
    simp only [ge_iff_le, decide_eq_true_eq]
  · intro hne
    have hc : h.CurrentItemCount ≠ 0 := by
      rw [hcount]
      cases xs with
      | nil => exact absurd rfl hne
      | cons a l =>
        simp only [List.length_cons]
        push_cast
        omega
    obtain ⟨First, h1, e1, hF, -⟩ := THeap.RemoveFirst_spec F h s1 hc
    have hHasF : h.Has First := THeap.has_of_slot s1 (le_refl 0) (by have := s1.1; omega) hF
    refine ⟨First, h1, e1, (hHas First).mp hHasF, ?_⟩
    intro x hx
    exact THeap.rootIsBest s1 s2 First hF x ((hHas x).mpr hx)
  · rw [List.perm_ext_iff_of_nodup d3 hnd]
    intro x
    rw [d2, hHas]

/-- The claim C20 read on three nodes with the G costs 5, 3 and 4 added to a new heap of capacity
10. -/
theorem THeap_drain_sorted_witness :
    ([⟨0, 0⟩, ⟨1, 0⟩, ⟨2, 0⟩] : List NodePtr).Nodup ∧ ((3 : Nat) : Int) ≤ 10 ∧
    ∃ h ys, THeap.addAll (costsOf [(⟨0, 0⟩, 5), (⟨1, 0⟩, 3), (⟨2, 0⟩, 4)])
        (THeap.make 10 fun _ => -1) [⟨0, 0⟩, ⟨1, 0⟩, ⟨2, 0⟩] = Except.ok h ∧
      THeap.drain (costsOf [(⟨0, 0⟩, 5), (⟨1, 0⟩, 3), (⟨2, 0⟩, 4)]) 3 h = some ys ∧
      ys.Perm [⟨0, 0⟩, ⟨1, 0⟩, ⟨2, 0⟩] ∧
      ys.Pairwise (fun a b =>
        keyLe (costKey (costsOf [(⟨0, 0⟩, 5), (⟨1, 0⟩, 3), (⟨2, 0⟩, 4)]) a)
          (costKey (costsOf [(⟨0, 0⟩, 5), (⟨1, 0⟩, 3), (⟨2, 0⟩, 4)]) b)) :=
  have hnd : ([⟨0, 0⟩, ⟨1, 0⟩, ⟨2, 0⟩] : List NodePtr).Nodup := by decide
  ⟨hnd, by decide,
    (THeap_drain_sorted (costsOf [(⟨0, 0⟩, 5), (⟨1, 0⟩, 3), (⟨2, 0⟩, 4)]) 10
      (fun _ => -1) [⟨0, 0⟩, ⟨1, 0⟩, ⟨2, 0⟩] hnd (fun _ _ => rfl) (by decide)).imp
      fun _ hh => hh.imp fun _ hy => ⟨hy.1, hy.2.2.2.1, hy.2.2.2.2.1, hy.2.2.2.2.2⟩⟩

/-- Claim C21: `Add` on a heap that already holds `MaxHeapSize` items is stopped by the capacity
check and leaves `Items`, the item count and every stored heap index as they were. -/
theorem THeap_Add_at_capacity (F : NodeFields) (h : THeap) (Item : NodePtr)
    (hfull : h.CurrentItemCount = h.MaxHeapSize) : THeap.Add F h Item = Except.error h := by
  unfold THeap.Add
  have hc : ¬ h.CurrentItemCount < h.MaxHeapSize := by omega
  simp only [hc, not_false_eq_true, if_true]

/-- The claim C21 read on a heap of capacity 2 that holds two nodes. -/
theorem THeap_Add_at_capacity_witness :
    (stateOf (THeap.Add (costsOf []) (stateOf (THeap.Add (costsOf []) (THeap.make 2 fun _ => -1)
      ⟨0, 0⟩)) ⟨1, 0⟩)).CurrentItemCount = 2 ∧
    THeap.Add (costsOf [])
      (stateOf (THeap.Add (costsOf []) (stateOf (THeap.Add (costsOf []) (THeap.make 2 fun _ => -1)
        ⟨0, 0⟩)) ⟨1, 0⟩)) ⟨2, 0⟩ =
      Except.error (stateOf (THeap.Add (costsOf []) (stateOf (THeap.Add (costsOf [])
        (THeap.make 2 fun _ => -1) ⟨0, 0⟩)) ⟨1, 0⟩)) :=
  ⟨by decide, THeap_Add_at_capacity (costsOf []) _ ⟨2, 0⟩ (by decide)⟩

theorem GenerateNavGridNodes_node_heapIndex (D Rad : ℚ) (T : FVector ℚ → FVector ℚ)
    (L : FVector ℚ → FVector ℚ → Option FHitResult) (x y : Nat) :
    (GenerateNavGridNodes.node D Rad T L x y).HeapIndex = 0 := by
  unfold GenerateNavGridNodes.node PerformZTraceAndUpdateNode
  simp only []
  cases L _ _ with
  | none => rfl
  | some Hit =>
    simp only []
    cases Hit.PhysMaterial with
    | none => rfl
    | some SurfaceType =>
      simp only []
      split_ifs <;> rfl

/-- Claim C30: every node that `GenerateNavGridNodes` builds has the heap index 0; `Add` of such a
node to any heap is stopped by the check of the heap index, and it passes that check (and, with
room left, the whole of `Add`) once the heap index of the node has been set to -1. -/
theorem THeap_Add_rejects_fresh_node (GridSizeX GridSizeY : Int) (NodeDiameter NodeRadius : ℚ)
    (TransformPosition : FVector ℚ → FVector ℚ)
    (LineTrace : FVector ℚ → FVector ℚ → Option FHitResult) (S0 : GridStore) (x y : Nat)
    (hx : x < GridSizeX.toNat) (hy : y < GridSizeY.toNat) (F : NodeFields) (h : THeap) :
    ∃ n, (GenerateNavGridNodes GridSizeX GridSizeY NodeDiameter NodeRadius TransformPosition
        LineTrace (ResetGrid GridSizeX S0)).at? x y = some n ∧
      n.HeapIndex = 0 ∧
      (h.HeapIndex ⟨x, y⟩ = n.HeapIndex → THeap.Add F h ⟨x, y⟩ = Except.error h) ∧
      (h.CurrentItemCount < h.MaxHeapSize →
        ∃ h1, THeap.Add F { h with HeapIndex := setAt h.HeapIndex ⟨x, y⟩ (-1) } ⟨x, y⟩ =
          Except.ok h1) := by
  let G : ANavGrid Unit :=
    ⟨GridSizeX, GridSizeY, fun _ _ => true, fun _ _ => 0, fun _ _ => ⟨(), (), ()⟩⟩
  obtain ⟨hat, -⟩ :=
    GenerateNavGridNodes_spec G NodeDiameter NodeRadius TransformPosition LineTrace S0
  have h0 := GenerateNavGridNodes_node_heapIndex NodeDiameter NodeRadius TransformPosition
    LineTrace x y
  refine ⟨_, hat x y hx hy, h0, ?_, ?_⟩
  · intro hidx
    rw [h0] at hidx
    unfold THeap.Add
    by_cases hc : h.CurrentItemCount < h.MaxHeapSize
    · simp only [hc, not_true_eq_false, if_false, hidx]
      rfl
    · simp only [hc, not_false_eq_true, if_true]
  · intro hc
    unfold THeap.Add
    simp only [hc, not_true_eq_false, if_false, setAt_same]
    exact ⟨_, rfl⟩

/-- The claim C30 read on the node `Grid[1][2]` of a 2 by 3 grid and a new heap of capacity 4
whose record of the heap indices holds the 0 of the fresh node. -/
theorem THeap_Add_rejects_fresh_node_witness :
    (1 : Nat) < (2 : Int).toNat ∧ (2 : Nat) < (3 : Int).toNat ∧
    THeap.Add (costsOf []) (THeap.make 4 fun _ => 0) ⟨(1 : Nat), (2 : Nat)⟩ =
      Except.error (THeap.make 4 fun _ => 0) :=
  have h := THeap_Add_rejects_fresh_node 2 3 200 100 id flatFloor GridStore.initial 1 2
    (by decide) (by decide) (costsOf []) (THeap.make 4 fun _ => 0)
  ⟨by decide, by decide, h.elim fun _ hn => hn.2.2.1 hn.2.1.symm⟩

/-! ## The path script of a runner -/

theorem FPathScript.boundary_foldl_length (N : FVector2D ℚ → FVector2D ℚ) (LP : List (FVector ℚ))
    (FI : Int) (TD : ℚ) (L : List Nat) :
    ∀ st : FVector2D ℚ × List FNavLine,
      (L.foldl (FPathScript.boundary N LP FI TD) st).2.length = st.2.length := by
  induction L with
  | nil => intro st; rfl
  | cons i rest ih =>
    intro st
    rw [List.foldl_cons, ih]
    unfold FPathScript.boundary
    simp only [List.length_set]

theorem FPathScript.slowDown_bounds (Dist : FVector ℚ → FVector ℚ → ℚ) (LP : List (FVector ℚ))
    (SD : ℚ) (B : Int) :
    ∀ (i : Nat) (D : ℚ) (S : Int), 0 ≤ S → S ≤ B → (i : Int) ≤ B →
      0 ≤ FPathScript.slowDown Dist LP SD i D S ∧ FPathScript.slowDown Dist LP SD i D S ≤ B := by
  intro i
  induction i with
  | zero =>
    intro D S h0 h1 _
    exact ⟨h0, h1⟩
  | succ i ih =>
    intro D S h0 h1 hi
    unfold FPathScript.slowDown
    simp only []
    split_ifs
    · constructor
      · exact Int.natCast_nonneg _
      · exact hi
    · apply ih _ S h0 h1
      push_cast at hi ⊢
      omega

/-- Claim C22: for every waypoint list, start position, turn distance and stopping distance, the
`FPathScript` built by the constructor keeps the waypoints as `LookPoints`, has as many
`TurnBoundaries` as `LookPoints` and `0 <= SlowDownIndex <= FinishLineIndex`; and when the
waypoint list is not empty, `FinishLineIndex` is the last index `LookPoints.Num() - 1`. -/
theorem FPathScript_make_indices (GetSafeNormal : FVector2D ℚ → FVector2D ℚ)
    (Distance : FVector ℚ → FVector ℚ → ℚ) (Waypoints : List (FVector ℚ)) (StartPos : FVector ℚ)
    (TurnDistance StoppingDistance : ℚ) :
    (FPathScript.make GetSafeNormal Distance Waypoints StartPos TurnDistance
      StoppingDistance).LookPoints = Waypoints ∧
    (FPathScript.make GetSafeNormal Distance Waypoints StartPos TurnDistance
      StoppingDistance).TurnBoundaries.length =
      (FPathScript.make GetSafeNormal Distance Waypoints StartPos TurnDistance
        StoppingDistance).LookPoints.length ∧
    0 ≤ (FPathScript.make GetSafeNormal Distance Waypoints StartPos TurnDistance
      StoppingDistance).SlowDownIndex ∧
    (FPathScript.make GetSafeNormal Distance Waypoints StartPos TurnDistance
      StoppingDistance).SlowDownIndex ≤
      (FPathScript.make GetSafeNormal Distance Waypoints StartPos TurnDistance
        StoppingDistance).FinishLineIndex ∧
    (Waypoints ≠ [] →
      (FPathScript.make GetSafeNormal Distance Waypoints StartPos TurnDistance
        StoppingDistance).FinishLineIndex = (Waypoints.length : Int) - 1) := by
  unfold FPathScript.make
  simp only []
  by_cases hc : Waypoints.length = 0
  · have hw : Waypoints = [] := List.eq_nil_of_length_eq_zero hc
    subst hw
    simp only [FPathScript.zeroed, List.length_nil, if_true, le_refl, ne_eq, not_true_eq_false,
      false_implies, and_self]
  · have hpos : 0 < Waypoints.length := Nat.pos_of_ne_zero hc
    have hsd := FPathScript.slowDown_bounds Distance Waypoints StoppingDistance
      ((Waypoints.length : Int) - 1) (Waypoints.length - 1) 0 ((Waypoints.length : Int) - 1)
      (by omega) (le_refl _) (by omega)
    simp only [FPathScript.zeroed, hc, if_false, FPathScript.boundary_foldl_length,
      TArray_SetNum_length, true_and]
    exact ⟨hsd.1, hsd.2, fun _ => trivial⟩

/-! ## The pool of runner agents -/

theorem firstUnused_some (L : List FPathRunnerAgent) :
    ∀ (i k : Nat), firstUnused L i = some k ↔
      (i ≤ k ∧ k - i < L.length ∧ (∃ A, L[k - i]? = some A ∧ A.bInUse = false) ∧
        ∀ j, j < k - i → ∃ A, L[j]? = some A ∧ A.bInUse = true) := by
  induction L with
  | nil =>
    intro i k
    simp only [firstUnused, List.length_nil, Nat.not_lt_zero, false_and, and_false, iff_false]
    intro h
    cases h
  | cons A rest ih =>
    intro i k
    unfold firstUnused
    by_cases hA : A.bInUse = false
    · rw [if_pos hA]
      simp only [Option.some.injEq]
      constructor
      · intro hik
        subst hik
        refine ⟨le_refl _, by simp, ⟨A, by simp, hA⟩, ?_⟩
        intro j hj
        omega
      · rintro ⟨h1, h2, h3, h4⟩
        by_contra hne
        have hpos : 0 < k - i := by omega
        obtain ⟨B, hB, hBu⟩ := h4 0 hpos
        simp only [List.getElem?_cons_zero, Option.some.injEq] at hB
        rw [← hB, hA] at hBu
        cases hBu
    · rw [if_neg hA, ih (i + 1) k]
      have hA1 : A.bInUse = true := by simpa using hA
      constructor
      · rintro ⟨h1, h2, ⟨B, hB, hBu⟩, h4⟩
        refine ⟨by omega, by simp only [List.length_cons]; omega, ⟨B, ?_, hBu⟩, ?_⟩
        · have e : k - i = (k - (i + 1)) + 1 := by omega
          rw [e, List.getElem?_cons_succ]
          exact hB
        · intro j hj
          cases j with
          | zero => exact ⟨A, by simp, hA1⟩
          | succ j =>
            rw [List.getElem?_cons_succ]
            exact h4 j (by omega)
      · rintro ⟨h1, h2, ⟨B, hB, hBu⟩, h4⟩
        have hki : k ≠ i := by
          intro e
          rw [e, Nat.sub_self] at hB
          simp only [List.getElem?_cons_zero, Option.some.injEq] at hB
          rw [← hB, hA1] at hBu
          cases hBu
        have e : k - i = (k - (i + 1)) + 1 := by omega
        rw [e, List.getElem?_cons_succ] at hB
        simp only [List.length_cons] at h2
        refine ⟨by omega, by omega, ⟨B, hB, hBu⟩, ?_⟩
        intro j hj
        have := h4 (j + 1) (by omega)
        rw [List.getElem?_cons_succ] at this
        exact this

theorem firstUnused_none (L : List FPathRunnerAgent) :
    ∀ i : Nat, firstUnused L i = none ↔ ∀ A ∈ L, A.bInUse = true := by
  induction L with
  | nil =>
    intro i
    simp only [firstUnused, List.not_mem_nil, false_implies, implies_true]
  | cons A rest ih =>
    intro i
    unfold firstUnused
    by_cases hA : A.bInUse = false
    · rw [if_pos hA]
      constructor
      · intro h
        cases h
      · intro h
        have h1 := h A (List.mem_cons_self _ _)
        rw [hA] at h1
        cases h1
    · rw [if_neg hA, ih (i + 1)]
      have hA1 : A.bInUse = true := by simpa using hA
      simp only [List.mem_cons, forall_eq_or_imp, hA1, true_and]

/-- Claim C23, amended: `AcquireRunnerAgent` returns the first (lowest-index) agent of the pool
whose `bInUse` flag is false; if no agent is free it returns `nullptr` (and, as always, leaves the
pool as it is). -/
theorem AcquireRunnerAgent_first_unused (RunnerAgents : List FPathRunnerAgent) :
    (∀ k, AcquireRunnerAgent RunnerAgents = some k ↔
      ((∃ A, RunnerAgents[k]? = some A ∧ A.bInUse = false) ∧
        ∀ j, j < k → ∃ A, RunnerAgents[j]? = some A ∧ A.bInUse = true)) ∧
    (AcquireRunnerAgent RunnerAgents = none ↔ ∀ A ∈ RunnerAgents, A.bInUse = true) := by
  unfold AcquireRunnerAgent
  refine ⟨?_, firstUnused_none RunnerAgents 0⟩
  intro k
  rw [firstUnused_some RunnerAgents 0 k]
  simp only [Nat.zero_le, Nat.sub_zero, true_and]
  constructor
  · rintro ⟨-, h2, h3⟩
    exact ⟨h2, h3⟩
  · rintro ⟨⟨A, hA, hAu⟩, h3⟩
    refine ⟨?_, ⟨A, hA, hAu⟩, h3⟩
    by_contra hlt
    rw [List.getElem?_eq_none (by omega)] at hA
    cases hA

/-- On a pool of two agents that are both in use `AcquireRunnerAgent` returns `nullptr`; the pool
is not grown and no agent is returned (claim C23 asks for a new agent). -/
theorem AcquireRunnerAgent_full_pool :
    AcquireRunnerAgent
      [⟨some ⟨some 7, some 0, false⟩, true⟩, ⟨some ⟨some 8, some 1, false⟩, true⟩] = none := by
  decide

theorem FPathScript_make_indices_witness :
    (FPathScript.make id taxiDistance [⟨0, 0, 0⟩, ⟨1, 0, 0⟩] ⟨0, 0, 0⟩ 1 1).FinishLineIndex =
      (([⟨0, 0, 0⟩, ⟨1, 0, 0⟩] : List (FVector ℚ)).length : Int) - 1 :=
  (FPathScript_make_indices id taxiDistance [⟨0, 0, 0⟩, ⟨1, 0, 0⟩] ⟨0, 0, 0⟩ 1 1).2.2.2.2
    (List.cons_ne_nil _ _)

theorem AcquireRunnerAgent_first_unused_witness :
    AcquireRunnerAgent [⟨some ⟨some 7, some 0, false⟩, true⟩, ⟨none, false⟩] = some 1 :=
  ((AcquireRunnerAgent_first_unused
    [⟨some ⟨some 7, some 0, false⟩, true⟩, ⟨none, false⟩]).1 1).mpr
    ⟨⟨_, rfl, rfl⟩, fun j hj => by
      have e : j = 0 := by omega
      subst e
      exact ⟨_, rfl, rfl⟩⟩

/-- Claim C25: on a new request manager, a first `RequestPath` (callback 1), a second
`RequestPath` (callback 2) that supersedes it while its search is still running, and then the two
completions reaching `OnPathFound`: both searches are in flight after the second request, and the
callback of the second request is executed twice (the callback of the first never). -/
theorem RequestPath_superseded_callback_twice :
    (RequestPath (RequestPath RequestState.initial 1) 2).InFlight = 2 ∧
    (RequestPath (RequestPath RequestState.initial 1) 2).bShouldCancel = false ∧
    ((deliverCompletion (RequestPath (RequestPath RequestState.initial 1) 2)).bind
      deliverCompletion).map RequestState.Executed = some [2, 2] := by
  refine ⟨rfl, rfl, rfl⟩

/-! ## Retracing over arbitrary parent links -/

theorem parentSteps_succ_left (P : NodePtr → Option NodePtr) (c : NodePtr) :
    ∀ j : Nat, parentSteps P c (j + 1) = (P c).bind fun d => parentSteps P d j := by
  intro j
  induction j with
  | zero =>
    simp only [parentSteps, Option.some_bind]
    cases P c <;> rfl
  | succ j ih =>
    rw [parentSteps, ih]
    cases hP : P c with
    | none => rfl
    | some d =>
      simp only [Option.some_bind]
      rfl

/-- Once the iteration bound exceeds what the `Safety` counter still allows, the loop of
`RetraceNodes` does not depend on it: the loop has ended by itself. -/
theorem RetraceNodes_loop_fuel (P : NodePtr → Option NodePtr) (s : NodePtr) :
    ∀ (n f1 f2 : Nat) (cur : Option NodePtr) (Safety : Nat) (Nodes : List NodePtr),
      n < f1 → n < f2 → Safety + n = 8000 →
      RetraceNodes.loop P s f1 cur Safety Nodes = RetraceNodes.loop P s f2 cur Safety Nodes := by
  intro n
  induction n with
  | zero =>
    intro f1 f2 cur Safety Nodes h1 h2 hS
    obtain ⟨g1, rfl⟩ : ∃ g, f1 = g + 1 := ⟨f1 - 1, by omega⟩
    obtain ⟨g2, rfl⟩ : ∃ g, f2 = g + 1 := ⟨f2 - 1, by omega⟩
    have hcut : Safety + 1 > 8000 := by omega
    unfold RetraceNodes.loop
    cases cur with
    | none => rfl
    | some c => simp only [if_pos hcut]
  | succ n ih =>
    intro f1 f2 cur Safety Nodes h1 h2 hS
    obtain ⟨g1, rfl⟩ : ∃ g, f1 = g + 1 := ⟨f1 - 1, by omega⟩
    obtain ⟨g2, rfl⟩ : ∃ g, f2 = g + 1 := ⟨f2 - 1, by omega⟩
    have hcut : ¬ Safety + 1 > 8000 := by omega
    unfold RetraceNodes.loop
    cases cur with
    | none => rfl
    | some c =>
      simp only [if_neg hcut]
      rw [ih g1 g2 (P c) (Safety + 1) (Nodes ++ [c]) (by omega) (by omega) (by omega)]

/-- Along a parent chain that reaches the start node first after `m` steps, the loop of
`RetraceNodes` collects the first `m` nodes of the chain. -/
theorem RetraceNodes_loop_steps (P : NodePtr → Option NodePtr) (s : NodePtr) :
    ∀ (m fuel : Nat) (c : NodePtr) (Safety : Nat) (Nodes : List NodePtr),
      parentSteps P c m = some s → (∀ j, j < m → parentSteps P c j ≠ some s) →
      m < fuel → Safety + m ≤ 8001 →
      (RetraceNodes.loop P s fuel (some c) Safety Nodes).map some =
        Nodes.map some ++ (List.range m).map (parentSteps P c) := by
  intro m
  induction m with
  | zero =>
    intro fuel c Safety Nodes hm _ hf _
    obtain ⟨g, rfl⟩ : ∃ g, fuel = g + 1 := ⟨fuel - 1, by omega⟩
    have hc : c = s := by simpa [parentSteps] using hm
    unfold RetraceNodes.loop
    simp only [hc, if_true, List.range_zero, List.map_nil, List.append_nil]
  | succ m ih =>
    intro fuel c Safety Nodes hm hleast hf hS
    obtain ⟨g, rfl⟩ : ∃ g, fuel = g + 1 := ⟨fuel - 1, by omega⟩
    have hc : c ≠ s := by
      intro e
      exact hleast 0 (Nat.succ_pos m) (by rw [e]; rfl)
    rw [parentSteps_succ_left] at hm
    cases hP : P c with
    | none =>
      rw [hP] at hm
      cases hm
    | some d =>
      rw [hP, Option.some_bind] at hm
      have hleast1 : ∀ j, j < m → parentSteps P d j ≠ some s := by
        intro j hj
        have := hleast (j + 1) (by omega)
        rw [parentSteps_succ_left, hP, Option.some_bind] at this
        exact this
      have hshift : (List.range (m + 1)).map (parentSteps P c) =
          some c :: (List.range m).map (parentSteps P d) := by
        rw [List.range_succ_eq_map, List.map_cons, List.map_map]
        congr 1
        apply List.map_congr_left
        intro j _
        simp only [Function.comp_apply]
        rw [parentSteps_succ_left, hP, Option.some_bind]
      unfold RetraceNodes.loop
      simp only [if_neg hc]
      by_cases hcut : Safety + 1 > 8000
      · have hm0 : m = 0 := by omega
        subst hm0
        rw [hshift]
        simp only [if_pos hcut, List.map_append, List.map_cons, List.map_nil, List.range_zero]
      · rw [if_neg hcut, hP,
          ih g d (Safety + 1) (Nodes ++ [c]) hm hleast1 (by omega) (by omega), hshift]
        simp only [List.map_append, List.map_cons, List.map_nil, List.append_assoc,
          List.singleton_append]

/-- Claim C27: for every assignment of parent links (cyclic chains and chains that run into a null
parent included) the loop of `RetraceNodes` ends by itself within 8001 iterations: every iteration
bound of at least 8001 gives the same list, and the loop, which adds one node per iteration, adds
at most 8001 nodes; the returned list starts with the start node; and when the parent chain from
the end node reaches the start node (first) after `m <= 8000` steps, the returned list is exactly
that chain in start-to-end order. -/
theorem RetraceNodes_terminates_bounded (ParentNode : NodePtr → Option NodePtr)
    (StartNode EndNode : NodePtr) :
    (∀ fuel, 8001 ≤ fuel →
      RetraceNodes.loop ParentNode StartNode fuel (some EndNode) 0 [] =
        RetraceNodes.loop ParentNode StartNode 8001 (some EndNode) 0 []) ∧
    (RetraceNodes.loop ParentNode StartNode 8001 (some EndNode) 0 []).length ≤ 8001 ∧
    RetraceNodes ParentNode StartNode EndNode =
      StartNode :: (RetraceNodes.loop ParentNode StartNode 8001 (some EndNode) 0 []).reverse ∧
    (RetraceNodes ParentNode StartNode EndNode).head? = some StartNode ∧
    ∀ m, m ≤ 8000 → parentSteps ParentNode EndNode m = some StartNode →
      (∀ j, j < m → parentSteps ParentNode EndNode j ≠ some StartNode) →
      (RetraceNodes ParentNode StartNode EndNode).map some =
        ((List.range (m + 1)).map (parentSteps ParentNode EndNode)).reverse := by
  have hfuel : ∀ fuel, 8001 ≤ fuel →
      RetraceNodes.loop ParentNode StartNode fuel (some EndNode) 0 [] =
        RetraceNodes.loop ParentNode StartNode 8001 (some EndNode) 0 [] := by
    intro fuel hf
    exact RetraceNodes_loop_fuel ParentNode StartNode 8000 fuel 8001 (some EndNode) 0 []
      (by omega) (by omega) (by omega)
  have hlen := RetraceNodes_loop_length ParentNode StartNode 8001 (some EndNode) 0 [] (by omega)
  have hR : RetraceNodes ParentNode StartNode EndNode =
      StartNode :: (RetraceNodes.loop ParentNode StartNode 8001 (some EndNode) 0 []).reverse := by
    unfold RetraceNodes
    rw [hfuel 8002 (by omega), List.reverse_append, List.reverse_singleton, List.singleton_append]
  refine ⟨hfuel, ?_, hR, ?_, ?_⟩
  · simp only [List.length_nil, Nat.add_zero, Nat.zero_add] at hlen
    exact hlen
  · rw [hR]
    rfl
  · intro m hm hreach hleast
    have h := RetraceNodes_loop_steps ParentNode StartNode m 8001 EndNode 0 [] hreach hleast
      (by omega) (by omega)
    rw [hR, List.map_cons, List.map_reverse, h, List.range_succ, List.map_append]
    simp only [List.map_nil, List.nil_append, List.map_cons, List.reverse_append,
      List.reverse_cons, List.reverse_nil, List.singleton_append, hreach]

theorem RetraceNodes_terminates_bounded_witness :
    (RetraceNodes (fun n => if n = ⟨1, 0⟩ then some ⟨0, 0⟩ else none) ⟨0, 0⟩ ⟨1, 0⟩).map some =
      ((List.range (1 + 1)).map
        (parentSteps (fun n => if n = ⟨1, 0⟩ then some ⟨0, 0⟩ else none) ⟨1, 0⟩)).reverse :=
  (RetraceNodes_terminates_bounded (fun n => if n = ⟨1, 0⟩ then some ⟨0, 0⟩ else none)
    ⟨0, 0⟩ ⟨1, 0⟩).2.2.2.2 1 (by decide) (by decide) (by decide)

/-! ## Termination of the main loop -/

/-- One complete iteration of the main loop keeps the invariant and adds the selected node to the
closed set. -/
theorem iteration_inv {G : ANavGrid R} {s t : NodePtr} {st : SearchState} {first : NodePtr}
    {rest : List NodePtr} (h : SearchInv G s t (fun _ _ => True) st)
    (ho : st.OpenList = first :: rest) :
    SearchInv G s t (fun _ _ => True)
      ((G.GetNeighbors (selectBest st.toNodeFields 0 first 1 rest).2).foldl
        (processNeighbor G t (selectBest st.toNodeFields 0 first 1 rest).2)
        { st with
          OpenList := st.OpenList.eraseIdx (selectBest st.toNodeFields 0 first 1 rest).1
          ClosedSet := (selectBest st.toNodeFields 0 first 1 rest).2 :: st.ClosedSet }) ∧
    ((G.GetNeighbors (selectBest st.toNodeFields 0 first 1 rest).2).foldl
        (processNeighbor G t (selectBest st.toNodeFields 0 first 1 rest).2)
        { st with
          OpenList := st.OpenList.eraseIdx (selectBest st.toNodeFields 0 first 1 rest).1
          ClosedSet := (selectBest st.toNodeFields 0 first 1 rest).2 :: st.ClosedSet }).ClosedSet =
      (selectBest st.toNodeFields 0 first 1 rest).2 :: st.ClosedSet := by
  obtain ⟨_, hinv1⟩ := close_inv h ho
  have hinv2 := foldl_processNeighbor_inv
    (G.GetNeighbors (selectBest st.toNodeFields 0 first 1 rest).2) hinv1
    (List.mem_cons_self _ _) (fun nb hnb => hnb)
  have hinv3 : SearchInv G s t (fun _ _ => True) _ := hinv2.mono (fun x y _ hstep => by
    by_cases e : x = (selectBest st.toNodeFields 0 first 1 rest).2
    · exact Or.inr ⟨e, e ▸ hstep.1⟩
    · exact Or.inl e)
  exact ⟨hinv3, foldl_processNeighbor_closed G t _ _ _⟩

/-- At every head of the main loop the invariant holds, the target is not closed, and the closed
set has one node per iteration made. -/
theorem LoopHead.searchInv {G : ANavGrid R} {cancel : Nat → Bool} {s t : NodePtr}
    {st0 : SearchState} (h0 : SearchInv G s t (fun _ _ => True) st0) (hc0 : st0.ClosedSet = [])
    {k : Nat} {st : SearchState} (h : LoopHead G cancel t st0 k st) :
    SearchInv G s t (fun _ _ => True) st ∧ t ∉ st.ClosedSet ∧ st.ClosedSet.length = k := by
  induction h with
  | start =>
    refine ⟨h0, ?_, ?_⟩
    · rw [hc0]; exact List.not_mem_nil _
    · rw [hc0]; rfl
  | @next k st First Rest _ ho _ hgoal ih =>
    obtain ⟨hinv, ht, hlen⟩ := ih
    obtain ⟨h1, h2⟩ := iteration_inv hinv ho
    refine ⟨h1, ?_, ?_⟩
    · rw [h2]
      intro hmem
      rcases List.mem_cons.mp hmem with e | e
      · exact hgoal e.symm
      · exact ht e
    · rw [h2, List.length_cons, hlen]

/-- The run of `mainLoop` passes through the loop heads: from a head reached after `k` iterations
the rest of the run is the run of the whole loop. -/
theorem LoopHead.mainLoop_eq {G : ANavGrid R} {cancel : Nat → Bool} {t : NodePtr}
    {st0 : SearchState} {k : Nat} {st : SearchState} (h : LoopHead G cancel t st0 k st) :
    ∀ fuel, mainLoop G cancel t (fuel + k) 0 st0 = mainLoop G cancel t fuel k st := by
  induction h with
  | start => intro fuel; rfl
  | @next k st First Rest _ ho hcan hgoal ih =>
    intro fuel
    rw [show fuel + (k + 1) = (fuel + 1) + k by omega, ih (fuel + 1)]
    conv_lhs => unfold mainLoop
    simp only [ho, hcan, Bool.false_eq_true, if_false, if_neg hgoal]

/-- Claim C28: the main loop of `FindPath_Internal` terminates under every behaviour of the cancel
flag (the flag never set included): the search from a node of the grid returns, with at most
`|AllNodes|` nodes closed, one per iteration started. At every head of the
loop the closed set holds one node per iteration made, at most `|AllNodes|`, the open list holds
no node twice and no closed node; and an iteration moves one node of the open list, not closed
before, into the closed set, after which the open list still holds no node twice and no closed
node. -/
theorem FindPath_Internal_loop_terminates [Sub R] [Zero R] [DecidableEq R] (G : ANavGrid R)
    (GetSafeNormal : FVector2D R → FVector2D R) (F : NodeFields) (bShouldCancel : Nat → Bool)
    (StartNode TargetNode : NodePtr) (hstart : G.InBounds StartNode) :
    (∃ r, FindPath_Internal G GetSafeNormal F bShouldCancel StartNode TargetNode = some r ∧
      r.ClosedSet.length ≤ G.GetAllNodes.length ∧ r.ClosedSet.length ≤ r.Polls ∧
      r.Polls ≤ r.ClosedSet.length + 1 ∧ r.ClosedSet.Nodup ∧ r.OpenList.Nodup ∧
      ∀ n ∈ r.OpenList, n ∉ r.ClosedSet) ∧
    ∀ k st, LoopHead G bShouldCancel TargetNode
        ⟨((resetNodes G F).SetGCost StartNode 0).SetHCost StartNode
          (GetDistance StartNode TargetNode), [StartNode], []⟩ k st →
      st.ClosedSet.length = k ∧ k ≤ G.GetAllNodes.length ∧ st.OpenList.Nodup ∧
      st.ClosedSet.Nodup ∧ (∀ n ∈ st.OpenList, n ∉ st.ClosedSet) ∧
      ∀ First Rest, st.OpenList = First :: Rest →
        (selectBest st.toNodeFields 0 First 1 Rest).2 ∈ st.OpenList ∧
        (selectBest st.toNodeFields 0 First 1 Rest).2 ∉ st.ClosedSet ∧
        (selectBest st.toNodeFields 0 First 1 Rest).2 ∉
          st.OpenList.eraseIdx (selectBest st.toNodeFields 0 First 1 Rest).1 ∧
        ((G.GetNeighbors (selectBest st.toNodeFields 0 First 1 Rest).2).foldl
          (processNeighbor G TargetNode (selectBest st.toNodeFields 0 First 1 Rest).2)
          { st with
            OpenList := st.OpenList.eraseIdx (selectBest st.toNodeFields 0 First 1 Rest).1
            ClosedSet := (selectBest st.toNodeFields 0 First 1 Rest).2 :: st.ClosedSet }).ClosedSet
          = (selectBest st.toNodeFields 0 First 1 Rest).2 :: st.ClosedSet ∧
        ((G.GetNeighbors (selectBest st.toNodeFields 0 First 1 Rest).2).foldl
          (processNeighbor G TargetNode (selectBest st.toNodeFields 0 First 1 Rest).2)
          { st with
            OpenList := st.OpenList.eraseIdx (selectBest st.toNodeFields 0 First 1 Rest).1
            ClosedSet := (selectBest st.toNodeFields 0 First 1 Rest).2 :: st.ClosedSet }).OpenList.Nodup
          ∧
        ∀ n ∈ ((G.GetNeighbors (selectBest st.toNodeFields 0 First 1 Rest).2).foldl
          (processNeighbor G TargetNode (selectBest st.toNodeFields 0 First 1 Rest).2)
          { st with
            OpenList := st.OpenList.eraseIdx (selectBest st.toNodeFields 0 First 1 Rest).1
            ClosedSet := (selectBest st.toNodeFields 0 First 1 Rest).2 :: st.ClosedSet }).OpenList,
          n ≠ (selectBest st.toNodeFields 0 First 1 Rest).2 ∧ n ∉ st.ClosedSet := by
  constructor
  · by_cases hw : G.GetWalkable TargetNode = true
    swap
    · have hw1 : G.GetWalkable TargetNode = false := by simpa using hw
      exact ⟨_, FindPath_Internal_unwalkable G GetSafeNormal F bShouldCancel StartNode
        TargetNode hw1, Nat.zero_le _, le_refl _, Nat.zero_le _, List.nodup_nil, List.nodup_nil,
        fun n hn => absurd hn (List.not_mem_nil _)⟩
    obtain ⟨ex, hP, hex⟩ := FindPath_Internal_spec G GetSafeNormal F bShouldCancel StartNode
      TargetNode hstart hw
      (fun ex => ex.State.ClosedSet.length ≤ G.GetAllNodes.length ∧
        ex.State.ClosedSet.length ≤ ex.Polls ∧ ex.Polls ≤ ex.State.ClosedSet.length + 1 ∧
        ex.State.ClosedSet.Nodup ∧ ex.State.OpenList.Nodup ∧
        ∀ n ∈ ex.State.OpenList, n ∉ ex.State.ClosedSet)
      (fun k st h _ _ hlen _ =>
        ⟨h.closed_length_le, by simp only []; omega, by simp only []; omega, h.closed_nodup,
          h.open_nodup, h.disjoint⟩)
      (fun k st h _ _ hlen _ _ =>
        ⟨h.closed_length_le, by simp only []; omega, by simp only []; omega, h.closed_nodup,
          h.open_nodup, h.disjoint⟩)
      (fun k st h _ _ hlen =>
        ⟨h.closed_length_le, by simp only []; omega, by simp only []; omega, h.closed_nodup,
          h.open_nodup, h.disjoint⟩)
    refine ⟨_, hex, ?_⟩
    split_ifs
    · exact hP
    · exact hP
  · intro k st hhead
    obtain ⟨hinv, _, hlen⟩ :=
      LoopHead.searchInv (searchStart_inv G F StartNode TargetNode hstart) rfl hhead
    refine ⟨hlen, hlen ▸ hinv.closed_length_le, hinv.open_nodup, hinv.closed_nodup,
      hinv.disjoint, ?_⟩
    intro First Rest ho
    obtain ⟨hco, hinv1⟩ := close_inv hinv ho
    obtain ⟨h1, h2⟩ := iteration_inv hinv ho
    refine ⟨hco, hinv.disjoint _ hco, ?_, h2, h1.open_nodup, ?_⟩
    · intro hmem
      exact hinv1.disjoint _ hmem (List.mem_cons_self _ _)
    · intro n hn
      have hd := h1.disjoint n hn
      rw [h2] at hd
      exact ⟨fun e => hd (e ▸ List.mem_cons_self _ _), fun e => hd (List.mem_cons_of_mem _ e)⟩

theorem FindPath_Internal_loop_terminates_witness :
    (openGrid 3 3).InBounds ⟨0, 0⟩ ∧
    ∃ r, FindPath_Internal (openGrid 3 3) exactNormal freshFields (fun _ => false)
        ⟨0, 0⟩ ⟨2, 2⟩ = some r ∧
      r.ClosedSet.length ≤ (openGrid 3 3).GetAllNodes.length ∧ r.ClosedSet.length ≤ r.Polls ∧
      r.Polls ≤ r.ClosedSet.length + 1 ∧ r.ClosedSet.Nodup ∧ r.OpenList.Nodup ∧
      ∀ n ∈ r.OpenList, n ∉ r.ClosedSet :=
  ⟨by decide,
    (FindPath_Internal_loop_terminates (openGrid 3 3) exactNormal freshFields (fun _ => false)
      ⟨0, 0⟩ ⟨2, 2⟩ (by decide)).1⟩

/-! ## Parent links point into the closed set -/

theorem processNeighbor_parent_other (G : ANavGrid R) (t c : NodePtr) (st : SearchState)
    (nb n : NodePtr) (h : n ≠ nb) :
    (processNeighbor G t c st nb).ParentNode n = st.ParentNode n := by
  unfold processNeighbor
  simp only []
  split_ifs <;>
    first
    | rfl
    | simp only [NodeFields.SetParent, NodeFields.SetHCost, NodeFields.SetGCost,
        setAt_other _ _ _ _ h]

theorem processNeighbor_parent_self (G : ANavGrid R) (t c : NodePtr) (st : SearchState)
    (nb : NodePtr) :
    (processNeighbor G t c st nb).ParentNode nb = st.ParentNode nb ∨
      (processNeighbor G t c st nb).ParentNode nb = some c ∨
      (processNeighbor G t c st nb).ParentNode nb = none := by
  unfold processNeighbor
  simp only []
  split_ifs <;>
    simp [NodeFields.SetParent, NodeFields.SetHCost, NodeFields.SetGCost, setAt_same]

theorem processNeighbor_parentsClosed {G : ANavGrid R} {t c : NodePtr} {st : SearchState}
    (nb : NodePtr) (hK : ParentsClosed G st) (hc : c ∈ st.ClosedSet) :
    ParentsClosed G (processNeighbor G t c st nb) := by
  intro n p hin hp
  rw [processNeighbor_closed]
  by_cases e : n = nb
  · subst e
    rcases processNeighbor_parent_self G t c st n with h | h | h
    · rw [h] at hp
      exact hK n p hin hp
    · rw [h] at hp
      have : c = p := by simpa using hp
      rw [← this]
      exact hc
    · rw [h] at hp
      cases hp
  · rw [processNeighbor_parent_other G t c st nb n e] at hp
    exact hK n p hin hp

theorem foldl_processNeighbor_parentsClosed {G : ANavGrid R} {t c : NodePtr} (L : List NodePtr) :
    ∀ st : SearchState, ParentsClosed G st → c ∈ st.ClosedSet →
      ParentsClosed G (L.foldl (processNeighbor G t c) st) := by
  induction L with
  | nil => intro st hK _; exact hK
  | cons nb L ih =>
    intro st hK hc
    rw [List.foldl_cons]
    exact ih _ (processNeighbor_parentsClosed nb hK hc) (by rw [processNeighbor_closed]; exact hc)

theorem foldl_processNeighbor_parent_other (G : ANavGrid R) (t c : NodePtr) (L : List NodePtr)
    (n : NodePtr) (h : n ∉ L) :
    ∀ st : SearchState, (L.foldl (processNeighbor G t c) st).ParentNode n = st.ParentNode n := by
  induction L with
  | nil => intro st; rfl
  | cons nb L ih =>
    intro st
    rw [List.foldl_cons, ih (fun hm => h (List.mem_cons_of_mem _ hm)),
      processNeighbor_parent_other G t c st nb n (fun e => h (e ▸ List.mem_cons_self _ _))]

theorem searchStart_parentsClosed (G : ANavGrid R) (F : NodeFields) (s t : NodePtr) :
    ParentsClosed G ⟨((resetNodes G F).SetGCost s 0).SetHCost s (GetDistance s t), [s], []⟩ := by
  intro n p hin hp
  simp only [NodeFields.SetGCost, NodeFields.SetHCost] at hp
  rw [(resetNodes_inBounds G F n hin).2.2] at hp
  cases hp

theorem LoopHead.parentsClosed {G : ANavGrid R} {cancel : Nat → Bool} {t : NodePtr}
    {st0 : SearchState} (h0 : ParentsClosed G st0) {k : Nat} {st : SearchState}
    (h : LoopHead G cancel t st0 k st) : ParentsClosed G st := by
  induction h with
  | start => exact h0
  | @next k st First Rest _ ho _ _ ih =>
    apply foldl_processNeighbor_parentsClosed
    · intro n p hin hp
      exact List.mem_cons_of_mem _ (ih n p hin hp)
    · exact List.mem_cons_self _ _

/-- Whatever the main loop hands over is the state of a loop head, or that state with the
selected node moved from the open list to the closed set. -/
theorem mainLoop_exit_head {G : ANavGrid R} {cancel : Nat → Bool} {t : NodePtr}
    {st0 : SearchState} (ex : LoopExit) :
    ∀ (fuel k : Nat) (st : SearchState), LoopHead G cancel t st0 k st →
      mainLoop G cancel t fuel k st = some ex →
      ∃ k1 st1, LoopHead G cancel t st0 k1 st1 ∧
        (ex.State = st1 ∨ ∃ First Rest, st1.OpenList = First :: Rest ∧
          ex.State =
            { st1 with
              OpenList := st1.OpenList.eraseIdx (selectBest st1.toNodeFields 0 First 1 Rest).1
              ClosedSet := (selectBest st1.toNodeFields 0 First 1 Rest).2 :: st1.ClosedSet }) := by
  intro fuel
  induction fuel with
  | zero =>
    intro k st _ h
    simp only [mainLoop] at h
    cases h
  | succ fuel ih =>
    intro k st hhead h
    unfold mainLoop at h
    cases ho : st.OpenList with
    | nil =>
      rw [ho] at h
      simp only [Option.some.injEq] at h
      exact ⟨k, st, hhead, Or.inl (by rw [← h])⟩
    | cons First Rest =>
      rw [ho] at h
      simp only [] at h
      by_cases hcan : cancel k = true
      · rw [if_pos hcan] at h
        simp only [Option.some.injEq] at h
        exact ⟨k, st, hhead, Or.inl (by rw [← h])⟩
      · rw [if_neg hcan] at h
        by_cases hgoal : (selectBest st.toNodeFields 0 First 1 Rest).2 = t
        · rw [if_pos hgoal] at h
          simp only [Option.some.injEq] at h
          exact ⟨k, st, hhead, Or.inr ⟨First, Rest, ho, by rw [← h, ho]⟩⟩
        · rw [if_neg hgoal] at h
          have hnext := LoopHead.next hhead ho (by simpa using hcan) hgoal
          rw [ho] at hnext
          exact ih (k + 1) _ hnext h

/-- Claim C29: in a search from a node of the grid, every non-null parent link of a node of the
grid points to a node of the closed set: in what the search leaves behind, at every head of the
main loop, and before and after every visit of a neighbour `nb` of the current node `c` (`st1` is
the state when the visit starts, `pre` the neighbours visited before, `post` those still to come).
So for a walkable, non-closed `nb` the parent of `c` is not `nb`, also after `nb` has been
relinked to `c`: the cycle-prevention branch is not taken; and when the cost of `nb` is updated,
the parent of `nb` is `c` after the visit and at the end of the iteration. -/
theorem FindPath_Internal_parents_closed [Sub R] [Zero R] [DecidableEq R] (G : ANavGrid R)
    (GetSafeNormal : FVector2D R → FVector2D R) (F : NodeFields) (bShouldCancel : Nat → Bool)
    (StartNode TargetNode : NodePtr) (hstart : G.InBounds StartNode) :
    (∃ r, FindPath_Internal G GetSafeNormal F bShouldCancel StartNode TargetNode = some r ∧
      ∀ n p, G.InBounds n → r.Fields.ParentNode n = some p → p ∈ r.ClosedSet) ∧
    ∀ k st, LoopHead G bShouldCancel TargetNode
        ⟨((resetNodes G F).SetGCost StartNode 0).SetHCost StartNode
          (GetDistance StartNode TargetNode), [StartNode], []⟩ k st →
      ParentsClosed G st ∧
      ∀ First Rest pre nb post c st1, st.OpenList = First :: Rest →
        bShouldCancel k = false → c = (selectBest st.toNodeFields 0 First 1 Rest).2 →
        c ≠ TargetNode → G.GetNeighbors c = pre ++ nb :: post →
        st1 = pre.foldl (processNeighbor G TargetNode c)
          { st with
            OpenList := st.OpenList.eraseIdx (selectBest st.toNodeFields 0 First 1 Rest).1
            ClosedSet := c :: st.ClosedSet } →
        c ∈ st1.ClosedSet ∧ ParentsClosed G st1 ∧
        ParentsClosed G (processNeighbor G TargetNode c st1 nb) ∧
        (G.GetWalkable nb = true → nb ∉ st1.ClosedSet →
          st1.ParentNode c ≠ some nb ∧
          (∀ g h, (((st1.toNodeFields.SetGCost nb g).SetHCost nb h).SetParent nb
            (some c)).ParentNode c ≠ some nb) ∧
          ((st1.GCost c + GetDistance c nb + G.GetMovementPenalty nb < st1.GCost nb ∨
              nb ∉ st1.OpenList) →
            (processNeighbor G TargetNode c st1 nb).ParentNode nb = some c ∧
            ((G.GetNeighbors c).foldl (processNeighbor G TargetNode c)
              { st with
                OpenList := st.OpenList.eraseIdx (selectBest st.toNodeFields 0 First 1 Rest).1
                ClosedSet := c :: st.ClosedSet }).ParentNode nb = some c)) := by
  have hK0 := searchStart_parentsClosed G F StartNode TargetNode
  have hI0 := searchStart_inv G F StartNode TargetNode hstart
  constructor
  · by_cases hw : G.GetWalkable TargetNode = true
    · obtain ⟨ex, hex, _⟩ := mainLoop_spec G StartNode TargetNode bShouldCancel (fun _ => True)
        (fun _ _ _ _ _ _ _ => trivial) (fun _ _ _ _ _ _ _ _ => trivial)
        (fun _ _ _ _ _ _ => trivial)
        (G.GetAllNodes.length + 1) 0 _ hI0 (by simp) (by simp) rfl (by simp)
      have hr := FindPath_Internal_exit G GetSafeNormal F bShouldCancel StartNode TargetNode hw
        ex hex
      have hKex : ParentsClosed G ex.State := by
        obtain ⟨k1, st1, hhead, hst⟩ := mainLoop_exit_head ex _ 0 _ LoopHead.start hex
        have hK1 := hhead.parentsClosed hK0
        rcases hst with e | ⟨First, Rest, _, e⟩
        · rw [e]
          exact hK1
        · rw [e]
          intro n p hin hp
          exact List.mem_cons_of_mem _ (hK1 n p hin hp)
      refine ⟨_, hr, ?_⟩
      split_ifs
      · exact hKex
      · exact hKex
    · have hw1 : G.GetWalkable TargetNode = false := by simpa using hw
      refine ⟨_, FindPath_Internal_unwalkable G GetSafeNormal F bShouldCancel StartNode
        TargetNode hw1, ?_⟩
      intro n p hin hp
      simp only [] at hp
      rw [(resetNodes_inBounds G F n hin).2.2] at hp
      cases hp
  · intro k st hhead
    have hK := hhead.parentsClosed hK0
    obtain ⟨hinv, _, _⟩ := LoopHead.searchInv hI0 rfl hhead
    refine ⟨hK, ?_⟩
    intro First Rest pre nb post c st1 ho _ hc _ hN hst1
    have hco : c ∈ st.OpenList := by
      rw [hc]
      exact (close_inv hinv ho).1
    have hcin : G.InBounds c := hinv.inb_open c hco
    have hKc : ParentsClosed G
        { st with
          OpenList := st.OpenList.eraseIdx (selectBest st.toNodeFields 0 First 1 Rest).1
          ClosedSet := c :: st.ClosedSet } := by
      intro n p hin hp
      exact List.mem_cons_of_mem _ (hK n p hin hp)
    have hcl1 : st1.ClosedSet = c :: st.ClosedSet := by
      rw [hst1, foldl_processNeighbor_closed]
    have hc1 : c ∈ st1.ClosedSet := by
      rw [hcl1]
      exact List.mem_cons_self _ _
    have hK1 : ParentsClosed G st1 := by
      rw [hst1]
      exact foldl_processNeighbor_parentsClosed pre _ hKc (List.mem_cons_self _ _)
    refine ⟨hc1, hK1, processNeighbor_parentsClosed nb hK1 hc1, ?_⟩
    intro hw hncl
    have hne : c ≠ nb := fun e => hncl (e ▸ hc1)
    have hpar : st1.ParentNode c ≠ some nb := fun e => hncl (hK1 c nb hcin e)
    refine ⟨hpar, ?_, ?_⟩
    · intro g h
      simp only [NodeFields.SetParent, NodeFields.SetHCost, NodeFields.SetGCost]
      rw [setAt_other _ _ _ _ hne]
      exact hpar
    · intro hupd
      have hnd := GetNeighbors_nodup G c
      rw [hN] at hnd
      have hpost : nb ∉ post := (List.nodup_cons.mp (List.nodup_append.mp hnd).2.1).1
      have hself : (processNeighbor G TargetNode c st1 nb).ParentNode nb = some c := by
        rw [processNeighbor_update G TargetNode c st1 nb hw hncl hupd hpar hne]
        exact setAt_same _ _ _
      refine ⟨hself, ?_⟩
      rw [hN, List.foldl_append, List.foldl_cons, ← hst1,
        foldl_processNeighbor_parent_other G TargetNode c post nb hpost]
      exact hself

theorem FindPath_Internal_parents_closed_witness :
    (openGrid 3 3).InBounds ⟨0, 0⟩ ∧
    (openGrid 3 3).GetNeighbors ⟨0, 0⟩ = [] ++ ⟨0, 1⟩ :: [⟨1, 0⟩, ⟨1, 1⟩] ∧
    (processNeighbor (openGrid 3 3) ⟨2, 2⟩ ⟨0, 0⟩
      ⟨((resetNodes (openGrid 3 3) freshFields).SetGCost ⟨0, 0⟩ 0).SetHCost ⟨0, 0⟩
        (GetDistance ⟨0, 0⟩ ⟨2, 2⟩), [], [⟨0, 0⟩]⟩ ⟨0, 1⟩).ParentNode ⟨0, 1⟩ = some ⟨0, 0⟩ :=
  ⟨by decide, by decide,
    (((((FindPath_Internal_parents_closed (openGrid 3 3) exactNormal freshFields (fun _ => false)
      ⟨0, 0⟩ ⟨2, 2⟩ (by decide)).2 0 _ LoopHead.start).2
        ⟨0, 0⟩ [] [] ⟨0, 1⟩ [⟨1, 0⟩, ⟨1, 1⟩] ⟨0, 0⟩
        ⟨((resetNodes (openGrid 3 3) freshFields).SetGCost ⟨0, 0⟩ 0).SetHCost ⟨0, 0⟩
          (GetDistance ⟨0, 0⟩ ⟨2, 2⟩), [], [⟨0, 0⟩]⟩
        rfl rfl rfl (by decide) (by decide) rfl).2.2.2 (by decide) (by decide)).2.2
      (Or.inr (by decide))).1⟩

/-! ## A search does not depend on what the last one left in the nodes -/

theorem selectBest_congr {G : ANavGrid R} {F F1 : NodeFields} (h : FieldsAgree G F F1)
    (rest : List NodePtr) :
    ∀ (bi : Nat) (cur : NodePtr) (i : Nat), G.InBounds cur → (∀ n ∈ rest, G.InBounds n) →
      selectBest F bi cur i rest = selectBest F1 bi cur i rest := by
  induction rest with
  | nil => intro bi cur i _ _; rfl
  | cons cand rest ih =>
    intro bi cur i hcur hrest
    have hcand := hrest cand (List.mem_cons_self _ _)
    have hrest1 : ∀ n ∈ rest, G.InBounds n := fun n hn => hrest n (List.mem_cons_of_mem _ hn)
    obtain ⟨g1, h1, _⟩ := h cur hcur
    obtain ⟨g2, h2, _⟩ := h cand hcand
    unfold selectBest
    simp only [← g1, ← h1, ← g2, ← h2]
    split_ifs
    · exact ih i cand (i + 1) hcand hrest1
    · exact ih bi cur (i + 1) hcur hrest1

theorem processNeighbor_congr {G : ANavGrid R} {t c nb : NodePtr} {st st1 : SearchState}
    (h : StateAgree G st st1) (hK : ParentsClosed G st) (hc : c ∈ st.ClosedSet)
    (hcin : G.InBounds c) (hnin : G.InBounds nb) :
    StateAgree G (processNeighbor G t c st nb) (processNeighbor G t c st1 nb) := by
  obtain ⟨hF, hO, hC⟩ := h
  obtain ⟨gc, _, pc⟩ := hF c hcin
  obtain ⟨gn, _, _⟩ := hF nb hnin
  by_cases hskip : G.GetWalkable nb = false ∨ nb ∈ st.ClosedSet
  · rw [processNeighbor_skip G t c st nb hskip,
      processNeighbor_skip G t c st1 nb (by rw [← hC]; exact hskip)]
    exact ⟨hF, hO, hC⟩
  · have hw : G.GetWalkable nb = true := by
      cases hb : G.GetWalkable nb with
      | true => rfl
      | false => exact absurd (Or.inl hb) hskip
    have hncl : nb ∉ st.ClosedSet := fun e => hskip (Or.inr e)
    by_cases hupd : st.GCost c + GetDistance c nb + G.GetMovementPenalty nb < st.GCost nb ∨
        nb ∉ st.OpenList
    · have hne : c ≠ nb := fun e => hncl (e ▸ hc)
      have hpar : st.ParentNode c ≠ some nb := fun e => hncl (hK c nb hcin e)
      rw [processNeighbor_update G t c st nb hw hncl hupd hpar hne,
        processNeighbor_update G t c st1 nb hw (by rw [← hC]; exact hncl)
          (by rw [← gc, ← gn, ← hO]; exact hupd) (by rw [← pc]; exact hpar) hne]
      refine ⟨?_, ?_, hC⟩
      · intro n hn
        obtain ⟨g, hh, p⟩ := hF n hn
        simp only [setAt, ← gc]
        refine ⟨?_, ?_, ?_⟩
        · split_ifs
          · rfl
          · exact g
        · split_ifs
          · rfl
          · exact hh
        · split_ifs
          · rfl
          · exact p
      · simp only [← hO]
    · have h1 : ¬ st.GCost c + GetDistance c nb + G.GetMovementPenalty nb < st.GCost nb :=
        fun e => hupd (Or.inl e)
      have h2 : nb ∈ st.OpenList := by
        by_contra e
        exact hupd (Or.inr e)
      rw [processNeighbor_keep G t c st nb h1 h2,
        processNeighbor_keep G t c st1 nb (by rw [← gc, ← gn]; exact h1) (by rw [← hO]; exact h2)]
      exact ⟨hF, hO, hC⟩

theorem foldl_processNeighbor_congr {G : ANavGrid R} {t c : NodePtr} (hcin : G.InBounds c)
    (L : List NodePtr) (hL : ∀ nb ∈ L, G.InBounds nb) :
    ∀ st st1 : SearchState, StateAgree G st st1 → ParentsClosed G st → c ∈ st.ClosedSet →
      StateAgree G (L.foldl (processNeighbor G t c) st) (L.foldl (processNeighbor G t c) st1) := by
  induction L with
  | nil => intro st st1 h _ _; exact h
  | cons nb L ih =>
    intro st st1 h hK hc
    rw [List.foldl_cons, List.foldl_cons]
    exact ih (fun m hm => hL m (List.mem_cons_of_mem _ hm)) _ _
      (processNeighbor_congr h hK hc hcin (hL nb (List.mem_cons_self _ _)))
      (processNeighbor_parentsClosed nb hK hc) (by rw [processNeighbor_closed]; exact hc)

/-- From states that agree in every node of the grid the main loop hands over results that
agree. -/
theorem mainLoop_congr {G : ANavGrid R} {s t : NodePtr} {cancel : Nat → Bool} (ex : LoopExit) :
    ∀ (fuel k : Nat) (st st1 : SearchState), SearchInv G s t (fun _ _ => True) st →
      ParentsClosed G st → StateAgree G st st1 → mainLoop G cancel t fuel k st = some ex →
      ∃ ex1, mainLoop G cancel t fuel k st1 = some ex1 ∧ StateAgree G ex.State ex1.State ∧
        ex.bPathSuccess = ex1.bPathSuccess ∧ ex.Polls = ex1.Polls ∧ ParentsClosed G ex.State ∧
        (∀ n ∈ ex.State.ClosedSet, G.InBounds n) ∧
        (ex.bPathSuccess = true → t ∈ ex.State.ClosedSet) := by
  intro fuel
  induction fuel with
  | zero =>
    intro k st st1 _ _ _ h
    simp only [mainLoop] at h
    cases h
  | succ fuel ih =>
    intro k st st1 hinv hK hag h
    obtain ⟨hF, hO, hC⟩ := hag
    unfold mainLoop at h ⊢
    cases ho : st.OpenList with
    | nil =>
      have ho1 : st1.OpenList = [] := by rw [← hO]; exact ho
      rw [ho] at h
      rw [ho1]
      simp only [Option.some.injEq] at h
      subst h
      exact ⟨_, rfl, ⟨hF, hO, hC⟩, rfl, rfl, hK, hinv.inb_closed, fun e => by cases e⟩
    | cons First Rest =>
      have ho1 : st1.OpenList = First :: Rest := by rw [← hO]; exact ho
      have hin : ∀ n ∈ First :: Rest, G.InBounds n := fun n hn => hinv.inb_open n (ho ▸ hn)
      have hsel : selectBest st1.toNodeFields 0 First 1 Rest =
          selectBest st.toNodeFields 0 First 1 Rest :=
        (selectBest_congr hF Rest 0 First 1 (hin First (List.mem_cons_self _ _))
          (fun n hn => hin n (List.mem_cons_of_mem _ hn))).symm
      rw [ho] at h
      rw [ho1]
      simp only [] at h ⊢
      rw [hsel]
      by_cases hcan : cancel k = true
      · rw [if_pos hcan] at h ⊢
        simp only [Option.some.injEq] at h
        subst h
        exact ⟨_, rfl, ⟨hF, hO, hC⟩, rfl, rfl, hK, hinv.inb_closed, fun e => by cases e⟩
      · rw [if_neg hcan] at h ⊢
        obtain ⟨hco, hinv1⟩ := close_inv hinv ho
        have hcin : G.InBounds (selectBest st.toNodeFields 0 First 1 Rest).2 :=
          hinv.inb_open _ hco
        have hKc : ParentsClosed G
            { st with
              OpenList := (First :: Rest).eraseIdx (selectBest st.toNodeFields 0 First 1 Rest).1
              ClosedSet := (selectBest st.toNodeFields 0 First 1 Rest).2 :: st.ClosedSet } := by
          intro n p hn hp
          exact List.mem_cons_of_mem _ (hK n p hn hp)
        have hagc : StateAgree G
            { st with
              OpenList := (First :: Rest).eraseIdx (selectBest st.toNodeFields 0 First 1 Rest).1
              ClosedSet := (selectBest st.toNodeFields 0 First 1 Rest).2 :: st.ClosedSet }
            { st1 with
              OpenList := (First :: Rest).eraseIdx (selectBest st.toNodeFields 0 First 1 Rest).1
              ClosedSet := (selectBest st.toNodeFields 0 First 1 Rest).2 :: st1.ClosedSet } :=
          ⟨hF, rfl, by simp only [hC]⟩
        by_cases hgoal : (selectBest st.toNodeFields 0 First 1 Rest).2 = t
        · rw [if_pos hgoal] at h ⊢
          simp only [Option.some.injEq] at h
          subst h
          refine ⟨_, rfl, hagc, rfl, rfl, hKc, ?_, ?_⟩
          · intro n hn
            rcases List.mem_cons.mp hn with e | e
            · rw [e]; exact hcin
            · exact hinv.inb_closed n e
          · intro _
            exact List.mem_cons.mpr (Or.inl hgoal.symm)
        · rw [if_neg hgoal] at h ⊢
          obtain ⟨hinv2, _⟩ := iteration_inv hinv ho
          rw [ho] at hinv2
          refine ih (k + 1) _ _ hinv2 ?_ ?_ h
          · exact foldl_processNeighbor_parentsClosed _ _ hKc (List.mem_cons_self _ _)
          · exact foldl_processNeighbor_congr hcin _
              (fun nb hnb => mem_GetNeighbors_inBounds G _ nb hnb) _ _ hagc hKc
              (List.mem_cons_self _ _)

/-- The loop of `RetraceNodes` reads the parent links of the nodes it passes only. -/
theorem RetraceNodes_loop_congr (P P1 : NodePtr → Option NodePtr) (s : NodePtr)
    (inb : NodePtr → Prop) (hag : ∀ n, inb n → P n = P1 n)
    (hcl : ∀ n p, inb n → P n = some p → inb p) :
    ∀ (fuel : Nat) (cur : Option NodePtr) (Safety : Nat) (Nodes : List NodePtr),
      (∀ c, cur = some c → inb c) →
      RetraceNodes.loop P s fuel cur Safety Nodes = RetraceNodes.loop P1 s fuel cur Safety Nodes := by
  intro fuel
  induction fuel with
  | zero => intro cur Safety Nodes _; rfl
  | succ fuel ih =>
    intro cur Safety Nodes hcur
    unfold RetraceNodes.loop
    cases cur with
    | none => rfl
    | some c =>
      have hc := hcur c rfl
      simp only [← hag c hc]
      split_ifs
      · rfl
      · rfl
      · exact ih (P c) (Safety + 1) (Nodes ++ [c]) (fun p hp => hcl c p hc hp)

theorem searchStart_agree (G : ANavGrid R) (F F1 : NodeFields) (s t : NodePtr) :
    StateAgree G ⟨((resetNodes G F).SetGCost s 0).SetHCost s (GetDistance s t), [s], []⟩
      ⟨((resetNodes G F1).SetGCost s 0).SetHCost s (GetDistance s t), [s], []⟩ := by
  refine ⟨?_, rfl, rfl⟩
  intro n hn
  obtain ⟨a1, a2, a3⟩ := resetNodes_inBounds G F n hn
  obtain ⟨b1, b2, b3⟩ := resetNodes_inBounds G F1 n hn
  simp only [NodeFields.SetGCost, NodeFields.SetHCost, setAt, a1, a2, a3, b1, b2, b3, and_self]

/-- Claim C26: two searches on the same grid, with the same start and target node and the same
behaviour of the cancel flag, that begin with arbitrary, different values of `GCost`, `HCost` and
parent left in the nodes, both return, with the same waypoints, the same success flag, the same
open list, closed set and number of reads of the flag, and the same final `GCost`, `HCost` and
parent in every node of the grid. -/
theorem FindPath_Internal_ignores_old_fields [Sub R] [Zero R] [DecidableEq R] (G : ANavGrid R)
    (GetSafeNormal : FVector2D R → FVector2D R) (F F1 : NodeFields) (bShouldCancel : Nat → Bool)
    (StartNode TargetNode : NodePtr) (hstart : G.InBounds StartNode) :
    ∃ r r1, FindPath_Internal G GetSafeNormal F bShouldCancel StartNode TargetNode = some r ∧
      FindPath_Internal G GetSafeNormal F1 bShouldCancel StartNode TargetNode = some r1 ∧
      r.FinalWaypoints = r1.FinalWaypoints ∧ r.bPathSuccess = r1.bPathSuccess ∧
      (∀ n, G.InBounds n → r.Fields.GCost n = r1.Fields.GCost n ∧
        r.Fields.HCost n = r1.Fields.HCost n ∧ r.Fields.ParentNode n = r1.Fields.ParentNode n) ∧
      r.OpenList = r1.OpenList ∧ r.ClosedSet = r1.ClosedSet ∧ r.Polls = r1.Polls := by
  by_cases hw : G.GetWalkable TargetNode = true
  · obtain ⟨ex, hex, _⟩ := mainLoop_spec G StartNode TargetNode bShouldCancel (fun _ => True)
      (fun _ _ _ _ _ _ _ => trivial) (fun _ _ _ _ _ _ _ _ => trivial)
      (fun _ _ _ _ _ _ => trivial)
      (G.GetAllNodes.length + 1) 0 _ (searchStart_inv G F StartNode TargetNode hstart)
      (by simp) (by simp) rfl (by simp)
    obtain ⟨ex1, hex1, ⟨hF, hO, hC⟩, hb, hp, hK, hinb, hgoal⟩ :=
      mainLoop_congr ex (G.GetAllNodes.length + 1) 0 _ _
        (searchStart_inv G F StartNode TargetNode hstart)
        (searchStart_parentsClosed G F StartNode TargetNode)
        (searchStart_agree G F F1 StartNode TargetNode) hex
    refine ⟨_, _,
      FindPath_Internal_exit G GetSafeNormal F bShouldCancel StartNode TargetNode hw ex hex,
      FindPath_Internal_exit G GetSafeNormal F1 bShouldCancel StartNode TargetNode hw ex1 hex1,
      ?_⟩
    rw [← hb]
    by_cases hs : ex.bPathSuccess = true
    · rw [if_pos hs, if_pos hs]
      have hret : RetraceNodes ex.State.ParentNode StartNode TargetNode =
          RetraceNodes ex1.State.ParentNode StartNode TargetNode := by
        unfold RetraceNodes
        rw [RetraceNodes_loop_congr ex.State.ParentNode ex1.State.ParentNode StartNode
          G.InBounds (fun n hn => (hF n hn).2.2)
          (fun n p hn hpar => hinb p (hK n p hn hpar)) 8002 (some TargetNode) 0 []
          (fun c hc => by
            have e : TargetNode = c := by simpa using hc
            rw [← e]
            exact hinb _ (hgoal hs))]
      exact ⟨by simp only [hret], rfl, hF, hO, hC, hp⟩
    · rw [if_neg hs, if_neg hs]
      exact ⟨rfl, rfl, hF, hO, hC, hp⟩
  · have hw1 : G.GetWalkable TargetNode = false := by simpa using hw
    refine ⟨_, _,
      FindPath_Internal_unwalkable G GetSafeNormal F bShouldCancel StartNode TargetNode hw1,
      FindPath_Internal_unwalkable G GetSafeNormal F1 bShouldCancel StartNode TargetNode hw1,
      rfl, rfl, ?_, rfl, rfl, rfl⟩
    intro n hn
    obtain ⟨a1, a2, a3⟩ := resetNodes_inBounds G F n hn
    obtain ⟨b1, b2, b3⟩ := resetNodes_inBounds G F1 n hn
    simp only [a1, a2, a3, b1, b2, b3, and_self]

theorem FindPath_Internal_ignores_old_fields_witness :
    (openGrid 3 3).InBounds ⟨0, 0⟩ ∧
    ∃ r r1,
      FindPath_Internal (openGrid 3 3) exactNormal freshFields (fun _ => false) ⟨0, 0⟩ ⟨2, 2⟩ =
        some r ∧
      FindPath_Internal (openGrid 3 3) exactNormal
        ⟨fun _ => 0, fun _ => 7, fun _ => some ⟨1, 1⟩⟩ (fun _ => false) ⟨0, 0⟩ ⟨2, 2⟩ = some r1 ∧
      r.FinalWaypoints = r1.FinalWaypoints ∧ r.bPathSuccess = r1.bPathSuccess ∧
      (∀ n, (openGrid 3 3).InBounds n → r.Fields.GCost n = r1.Fields.GCost n ∧
        r.Fields.HCost n = r1.Fields.HCost n ∧ r.Fields.ParentNode n = r1.Fields.ParentNode n) ∧
      r.OpenList = r1.OpenList ∧ r.ClosedSet = r1.ClosedSet ∧ r.Polls = r1.Polls :=
  ⟨by decide,
    FindPath_Internal_ignores_old_fields (openGrid 3 3) exactNormal freshFields
      ⟨fun _ => 0, fun _ => 7, fun _ => some ⟨1, 1⟩⟩ (fun _ => false) ⟨0, 0⟩ ⟨2, 2⟩ (by decide)⟩

end Gamejam2026
